import Mathlib

/-!
# Geometry kernel of lux: closest-point and intersection queries

A shallow embedding of the closest-point and intersection routines of
`geo/utils.go`, read in exact arithmetic: every `float32` is an element of a
linearly ordered field `K` (the rational numbers where the code is evaluated at
a concrete input, the real numbers where a square root is taken), and a
division is a checked operation that fails on a zero divisor. The functions
of the packages that are not among the sources (`math.Sqrt`, `math.Sincos`,
`flops.Eq`, ...) are parameters of the functions that call them. Two routines
are also embedded with the rounding, the infinities and the NaN of `float32`
(namespace `f32`), to evaluate them where a product underflows or overflows.
-/

namespace math

variable {K : Type} [LinearOrderedField K]

/-- Modelled from the spec: the constant `math.MaxFloat32` of the lux math package (not among
the sources), the largest finite float32, `(2 - 2^(-23)) * 2^127`. -/
def MaxFloat32 : K := 340282346638528859811704183484516925440

/-- Modelled from the spec: `math.Abs` of the lux math package (not among the sources), the
absolute value. -/
def Abs (x : K) : K := if x < 0 then -x else x

/-- Modelled from the spec: `math.Clamp` of the lux math package (not among the sources);
the "clamped parametric solution" restricts a parameter to the interval `[lo, hi]`. -/
def Clamp (x lo hi : K) : K := if x < lo then lo else if x > hi then hi else x

/-- Exact division: it fails on a zero divisor. -/
def fdiv (x y : K) : Option K := if y = 0 then none else some (x / y)

/-- Modelled from the spec: `math.Sqrt` of the lux math package (not among the sources) is the
parameter `sqrt` of the functions that take a square root. In exact arithmetic it is the
square root: on a number that is not negative its value is not negative and squares to the
number. -/
def IsSqrt (sqrt : K → K) : Prop := ∀ x : K, 0 ≤ x → 0 ≤ sqrt x ∧ sqrt x * sqrt x = x

end math

namespace flops

variable {K : Type} [LinearOrderedField K]

/-- Modelled from the spec: the comparison `flops.Eq` of the package `flops` (not among the
sources), "an epsilon/relative-tolerance comparator" that is reflexive. Two numbers are equal
when they are the same number; when one of them is zero, when their distance is below the
square of the tolerance; otherwise when their distance is below the tolerance times the sum
of their magnitudes. The tolerance of the package is the parameter `epsilon`. -/
def Eq (epsilon a b : K) : Bool :=
  if a = b then true
  else if a * b = 0 then decide (math.Abs (a - b) < epsilon * epsilon)
  else decide (math.Abs (a - b) / (math.Abs a + math.Abs b) < epsilon)

end flops

namespace glm

variable {K : Type} [LinearOrderedField K]

/-- Modelled from the spec: the type `glm.Vec3` (its declaration is not among the sources),
"ordered float components; value type, no identity". -/
@[ext]
structure Vec3 (K : Type) where
  X : K
  Y : K
  Z : K
deriving DecidableEq

namespace Vec3

/-- Modelled from the spec: component-wise subtraction `v.Sub(w)`. -/
def Sub (v w : Vec3 K) : Vec3 K := ⟨v.X - w.X, v.Y - w.Y, v.Z - w.Z⟩

/-- Modelled from the spec: component-wise addition `v.Add(w)`. -/
def Add (v w : Vec3 K) : Vec3 K := ⟨v.X + w.X, v.Y + w.Y, v.Z + w.Z⟩

/-- Modelled from the spec: scaling `v.Mul(c)`. -/
def Mul (v : Vec3 K) (c : K) : Vec3 K := ⟨v.X * c, v.Y * c, v.Z * c⟩

/-- Modelled from the spec: the dot product `v.Dot(w)`. -/
def Dot (v w : Vec3 K) : K := v.X * w.X + v.Y * w.Y + v.Z * w.Z

/-- Modelled from the spec: the cross product `v.Cross(w)`. -/
def Cross (v w : Vec3 K) : Vec3 K :=
  ⟨v.Y * w.Z - v.Z * w.Y, v.Z * w.X - v.X * w.Z, v.X * w.Y - v.Y * w.X⟩

/-- Modelled from the spec: the squared length `v.Len2()`. -/
def Len2 (v : Vec3 K) : K := v.X * v.X + v.Y * v.Y + v.Z * v.Z

/-- Modelled from the spec: `v.AddScaledVec(f, w)`, the vector `v + f * w` (the Go method
updates `v` in place; here the new value is returned). -/
def AddScaledVec (v : Vec3 K) (f : K) (w : Vec3 K) : Vec3 K :=
  ⟨v.X + w.X * f, v.Y + w.Y * f, v.Z + w.Z * f⟩

/-- Modelled from the spec: the component accessor `v.I(i)` for `i = 0, 1, 2`. -/
def I (v : Vec3 K) (i : Nat) : K := if i = 0 then v.X else if i = 1 then v.Y else v.Z

end Vec3

end glm

/-! ## Quaternions (`glm/quat.go`) -/

namespace glm

variable {K : Type} [LinearOrderedField K]

/-- Modelled from the spec: a 4x4 matrix is a fixed-size column-major array of sixteen numbers. -/
abbrev Mat4 (K : Type) := Fin 16 → K

/-- The type `RotationOrder` of the source is an `int`. -/
abbrev RotationOrder := Int

def XYX : RotationOrder := 0
def XYZ : RotationOrder := 1
def XZX : RotationOrder := 2
def XZY : RotationOrder := 3
def YXY : RotationOrder := 4
def YXZ : RotationOrder := 5
def YZY : RotationOrder := 6
def YZX : RotationOrder := 7
def ZYZ : RotationOrder := 8
def ZYX : RotationOrder := 9
def ZXZ : RotationOrder := 10
def ZXY : RotationOrder := 11

/-- The struct `Quat` of the source: the scalar part `W` and the embedded `Vec3`. -/
@[ext]
structure Quat (K : Type) where
  W : K
  V : Vec3 K
deriving DecidableEq

/-- The panic of `quat.go`. -/
inductive QuatPanic where
  | unsupportedRotationOrder
deriving DecidableEq

def QuatIdent : Quat K := ⟨1, ⟨0, 0, 0⟩⟩

/-- The function `QuatRotate`; the sine and the cosine of the math package are parameters. -/
def QuatRotate (sin cos : ℚ → ℚ) (angle : ℚ) (axis : Vec3 ℚ) : Quat ℚ :=
  let s := sin (angle * (1 / 2))
  let c := cos (angle * (1 / 2))
  ⟨c, axis.Mul s⟩

namespace Quat

def X (q1 : Quat K) : K := q1.V.X

def Y (q1 : Quat K) : K := q1.V.Y

def Z (q1 : Quat K) : K := q1.V.Z

/-- The method `Mul`; `CrossOf`, `MulOf` and `AddOf` store the cross product, the scaled vector
and the sum of their arguments. -/
def Mul (q1 q2 : Quat K) : Quat K :=
  let c := q1.V.Cross q2.V
  let m1 := q2.V.Mul q1.W
  let m2 := q1.V.Mul q2.W
  let a1 := c.Add m1
  ⟨q1.W * q2.W - q1.V.Dot q2.V, a1.Add m2⟩

def Scale (q1 : Quat K) (c : K) : Quat K :=
  ⟨q1.W * c, ⟨q1.X * c, q1.Y * c, q1.Z * c⟩⟩

def Conjugated (q1 : Quat K) : Quat K :=
  ⟨q1.W, q1.V.Mul (-1)⟩

def Dot (q1 q2 : Quat K) : K :=
  q1.W * q2.W + q1.X * q2.X + q1.Y * q2.Y + q1.Z * q2.Z

/-- The method `Inverse`; `none` stands for the division by zero. -/
def Inverse (q1 : Quat K) : Option (Quat K) :=
  let c := q1.Conjugated
  (math.fdiv 1 (q1.Dot q1)).map fun r => c.Scale r

/-- The method `Rotate`; `CrossWith` replaces the receiver by its cross product with the
argument. -/
def Rotate (q1 : Quat K) (v : Vec3 K) : Vec3 K :=
  let cross := q1.V.Cross v
  let mul2 := q1.V.Mul 2
  let mul2 := mul2.Cross cross
  let w2 := cross.Mul (2 * q1.W)
  let out := v.Add w2
  out.Add mul2

def Mat4 (q1 : Quat K) : glm.Mat4 K :=
  let w := q1.W
  let x := q1.X
  let y := q1.Y
  let z := q1.Z
  ![1 - 2 * y * y - 2 * z * z, 2 * x * y + 2 * w * z, 2 * x * z - 2 * w * y, 0,
    2 * x * y - 2 * w * z, 1 - 2 * x * x - 2 * z * z, 2 * y * z + 2 * w * x, 0,
    2 * x * z + 2 * w * y, 2 * y * z - 2 * w * x, 1 - 2 * x * x - 2 * y * y, 0,
    0, 0, 0, 1]

end Quat

/-- The function `AnglesToQuat`; `sincos` is `math.Sincos`, and a panic is an error. -/
def AnglesToQuat (sincos : ℚ → ℚ × ℚ) (angle1 angle2 angle3 : ℚ) (order : RotationOrder) :
    Except QuatPanic (Quat ℚ) :=
  let s0 := (sincos (angle1 / 2)).1
  let c0 := (sincos (angle1 / 2)).2
  let s1 := (sincos (angle2 / 2)).1
  let c1 := (sincos (angle2 / 2)).2
  let s2 := (sincos (angle3 / 2)).1
  let c2 := (sincos (angle3 / 2)).2
  if order = ZYX then
    Except.ok ⟨c0 * c1 * c2 + s0 * s1 * s2,
      ⟨c0 * c1 * s2 - s0 * s1 * c2, c0 * s1 * c2 + s0 * c1 * s2, s0 * c1 * c2 - c0 * s1 * s2⟩⟩
  else if order = ZYZ then
    Except.ok ⟨c0 * c1 * c2 - s0 * c1 * s2,
      ⟨c0 * s1 * s2 - s0 * s1 * c2, c0 * s1 * c2 + s0 * s1 * s2, s0 * c1 * c2 + c0 * c1 * s2⟩⟩
  else if order = ZXY then
    Except.ok ⟨c0 * c1 * c2 - s0 * s1 * s2,
      ⟨c0 * s1 * c2 - s0 * c1 * s2, c0 * c1 * s2 + s0 * s1 * c2, c0 * s1 * s2 + s0 * c1 * c2⟩⟩
  else if order = ZXZ then
    Except.ok ⟨c0 * c1 * c2 - s0 * c1 * s2,
      ⟨c0 * s1 * c2 + s0 * s1 * s2, s0 * s1 * c2 - c0 * s1 * s2, c0 * c1 * s2 + s0 * c1 * c2⟩⟩
  else if order = YXZ then
    Except.ok ⟨c0 * c1 * c2 + s0 * s1 * s2,
      ⟨c0 * s1 * c2 + s0 * c1 * s2, s0 * c1 * c2 - c0 * s1 * s2, c0 * c1 * s2 - s0 * s1 * c2⟩⟩
  else if order = YXY then
    Except.ok ⟨c0 * c1 * c2 - s0 * c1 * s2,
      ⟨c0 * s1 * c2 + s0 * s1 * s2, s0 * c1 * c2 + c0 * c1 * s2, c0 * s1 * s2 - s0 * s1 * c2⟩⟩
  else if order = YZX then
    Except.ok ⟨c0 * c1 * c2 - s0 * s1 * s2,
      ⟨c0 * c1 * s2 + s0 * s1 * c2, c0 * s1 * s2 + s0 * c1 * c2, c0 * s1 * c2 - s0 * c1 * s2⟩⟩
  else if order = YZY then
    Except.ok ⟨c0 * c1 * c2 - s0 * c1 * s2,
      ⟨s0 * s1 * c2 - c0 * s1 * s2, c0 * c1 * s2 + s0 * c1 * c2, c0 * s1 * c2 + s0 * s1 * s2⟩⟩
  else if order = XYZ then
    Except.ok ⟨c0 * c1 * c2 - s0 * s1 * s2,
      ⟨c0 * s1 * s2 + s0 * c1 * c2, c0 * s1 * c2 - s0 * c1 * s2, c0 * c1 * s2 + s0 * s1 * c2⟩⟩
  else if order = XYX then
    Except.ok ⟨c0 * c1 * c2 - s0 * c1 * s2,
      ⟨c0 * c1 * s2 + s0 * c1 * c2, c0 * s1 * c2 + s0 * s1 * s2, s0 * s1 * c2 - c0 * s1 * s2⟩⟩
  else if order = XZY then
    Except.ok ⟨c0 * c1 * c2 + s0 * s1 * s2,
      ⟨s0 * c1 * c2 - c0 * s1 * s2, c0 * c1 * s2 - s0 * s1 * c2, c0 * s1 * c2 + s0 * c1 * s2⟩⟩
  else if order = XZX then
    Except.ok ⟨c0 * c1 * c2 - s0 * c1 * s2,
      ⟨c0 * c1 * s2 + s0 * c1 * c2, c0 * s1 * s2 - s0 * s1 * c2, c0 * s1 * c2 + s0 * s1 * s2⟩⟩
  else
    Except.error QuatPanic.unsupportedRotationOrder

/-- The function `Mat4ToQuat`; `sqrt` is `math.Sqrt`, and `none` stands for a division by
zero. -/
def Mat4ToQuat (sqrt : K → K) (m : Mat4 K) : Option (Quat K) :=
  let tr := m 0 + m 5 + m 10
  if tr > 0 then
    (math.fdiv (1 / 2) (sqrt (tr + 1))).bind fun s =>
    (math.fdiv (1 / 4) s).map fun w =>
      ⟨w, ⟨(m 6 - m 9) * s, (m 8 - m 2) * s, (m 1 - m 4) * s⟩⟩
  else if m 0 > m 5 ∧ m 0 > m 10 then
    let s := 2 * sqrt (1 + m 0 - m 5 - m 10)
    (math.fdiv (m 6 - m 9) s).bind fun w =>
    (math.fdiv (m 4 + m 1) s).bind fun y =>
    (math.fdiv (m 8 + m 2) s).map fun z =>
      ⟨w, ⟨1 / 4 * s, y, z⟩⟩
  else if m 5 > m 10 then
    let s := 2 * sqrt (1 + m 5 - m 0 - m 10)
    (math.fdiv (m 8 - m 2) s).bind fun w =>
    (math.fdiv (m 4 + m 1) s).bind fun x =>
    (math.fdiv (m 9 + m 6) s).map fun z =>
      ⟨w, ⟨x, 1 / 4 * s, z⟩⟩
  else
    let s := 2 * sqrt (1 + m 10 - m 0 - m 5)
    (math.fdiv (m 1 - m 4) s).bind fun w =>
    (math.fdiv (m 8 + m 2) s).bind fun x =>
    (math.fdiv (m 9 + m 6) s).map fun y =>
      ⟨w, ⟨x, y, 1 / 4 * s⟩⟩

end glm

/-! ## 2D vectors and 3x3 matrices -/

namespace glm

variable {K : Type} [LinearOrderedField K]

/-- Modelled from the spec: a vector of two components. -/
@[ext]
structure Vec2 (K : Type) where
  X : K
  Y : K
deriving DecidableEq

namespace Vec2

/-- Modelled from the spec: component-wise difference. -/
def Sub (a b : Vec2 K) : Vec2 K := ⟨a.X - b.X, a.Y - b.Y⟩

/-- Modelled from the spec: component-wise sum. -/
def Add (a b : Vec2 K) : Vec2 K := ⟨a.X + b.X, a.Y + b.Y⟩

/-- Modelled from the spec: scaling by a number. -/
def Mul (a : Vec2 K) (c : K) : Vec2 K := ⟨a.X * c, a.Y * c⟩

/-- Modelled from the spec: dot product. -/
def Dot (a b : Vec2 K) : K := a.X * b.X + a.Y * b.Y

/-- Modelled from the spec: normalizing divides by the length, and normalizing a zero vector
yields a zero vector. -/
def Normalize (sqrt : K → K) (a : Vec2 K) : Vec2 K :=
  let l := sqrt (a.Dot a)
  if l = 0 then ⟨0, 0⟩ else a.Mul (1 / l)

end Vec2

/-- Modelled from the spec: a 3x3 matrix is a fixed-size column-major array of nine numbers; the
entry of row `r` and column `c` is at the index `3 * c + r`. -/
abbrev Mat3 (K : Type) := Fin 9 → K

namespace Mat3

/-- The read `m[n]` at an index computed at run time. -/
def get (m : Mat3 K) (n : Nat) : K := if h : n < 9 then m ⟨n, h⟩ else 0

/-- The write `m[n] = x` at an index computed at run time. -/
def set (m : Mat3 K) (n : Nat) (x : K) : Mat3 K := fun i => if i.val = n then x else m i

/-- Modelled from the spec: the identity matrix, which `Ident` stores in the receiver. -/
def Ident : Mat3 K := ![1, 0, 0, 0, 1, 0, 0, 0, 1]

/-- Modelled from the spec: the matrix product of column-major 3x3 matrices. -/
def Mul3 (m1 m2 : Mat3 K) : Mat3 K :=
  ![m1 0 * m2 0 + m1 3 * m2 1 + m1 6 * m2 2,
    m1 1 * m2 0 + m1 4 * m2 1 + m1 7 * m2 2,
    m1 2 * m2 0 + m1 5 * m2 1 + m1 8 * m2 2,
    m1 0 * m2 3 + m1 3 * m2 4 + m1 6 * m2 5,
    m1 1 * m2 3 + m1 4 * m2 4 + m1 7 * m2 5,
    m1 2 * m2 3 + m1 5 * m2 4 + m1 8 * m2 5,
    m1 0 * m2 6 + m1 3 * m2 7 + m1 6 * m2 8,
    m1 1 * m2 6 + m1 4 * m2 7 + m1 7 * m2 8,
    m1 2 * m2 6 + m1 5 * m2 7 + m1 8 * m2 8]

/-- Modelled from the spec: the transpose. -/
def Transposed (m : Mat3 K) : Mat3 K :=
  ![m 0, m 3, m 6, m 1, m 4, m 7, m 2, m 5, m 8]

end Mat3

end glm

/-! ## Normalisation and interpolation of quaternions (`glm/quat.go`) -/

namespace glm

variable {K : Type} [LinearOrderedField K]

namespace Vec3

/-- Modelled from the spec: `v.Normalize()` divides by the length, and "normalizing a zero
vector yields a zero vector, never a division fault". -/
def Normalize (sqrt : K → K) (v : Vec3 K) : Vec3 K :=
  let l := sqrt v.Len2
  if l = 0 then ⟨0, 0, 0⟩ else v.Mul (1 / l)

end Vec3

namespace Quat

def Add (q1 q2 : Quat K) : Quat K := ⟨q1.W + q2.W, q1.V.Add q2.V⟩

def Sub (q1 q2 : Quat K) : Quat K := ⟨q1.W - q2.W, q1.V.Sub q2.V⟩

def Len (sqrt : K → K) (q1 : Quat K) : K :=
  sqrt (q1.W * q1.W + q1.X * q1.X + q1.Y * q1.Y + q1.Z * q1.Z)

/-- The method `Normalized`. The comparator `flops.Eq` is not among the sources and is the
parameter `eq`, and `sqrt` is `math.Sqrt`. The test `length == InfPos`, which replaces an
infinite length by `MaxValue`, has no counterpart: in exact arithmetic a length is never
infinite, so that branch is never taken. The result `none` stands for a division by zero. -/
def Normalized (eq : K → K → Bool) (sqrt : K → K) (q1 : Quat K) : Option (Quat K) :=
  let length := q1.Len sqrt
  if eq 1 length then some q1
  else if eq length 0 then some QuatIdent
  else (math.fdiv 1 length).map fun il => ⟨q1.W * il, q1.V.Mul il⟩

/-- The method `SetNormalizedOf`: the value stored in the receiver for the argument `q2`. -/
def SetNormalizedOf (eq : K → K → Bool) (sqrt : K → K) (q2 : Quat K) : Option (Quat K) :=
  let length := q2.Len sqrt
  if eq 1 length then some ⟨q2.W, q2.V⟩
  else if length = 0 then some ⟨1, ⟨0, 0, 0⟩⟩
  else (math.fdiv 1 length).map fun il => ⟨q2.W * il, q2.V.Mul il⟩

/-- The method `Normalize`: the value left in the receiver. -/
def Normalize (eq : K → K → Bool) (sqrt : K → K) (q1 : Quat K) : Option (Quat K) :=
  let length := q1.Len sqrt
  if eq 1 length then some q1
  else if length = 0 then some ⟨1, ⟨0, 0, 0⟩⟩
  else (math.fdiv 1 length).map fun il => ⟨q1.W * il, q1.V.Mul il⟩

/-- The method `OrientationEqualThreshold`. -/
def OrientationEqualThreshold (eq : K → K → Bool) (sqrt : K → K) (q1 q2 : Quat K)
    (epsilon : K) : Option Bool :=
  (q1.Normalized eq sqrt).bind fun n1 =>
  (q2.Normalized eq sqrt).map fun n2 =>
    decide (math.Abs (n1.Dot n2) > 1 - epsilon)

end Quat

def QuatLerp (q1 q2 : Quat K) (amount : K) : Quat K :=
  let var1 := q2.Sub q1
  let var2 := var1.Scale amount
  q1.Add var2

def QuatNlerp (eq : K → K → Bool) (sqrt : K → K) (q1 q2 : Quat K) (amount : K) :
    Option (Quat K) :=
  let l := QuatLerp q1 q2 amount
  l.Normalized eq sqrt

/-- The function `QuatSlerp`; `math.Sqrt`, `math.Acos`, `math.Cos` and `math.Sin` are
parameters, and `Clamp` of the package, not among the sources, is the clamp of the math
package. -/
def QuatSlerp (eq : K → K → Bool) (sqrt acos cos sin : K → K) (q1 q2 : Quat K) (amount : K) :
    Option (Quat K) :=
  let epsilon : K := 9995 / 10000
  (q1.Normalized eq sqrt).bind fun n1 =>
  (q2.Normalized eq sqrt).bind fun n2 =>
    let dot := n1.Dot n2
    -- If the inputs are too close for comfort, linearly interpolate and normalize the result.
    if dot > epsilon then QuatNlerp eq sqrt n1 n2 amount
    else
      -- This is here for precision errors.
      let dot := math.Clamp dot (-1) 1
      let theta := acos dot * amount
      let c := cos theta
      let s := sin theta
      let n1dot := n1.Scale dot
      let n2n1dot := n2.Sub n1dot
      (n2n1dot.Normalized eq sqrt).map fun rel =>
        let rel := rel.Scale s
        let n1c := n1.Scale c
        n1c.Add rel

end glm

namespace geo

open glm

variable {K : Type} [LinearOrderedField K]

/-- Result of `ClosestPointSegmentSegment`: the parameters `s`, `t`, the squared distance
`u` and the two points `c0`, `c1`. -/
structure SegSeg where
  s : ℚ
  t : ℚ
  u : ℚ
  c0 : Vec3 ℚ
  c1 : Vec3 ℚ
deriving DecidableEq

/-- The epsilon constant of `ClosestPointSegmentSegment`. -/
def epsilon : ℚ := 1 / 10000

/-- The pair of parameters `(s, t)` computed by `ClosestPointSegmentSegment` once at least
one segment is not degenerate (lines 288-322 of `geo/utils.go`). -/
def segSegParams (a e f : ℚ) (d0 d1 r : Vec3 ℚ) : Option (ℚ × ℚ) :=
  if a ≤ epsilon then
    -- First segment degenerates into a point.
    (math.fdiv f e).bind fun x => some (0, math.Clamp x 0 1)
  else
    let c := d0.Dot r
    if e ≤ epsilon then
      -- Second segment degenerates into a point.
      (math.fdiv (-c) a).bind fun x => some (math.Clamp x 0 1, 0)
    else
      let b := d0.Dot d1
      let denom := a * e - b * b
      let s0 : Option ℚ :=
        if denom ≠ 0 then (math.fdiv (b * f - c * e) denom).bind fun x => some (math.Clamp x 0 1)
        else some 0
      s0.bind fun s =>
      (math.fdiv (b * s + f) e).bind fun t =>
      if t < 0 then
        (math.fdiv (-c) a).bind fun x => some (math.Clamp x 0 1, 0)
      else if t > 1 then
        (math.fdiv (b - c) a).bind fun x => some (math.Clamp x 0 1, 1)
      else some (s, t)

/-- ClosestPointSegmentSegment computes points C₁ and C₂ of S₁(s) = p₁ + s * (q₁-p₁) and
S₂(t) = p₂ + t * (q₂-p₂), returning s, t, and the squared distance u between S₁(s) and
S₂(t). The result is `none` when a division by zero is reached. -/
def ClosestPointSegmentSegment (p0 q0 p1 q1 : Vec3 ℚ) : Option SegSeg :=
  let d0 := q0.Sub p0
  let d1 := q1.Sub p1
  let r := p0.Sub p1
  let a := d0.Dot d0
  let e := d1.Dot d1
  let f := d1.Dot r
  if a ≤ epsilon ∧ e ≤ epsilon then
    some ⟨0, 0, r.Len2, p0, p1⟩
  else
    (segSegParams a e f d0 d1 r).bind fun st =>
      let c0 := p0.AddScaledVec st.1 d0
      let c1 := p1.AddScaledVec st.2 d1
      some ⟨st.1, st.2, (c0.Sub c1).Len2, c0, c1⟩

/-- ClosestPointSegmentPoint returns the point on ab closest to c. Also returns t for the
position of d, d(t) = a + t*(b - a). The result is `none` when a division by zero is
reached. -/
def ClosestPointSegmentPoint (a b c : Vec3 ℚ) : Option (ℚ × Vec3 ℚ) :=
  let ab := b.Sub a
  -- Project c onto ab, but deferring the division by ab.Dot(ab)
  let cma := c.Sub a
  let t := cma.Dot ab
  if t ≤ 0 then
    some (0, a)
  else
    let denom := ab.Dot ab
    if t ≥ denom then
      some (1, b)
    else
      (math.fdiv t denom).bind fun t1 => some (t1, a.AddScaledVec t1 ab)

/-- ClosestPointPointTriangle returns the point on the triangle abc that is closest to p.
The result is `none` when a division by zero is reached. -/
def ClosestPointPointTriangle (p a b c : Vec3 ℚ) : Option (Vec3 ℚ) :=
  let ab := b.Sub a
  let ac := c.Sub a
  let ap := p.Sub a
  -- Check if P in vertex region outside A
  let d1 := ab.Dot ap
  let d2 := ac.Dot ap
  if d1 ≤ 0 ∧ d2 ≤ 0 then some a
  else
    let bp := p.Sub b
    let d3 := ab.Dot bp
    let d4 := ac.Dot bp
    if d3 ≥ 0 ∧ d4 ≤ d3 then some b
    else
      -- Check if P in edge region of AB
      let vc := d1 * d4 - d3 * d2
      if vc ≤ 0 ∧ d1 ≥ 0 ∧ d3 ≤ 0 then
        (math.fdiv d1 (d1 - d3)).bind fun v => some (a.AddScaledVec v ab)
      else
        -- Check if P in vertex region outside C
        let cp := p.Sub c
        let d5 := ab.Dot cp
        let d6 := ac.Dot cp
        if d6 ≥ 0 ∧ d5 ≤ d6 then some c
        else
          let vb := d5 * d2 - d1 * d6
          if vb ≤ 0 ∧ d2 ≥ 0 ∧ d6 ≤ 0 then
            (math.fdiv d2 (d2 - d6)).bind fun w => some (a.AddScaledVec w ac)
          else
            -- Check if P in edge region of BC
            let va := d3 * d6 - d5 * d4
            if va ≤ 0 ∧ (d4 - d3) ≥ 0 ∧ (d5 - d6) ≥ 0 then
              let bc := c.Sub b
              (math.fdiv (d4 - d3) ((d4 - d3) + (d5 - d6))).bind fun w =>
                some (b.AddScaledVec w bc)
            else
              -- P inside face region
              (math.fdiv 1 (va + vb + vc)).bind fun denom =>
                let v := vb * denom
                let w := vc * denom
                some ((a.AddScaledVec v ab).AddScaledVec w ac)

/-- PointsOnOppositeSideOfPlane returns true if point p is opposite of d, such that it
doesn't matter if abc is ordered CW or CCW. -/
def PointsOnOppositeSideOfPlane (p0 p1 a b c : Vec3 ℚ) : Bool :=
  let ap := p0.Sub a
  let ad := p1.Sub a
  let ab := b.Sub a
  let ac := c.Sub a
  let abac := ab.Cross ac
  let signp := ap.Dot abac
  let signd := ad.Dot abac
  decide (signp * signd < 0)

/-- One of the first three face blocks of `ClosestPointPointTetrahedron`: when `p` and the
opposite vertex `o` are on opposite sides of the plane of `x y z`, the closest point of that
face replaces the candidate if it is strictly closer than the best squared distance. -/
def tetrahedronFace (p o x y z : Vec3 ℚ) (st : Vec3 ℚ × ℚ) : Option (Vec3 ℚ × ℚ) :=
  if PointsOnOppositeSideOfPlane p o x y z then
    (ClosestPointPointTriangle p x y z).bind fun q =>
      let pq := q.Sub p
      let sqDist := pq.Len2
      if sqDist < st.2 then some (q, sqDist) else some st
  else some st

/-- ClosestPointPointTetrahedron returns the closes point in or on tetrahedron abcd. The
result is `none` when a division by zero is reached. -/
def ClosestPointPointTetrahedron (p a b c d : Vec3 ℚ) : Option (Vec3 ℚ) :=
  -- Start out assuming point inside all halfspaces, so closest to itself
  (tetrahedronFace p d a b c (p, math.MaxFloat32)).bind fun st1 =>
  (tetrahedronFace p b a c d st1).bind fun st2 =>
  (tetrahedronFace p c a d b st2).bind fun st3 =>
  if PointsOnOppositeSideOfPlane p a b d c then
    (ClosestPointPointTriangle p b d c).bind fun q =>
      let pq := q.Sub p
      let sqDist := pq.Len2
      if sqDist < st3.2 then some q else some st3.1
  else some st3.1

/-- An axis-aligned bounding box: center and half-extents. -/
structure AABB where
  Center : Vec3 ℚ
  HalfExtend : Vec3 ℚ
deriving DecidableEq

/-- Result of `IntersectRayAABB`: the named return values `t`, `q`, `intersect`. -/
structure RayHit (K : Type) where
  t : K
  q : Vec3 K
  intersect : Bool
deriving DecidableEq

/-- The epsilon constant of `IntersectRayAABB` and `TestAABBSegment`: the decimal value
`0.00001` of the constant (the `float32` nearest to it, `10995116 / 2^40`, is slightly
smaller). -/
def epsilonAABB : ℚ := 1 / 100000

/-- The slab loop of `IntersectRayAABB` over the axes still to visit, with the current
values of `t` and `tmax`. -/
def rayAABBLoop (p d : Vec3 ℚ) (a : AABB) : List Nat → ℚ → ℚ → Option (RayHit ℚ)
  | [], t, _ =>
    -- Ray intersects all 3 slabs. Return point (q) and intersection t value (tmin)
    some ⟨t, p.AddScaledVec t d, true⟩
  | i :: rest, t, tmax =>
    if math.Abs (d.I i) < epsilonAABB then
      -- Ray is parallel to slab. No hit if origin not within slab
      if ¬ (p.I i ≥ a.Center.I i - a.HalfExtend.I i ∧ p.I i ≤ a.Center.I i + a.HalfExtend.I i) then
        some ⟨t, ⟨0, 0, 0⟩, false⟩
      else rayAABBLoop p d a rest t tmax
    else
      -- Compute intersection t value of ray with near and far plane of slab
      (math.fdiv 1 (d.I i)).bind fun ood =>
        let t1 := (a.Center.I i - a.HalfExtend.I i - p.I i) * ood
        let t2 := (a.Center.I i + a.HalfExtend.I i - p.I i) * ood
        -- Make t1 be intersection with near plane, t2 with far plane
        let t1s := if t1 > t2 then t2 else t1
        let t2s := if t1 > t2 then t1 else t2
        -- Compute the intersection of slab intersection intervals
        let tn := if t1s > t then t1s else t
        let tmaxn := if t2s > tmax then t2s else tmax
        -- Exit with no collision as soon as slab intersection becomes empty
        if ¬ (t1s ≤ tmaxn) then some ⟨tn, ⟨0, 0, 0⟩, false⟩
        else rayAABBLoop p d a rest tn tmaxn

/-- IntersectRayAABB intersect ray R(t) = p + t*d against AABB a. When intersecting, return
intersection distance t and point q of intersection. The result is `none` when a division
by zero is reached. -/
def IntersectRayAABB (p d : Vec3 ℚ) (a : AABB) : Option (RayHit ℚ) :=
  rayAABBLoop p d a [0, 1, 2] 0 math.MaxFloat32

/-- TestAABBSegment tests if segment specified by points p0 and p1 intersects AABB b. -/
def TestAABBSegment (b : AABB) (p0 p1 : Vec3 ℚ) : Bool :=
  let m0 := (p0.Add p1).Mul (1 / 2) -- Segment midpoint
  let d := p1.Sub m0 -- Segment halflength vector
  let m := m0.Sub b.Center -- Translate box and segment to origin
  -- Try world coordinate axes as separating axes.
  let adx := math.Abs d.X
  if ¬ (math.Abs m.X ≤ b.HalfExtend.X + adx) then false
  else
    let ady := math.Abs d.Y
    if ¬ (math.Abs m.Y ≤ b.HalfExtend.Y + ady) then false
    else
      let adz := math.Abs d.Z
      if ¬ (math.Abs m.Z ≤ b.HalfExtend.Z + adz) then false
      else
        -- No separating axis found; segment must be overlapping AABB
        true

/-- SqDistPointSegment returns the squared distance between point c and segment ab. The
result is `none` when a division by zero is reached. -/
def SqDistPointSegment (a b c : Vec3 ℚ) : Option ℚ :=
  let ab := b.Sub a
  let ac := c.Sub a
  let bc := b.Sub c
  let e := ac.Dot ab
  if e ≤ 0 then
    some ac.Len2
  else
    let f := ab.Len2
    if e ≥ f then
      some bc.Len2
    else
      (math.fdiv (e * e) f).bind fun x => some (ac.Len2 - x)

/-- Modelled from the spec: the type `Sphere` (its declaration is not among the sources),
"center + radius (≥0)". -/
structure Sphere (K : Type) where
  Center : Vec3 K
  Radius : K
deriving DecidableEq

/-- Modelled from the spec: the type `Plane` (its declaration is not among the sources),
"unit normal + scalar offset (signed distance from origin)". -/
structure Plane where
  Normal : Vec3 ℚ
  Offset : ℚ
deriving DecidableEq

/-- Modelled from the spec: `DistanceToPlane` (not among the sources), the signed distance
of a point to a plane given by its unit normal and its offset from the origin. -/
def DistanceToPlane (plane : Plane) (point : Vec3 ℚ) : ℚ :=
  plane.Normal.Dot point - plane.Offset

/-- Modelled from the spec: `PlaneFromPoints` (not among the sources), the plane of the
triangle `abc`: the normalised cross product `(b-a) × (c-a)` as unit normal (a zero vector
stays a zero vector) and the signed distance of the plane from the origin as offset. -/
def PlaneFromPoints (sqrt : ℚ → ℚ) (a b c : Vec3 ℚ) : Plane :=
  let n := (b.Sub a).Cross (c.Sub a)
  let l := sqrt n.Len2
  let u : Vec3 ℚ := if l = 0 then n else n.Mul (1 / l)
  ⟨u, u.Dot a⟩

/-- TestPlaneSphere returns true if s and p intersect. The plane normal must be
normalized. -/
def TestPlaneSphere (plane : Plane) (sphere : Sphere ℚ) : Bool :=
  decide (math.Abs (sphere.Center.Dot plane.Normal - plane.Offset) ≤ sphere.Radius)

/-- InsidePlaneSphere returns true if s is completely inside plane p. -/
def InsidePlaneSphere (plane : Plane) (sphere : Sphere ℚ) : Bool :=
  decide (math.Abs (sphere.Center.Dot plane.Normal - plane.Offset) < -sphere.Radius)

/-- IntersectRaySphere intersects ray r = p + td, |d| = 1, with sphere s and, if
intersecting, returns t value of intersection and intersection point q. The parameter `sqrt`
is `math.Sqrt`. -/
def IntersectRaySphere (sqrt : K → K) (p d : Vec3 K) (s : Sphere K) : RayHit K :=
  let m := p.Sub s.Center
  let b := m.Dot d
  let c := m.Dot m - s.Radius * s.Radius
  -- Exit if r’s origin outside s (c > 0) and r pointing away from s (b > 0)
  if c > 0 ∧ b > 0 then ⟨0, ⟨0, 0, 0⟩, false⟩
  else
    let discr := b * b - c
    -- A negative discriminant corresponds to ray missing sphere
    if ¬ (discr ≥ 0) then ⟨0, ⟨0, 0, 0⟩, false⟩
    else
      -- Ray now found to intersect sphere, compute smallest t value of intersection
      let t0 := -b - sqrt discr
      -- If t is negative, ray started inside sphere so clamp t to zero
      let t := if t0 < 0 then 0 else t0
      ⟨t, p.AddScaledVec t d, true⟩

/-- Result of `IntersectSegmentTriangle2`: the named return values `u`, `v`, `w`, `t`,
`overlap`. -/
structure SegTri where
  u : ℚ
  v : ℚ
  w : ℚ
  t : ℚ
  overlap : Bool
deriving DecidableEq

/-- IntersectSegmentTriangle2 is given segment pq and triangle abc and returns whether
segment intersects triangle and if so, also returns the barycentric coordinates (u,v,w) of
the intersection point and the distance t along the segment pq. The result is `none` when a
division by zero is reached. -/
def IntersectSegmentTriangle2 (p q a b c : Vec3 ℚ) : Option SegTri :=
  let ab := b.Sub a
  let ac := c.Sub a
  let qp := p.Sub q
  -- Compute triangle normal.
  let n := ab.Cross ac
  -- Compute denominator d. If d <= 0, segment is parallel to or points away from triangle
  let d := qp.Dot n
  if d ≤ 0 then some ⟨0, 0, 0, 0, false⟩
  else
    -- Compute intersection t value of pq with plane of triangle.
    let ap := p.Sub a
    let t := ap.Dot n
    if t < 0 then some ⟨0, 0, 0, t, false⟩
    else if t > d then some ⟨0, 0, 0, t, false⟩
    else
      -- Compute barycentric coordinate components and test if within bounds
      let e := qp.Cross ap
      let v := ac.Dot e
      if v < 0 ∨ v > d then some ⟨0, v, 0, t, false⟩
      else
        let w := -(ab.Dot e)
        if w < 0 ∨ v + w > d then some ⟨0, v, w, t, false⟩
        else
          -- Segment/ray intersects triangle. Perform delayed division and compute the
          -- last barycentric coordinate component
          (math.fdiv 1 d).bind fun ood =>
            let t1 := t * ood
            let v1 := v * ood
            let w1 := w * ood
            some ⟨1 - v1 - w1, v1, w1, t1, true⟩

/-- The Epsilon constant of `IntersectSegmentCylinder`. -/
def epsilonCylinder : K := 1 / 100000

/-- IntersectSegmentCylinder intersects segment S(t)=sa+t(sb-sa), 0<=t<=1 against cylinder
specified by p, q and r. The parameter `sqrt` is `math.Sqrt`; the result is `none` when a
division by zero is reached. -/
def IntersectSegmentCylinder (sqrt : K → K) (sa sb p q : Vec3 K) (r : K) :
    Option (K × Bool) :=
  let d := q.Sub p
  let m := sa.Sub p
  let n := sb.Sub sa
  let md := m.Dot d
  let nd := n.Dot d
  let dd := d.Dot d
  -- Test if segment fully outside either endcap of cylinder
  if ¬ (md ≥ 0 ∨ md + nd ≥ 0) then some (0, false) -- Segment outside ’p’ side of cylinder
  else if md > dd ∧ md + nd > dd then some (0, false) -- Segment outside ’q’ side of cylinder
  else
    let nn := n.Dot n
    let mn := m.Dot n
    let a := dd * nn - nd * nd
    let k := m.Dot m - r * r
    let c := dd * k - md * md
    if math.Abs a < epsilonCylinder then
      -- Segment runs parallel to cylinder axis
      if ¬ (c ≤ 0) then some (0, false) -- ’a’ and thus the segment lie outside cylinder
      else
        -- Now known that segment intersects cylinder; figure out how it intersects
        if md < 0 then
          (math.fdiv (-mn) nn).bind fun t => some (t, true) -- against ’p’ endcap
        else if md > dd then
          (math.fdiv (nd - mn) nn).bind fun t => some (t, true) -- against ’q’ endcap
        else some (0, true) -- ’a’ lies inside cylinder
    else
      let b := dd * mn - nd * md
      let discr := b * b - a * c
      if ¬ (discr ≥ 0) then some (0, false) -- No real roots; no intersection
      else
        (math.fdiv (-b - sqrt discr) a).bind fun t =>
          if t < 0 ∨ t > 1 then some (0, false) -- Intersection lies outside segment
          else if md + t * nd < 0 then
            -- Intersection outside cylinder on ’p’ side
            if nd ≤ 0 then some (0, false) -- Segment pointing away from endcap
            else
              (math.fdiv (-md) nd).bind fun t1 =>
                -- Keep intersection if Dot(S(t) - p, S(t) - p) <= r∧2
                some (t1, decide (k + 2 * t1 * (mn + t1 * nn) ≤ 0))
          else if md + t * nd > dd then
            -- Intersection outside cylinder on ’q’ side
            if nd ≥ 0 then some (0, false) -- Segment pointing away from endcap
            else
              (math.fdiv (dd - md) nd).bind fun t1 =>
                -- Keep intersection if Dot(S(t) - q, S(t) - q) <= r∧2
                some (t1, decide (k + dd - 2 * md + t1 * (2 * (mn - nd) + t1 * nn) ≤ 0))
          else
            -- Segment intersects cylinder between the endcaps; t is correct
            some (t, true)

/-- ClosestPointPlanePoint returns the closes point on the plane closest to the point. -/
def ClosestPointPlanePoint (plane : Plane) (point : Vec3 ℚ) : ℚ × Vec3 ℚ :=
  let dist := DistanceToPlane plane point
  let v := plane.Normal.Mul (-plane.Offset)
  (dist, point.Sub v)

/-- The state of `ClosestPointLineTriangle`: `minSqdist`, `c0`, `c1`. -/
structure LineTri where
  minSqdist : ℚ
  c0 : Vec3 ℚ
  c1 : Vec3 ℚ
deriving DecidableEq

/-- ClosestPointLineTriangle returns the pair of points that are the closest from the line
and the triangle. c0 is the point on the line, c1 on the triangle. The parameter `sqrt` is
`math.Sqrt`, which `PlaneFromPoints` calls; the result is `none` when a division by zero is
reached. -/
def ClosestPointLineTriangle (sqrt : ℚ → ℚ) (p q a b c : Vec3 ℚ) :
    Option (Vec3 ℚ × Vec3 ℚ) :=
  (ClosestPointSegmentSegment p q a b).bind fun r1 =>
  let st1 : LineTri := ⟨r1.u, r1.c0, r1.c1⟩
  (ClosestPointSegmentSegment p q a c).bind fun r2 =>
  let st2 : LineTri := if r2.u < st1.minSqdist then ⟨r2.u, r2.c0, r2.c1⟩ else st1
  (ClosestPointSegmentSegment p q b c).bind fun r3 =>
  let st3 : LineTri := if r3.u < st2.minSqdist then ⟨r3.u, r3.c0, r3.c1⟩ else st2
  let plane := PlaneFromPoints sqrt a b c
  let dp := ClosestPointPlanePoint plane p
  let st4 : LineTri := if dp.1 * dp.1 < st3.minSqdist then ⟨dp.1 * dp.1, p, dp.2⟩ else st3
  let dq := ClosestPointPlanePoint plane q
  if dq.1 * dq.1 < st4.minSqdist then some (q, dq.2) else some (st4.c0, st4.c1)

/-- One of the first seven corner blocks of `ClosestPointSegmentAABB`: the point of the
segment `v0 v1` closest to the corner replaces the candidate if its squared length is
strictly below `minlen2`. -/
def segmentAABBCorner (v0 v1 corner : Vec3 ℚ) (st : ℚ × Vec3 ℚ) : Option (ℚ × Vec3 ℚ) :=
  (ClosestPointSegmentPoint v0 v1 corner).bind fun tc =>
    let l2 := tc.2.Len2
    if l2 < st.1 then some (l2, tc.2) else some st

/-- ClosestPointSegmentAABB returns the closest point on the segment to the aabb. The
result is `none` when a division by zero is reached. -/
def ClosestPointSegmentAABB (aabb : AABB) (p q : Vec3 ℚ) : Option (Vec3 ℚ) :=
  let v0 := p.Sub aabb.Center
  let v1 := q.Sub aabb.Center
  let h := aabb.HalfExtend
  (segmentAABBCorner v0 v1 ⟨-h.X, -h.Y, h.Z⟩ (math.MaxFloat32, ⟨0, 0, 0⟩)).bind fun s1 =>
  (segmentAABBCorner v0 v1 ⟨-h.X, -h.Y, -h.Z⟩ s1).bind fun s2 =>
  (segmentAABBCorner v0 v1 ⟨-h.X, h.Y, h.Z⟩ s2).bind fun s3 =>
  (segmentAABBCorner v0 v1 ⟨-h.X, h.Y, -h.Z⟩ s3).bind fun s4 =>
  (segmentAABBCorner v0 v1 ⟨h.X, -h.Y, h.Z⟩ s4).bind fun s5 =>
  (segmentAABBCorner v0 v1 ⟨h.X, -h.Y, -h.Z⟩ s5).bind fun s6 =>
  (segmentAABBCorner v0 v1 ⟨h.X, h.Y, h.Z⟩ s6).bind fun s7 =>
  (ClosestPointSegmentPoint v0 v1 ⟨h.X, h.Y, -h.Z⟩).bind fun tc =>
    if tc.2.Len2 < s7.1 then some tc.2 else some s7.2

/-- The two messages with which the unimplemented routines panic. -/
inductive PanicMessage where
  | notImplemented
  | implementationIncomplete
deriving DecidableEq

/-- ClosestPointTriangleTriangle returns the pair of points that are the closest from the
triangle pair. The body is `panic("not implemented")`. -/
def ClosestPointTriangleTriangle (_a _b _c _d _e _f : Vec3 ℚ) :
    Except PanicMessage (Vec3 ℚ × Vec3 ℚ) :=
  Except.error PanicMessage.notImplemented

/-- TestAABBTriangle returns true if [v0 v1 v2] intersects b. The body is
`panic("implementation incomplete")`; the rest of the function is commented out. -/
def TestAABBTriangle (_b : AABB) (_v0 _v1 _v2 : Vec3 ℚ) : Except PanicMessage Bool :=
  Except.error PanicMessage.implementationIncomplete

end geo

/-! ## Bounding-volume fitting (`geo/utils.go`) -/

namespace geo

open glm

variable {K : Type} [LinearOrderedField K]

/-- The loop of `ExtremePointsAlongDirection` from the index `n` on. -/
def extremeLoop (direction : Vec3 ℚ) :
    List (Vec3 ℚ) → Nat → Int → Int → ℚ → ℚ → Int × Int
  | [], _, imin, imax, _, _ => (imin, imax)
  | p :: ps, n, imin, imax, minproj, maxproj =>
    let proj := p.Dot direction
    let imin1 := if proj < minproj then (n : Int) else imin
    let minproj1 := if proj < minproj then proj else minproj
    let imax1 := if proj > maxproj then (n : Int) else imax
    let maxproj1 := if proj > maxproj then proj else maxproj
    extremeLoop direction ps (n + 1) imin1 imax1 minproj1 maxproj1

def ExtremePointsAlongDirection (direction : Vec3 ℚ) (points : List (Vec3 ℚ)) : Int × Int :=
  extremeLoop direction points 0 (-1) (-1) math.MaxFloat32 (-math.MaxFloat32)

/-- The six sums of `CovarianceMatrix`. -/
structure CovSums where
  e00 : ℚ
  e11 : ℚ
  e22 : ℚ
  e01 : ℚ
  e02 : ℚ
  e12 : ℚ

/-- The function `CovarianceMatrix`; `none` stands for the division by the length zero. -/
def CovarianceMatrix (cov : Mat3 ℚ) (points : List (Vec3 ℚ)) : Option (Mat3 ℚ) :=
  (math.fdiv 1 (points.length : ℚ)).map fun oon =>
    let c : Vec3 ℚ := points.foldl (fun (c : Vec3 ℚ) (p : Vec3 ℚ) => c.Add p) ⟨0, 0, 0⟩
    let c := c.Mul oon
    let e : CovSums := points.foldl (fun (e : CovSums) (pt : Vec3 ℚ) =>
      let p := pt.Sub c
      { e00 := e.e00 + p.X * p.X
        e11 := e.e11 + p.Y * p.Y
        e22 := e.e22 + p.Z * p.Z
        e01 := e.e01 + p.X * p.Y
        e02 := e.e02 + p.X * p.Z
        e12 := e.e12 + p.Y * p.Z }) ⟨0, 0, 0, 0, 0, 0⟩
    let cov := cov.set 0 (e.e00 * oon)
    let cov := cov.set 4 (e.e11 * oon)
    let cov := cov.set 8 (e.e22 * oon)
    let cov := cov.set 1 (e.e01 * oon)
    let cov := cov.set 2 (e.e02 * oon)
    let cov := cov.set 5 (e.e12 * oon)
    let cov := cov.set 3 (cov.get 1)
    let cov := cov.set 6 (cov.get 2)
    let cov := cov.set 7 (cov.get 5)
    cov

/-- The function `SymSchur2`, which returns `(c, s)`; `sqrt` is `math.Sqrt`, and `none` stands
for a division by zero. -/
def SymSchur2 (sqrt : K → K) (a : Mat3 K) (p q : Nat) : Option (K × K) :=
  if math.Abs (a.get (3 * q + p)) > 1 / 10000 then
    (math.fdiv (a.get (3 * q + q) - a.get (3 * p + p)) (2 * a.get (3 * q + p))).bind fun r =>
    (if r ≥ 0 then math.fdiv 1 (r + sqrt (1 + r * r))
      else math.fdiv (-1) (-r + sqrt (1 + r * r))).bind fun t =>
    (math.fdiv 1 (sqrt (1 + t * t))).map fun c =>
      (c, t * c)
  else
    some (1, 0)

/-- The pairs `(i, j)` in the order in which the two nested loops of `Jacobi` visit them. -/
def jacobiPairs : List (Nat × Nat) :=
  [(0, 0), (0, 1), (0, 2), (1, 0), (1, 1), (1, 2), (2, 0), (2, 1), (2, 2)]

/-- The search of `Jacobi` for the largest off-diagonal element. -/
def jacobiPivot (a : Mat3 K) : Nat × Nat :=
  jacobiPairs.foldl (fun (pq : Nat × Nat) (ij : Nat × Nat) =>
    if ij.1 = ij.2 then pq
    else if math.Abs (a.get (3 * ij.2 + ij.1)) > math.Abs (a.get (3 * pq.2 + pq.1)) then ij
    else pq) (0, 1)

/-- The Jacobi rotation matrix that `Jacobi` stores in `J`. -/
def jacobiRotation (J : Mat3 K) (p q : Nat) (c s : K) : Mat3 K :=
  let J := [0, 1, 2].foldl (fun (J : Mat3 K) (i : Nat) =>
    let J := J.set (3 * 0 + i) 0
    let J := J.set (3 * 1 + i) 0
    let J := J.set (3 * 2 + i) 0
    J.set (3 * i + i) 1) J
  let J := J.set (3 * p + p) c
  let J := J.set (3 * q + p) s
  let J := J.set (3 * p + q) (-s)
  J.set (3 * q + q) c

/-- The sum of the squares of the off-diagonal elements. -/
def jacobiOff (a : Mat3 K) : K :=
  jacobiPairs.foldl (fun (off : K) (ij : Nat × Nat) =>
    if ij.1 = ij.2 then off
    else off + a.get (3 * ij.2 + ij.1) * a.get (3 * ij.2 + ij.1)) 0

/-- The loop of `Jacobi` with `fuel` iterations left, `n` being `maxIterations - fuel`; the
result is the pair of `a` and `v`. -/
def jacobiLoop (sqrt : K → K) :
    Nat → Nat → Mat3 K → Mat3 K → Mat3 K → K → Option (Mat3 K × Mat3 K)
  | 0, _, a, v, _, _ => some (a, v)
  | fuel + 1, n, a, v, J, prevoff =>
    let pq := jacobiPivot a
    let p := pq.1
    let q := pq.2
    match SymSchur2 sqrt a p q with
    | none => none
    | some (c, s) =>
      let J := jacobiRotation J p q c s
      let v := v.Mul3 J
      let Jt := J.Transposed
      let Jta := Jt.Mul3 a
      let a := Jta.Mul3 J
      let off := jacobiOff a
      if n > 2 ∧ off ≥ prevoff then some (a, v)
      else jacobiLoop sqrt fuel (n + 1) a v J off

/-- The function `Jacobi`, which returns the final `a` and `v`; `sqrt` is `math.Sqrt`, and
`none` stands for a division by zero. -/
def Jacobi (sqrt : K → K) (a _v : Mat3 K) : Option (Mat3 K × Mat3 K) :=
  let maxIterations := 50
  let v := Mat3.Ident
  jacobiLoop sqrt maxIterations 0 a v (fun _ => 0) 0

/-- The named results of `MinimumAreaRectangle`. -/
structure MinRect (K : Type) where
  minArea : K
  center : Vec2 K
  orientation0 : Vec2 K
  orientation1 : Vec2 K
deriving DecidableEq

/-- The four running extremes of the inner loop of `MinimumAreaRectangle`. -/
structure Extents (K : Type) where
  min0 : K
  min1 : K
  max0 : K
  max1 : K
deriving DecidableEq

/-- The inner loop of `MinimumAreaRectangle`. -/
def rectExtents (points : List (Vec2 K)) (pj e0 e1 : Vec2 K) : Extents K :=
  points.foldl (fun (x : Extents K) pk =>
    let d := pk.Sub pj
    let dot := d.Dot e0
    let min0 := if dot < x.min0 then dot else x.min0
    let max0 := if dot > x.max0 then dot else x.max0
    let dot := d.Dot e1
    let min1 := if dot < x.min1 then dot else x.min1
    let max1 := if dot > x.max1 then dot else x.max1
    ⟨min0, min1, max0, max1⟩) ⟨0, 0, 0, 0⟩

/-- One iteration of the outer loop of `MinimumAreaRectangle`. -/
def minRectStep (sqrt : K → K) (points : List (Vec2 K)) (i j : Nat) (r : MinRect K) :
    MinRect K :=
  let pi := points.getD i ⟨0, 0⟩
  let pj := points.getD j ⟨0, 0⟩
  let e0 := (pi.Sub pj).Normalize sqrt
  let e1 : Vec2 K := ⟨-e0.Y, e0.X⟩
  let x := rectExtents points pj e0 e1
  let area := (x.max0 - x.min0) * (x.max1 - x.min1)
  if area < r.minArea then
    let t0 := e0.Mul (x.min0 + x.max0)
    let t1 := e1.Mul (x.min1 + x.max1)
    let t0 := t0.Add t1
    let t0 := t0.Mul (1 / 2)
    ⟨area, pj.Add t0, e0, e1⟩
  else r

/-- The outer loop of `MinimumAreaRectangle` with `fuel` iterations left. -/
def minRectLoop (sqrt : K → K) (points : List (Vec2 K)) :
    Nat → Nat → Nat → MinRect K → MinRect K
  | 0, _, _, r => r
  | fuel + 1, i, j, r =>
    minRectLoop sqrt points fuel (i + 1) i (minRectStep sqrt points i j r)

/-- The function `MinimumAreaRectangle`; `sqrt` is `math.Sqrt`, which `Normalize` calls. -/
def MinimumAreaRectangle (sqrt : K → K) (points : List (Vec2 K)) : MinRect K :=
  minRectLoop sqrt points points.length 0 (points.length - 1)
    ⟨math.MaxFloat32, ⟨0, 0⟩, ⟨0, 0⟩, ⟨0, 0⟩⟩

end geo

/-! ## Plane distance and the ray-sphere test (`geo/utils.go`) -/

namespace geo

open glm

variable {K : Type} [LinearOrderedField K]

/-- PointOutsidePlane returns true if p is outside or on the plane defined by the triangle abc
ordered CCW. -/
def PointOutsidePlane (p a b c : Vec3 ℚ) : Bool :=
  let ap := p.Sub a
  let ab := b.Sub a
  let ac := c.Sub a
  let abac := ab.Cross ac
  let d := ap.Dot abac
  decide (d ≥ 0)

/-- DistPointPlane returns the distance of p to the plane defined by the triangle {a b c}, CCW
order. The parameter `sqrt` is `math.Sqrt`, which `Normalize` calls. -/
def DistPointPlane (sqrt : K → K) (p a b c : Vec3 K) : K :=
  let l1 := b.Sub a
  let l2 := c.Sub a
  let l3 := p.Sub a
  let cross := l2.Cross l1
  let cross := cross.Normalize sqrt
  cross.Dot l3

/-- TestRaySphere tests if ray r = p + td intersects sphere s. -/
def TestRaySphere (p d : Vec3 K) (s : Sphere K) : Bool :=
  let m := p.Sub s.Center
  let c := m.Dot m - s.Radius * s.Radius
  -- If there is definitely at least one real root, there must be an intersection
  if c ≤ 0 then true
  else
    let b := m.Dot d
    -- Early exit if ray origin outside sphere and ray pointing away from sphere
    if ¬ (b < 0) then false
    else
      let disc := b * b - c
      -- A negative discriminant corresponds to ray missing sphere
      if disc < 0 then false
      -- Now ray must hit sphere
      else true

end geo

/-! ## The ray helper (`tornago`, from its test `tornago/ray_test.go`) -/

namespace tornago

open glm

variable {K : Type} [LinearOrderedField K]

/-- Modelled from the spec: the type `Ray` of the package `tornago`, whose declaration is not
among the sources (only its test is): "origin, unit direction, scalar length". -/
structure Ray (K : Type) where
  origin : Vec3 K
  direction : Vec3 K
  len : K

/-- Modelled from the spec: the constructor `NewRayFromTo`, which is not among the sources. The
ray is "constructed from two endpoints"; its direction is the normalised difference and its
length the distance of the endpoints, and "zero-length construction yields a zero-direction
sentinel instead of failing". The parameter `sqrt` is `math.Sqrt`. -/
def NewRayFromTo (sqrt : K → K) (p0 p1 : Vec3 K) : Ray K :=
  let d := p1.Sub p0
  let l := sqrt d.Len2
  if l = 0 then ⟨p0, ⟨0, 0, 0⟩, 0⟩ else ⟨p0, d.Mul (1 / l), l⟩

namespace Ray

/-- Modelled from the spec: the accessor `Origin()`. -/
def Origin (r : Ray K) : Vec3 K := r.origin

/-- Modelled from the spec: the accessor `Direction()`, the "unit direction". -/
def Direction (r : Ray K) : Vec3 K := r.direction

/-- Modelled from the spec: the accessor `Len()`, the "scalar length". -/
def Len (r : Ray K) : K := r.len

/-- Modelled from the spec: the accessor `Destination()`, the point at the distance `Len()` from
the origin along the direction. -/
def Destination (r : Ray K) : Vec3 K := r.origin.AddScaledVec r.len r.direction

end Ray

/-- One row of the table of the test `TestRay_FromTo`: the two endpoints and the expected
values. -/
structure RayTest where
  From : Vec3 ℚ
  To : Vec3 ℚ
  Origin : Vec3 ℚ
  Direction : Vec3 ℚ
  Destination : Vec3 ℚ
  Len : ℚ

/-- The first row of the table of `TestRay_FromTo`. -/
def TestRay_FromTo_row1 : RayTest :=
  { From := ⟨0, 0, 0⟩, To := ⟨1, 0, 0⟩, Origin := ⟨0, 0, 0⟩, Direction := ⟨1, 0, 0⟩,
    Destination := ⟨1, 0, 0⟩, Len := 1 }

/-- The second row of the table of `TestRay_FromTo`: coincident endpoints. -/
def TestRay_FromTo_row2 : RayTest :=
  { From := ⟨1, 1, 1⟩, To := ⟨1, 1, 1⟩, Origin := ⟨1, 1, 1⟩, Direction := ⟨0, 1, 0⟩,
    Destination := ⟨1, 1, 1⟩, Len := 0 }

/-- The third row of the table of `TestRay_FromTo`. -/
def TestRay_FromTo_row3 : RayTest :=
  { From := ⟨1, 1, 1⟩, To := ⟨0, 0, 0⟩, Origin := ⟨1, 1, 1⟩,
    Direction := ⟨-57735026 / 100000000, -57735026 / 100000000, -57735026 / 100000000⟩,
    Destination := ⟨0, 0, 0⟩, Len := 17320508 / 10000000 }

/-- The fourth row of the table of `TestRay_FromTo`. -/
def TestRay_FromTo_row4 : RayTest :=
  { From := ⟨1, 2, 3⟩, To := ⟨9, 8, 7⟩, Origin := ⟨1, 2, 3⟩,
    Direction := ⟨74278134 / 100000000, 557086 / 1000000, 37139067 / 100000000⟩,
    Destination := ⟨9, 8, 7⟩, Len := 10770329 / 1000000 }

/-- The table of the test `TestRay_FromTo` (the row that is commented out in the source is
left out). -/
def TestRay_FromTo_tests : List RayTest :=
  [TestRay_FromTo_row1, TestRay_FromTo_row2, TestRay_FromTo_row3, TestRay_FromTo_row4]

end tornago

/-! ## The code in float32 arithmetic

The routines above are read in exact arithmetic. Two of them are also embedded with the
arithmetic of the `float32` of the source, to evaluate them where a product underflows or
overflows. -/

namespace f32

open glm

/-- A `float32` value: a finite number, an infinity or NaN. The sign of a zero is not
kept. -/
inductive F32 where
  | fin (x : ℚ)
  | inf (negative : Bool)
  | nan
deriving DecidableEq

/-- The rounding of a rational number to the grid of the finite `float32` numbers, to the
nearest and to the even significand in a tie: 24 significant bits above the exponent `-126`,
multiples of `2^(-149)` below. -/
def roundQ (x : ℚ) : ℚ :=
  let e : Int := max (Int.log 2 |x|) (-126)
  let ulp : ℚ := 2 ^ (e - 23)
  let m : ℚ := x / ulp
  let f : Int := ⌊m⌋
  let n : Int :=
    if m - f < 1 / 2 then f
    else if m - f > 1 / 2 then f + 1
    else if f % 2 = 0 then f else f + 1
  n * ulp

/-- The `float32` nearest to a rational number; beyond `MaxFloat32` it is an infinity. -/
def round (x : ℚ) : F32 :=
  if roundQ x > math.MaxFloat32 then F32.inf false
  else if roundQ x < -math.MaxFloat32 then F32.inf true
  else F32.fin (roundQ x)

namespace F32

def neg : F32 → F32
  | fin x => fin (-x)
  | inf s => inf (!s)
  | nan => nan

def add : F32 → F32 → F32
  | fin x, fin y => round (x + y)
  | fin _, inf t => inf t
  | inf s, fin _ => inf s
  | inf s, inf t => if s = t then inf s else nan
  | _, _ => nan

def sub (a b : F32) : F32 := add a (neg b)

def mul : F32 → F32 → F32
  | fin x, fin y => round (x * y)
  | fin x, inf t => if x = 0 then nan else inf (xor (decide (x < 0)) t)
  | inf s, fin y => if y = 0 then nan else inf (xor s (decide (y < 0)))
  | inf s, inf t => inf (xor s t)
  | _, _ => nan

def div : F32 → F32 → F32
  | fin x, fin y =>
    if y = 0 then (if x = 0 then nan else inf (decide (x < 0))) else round (x / y)
  | fin _, inf _ => fin 0
  | inf s, fin y => inf (xor s (decide (y < 0)))
  | _, _ => nan

/-- The comparison `a <= b`, false when an operand is NaN. -/
def le : F32 → F32 → Bool
  | fin x, fin y => decide (x ≤ y)
  | fin _, inf t => !t
  | inf s, fin _ => s
  | inf s, inf t => s || !t
  | _, _ => false

/-- The comparison `a < b`, false when an operand is NaN. -/
def lt : F32 → F32 → Bool
  | fin x, fin y => decide (x < y)
  | fin _, inf t => !t
  | inf s, fin _ => s
  | inf s, inf t => s && !t
  | _, _ => false

end F32

/-- The method `Sub` of `glm.Vec3` in `float32`. -/
def Sub (v w : Vec3 F32) : Vec3 F32 := ⟨v.X.sub w.X, v.Y.sub w.Y, v.Z.sub w.Z⟩

/-- The method `Dot` of `glm.Vec3` in `float32`. -/
def Dot (v w : Vec3 F32) : F32 := ((v.X.mul w.X).add (v.Y.mul w.Y)).add (v.Z.mul w.Z)

/-- The method `AddScaledVec` of `glm.Vec3` in `float32`. -/
def AddScaledVec (v : Vec3 F32) (f : F32) (w : Vec3 F32) : Vec3 F32 :=
  ⟨v.X.add (w.X.mul f), v.Y.add (w.Y.mul f), v.Z.add (w.Z.mul f)⟩

/-- ClosestPointPointTriangle returns the point on the triangle abc that is closest to p: the
code of `geo.ClosestPointPointTriangle` in `float32`, where a division by zero gives an
infinity or NaN. -/
def ClosestPointPointTriangle (p a b c : Vec3 F32) : Vec3 F32 :=
  let zero : F32 := F32.fin 0
  let ab := Sub b a
  let ac := Sub c a
  let ap := Sub p a
  -- Check if P in vertex region outside A
  let d1 := Dot ab ap
  let d2 := Dot ac ap
  if d1.le zero && d2.le zero then a
  else
    let bp := Sub p b
    let d3 := Dot ab bp
    let d4 := Dot ac bp
    if zero.le d3 && d4.le d3 then b
    else
      -- Check if P in edge region of AB
      let vc := ((d1.mul d4).sub (d3.mul d2))
      if vc.le zero && zero.le d1 && d3.le zero then
        AddScaledVec a (d1.div (d1.sub d3)) ab
      else
        -- Check if P in vertex region outside C
        let cp := Sub p c
        let d5 := Dot ab cp
        let d6 := Dot ac cp
        if zero.le d6 && d5.le d6 then c
        else
          let vb := ((d5.mul d2).sub (d1.mul d6))
          if vb.le zero && zero.le d2 && d6.le zero then
            AddScaledVec a (d2.div (d2.sub d6)) ac
          else
            -- Check if P in edge region of BC
            let va := ((d3.mul d6).sub (d5.mul d4))
            if va.le zero && zero.le (d4.sub d3) && zero.le (d5.sub d6) then
              let bc := Sub c b
              AddScaledVec b ((d4.sub d3).div ((d4.sub d3).add (d5.sub d6))) bc
            else
              -- P inside face region
              let denom := (F32.fin 1).div ((va.add vb).add vc)
              let v := vb.mul denom
              let w := vc.mul denom
              AddScaledVec (AddScaledVec a v ab) w ac

/-- The loop of `ExtremePointsAlongDirection` from the index `n` on, in `float32`. -/
def extremeLoop (direction : Vec3 F32) :
    List (Vec3 F32) → Nat → Int → Int → F32 → F32 → Int × Int
  | [], _, imin, imax, _, _ => (imin, imax)
  | p :: ps, n, imin, imax, minproj, maxproj =>
    let proj := Dot p direction
    let imin1 := if proj.lt minproj then (n : Int) else imin
    let minproj1 := if proj.lt minproj then proj else minproj
    let imax1 := if maxproj.lt proj then (n : Int) else imax
    let maxproj1 := if maxproj.lt proj then proj else maxproj
    extremeLoop direction ps (n + 1) imin1 imax1 minproj1 maxproj1

/-- The code of `geo.ExtremePointsAlongDirection` in `float32`. -/
def ExtremePointsAlongDirection (direction : Vec3 F32) (points : List (Vec3 F32)) :
    Int × Int :=
  extremeLoop direction points 0 (-1) (-1) (F32.fin math.MaxFloat32)
    (F32.fin (-math.MaxFloat32))

end f32

/-! ## Helper definitions for the statements -/

namespace geo

open glm

variable {K : Type} [LinearOrderedField K]

/-- The point `S(s) = p + s * (q - p)` of the segment from `p` to `q`. -/
def segPoint (p q : Vec3 K) (s : K) : Vec3 K := p.AddScaledVec s (q.Sub p)

/-- Squared distance between two points. -/
def sqDist (x y : Vec3 K) : K := (x.Sub y).Len2

/-- The point `a + v * (b - a) + w * (c - a)` of the plane of the triangle `abc`. -/
def triPoint (a b c : Vec3 ℚ) (v w : ℚ) : Vec3 ℚ :=
  (a.AddScaledVec v (b.Sub a)).AddScaledVec w (c.Sub a)

/-- The combination `α * a + β * b + γ * c` of the vertices of a triangle. -/
def baryPoint (a b c : Vec3 ℚ) (α β γ : ℚ) : Vec3 ℚ :=
  ((a.Mul α).Add (b.Mul β)).Add (c.Mul γ)

/-- The triangle `abc` is non-degenerate: `a`, `b`, `c` are not collinear. -/
def NonDegenerate (a b c : Vec3 ℚ) : Prop := (b.Sub a).Cross (c.Sub a) ≠ ⟨0, 0, 0⟩

/-- The combination `wa * a + wb * b + wc * c + wd * d` of the vertices of a
tetrahedron. -/
def tetPoint (a b c d : Vec3 ℚ) (wa wb wc wd : ℚ) : Vec3 ℚ :=
  (((a.Mul wa).Add (b.Mul wb)).Add (c.Mul wc)).Add (d.Mul wd)

/-- The tetrahedron `abcd` is non-degenerate: `d` is not in the plane of `abc`. -/
def NonDegenerateTetra (a b c d : Vec3 ℚ) : Prop :=
  (d.Sub a).Dot ((b.Sub a).Cross (c.Sub a)) ≠ 0

/-- The point `x` belongs to the solid tetrahedron `abcd`. -/
def InTetrahedron (x a b c d : Vec3 ℚ) : Prop :=
  ∃ wa wb wc wd : ℚ, 0 ≤ wa ∧ 0 ≤ wb ∧ 0 ≤ wc ∧ 0 ≤ wd ∧ wa + wb + wc + wd = 1 ∧
    x = tetPoint a b c d wa wb wc wd

/-- Signed volume of `x` over the triangle `abc`, as computed by the plane-side test. -/
def side (x a b c : Vec3 ℚ) : ℚ := (x.Sub a).Dot ((b.Sub a).Cross (c.Sub a))

/-- One face block of `ClosestPointPointTetrahedron` on the state
`(closestPoint, bestSqDist)`, given whether the face is tested and its closest point. -/
def bestStep (p : Vec3 ℚ) (st : Vec3 ℚ × ℚ) (f : Bool × Vec3 ℚ) : Vec3 ℚ × ℚ :=
  if f.1 = true ∧ sqDist f.2 p < st.2 then (f.2, sqDist f.2 p) else st

/-- The point `q` lies inside or on the box `a`: on each axis its distance to the center is
at most the half-extent. -/
def InAABB (q : Vec3 ℚ) (a : AABB) : Prop :=
  math.Abs (q.X - a.Center.X) ≤ a.HalfExtend.X ∧
  math.Abs (q.Y - a.Center.Y) ≤ a.HalfExtend.Y ∧
  math.Abs (q.Z - a.Center.Z) ≤ a.HalfExtend.Z

/-- The point `x` lies in the closed solid cylinder of axis `pq` and radius `r`: between the
two endcap planes and at distance at most `r` from the axis line (the distance is compared
after multiplication by `|q - p|²`). -/
def InCylinder (x p q : Vec3 K) (r : K) : Prop :=
  0 ≤ (x.Sub p).Dot (q.Sub p) ∧ (x.Sub p).Dot (q.Sub p) ≤ (q.Sub p).Dot (q.Sub p) ∧
  (x.Sub p).Dot (x.Sub p) * (q.Sub p).Dot (q.Sub p)
      - (x.Sub p).Dot (q.Sub p) * (x.Sub p).Dot (q.Sub p)
    ≤ r * r * (q.Sub p).Dot (q.Sub p)

/-- The coefficient `a = dd * nn - nd * nd` of `IntersectSegmentCylinder`. -/
def cylinderA (sa sb p q : Vec3 K) : K :=
  (q.Sub p).Dot (q.Sub p) * (sb.Sub sa).Dot (sb.Sub sa)
    - (sb.Sub sa).Dot (q.Sub p) * (sb.Sub sa).Dot (q.Sub p)

/-- The coefficient `b = dd * mn - nd * md` of `IntersectSegmentCylinder`. -/
def cylinderB (sa sb p q : Vec3 K) : K :=
  (q.Sub p).Dot (q.Sub p) * (sa.Sub p).Dot (sb.Sub sa)
    - (sb.Sub sa).Dot (q.Sub p) * (sa.Sub p).Dot (q.Sub p)

/-- The coefficient `c = dd * k - md * md` of `IntersectSegmentCylinder`, with
`k = m.m - r * r`. -/
def cylinderC (sa p q : Vec3 K) (r : K) : K :=
  (q.Sub p).Dot (q.Sub p) * ((sa.Sub p).Dot (sa.Sub p) - r * r)
    - (sa.Sub p).Dot (q.Sub p) * (sa.Sub p).Dot (q.Sub p)

/-- The four faces of the tetrahedron in the order of the source, each with the outcome of
its plane-side test and the closest point of the face. -/
def faceCandidates (p a b c d : Vec3 ℚ) : List (Bool × Option (Vec3 ℚ)) :=
  [(PointsOnOppositeSideOfPlane p d a b c, ClosestPointPointTriangle p a b c),
   (PointsOnOppositeSideOfPlane p b a c d, ClosestPointPointTriangle p a c d),
   (PointsOnOppositeSideOfPlane p c a d b, ClosestPointPointTriangle p a d b),
   (PointsOnOppositeSideOfPlane p a b d c, ClosestPointPointTriangle p b d c)]

end geo

namespace glm

variable {K : Type} [LinearOrderedField K]

/-- The quaternion of Mathlib with the same four components. -/
def Quat.toQuaternion (q : Quat ℚ) : Quaternion ℚ := ⟨q.W, q.V.X, q.V.Y, q.V.Z⟩

/-- The argument of the square root in the branch that `Mat4ToQuat` takes. -/
def Mat4ToQuat_sqrtArg (m : Mat4 ℚ) : ℚ :=
  let tr := m 0 + m 5 + m 10
  if tr > 0 then tr + 1
  else if m 0 > m 5 ∧ m 0 > m 10 then 1 + m 0 - m 5 - m 10
  else if m 5 > m 10 then 1 + m 5 - m 0 - m 10
  else 1 + m 10 - m 0 - m 5

/-- The unit vector of the axis with the given number: 0 is X, 1 is Y, 2 is Z. -/
def axisVec (i : Nat) : Vec3 ℚ :=
  if i = 0 then ⟨1, 0, 0⟩ else if i = 1 then ⟨0, 1, 0⟩ else ⟨0, 0, 1⟩

/-- The three axes that the name of a rotation order spells. -/
def orderAxes (order : RotationOrder) : Nat × Nat × Nat :=
  if order = XYX then (0, 1, 0)
  else if order = XYZ then (0, 1, 2)
  else if order = XZX then (0, 2, 0)
  else if order = XZY then (0, 2, 1)
  else if order = YXY then (1, 0, 1)
  else if order = YXZ then (1, 0, 2)
  else if order = YZY then (1, 2, 1)
  else if order = YZX then (1, 2, 0)
  else if order = ZYZ then (2, 1, 2)
  else if order = ZYX then (2, 1, 0)
  else if order = ZXZ then (2, 0, 2)
  else (2, 0, 1)

end glm

namespace geo

open glm

variable {K : Type} [LinearOrderedField K]

/-- The projection of the point with index `k` on the direction. -/
def projAt (direction : Vec3 ℚ) (points : List (Vec3 ℚ)) (k : Nat) : ℚ :=
  (points.getD k ⟨0, 0, 0⟩).Dot direction


/-- The index `j` that trails `i` in the outer loop of `MinimumAreaRectangle`: the last index
for the first point, the previous index otherwise. -/
def prevIndex (n i : Nat) : Nat := if i = 0 then n - 1 else i - 1

/-- The polygon edge that ends at the point with index `i`; the edge of index 0 is the closing
edge from the last point to the first. -/
def polygonEdge (points : List (Vec2 K)) (i : Nat) : Vec2 K :=
  (points.getD i ⟨0, 0⟩).Sub (points.getD (prevIndex points.length i) ⟨0, 0⟩)

/-- The vector turned by a quarter turn. -/
def perp (e : Vec2 K) : Vec2 K := ⟨-e.Y, e.X⟩

/-- The rectangle that `MinimumAreaRectangle` computes for the edge from `points[j]` to
`points[i]`. -/
def minRectCandidate (sqrt : K → K) (points : List (Vec2 K)) (i j : Nat) : MinRect K :=
  let pj := points.getD j ⟨0, 0⟩
  let e0 := ((points.getD i ⟨0, 0⟩).Sub pj).Normalize sqrt
  let e1 : Vec2 K := ⟨-e0.Y, e0.X⟩
  let x := rectExtents points pj e0 e1
  ⟨(x.max0 - x.min0) * (x.max1 - x.min1),
    pj.Add (((e0.Mul (x.min0 + x.max0)).Add (e1.Mul (x.min1 + x.max1))).Mul (1 / 2)), e0, e1⟩


/-- The running minimum, starting from zero, of a function over a list. -/
def runMin (f : Vec2 K → K) (l : List (Vec2 K)) : K :=
  l.foldl (fun (m : K) p => if f p < m then f p else m) 0

/-- The running maximum, starting from zero, of a function over a list. -/
def runMax (f : Vec2 K → K) (l : List (Vec2 K)) : K :=
  l.foldl (fun (m : K) p => if f p > m then f p else m) 0


/-- The corners of the square with the diagonals on the axes, whose edges have the length
`√2`. -/
def diamond : List (Vec2 K) := [⟨1, 0⟩, ⟨0, 1⟩, ⟨-1, 0⟩, ⟨0, -1⟩]

/-- A right triangle given as a closed polygon: the first corner is repeated at the end. -/
def closedTriangle : List (Vec2 ℚ) := [⟨0, 0⟩, ⟨3, 0⟩, ⟨0, 4⟩, ⟨0, 0⟩]

/-- The corners of the square of side `2^64`, whose area `2^128` exceeds `MaxFloat32`. -/
def hugeSquare : List (Vec2 ℚ) :=
  [⟨0, 0⟩, ⟨18446744073709551616, 0⟩, ⟨18446744073709551616, 18446744073709551616⟩,
    ⟨0, 18446744073709551616⟩]

end geo

namespace geo

open glm

variable {K : Type} [LinearOrderedField K]

/-- The quotient `r` that `SymSchur2` computes for the pivot `(p, q)`. -/
def schurR (a : Mat3 K) (p q : Nat) : K :=
  (a.get (3 * q + q) - a.get (3 * p + p)) / (2 * a.get (3 * q + p))

/-- The tangent `t` that `SymSchur2` computes for the pivot `(p, q)`. -/
def schurT (sqrt : K → K) (a : Mat3 K) (p q : Nat) : K :=
  if schurR a p q ≥ 0 then 1 / (schurR a p q + sqrt (1 + schurR a p q * schurR a p q))
  else -1 / (-schurR a p q + sqrt (1 + schurR a p q * schurR a p q))

/-- The trace of a 3x3 matrix. -/
def trace3 (m : Mat3 K) : K := m 0 + m 4 + m 8

/-- The symmetric matrix with the rows `(2, 1, 0)`, `(1, 2, 0)`, `(0, 0, 3)`, whose
eigenvalues are `1`, `3` and `3`; the rotation that diagonalises it has the sine and the
cosine `1/√2`. -/
def schurExample : Mat3 K := ![2, 1, 0, 1, 2, 0, 0, 0, 3]


/-- The invariant of the sweeps of `Jacobi` for the input matrix `A0`: `v` is orthogonal, `a` is
symmetric and `v a vᵀ = A0`. -/
def JacobiInv (A0 a v : Mat3 K) : Prop :=
  v.Transposed.Mul3 v = Mat3.Ident ∧ v.Mul3 v.Transposed = Mat3.Ident ∧
  a.Transposed = a ∧ (v.Mul3 a).Mul3 v.Transposed = A0

end geo

namespace tornago

open glm

variable {K : Type} [LinearOrderedField K]

/-- The expected values of a row of `TestRay_FromTo` agree with the endpoints of the row up to
`ε`: the origin and the destination are the endpoints, the expected length squares to the
squared distance of the endpoints, and, unless the expected length is zero, the expected
direction times the expected length is the difference of the endpoints. -/
def RayTest.consistent (ε : ℚ) (t : RayTest) : Prop :=
  t.Origin = t.From ∧ t.Destination = t.To ∧
  math.Abs (t.Len * t.Len - (t.To.Sub t.From).Len2) ≤ ε ∧
  (t.Len ≠ 0 →
    math.Abs (t.Direction.X * t.Len - (t.To.Sub t.From).X) ≤ ε ∧
    math.Abs (t.Direction.Y * t.Len - (t.To.Sub t.From).Y) ≤ ε ∧
    math.Abs (t.Direction.Z * t.Len - (t.To.Sub t.From).Z) ≤ ε)

end tornago


/-! ## Arithmetic helpers -/

namespace math

variable {K : Type} [LinearOrderedField K]

theorem fdiv_of_ne (x : K) {y : K} (h : y ≠ 0) : fdiv x y = some (x / y) := by
  simp [fdiv, h]

theorem Clamp_unit_nonneg (x : K) : 0 ≤ Clamp x 0 1 := by
  unfold Clamp
  split_ifs <;> linarith

theorem Clamp_unit_le_one (x : K) : Clamp x 0 1 ≤ 1 := by
  unfold Clamp
  split_ifs <;> linarith

/-- Clamping the unconstrained minimiser `n / k` of `k s² - 2 n s` to `[0, 1]` gives the
constrained one: the derivative points inwards. -/
theorem Clamp_unit_opt {k : K} (n : K) (hk : 0 < k) (s : K) (hs0 : 0 ≤ s) (hs1 : s ≤ 1) :
    0 ≤ (k * Clamp (n / k) 0 1 - n) * (s - Clamp (n / k) 0 1) := by
  unfold Clamp
  split_ifs with h1 h2
  · have hn : n < 0 := by
      rcases lt_or_le n 0 with h | h
      · exact h
      · exact absurd (div_nonneg h hk.le) (not_le.mpr h1)
    nlinarith
  · have hn : k < n := by
      have := (lt_div_iff₀ hk).mp h2
      linarith
    nlinarith
  · have : k * (n / k) = n := by field_simp
    rw [this]; simp

/-- The square root of Mathlib on the rational numbers is exact on the square of a rational
number that is not negative. -/
theorem Sqrt_mul_self {r : ℚ} (h : 0 ≤ r) : Rat.sqrt (r * r) = r := by
  rw [Rat.sqrt_eq, abs_of_nonneg h]

theorem Abs_nonneg (x : K) : 0 ≤ Abs x := by
  unfold Abs
  split_ifs <;> linarith

theorem Abs_eq_abs (x : K) : Abs x = |x| := by
  unfold Abs
  split_ifs with h
  · exact (abs_of_neg h).symm
  · exact (abs_of_nonneg (not_lt.mp h)).symm

/-- The square root of the real numbers is exact. -/
theorem IsSqrt_real : IsSqrt Real.sqrt := fun x hx =>
  ⟨Real.sqrt_nonneg x, Real.mul_self_sqrt hx⟩

theorem IsSqrt.nonneg {sqrt : K → K} (h : IsSqrt sqrt) {x : K} (hx : 0 ≤ x) : 0 ≤ sqrt x :=
  (h x hx).1

theorem IsSqrt.mul_self {sqrt : K → K} (h : IsSqrt sqrt) {x : K} (hx : 0 ≤ x) :
    sqrt x * sqrt x = x :=
  (h x hx).2

/-- An exact square root is determined by its square. -/
theorem IsSqrt.eq_of_sq {sqrt : K → K} (h : IsSqrt sqrt) {x r : K} (hr : 0 ≤ r)
    (hx : r * r = x) : sqrt x = r := by
  have hx0 : 0 ≤ x := by rw [← hx]; exact mul_self_nonneg r
  have h1 := h.nonneg hx0
  have h2 := h.mul_self hx0
  exact (mul_self_inj h1 hr).mp (h2.trans hx.symm)

theorem IsSqrt.sqrt_sq {sqrt : K → K} (h : IsSqrt sqrt) {r : K} (hr : 0 ≤ r) :
    sqrt (r * r) = r :=
  h.eq_of_sq hr rfl

theorem IsSqrt.zero {sqrt : K → K} (h : IsSqrt sqrt) : sqrt 0 = 0 :=
  h.eq_of_sq le_rfl (by ring)

theorem IsSqrt.pos {sqrt : K → K} (h : IsSqrt sqrt) {x : K} (hx : 0 < x) : 0 < sqrt x := by
  rcases (h.nonneg hx.le).lt_or_eq with h1 | h1
  · exact h1
  · have h2 := h.mul_self hx.le
    rw [← h1] at h2
    linarith

end math

namespace geo

open glm

theorem len2_nonneg {K : Type} [LinearOrderedField K] (v : Vec3 K) : 0 ≤ v.Len2 := by
  unfold Vec3.Len2
  linarith [mul_self_nonneg v.X, mul_self_nonneg v.Y, mul_self_nonneg v.Z]

theorem dot_self_nonneg {K : Type} [LinearOrderedField K]
    (v : Vec3 K) : 0 ≤ v.Dot v := len2_nonneg v

theorem dot_self_eq_zero {K : Type} [LinearOrderedField K]
    {v : Vec3 K} (h : v.Dot v = 0) : v = ⟨0, 0, 0⟩ := by
  unfold Vec3.Dot at h
  have h1 := mul_self_nonneg v.X
  have h2 := mul_self_nonneg v.Y
  have h3 := mul_self_nonneg v.Z
  have hx : v.X = 0 := mul_self_eq_zero.mp (by linarith)
  have hy : v.Y = 0 := mul_self_eq_zero.mp (by linarith)
  have hz : v.Z = 0 := mul_self_eq_zero.mp (by linarith)
  ext <;> assumption

/-- Moving along a segment: the change of the squared distance to a point `c`. -/
theorem sqDist_segPoint_sub (c a b : Vec3 ℚ) (s t : ℚ) :
    sqDist c (segPoint a b s) - sqDist c (segPoint a b t) =
      (s - t) ^ 2 * (b.Sub a).Dot (b.Sub a)
        - 2 * (s - t) * ((c.Sub a).Dot (b.Sub a) - t * (b.Sub a).Dot (b.Sub a)) := by
  simp only [sqDist, segPoint, Vec3.Sub, Vec3.Len2, Vec3.AddScaledVec, Vec3.Dot]
  ring

theorem segPoint_zero (a b : Vec3 ℚ) : segPoint a b 0 = a := by
  ext <;> simp [segPoint, Vec3.AddScaledVec]

theorem segPoint_one (a b : Vec3 ℚ) : segPoint a b 1 = b := by
  ext <;> simp [segPoint, Vec3.AddScaledVec, Vec3.Sub]

/-! ## ClosestPointSegmentPoint -/

/-- C10: in exact arithmetic `ClosestPointSegmentPoint a b c` returns a result for every
input (no division by zero is reached): a parameter `t` with `0 ≤ t ≤ 1` and the point
`a + t * (b - a)`, to which no point of the segment `ab` is closer to `c`; when `a = b` it
returns `(0, a)`. -/
theorem ClosestPointSegmentPoint_closest (a b c : Vec3 ℚ) :
    ∃ t pt, ClosestPointSegmentPoint a b c = some (t, pt) ∧ 0 ≤ t ∧ t ≤ 1 ∧
      pt = a.AddScaledVec t (b.Sub a) ∧
      (∀ s, 0 ≤ s → s ≤ 1 → sqDist c pt ≤ sqDist c (a.AddScaledVec s (b.Sub a))) ∧
      (a = b → t = 0 ∧ pt = a) := by
  have hD := dot_self_nonneg (b.Sub a)
  unfold ClosestPointSegmentPoint
  simp only []
  split_ifs with h1 h2
  · refine ⟨0, a, rfl, le_refl _, zero_le_one, (segPoint_zero a b).symm, ?_, fun _ => ⟨rfl, rfl⟩⟩
    intro s hs0 hs1
    have key := sqDist_segPoint_sub c a b s 0
    simp only [segPoint_zero] at key
    have : sqDist c (a.AddScaledVec s (b.Sub a)) = sqDist c (segPoint a b s) := rfl
    rw [this]
    linarith [mul_nonneg hs0 (neg_nonneg.mpr h1), mul_nonneg (sq_nonneg s) hD]
  · have hab : a = b → False := by
      intro hab
      apply h1
      subst hab
      simp [Vec3.Sub, Vec3.Dot]
    refine ⟨1, b, rfl, zero_le_one, le_refl _, (segPoint_one a b).symm, ?_,
      fun h => (hab h).elim⟩
    intro s hs0 hs1
    have key := sqDist_segPoint_sub c a b s 1
    simp only [segPoint_one] at key
    have : sqDist c (a.AddScaledVec s (b.Sub a)) = sqDist c (segPoint a b s) := rfl
    rw [this]
    linarith [mul_nonneg (sub_nonneg.mpr hs1) (sub_nonneg.mpr h2),
      mul_nonneg (sq_nonneg (s - 1)) hD]
  · have hT : 0 < (c.Sub a).Dot (b.Sub a) := not_le.mp h1
    have hlt : (c.Sub a).Dot (b.Sub a) < (b.Sub a).Dot (b.Sub a) := not_le.mp h2
    have hDpos : 0 < (b.Sub a).Dot (b.Sub a) := lt_trans hT hlt
    have hab : a = b → False := by
      intro hab
      subst hab
      simp [Vec3.Sub, Vec3.Dot] at hDpos
    rw [math.fdiv_of_ne _ hDpos.ne.symm]
    refine ⟨_, _, rfl, (div_pos hT hDpos).le, ((div_lt_one hDpos).mpr hlt).le, rfl, ?_,
      fun h => (hab h).elim⟩
    intro s hs0 hs1
    have key := sqDist_segPoint_sub c a b s ((c.Sub a).Dot (b.Sub a) / (b.Sub a).Dot (b.Sub a))
    have hcancel : (c.Sub a).Dot (b.Sub a) / (b.Sub a).Dot (b.Sub a) * (b.Sub a).Dot (b.Sub a)
        = (c.Sub a).Dot (b.Sub a) := div_mul_cancel₀ _ hDpos.ne.symm
    rw [hcancel, sub_self, mul_zero, sub_zero] at key
    have h3 := mul_nonneg
      (sq_nonneg (s - (c.Sub a).Dot (b.Sub a) / (b.Sub a).Dot (b.Sub a))) hD
    simp only [segPoint] at key
    linarith

/-! ## ClosestPointSegmentSegment -/

theorem epsilon_pos : 0 < epsilon := by
  unfold epsilon
  norm_num

/-- Lagrange identity: the Gram determinant of two vectors is the squared length of their
cross product. -/
theorem gram_eq_cross {K : Type} [LinearOrderedField K] (v w : Vec3 K) :
    v.Dot v * w.Dot w - v.Dot w * v.Dot w = (v.Cross w).Dot (v.Cross w) := by
  simp only [Vec3.Dot, Vec3.Cross]
  ring

theorem gram_nonneg {K : Type} [LinearOrderedField K]
    (v w : Vec3 K) : 0 ≤ v.Dot v * w.Dot w - v.Dot w * v.Dot w := by
  rw [gram_eq_cross]
  exact dot_self_nonneg _

/-- Binet-Cauchy identity for `(v × w) · (w × r)`. -/
theorem binet_cauchy (v w r : Vec3 ℚ) :
    v.Dot w * w.Dot r - v.Dot r * w.Dot w = (v.Cross w).Dot (w.Cross r) := by
  simp only [Vec3.Dot, Vec3.Cross]
  ring

/-- For parallel directions the numerator of the line-line parameter vanishes. -/
theorem parallel_numerator (v w r : Vec3 ℚ)
    (h : v.Dot v * w.Dot w - v.Dot w * v.Dot w = 0) :
    v.Dot w * w.Dot r - v.Dot r * w.Dot w = 0 := by
  rw [gram_eq_cross] at h
  have hz := dot_self_eq_zero h
  rw [binet_cauchy, hz]
  simp [Vec3.Dot]

/-- The parameters computed for any pair of segments that are not both degenerate exist and
lie in `[0, 1]`. -/
theorem segSegParams_range (a e f : ℚ) (d0 d1 r : Vec3 ℚ) (h : ¬ (a ≤ epsilon ∧ e ≤ epsilon)) :
    ∃ s t, segSegParams a e f d0 d1 r = some (s, t) ∧ 0 ≤ s ∧ s ≤ 1 ∧ 0 ≤ t ∧ t ≤ 1 := by
  have heps := epsilon_pos
  unfold segSegParams
  by_cases ha : a ≤ epsilon
  · have he : e ≠ 0 := by
      intro he0
      apply h
      exact ⟨ha, by rw [he0]; exact heps.le⟩
    simp only [ha, if_true, math.fdiv_of_ne _ he, Option.some_bind]
    exact ⟨_, _, rfl, le_refl _, zero_le_one, math.Clamp_unit_nonneg _,
      math.Clamp_unit_le_one _⟩
  · have ha0 : a ≠ 0 := by
      intro ha0
      apply ha
      rw [ha0]; exact heps.le
    simp only [ha, if_false]
    by_cases he : e ≤ epsilon
    · simp only [he, if_true, math.fdiv_of_ne _ ha0, Option.some_bind]
      exact ⟨_, _, rfl, math.Clamp_unit_nonneg _, math.Clamp_unit_le_one _, le_refl _,
        zero_le_one⟩
    · have he0 : e ≠ 0 := by
        intro he0
        apply he
        rw [he0]; exact heps.le
      simp only [he, if_false]
      obtain ⟨s1, hs1, hs10, hs11⟩ : ∃ s1,
          (if a * e - d0.Dot d1 * d0.Dot d1 ≠ 0 then
            (math.fdiv (d0.Dot d1 * f - d0.Dot r * e) (a * e - d0.Dot d1 * d0.Dot d1)).bind
              fun x => some (math.Clamp x 0 1)
          else some 0) = some s1 ∧ 0 ≤ s1 ∧ s1 ≤ 1 := by
        split_ifs with hden
        · rw [math.fdiv_of_ne _ hden]
          exact ⟨_, rfl, math.Clamp_unit_nonneg _, math.Clamp_unit_le_one _⟩
        · exact ⟨0, rfl, le_refl _, zero_le_one⟩
      rw [hs1]
      simp only [Option.some_bind, math.fdiv_of_ne _ he0, math.fdiv_of_ne _ ha0]
      split_ifs with ht0 ht1
      · exact ⟨_, _, rfl, math.Clamp_unit_nonneg _, math.Clamp_unit_le_one _, le_refl _,
          zero_le_one⟩
      · exact ⟨_, _, rfl, math.Clamp_unit_nonneg _, math.Clamp_unit_le_one _, zero_le_one,
          le_refl _⟩
      · exact ⟨_, _, rfl, hs10, hs11, not_lt.mp ht0, not_lt.mp ht1⟩

/-- C5: in exact arithmetic `ClosestPointSegmentSegment` returns a result for every four
points (no branch divides by zero), with `0 ≤ s ≤ 1`, `0 ≤ t ≤ 1`, `c0 = p0 + s*(q0-p0)`,
`c1 = p1 + t*(q1-p1)` and `u = |c0 - c1|²`; when both squared lengths are at most `0.0001`
the result is `s = t = 0`, `c0 = p0`, `c1 = p1`, `u = |p0 - p1|²`. -/
theorem ClosestPointSegmentSegment_wellformed (p0 q0 p1 q1 : Vec3 ℚ) :
    ∃ res, ClosestPointSegmentSegment p0 q0 p1 q1 = some res ∧
      0 ≤ res.s ∧ res.s ≤ 1 ∧ 0 ≤ res.t ∧ res.t ≤ 1 ∧
      res.c0 = p0.AddScaledVec res.s (q0.Sub p0) ∧
      res.c1 = p1.AddScaledVec res.t (q1.Sub p1) ∧
      res.u = (res.c0.Sub res.c1).Len2 ∧
      ((q0.Sub p0).Dot (q0.Sub p0) ≤ epsilon ∧ (q1.Sub p1).Dot (q1.Sub p1) ≤ epsilon →
        res = ⟨0, 0, (p0.Sub p1).Len2, p0, p1⟩) := by
  unfold ClosestPointSegmentSegment
  simp only []
  split_ifs with h
  · refine ⟨_, rfl, le_refl _, zero_le_one, le_refl _, zero_le_one, ?_, ?_, rfl, fun _ => rfl⟩
    · exact (segPoint_zero p0 q0).symm
    · exact (segPoint_zero p1 q1).symm
  · obtain ⟨s, t, hst, hs0, hs1, ht0, ht1⟩ := segSegParams_range
      ((q0.Sub p0).Dot (q0.Sub p0)) ((q1.Sub p1).Dot (q1.Sub p1))
      ((q1.Sub p1).Dot (p0.Sub p1)) (q0.Sub p0) (q1.Sub p1) (p0.Sub p1) h
    rw [hst]
    exact ⟨_, rfl, hs0, hs1, ht0, ht1, rfl, rfl, rfl, fun h2 => (h h2).elim⟩

/-- First-order optimality of the parameters computed in the general (non-degenerate)
case, for the quadratic `a s² - 2 b s t + e t² + 2 c s - 2 f t`. -/
theorem segSegParams_opt (a e f : ℚ) (d0 d1 r : Vec3 ℚ) (ha : epsilon < a) (he : epsilon < e)
    (hD : 0 ≤ a * e - d0.Dot d1 * d0.Dot d1)
    (hK : a * e - d0.Dot d1 * d0.Dot d1 = 0 → d0.Dot d1 * f - d0.Dot r * e = 0) :
    ∃ s t, segSegParams a e f d0 d1 r = some (s, t) ∧ 0 ≤ s ∧ s ≤ 1 ∧ 0 ≤ t ∧ t ≤ 1 ∧
      ∀ s2 t2, 0 ≤ s2 → s2 ≤ 1 → 0 ≤ t2 → t2 ≤ 1 →
        0 ≤ (a * s - d0.Dot d1 * t + d0.Dot r) * (s2 - s)
          + (e * t - d0.Dot d1 * s - f) * (t2 - t) := by
  have heps := epsilon_pos
  have ha0 : 0 < a := lt_trans heps ha
  have he0 : 0 < e := lt_trans heps he
  unfold segSegParams
  simp only [not_le.mpr ha, not_le.mpr he, if_false]
  generalize d0.Dot d1 = b at *
  generalize d0.Dot r = c at *
  obtain ⟨s1, hs1, hs10, hs11, hP⟩ : ∃ s1,
      (if a * e - b * b ≠ 0 then
        (math.fdiv (b * f - c * e) (a * e - b * b)).bind fun x => some (math.Clamp x 0 1)
      else some 0) = some s1 ∧ 0 ≤ s1 ∧ s1 ≤ 1 ∧
      ∀ s2, 0 ≤ s2 → s2 ≤ 1 → 0 ≤ ((a * e - b * b) * s1 - (b * f - c * e)) * (s2 - s1) := by
    split_ifs with hden
    · rw [math.fdiv_of_ne _ hden]
      have hDpos : 0 < a * e - b * b := lt_of_le_of_ne hD (Ne.symm hden)
      exact ⟨_, rfl, math.Clamp_unit_nonneg _, math.Clamp_unit_le_one _,
        fun s2 h0 h1 => math.Clamp_unit_opt _ hDpos s2 h0 h1⟩
    · have hden0 : a * e - b * b = 0 := not_not.mp hden
      refine ⟨0, rfl, le_refl _, zero_le_one, fun s2 _ _ => ?_⟩
      rw [hK hden0, hden0]
      simp
  rw [hs1]
  simp only [Option.some_bind, math.fdiv_of_ne _ he0.ne.symm, math.fdiv_of_ne _ ha0.ne.symm]
  split_ifs with ht0 ht1
  · -- t < 0: clamp t to 0 and recompute s
    have hneg : b * s1 + f < 0 := by
      rcases lt_or_le (b * s1 + f) 0 with h | h
      · exact h
      · exact absurd (div_nonneg h he0.le) (not_le.mpr ht0)
    have hopt := fun s2 h0 h1 => math.Clamp_unit_opt (-c) ha0 s2 h0 h1
    have hr0 := math.Clamp_unit_nonneg (-c / a)
    have hr1 := math.Clamp_unit_le_one (-c / a)
    generalize math.Clamp (-c / a) 0 1 = s at *
    have hgt : b * s + f ≤ 0 := by
      by_contra hcon
      have hpos : 0 < b * s + f := not_le.mp hcon
      have A1 := hP s hr0 hr1
      have A2 := hopt s1 hs10 hs11
      have hdiff : 0 < b * (s - s1) := by linarith
      linarith [mul_nonneg he0.le A2, mul_nonneg hD (sq_nonneg (s1 - s)), mul_pos hpos hdiff]
    refine ⟨_, _, rfl, hr0, hr1, le_refl _, zero_le_one, ?_⟩
    intro s2 t2 h0 h1 h2 h3
    have B1 := hopt s2 h0 h1
    have B2 : 0 ≤ (-(b * s + f)) * t2 := mul_nonneg (by linarith) h2
    linarith
  · -- t > 1: clamp t to 1 and recompute s
    have hbig : e < b * s1 + f := by
      have := (lt_div_iff₀ he0).mp ht1
      linarith
    have hopt := fun s2 h0 h1 => math.Clamp_unit_opt (b - c) ha0 s2 h0 h1
    have hr0 := math.Clamp_unit_nonneg ((b - c) / a)
    have hr1 := math.Clamp_unit_le_one ((b - c) / a)
    generalize math.Clamp ((b - c) / a) 0 1 = s at *
    have hgt : e ≤ b * s + f := by
      by_contra hcon
      have hpos : b * s + f - e < 0 := by linarith [not_le.mp hcon]
      have A1 := hP s hr0 hr1
      have A2 := hopt s1 hs10 hs11
      have hdiff : 0 < b * (s1 - s) := by linarith
      linarith [mul_nonneg he0.le A2, mul_nonneg hD (sq_nonneg (s1 - s)),
        mul_pos (neg_pos.mpr hpos) hdiff]
    refine ⟨_, _, rfl, hr0, hr1, zero_le_one, le_refl _, ?_⟩
    intro s2 t2 h0 h1 h2 h3
    have B1 := hopt s2 h0 h1
    have B2 : 0 ≤ (b * s + f - e) * (1 - t2) := mul_nonneg (by linarith) (by linarith)
    linarith
  · -- 0 ≤ t ≤ 1
    refine ⟨_, _, rfl, hs10, hs11, not_lt.mp ht0, not_lt.mp ht1, ?_⟩
    intro s2 t2 h0 h1 h2 h3
    have hc : e * ((b * s1 + f) / e) = b * s1 + f := by field_simp
    have hc2 : (a * s1 - b * ((b * s1 + f) / e) + c) * e
        = (a * e - b * b) * s1 - (b * f - c * e) := by
      field_simp
      ring
    have B1 := hP s2 h0 h1
    rw [hc, sub_sub, sub_self, zero_mul, add_zero]
    rw [← hc2] at B1
    have B3 : (a * s1 - b * ((b * s1 + f) / e) + c) * e * (s2 - s1)
        = ((a * s1 - b * ((b * s1 + f) / e) + c) * (s2 - s1)) * e := by ring
    rw [B3] at B1
    exact nonneg_of_mul_nonneg_left B1 he0

/-- Expansion of the squared distance between two segment points around a pair of
parameters: a first-order term plus the squared length of the displacement. -/
theorem sqDist_segPoints_sub (p0 q0 p1 q1 : Vec3 ℚ) (s t s2 t2 : ℚ) :
    sqDist (segPoint p0 q0 s2) (segPoint p1 q1 t2) - sqDist (segPoint p0 q0 s) (segPoint p1 q1 t)
      = 2 * (((q0.Sub p0).Dot (q0.Sub p0) * s - (q0.Sub p0).Dot (q1.Sub p1) * t
              + (q0.Sub p0).Dot (p0.Sub p1)) * (s2 - s)
            + ((q1.Sub p1).Dot (q1.Sub p1) * t - (q0.Sub p0).Dot (q1.Sub p1) * s
              - (q1.Sub p1).Dot (p0.Sub p1)) * (t2 - t))
        + (((q0.Sub p0).Mul (s2 - s)).Sub ((q1.Sub p1).Mul (t2 - t))).Len2 := by
  simp only [sqDist, segPoint, Vec3.Sub, Vec3.Len2, Vec3.AddScaledVec, Vec3.Dot, Vec3.Mul]
  ring

/-- C1: in exact arithmetic, for two segments whose squared lengths both exceed `0.0001`,
`ClosestPointSegmentSegment` returns parameters `s`, `t` in `[0, 1]` and the squared
distance `u` of the points `S1(s)`, `S2(t)`, and `u` is the minimum of `|S1(s2) - S2(t2)|²`
over all `s2`, `t2` in `[0, 1]`. For the segments `[(-10,0,0),(10,0,0)]` and
`[(0,-10,0),(0,10,0)]` it returns `u = 0`, and with the first segment at `z = 5`, `u = 25`. -/
theorem ClosestPointSegmentSegment_minimum :
    (∀ p0 q0 p1 q1 : Vec3 ℚ, epsilon < (q0.Sub p0).Len2 → epsilon < (q1.Sub p1).Len2 →
      ∃ res, ClosestPointSegmentSegment p0 q0 p1 q1 = some res ∧
        0 ≤ res.s ∧ res.s ≤ 1 ∧ 0 ≤ res.t ∧ res.t ≤ 1 ∧
        res.c0 = segPoint p0 q0 res.s ∧ res.c1 = segPoint p1 q1 res.t ∧
        res.u = sqDist res.c0 res.c1 ∧
        ∀ s2 t2, 0 ≤ s2 → s2 ≤ 1 → 0 ≤ t2 → t2 ≤ 1 →
          res.u ≤ sqDist (segPoint p0 q0 s2) (segPoint p1 q1 t2)) ∧
    (∃ res, ClosestPointSegmentSegment ⟨-10, 0, 0⟩ ⟨10, 0, 0⟩ ⟨0, -10, 0⟩ ⟨0, 10, 0⟩ = some res ∧
      res.u = 0) ∧
    (∃ res, ClosestPointSegmentSegment ⟨-10, 0, 5⟩ ⟨10, 0, 5⟩ ⟨0, -10, 0⟩ ⟨0, 10, 0⟩ = some res ∧
      res.u = 25) := by
  refine ⟨?_, ?_, ?_⟩
  · intro p0 q0 p1 q1 h0 h1
    have ha : epsilon < (q0.Sub p0).Dot (q0.Sub p0) := h0
    have he : epsilon < (q1.Sub p1).Dot (q1.Sub p1) := h1
    obtain ⟨s, t, hst, hs0, hs1, ht0, ht1, hopt⟩ := segSegParams_opt
      ((q0.Sub p0).Dot (q0.Sub p0)) ((q1.Sub p1).Dot (q1.Sub p1))
      ((q1.Sub p1).Dot (p0.Sub p1)) (q0.Sub p0) (q1.Sub p1) (p0.Sub p1) ha he
      (gram_nonneg _ _) (parallel_numerator _ _ _)
    unfold ClosestPointSegmentSegment
    simp only []
    rw [if_neg (fun h => absurd h.1 (not_le.mpr ha)), hst]
    refine ⟨_, rfl, hs0, hs1, ht0, ht1, rfl, rfl, rfl, ?_⟩
    intro s2 t2 h20 h21 h22 h23
    have key := sqDist_segPoints_sub p0 q0 p1 q1 s t s2 t2
    have hG := hopt s2 t2 h20 h21 h22 h23
    have hL := len2_nonneg (((q0.Sub p0).Mul (s2 - s)).Sub ((q1.Sub p1).Mul (t2 - t)))
    show sqDist (segPoint p0 q0 s) (segPoint p1 q1 t) ≤ _
    linarith
  · refine ⟨⟨1 / 2, 1 / 2, 0, ⟨0, 0, 0⟩, ⟨0, 0, 0⟩⟩, ?_, rfl⟩
    norm_num [ClosestPointSegmentSegment, segSegParams, epsilon, math.fdiv, math.Clamp,
      Vec3.Sub, Vec3.Dot, Vec3.Len2, Vec3.AddScaledVec]
  · refine ⟨⟨1 / 2, 1 / 2, 25, ⟨0, 0, 5⟩, ⟨0, 0, 0⟩⟩, ?_, rfl⟩
    norm_num [ClosestPointSegmentSegment, segSegParams, epsilon, math.fdiv, math.Clamp,
      Vec3.Sub, Vec3.Dot, Vec3.Len2, Vec3.AddScaledVec]

/-- Witness for C1 at the crossing segments of the capsule test. -/
theorem ClosestPointSegmentSegment_minimum_witness :
    epsilon < ((⟨10, 0, 0⟩ : Vec3 ℚ).Sub ⟨-10, 0, 0⟩).Len2 ∧
    epsilon < ((⟨0, 10, 0⟩ : Vec3 ℚ).Sub ⟨0, -10, 0⟩).Len2 ∧
    ∃ res, ClosestPointSegmentSegment ⟨-10, 0, 0⟩ ⟨10, 0, 0⟩ ⟨0, -10, 0⟩ ⟨0, 10, 0⟩ = some res ∧
      0 ≤ res.s ∧ res.s ≤ 1 ∧ 0 ≤ res.t ∧ res.t ≤ 1 ∧
      res.c0 = segPoint ⟨-10, 0, 0⟩ ⟨10, 0, 0⟩ res.s ∧
      res.c1 = segPoint ⟨0, -10, 0⟩ ⟨0, 10, 0⟩ res.t ∧
      res.u = sqDist res.c0 res.c1 ∧
      ∀ s2 t2, 0 ≤ s2 → s2 ≤ 1 → 0 ≤ t2 → t2 ≤ 1 →
        res.u ≤ sqDist (segPoint ⟨-10, 0, 0⟩ ⟨10, 0, 0⟩ s2) (segPoint ⟨0, -10, 0⟩ ⟨0, 10, 0⟩ t2) :=
  ⟨by norm_num [epsilon, Vec3.Sub, Vec3.Len2], by norm_num [epsilon, Vec3.Sub, Vec3.Len2],
    ClosestPointSegmentSegment_minimum.1 ⟨-10, 0, 0⟩ ⟨10, 0, 0⟩ ⟨0, -10, 0⟩ ⟨0, 10, 0⟩
      (by norm_num [epsilon, Vec3.Sub, Vec3.Len2]) (by norm_num [epsilon, Vec3.Sub, Vec3.Len2])⟩

/-! ## ClosestPointPointTriangle -/

/-- A point beyond the corner `a` on the line of the first edge, with negative weight on
the second neighbour, is caught by the second edge test or the far vertex test. -/
theorem corner_excluded (A B C d1 d2 : ℚ) (hD : 0 < A * C - B * B) (hA : 0 < A)
    (hvc : A * d2 - B * d1 < 0) (h1 : d1 < 0) (h2 : 0 < d2)
    (n5 : ¬ (C * d1 - B * d2 ≤ 0 ∧ d2 ≥ 0 ∧ d2 - C ≤ 0))
    (n4 : ¬ (d2 - C ≥ 0 ∧ d1 - B ≤ d2 - C)) : False := by
  have hB : B < 0 := by
    by_contra h
    push_neg at h
    linarith [mul_pos hA h2, mul_nonneg h (neg_nonneg.mpr h1.le)]
  have hvb : C * d1 - B * d2 < 0 := by
    have : A * (C * d1 - B * d2) < 0 := by
      linarith [mul_pos (neg_pos.mpr hB) (neg_pos.mpr hvc), mul_pos hD (neg_pos.mpr h1)]
    by_contra h
    push_neg at h
    linarith [mul_nonneg hA.le h]
  have h6 : 0 < d2 - C := by
    by_contra h
    push_neg at h
    exact n5 ⟨hvb.le, h2.le, h⟩
  have h5 : d2 - C < d1 - B := by
    by_contra h
    push_neg at h
    exact n4 ⟨h6.le, h⟩
  linarith [mul_pos (neg_pos.mpr hB) (sub_pos.mpr h5),
    mul_pos (sub_pos.mpr (show B < A by linarith)) h6]

/-- When none of the six vertex and edge tests fires on a non-degenerate triangle, the
three unnormalised barycentric weights of the projection are non-negative. -/
theorem face_signs (A B C d1 d2 : ℚ) (hD : 0 < A * C - B * B) (hA : 0 < A) (hC : 0 < C)
    (n1 : ¬ (d1 ≤ 0 ∧ d2 ≤ 0))
    (n2 : ¬ (d1 - A ≥ 0 ∧ d2 - B ≤ d1 - A))
    (n3 : ¬ (d1 * (d2 - B) - (d1 - A) * d2 ≤ 0 ∧ d1 ≥ 0 ∧ d1 - A ≤ 0))
    (n4 : ¬ (d2 - C ≥ 0 ∧ d1 - B ≤ d2 - C))
    (n5 : ¬ ((d1 - B) * d2 - d1 * (d2 - C) ≤ 0 ∧ d2 ≥ 0 ∧ d2 - C ≤ 0))
    (n6 : ¬ ((d1 - A) * (d2 - C) - (d1 - B) * (d2 - B) ≤ 0 ∧ d2 - B - (d1 - A) ≥ 0 ∧
      d1 - B - (d2 - C) ≥ 0)) :
    0 ≤ (d1 - A) * (d2 - C) - (d1 - B) * (d2 - B) ∧ 0 ≤ (d1 - B) * d2 - d1 * (d2 - C) ∧
      0 ≤ d1 * (d2 - B) - (d1 - A) * d2 := by
  have hE : 0 < A - 2 * B + C := by nlinarith [sq_nonneg (A - B)]
  refine ⟨?_, ?_, ?_⟩
  · -- weight of a
    by_contra hneg
    have hva : (d1 - A) * (d2 - C) - (d1 - B) * (d2 - B) < 0 := not_le.mp hneg
    by_cases hc : d2 - B - (d1 - A) ≥ 0
    · have h56 : d1 - B - (d2 - C) < 0 := by
        by_contra h
        exact n6 ⟨hva.le, hc, not_lt.mp h⟩
      have h6 : d2 - C < 0 := by
        by_contra h
        exact n4 ⟨not_lt.mp h, by linarith⟩
      exact corner_excluded (A - 2 * B + C) (C - B) C (d1 - B - (d2 - C)) (-(d2 - C))
        (by linarith) hE (by linarith) h56 (by linarith)
        (fun h => n5 ⟨by linarith [h.1], by linarith [h.2.2], by linarith [h.2.1]⟩)
        (fun h => n1 ⟨by linarith [h.2], by linarith [h.1]⟩)
    · have h43 : d2 - B - (d1 - A) < 0 := not_le.mp hc
      have h3 : d1 - A < 0 := by
        by_contra h
        exact n2 ⟨not_lt.mp h, by linarith⟩
      exact corner_excluded (A - 2 * B + C) (A - B) A (d2 - B - (d1 - A)) (-(d1 - A))
        (by linarith) hE (by linarith) h43 (by linarith)
        (fun h => n3 ⟨by linarith [h.1], by linarith [h.2.2], by linarith [h.2.1]⟩)
        (fun h => n1 ⟨by linarith [h.1], by linarith [h.2]⟩)
  · -- weight of b
    by_contra hneg
    have hvb : (d1 - B) * d2 - d1 * (d2 - C) < 0 := not_le.mp hneg
    by_cases hc : d2 ≥ 0
    · have h6 : 0 < d2 - C := by
        by_contra h
        exact n5 ⟨hvb.le, hc, not_lt.mp h⟩
      have h56 : d2 - C < d1 - B := by
        by_contra h
        exact n4 ⟨h6.le, not_lt.mp h⟩
      exact corner_excluded C (C - B) (A - 2 * B + C) (-(d2 - C)) (d1 - B - (d2 - C))
        (by linarith) hC (by linarith) (by linarith) (by linarith)
        (fun h => n6 ⟨by linarith [h.1], by linarith [h.2.2], by linarith [h.2.1]⟩)
        (fun h => n2 ⟨by linarith [h.2], by linarith [h.1]⟩)
    · have h2 : d2 < 0 := not_le.mp hc
      have h1 : 0 < d1 := by
        by_contra h
        exact n1 ⟨not_lt.mp h, h2.le⟩
      exact corner_excluded C B A d2 d1 (by linarith) hC (by linarith) h2 h1
        (fun h => n3 ⟨by linarith [h.1], h.2.1, h.2.2⟩)
        (fun h => n2 ⟨h.1, h.2⟩)
  · -- weight of c
    by_contra hneg
    have hvc : d1 * (d2 - B) - (d1 - A) * d2 < 0 := not_le.mp hneg
    by_cases hc : d1 ≥ 0
    · have h3 : 0 < d1 - A := by
        by_contra h
        exact n3 ⟨hvc.le, hc, not_lt.mp h⟩
      have h43 : d1 - A < d2 - B := by
        by_contra h
        exact n2 ⟨h3.le, not_lt.mp h⟩
      exact corner_excluded A (A - B) (A - 2 * B + C) (-(d1 - A)) (d2 - B - (d1 - A))
        (by linarith) hA (by linarith) (by linarith) (by linarith)
        (fun h => n6 ⟨by linarith [h.1], h.2.1, by linarith [h.2.2]⟩)
        (fun h => n4 ⟨by linarith [h.2], by linarith [h.1]⟩)
    · have h1 : d1 < 0 := not_le.mp hc
      have h2 : 0 < d2 := by
        by_contra h
        exact n1 ⟨h1.le, not_lt.mp h⟩
      exact corner_excluded A B C d1 d2 hD hA (by linarith) h1 h2
        (fun h => n5 ⟨by linarith [h.1], h.2.1, h.2.2⟩)
        (fun h => n4 ⟨h.1, h.2⟩)

theorem gram_pos_of_nonDegenerate {a b c : Vec3 ℚ} (h : NonDegenerate a b c) :
    0 < (b.Sub a).Dot (b.Sub a) * (c.Sub a).Dot (c.Sub a)
      - (b.Sub a).Dot (c.Sub a) * (b.Sub a).Dot (c.Sub a) := by
  rw [gram_eq_cross]
  rcases (dot_self_nonneg ((b.Sub a).Cross (c.Sub a))).lt_or_eq with hlt | heq
  · exact hlt
  · exact absurd (dot_self_eq_zero heq.symm) h

theorem pos_of_gram_pos (A B C : ℚ) (hA : 0 ≤ A) (hD : 0 < A * C - B * B) : 0 < A := by
  rcases hA.lt_or_eq with h | h
  · exact h
  · exfalso
    rw [← h] at hD
    linarith [mul_self_nonneg B]

/-- Branch analysis of `ClosestPointPointTriangle` on a triangle with positive Gram
determinant: the result is `a + v*(b-a) + w*(c-a)` with `v, w ≥ 0`, `v + w ≤ 1`, and the
residual `p - q` makes a non-acute angle with the direction to each vertex. -/
theorem triangle_branches (p a b c : Vec3 ℚ)
    (hD : 0 < (b.Sub a).Dot (b.Sub a) * (c.Sub a).Dot (c.Sub a)
      - (b.Sub a).Dot (c.Sub a) * (b.Sub a).Dot (c.Sub a)) :
    ∃ v w, ClosestPointPointTriangle p a b c = some (triPoint a b c v w) ∧
      0 ≤ v ∧ 0 ≤ w ∧ v + w ≤ 1 ∧
      0 ≤ v * ((b.Sub a).Dot (p.Sub a) - v * (b.Sub a).Dot (b.Sub a)
              - w * (b.Sub a).Dot (c.Sub a))
          + w * ((c.Sub a).Dot (p.Sub a) - v * (b.Sub a).Dot (c.Sub a)
              - w * (c.Sub a).Dot (c.Sub a)) ∧
      (1 - v) * ((b.Sub a).Dot (p.Sub a) - v * (b.Sub a).Dot (b.Sub a)
              - w * (b.Sub a).Dot (c.Sub a))
          - w * ((c.Sub a).Dot (p.Sub a) - v * (b.Sub a).Dot (c.Sub a)
              - w * (c.Sub a).Dot (c.Sub a)) ≤ 0 ∧
      (1 - w) * ((c.Sub a).Dot (p.Sub a) - v * (b.Sub a).Dot (c.Sub a)
              - w * (c.Sub a).Dot (c.Sub a))
          - v * ((b.Sub a).Dot (p.Sub a) - v * (b.Sub a).Dot (b.Sub a)
              - w * (b.Sub a).Dot (c.Sub a)) ≤ 0 := by
  have e3 : (b.Sub a).Dot (p.Sub b) = (b.Sub a).Dot (p.Sub a) - (b.Sub a).Dot (b.Sub a) := by
    simp only [Vec3.Dot, Vec3.Sub]; ring
  have e4 : (c.Sub a).Dot (p.Sub b) = (c.Sub a).Dot (p.Sub a) - (b.Sub a).Dot (c.Sub a) := by
    simp only [Vec3.Dot, Vec3.Sub]; ring
  have e5 : (b.Sub a).Dot (p.Sub c) = (b.Sub a).Dot (p.Sub a) - (b.Sub a).Dot (c.Sub a) := by
    simp only [Vec3.Dot, Vec3.Sub]; ring
  have e6 : (c.Sub a).Dot (p.Sub c) = (c.Sub a).Dot (p.Sub a) - (c.Sub a).Dot (c.Sub a) := by
    simp only [Vec3.Dot, Vec3.Sub]; ring
  have hA0 := dot_self_nonneg (b.Sub a)
  have hC0 := dot_self_nonneg (c.Sub a)
  have hvb : ∀ w : ℚ, b.AddScaledVec w (c.Sub b) = triPoint a b c (1 - w) w := by
    intro w
    ext <;> simp [triPoint, Vec3.AddScaledVec, Vec3.Sub] <;> ring
  have hva : a = triPoint a b c 0 0 := by
    ext <;> simp [triPoint, Vec3.AddScaledVec]
  have hvb1 : b = triPoint a b c 1 0 := by
    ext <;> simp [triPoint, Vec3.AddScaledVec, Vec3.Sub]
  have hvc1 : c = triPoint a b c 0 1 := by
    ext <;> simp [triPoint, Vec3.AddScaledVec, Vec3.Sub]
  have hvab : ∀ v : ℚ, a.AddScaledVec v (b.Sub a) = triPoint a b c v 0 := by
    intro v
    ext <;> simp [triPoint, Vec3.AddScaledVec]
  have hvac : ∀ w : ℚ, a.AddScaledVec w (c.Sub a) = triPoint a b c 0 w := by
    intro w
    ext <;> simp [triPoint, Vec3.AddScaledVec]
  unfold ClosestPointPointTriangle
  simp only [e3, e4, e5, e6]
  generalize (b.Sub a).Dot (p.Sub a) = d1 at *
  generalize (c.Sub a).Dot (p.Sub a) = d2 at *
  generalize (b.Sub a).Dot (b.Sub a) = A at *
  generalize (b.Sub a).Dot (c.Sub a) = B at *
  generalize (c.Sub a).Dot (c.Sub a) = C at *
  have hA : 0 < A := pos_of_gram_pos A B C hA0 hD
  have hC : 0 < C := pos_of_gram_pos C B A hC0 (by linarith)
  have hE : 0 < A - 2 * B + C := by nlinarith [sq_nonneg (A - B)]
  split_ifs with h1 h2 h3 h4 h5 h6
  · exact ⟨0, 0, congrArg some hva, le_refl _, le_refl _, by norm_num, by linarith [h1.1, h1.2],
      by linarith [h1.1, h1.2], by linarith [h1.1, h1.2]⟩
  · exact ⟨1, 0, congrArg some hvb1, zero_le_one, le_refl _, by norm_num,
      by linarith [h2.1, h2.2], by linarith [h2.1, h2.2], by linarith [h2.1, h2.2]⟩
  · have hdiv : d1 - (d1 - A) = A := by ring
    rw [hdiv, math.fdiv_of_ne _ hA.ne.symm]
    have hv0 : 0 ≤ d1 / A := div_nonneg h3.2.1 hA.le
    have hv1 : d1 / A ≤ 1 := (div_le_one hA).mpr (by linarith [h3.2.2])
    have hv : d1 / A * A = d1 := div_mul_cancel₀ _ hA.ne.symm
    generalize d1 / A = v at *
    subst hv
    refine ⟨v, 0, congrArg some (hvab v), hv0, le_refl _, by linarith, by linarith,
      by linarith, ?_⟩
    have := h3.1
    nlinarith
  · exact ⟨0, 1, congrArg some hvc1, le_refl _, zero_le_one, by norm_num,
      by linarith [h4.1, h4.2], by linarith [h4.1, h4.2], by linarith [h4.1, h4.2]⟩
  · have hdiv : d2 - (d2 - C) = C := by ring
    rw [hdiv, math.fdiv_of_ne _ hC.ne.symm]
    have hw0 : 0 ≤ d2 / C := div_nonneg h5.2.1 hC.le
    have hw1 : d2 / C ≤ 1 := (div_le_one hC).mpr (by linarith [h5.2.2])
    have hw : d2 / C * C = d2 := div_mul_cancel₀ _ hC.ne.symm
    generalize d2 / C = w at *
    subst hw
    refine ⟨0, w, congrArg some (hvac w), le_refl _, hw0, by linarith, by linarith,
      ?_, by linarith⟩
    have := h5.1
    nlinarith
  · have hdiv : d2 - B - (d1 - A) + (d1 - B - (d2 - C)) = A - 2 * B + C := by ring
    rw [hdiv, math.fdiv_of_ne _ hE.ne.symm]
    have hw0 : 0 ≤ (d2 - B - (d1 - A)) / (A - 2 * B + C) := div_nonneg h6.2.1 hE.le
    have hw1 : (d2 - B - (d1 - A)) / (A - 2 * B + C) ≤ 1 :=
      (div_le_one hE).mpr (by linarith [h6.2.2])
    have hw : (d2 - B - (d1 - A)) / (A - 2 * B + C) * (A - 2 * B + C) = d2 - B - (d1 - A) :=
      div_mul_cancel₀ _ hE.ne.symm
    generalize (d2 - B - (d1 - A)) / (A - 2 * B + C) = w at *
    have hd2 : d2 = w * (A - 2 * B + C) + B + (d1 - A) := by linarith
    subst hd2
    have hva := h6.1
    have hg : 0 ≤ (d1 - (1 - w) * A - w * B) * (A - 2 * B + C) := by linarith
    have hg1 : 0 ≤ d1 - (1 - w) * A - w * B := nonneg_of_mul_nonneg_left hg hE
    refine ⟨1 - w, w, ?_, by linarith, hw0, by linarith, ?_, ?_, ?_⟩
    · simp only [Option.some_bind]
      exact congrArg some (hvb w)
    · linarith
    · linarith
    · linarith
  · obtain ⟨sa, sb, sc⟩ := face_signs A B C d1 d2 hD hA hC h1 h2 h3 h4 h5 h6
    have hsum : (d1 - A) * (d2 - C) - (d1 - B) * (d2 - B) + ((d1 - B) * d2 - d1 * (d2 - C))
        + (d1 * (d2 - B) - (d1 - A) * d2) = A * C - B * B := by ring
    rw [hsum, math.fdiv_of_ne _ hD.ne.symm]
    simp only [Option.some_bind]
    have hi0 : 0 < 1 / (A * C - B * B) := one_div_pos.mpr hD
    have hi : 1 / (A * C - B * B) * (A * C - B * B) = 1 := div_mul_cancel₀ _ hD.ne.symm
    generalize 1 / (A * C - B * B) = i at *
    refine ⟨((d1 - B) * d2 - d1 * (d2 - C)) * i, (d1 * (d2 - B) - (d1 - A) * d2) * i, rfl,
      mul_nonneg sb hi0.le, mul_nonneg sc hi0.le, ?_, ?_, ?_, ?_⟩
    · have : ((d1 - B) * d2 - d1 * (d2 - C)) * i + (d1 * (d2 - B) - (d1 - A) * d2) * i
          = 1 - ((d1 - A) * (d2 - C) - (d1 - B) * (d2 - B)) * i := by
        linear_combination hi
      rw [this]
      have := mul_nonneg sa hi0.le
      linarith
    all_goals
      have hg1 : d1 - ((d1 - B) * d2 - d1 * (d2 - C)) * i * A
          - (d1 * (d2 - B) - (d1 - A) * d2) * i * B = 0 := by
        linear_combination (-d1) * hi
      have hg2 : d2 - ((d1 - B) * d2 - d1 * (d2 - C)) * i * B
          - (d1 * (d2 - B) - (d1 - A) * d2) * i * C = 0 := by
        linear_combination (-d2) * hi
      rw [hg1, hg2]
      norm_num

theorem baryPoint_eq_triPoint (a b c : Vec3 ℚ) (α β γ : ℚ) (h : α + β + γ = 1) :
    baryPoint a b c α β γ = triPoint a b c β γ := by
  have hα : α = 1 - β - γ := by linarith
  subst hα
  ext <;> simp [baryPoint, triPoint, Vec3.AddScaledVec, Vec3.Sub, Vec3.Add, Vec3.Mul] <;> ring

theorem sqDist_self (p : Vec3 ℚ) : sqDist p p = 0 := by
  simp [sqDist, Vec3.Sub, Vec3.Len2]

theorem eq_of_sqDist_le_zero {p q : Vec3 ℚ} (h : sqDist p q ≤ 0) : q = p := by
  have h0 : (p.Sub q).Dot (p.Sub q) = 0 := le_antisymm h (dot_self_nonneg _)
  have hz := dot_self_eq_zero h0
  have hx : p.X - q.X = 0 := congrArg Vec3.X hz
  have hy : p.Y - q.Y = 0 := congrArg Vec3.Y hz
  have hzz : p.Z - q.Z = 0 := congrArg Vec3.Z hz
  ext <;> linarith

/-- Moving inside the plane of the triangle: the change of the squared distance to `p`. -/
theorem sqDist_triPoint_sub (p a b c : Vec3 ℚ) (v w v2 w2 : ℚ) :
    sqDist p (triPoint a b c v2 w2) - sqDist p (triPoint a b c v w) =
      ((triPoint a b c v2 w2).Sub (triPoint a b c v w)).Len2
        - 2 * (((b.Sub a).Dot (p.Sub a) - v * (b.Sub a).Dot (b.Sub a)
                - w * (b.Sub a).Dot (c.Sub a)) * (v2 - v)
              + ((c.Sub a).Dot (p.Sub a) - v * (b.Sub a).Dot (c.Sub a)
                - w * (c.Sub a).Dot (c.Sub a)) * (w2 - w)) := by
  simp only [sqDist, triPoint, Vec3.Sub, Vec3.Len2, Vec3.AddScaledVec, Vec3.Dot]
  ring

/-- Closest-point property of `ClosestPointPointTriangle` in terms of the Gram
determinant. -/
theorem triangle_closest_core (p a b c : Vec3 ℚ)
    (hD : 0 < (b.Sub a).Dot (b.Sub a) * (c.Sub a).Dot (c.Sub a)
      - (b.Sub a).Dot (c.Sub a) * (b.Sub a).Dot (c.Sub a)) :
    ∃ v w, ClosestPointPointTriangle p a b c = some (triPoint a b c v w) ∧
      0 ≤ v ∧ 0 ≤ w ∧ v + w ≤ 1 ∧
      ∀ v2 w2, 0 ≤ v2 → 0 ≤ w2 → v2 + w2 ≤ 1 →
        sqDist p (triPoint a b c v w) ≤ sqDist p (triPoint a b c v2 w2) := by
  obtain ⟨v, w, hq, hv, hw, hvw, c1, c2, c3⟩ := triangle_branches p a b c hD
  refine ⟨v, w, hq, hv, hw, hvw, ?_⟩
  intro v2 w2 hv2 hw2 hvw2
  have key := sqDist_triPoint_sub p a b c v w v2 w2
  have hL := len2_nonneg ((triPoint a b c v2 w2).Sub (triPoint a b c v w))
  generalize (b.Sub a).Dot (p.Sub a) - v * (b.Sub a).Dot (b.Sub a)
    - w * (b.Sub a).Dot (c.Sub a) = g1 at *
  generalize (c.Sub a).Dot (p.Sub a) - v * (b.Sub a).Dot (c.Sub a)
    - w * (c.Sub a).Dot (c.Sub a) = g2 at *
  have m1 := mul_nonneg (show 0 ≤ 1 - v2 - w2 by linarith) c1
  have m2 := mul_nonneg hv2 (neg_nonneg.mpr c2)
  have m3 := mul_nonneg hw2 (neg_nonneg.mpr c3)
  have : g1 * (v2 - v) + g2 * (w2 - w) ≤ 0 := by linarith
  linarith

/-- C2: in exact arithmetic, for a non-degenerate triangle `abc` and every point `p`,
`ClosestPointPointTriangle p a b c` returns a point `q` of the triangle (a combination
`α a + β b + γ c` with non-negative weights of sum one) with `|p - q|² ≤ |p - x|²` for every
point `x` of the triangle; in particular it returns `p` when `p` lies in the triangle. -/
theorem ClosestPointPointTriangle_closest (p a b c : Vec3 ℚ) (h : NonDegenerate a b c) :
    ∃ q, ClosestPointPointTriangle p a b c = some q ∧
      (∃ α β γ, 0 ≤ α ∧ 0 ≤ β ∧ 0 ≤ γ ∧ α + β + γ = 1 ∧ q = baryPoint a b c α β γ) ∧
      (∀ α β γ, 0 ≤ α → 0 ≤ β → 0 ≤ γ → α + β + γ = 1 →
        sqDist p q ≤ sqDist p (baryPoint a b c α β γ)) ∧
      ((∃ α β γ, 0 ≤ α ∧ 0 ≤ β ∧ 0 ≤ γ ∧ α + β + γ = 1 ∧ p = baryPoint a b c α β γ) →
        q = p) := by
  obtain ⟨v, w, hq, hv, hw, hvw, hmin⟩ :=
    triangle_closest_core p a b c (gram_pos_of_nonDegenerate h)
  have hall : ∀ α β γ, 0 ≤ α → 0 ≤ β → 0 ≤ γ → α + β + γ = 1 →
      sqDist p (triPoint a b c v w) ≤ sqDist p (baryPoint a b c α β γ) := by
    intro α β γ hα hβ hγ hsum
    rw [baryPoint_eq_triPoint a b c α β γ hsum]
    exact hmin β γ hβ hγ (by linarith)
  refine ⟨_, hq, ⟨1 - v - w, v, w, by linarith, hv, hw, by ring, ?_⟩, hall, ?_⟩
  · exact (baryPoint_eq_triPoint a b c (1 - v - w) v w (by ring)).symm
  · rintro ⟨α, β, γ, hα, hβ, hγ, hsum, hp⟩
    have := hall α β γ hα hβ hγ hsum
    rw [← hp, sqDist_self] at this
    exact eq_of_sqDist_le_zero this

/-- Witness for C2: the unit right triangle in the plane `z = 0` and a point above it. -/
theorem ClosestPointPointTriangle_closest_witness :
    NonDegenerate ⟨0, 0, 0⟩ ⟨1, 0, 0⟩ ⟨0, 1, 0⟩ ∧
    ∃ q, ClosestPointPointTriangle ⟨1 / 4, 1 / 4, 3⟩ ⟨0, 0, 0⟩ ⟨1, 0, 0⟩ ⟨0, 1, 0⟩ = some q ∧
      (∃ α β γ, 0 ≤ α ∧ 0 ≤ β ∧ 0 ≤ γ ∧ α + β + γ = 1 ∧
        q = baryPoint ⟨0, 0, 0⟩ ⟨1, 0, 0⟩ ⟨0, 1, 0⟩ α β γ) ∧
      (∀ α β γ, 0 ≤ α → 0 ≤ β → 0 ≤ γ → α + β + γ = 1 →
        sqDist ⟨1 / 4, 1 / 4, 3⟩ q
          ≤ sqDist ⟨1 / 4, 1 / 4, 3⟩ (baryPoint ⟨0, 0, 0⟩ ⟨1, 0, 0⟩ ⟨0, 1, 0⟩ α β γ)) ∧
      ((∃ α β γ, 0 ≤ α ∧ 0 ≤ β ∧ 0 ≤ γ ∧ α + β + γ = 1 ∧
        (⟨1 / 4, 1 / 4, 3⟩ : Vec3 ℚ) = baryPoint ⟨0, 0, 0⟩ ⟨1, 0, 0⟩ ⟨0, 1, 0⟩ α β γ) →
        q = ⟨1 / 4, 1 / 4, 3⟩) :=
  ⟨by simp [NonDegenerate, Vec3.Sub, Vec3.Cross],
    ClosestPointPointTriangle_closest ⟨1 / 4, 1 / 4, 3⟩ ⟨0, 0, 0⟩ ⟨1, 0, 0⟩ ⟨0, 1, 0⟩
      (by simp [NonDegenerate, Vec3.Sub, Vec3.Cross])⟩

/-- C6: in exact arithmetic, for a non-degenerate triangle `abc` and every point `p`, the
result of `ClosestPointPointTriangle p a b c` is `a + v*(b-a) + w*(c-a)`, that is
`α a + β b + γ c` with the weights `α = 1 - v - w`, `β = v`, `γ = w`, all non-negative and
of sum one. -/
theorem ClosestPointPointTriangle_barycentric (p a b c : Vec3 ℚ) (h : NonDegenerate a b c) :
    ∃ q v w, ClosestPointPointTriangle p a b c = some q ∧
      q = triPoint a b c v w ∧ q = baryPoint a b c (1 - v - w) v w ∧
      0 ≤ 1 - v - w ∧ 0 ≤ v ∧ 0 ≤ w ∧ (1 - v - w) + v + w = 1 := by
  obtain ⟨v, w, hq, hv, hw, hvw, -⟩ :=
    triangle_closest_core p a b c (gram_pos_of_nonDegenerate h)
  exact ⟨_, v, w, hq, rfl, (baryPoint_eq_triPoint a b c (1 - v - w) v w (by ring)).symm,
    by linarith, hv, hw, by ring⟩

/-- Witness for C6: a point over the interior of the unit right triangle. -/
theorem ClosestPointPointTriangle_barycentric_witness :
    NonDegenerate ⟨0, 0, 0⟩ ⟨1, 0, 0⟩ ⟨0, 1, 0⟩ ∧
    ∃ q v w, ClosestPointPointTriangle ⟨1 / 4, 1 / 4, 3⟩ ⟨0, 0, 0⟩ ⟨1, 0, 0⟩ ⟨0, 1, 0⟩ = some q ∧
      q = triPoint ⟨0, 0, 0⟩ ⟨1, 0, 0⟩ ⟨0, 1, 0⟩ v w ∧
      q = baryPoint ⟨0, 0, 0⟩ ⟨1, 0, 0⟩ ⟨0, 1, 0⟩ (1 - v - w) v w ∧
      0 ≤ 1 - v - w ∧ 0 ≤ v ∧ 0 ≤ w ∧ (1 - v - w) + v + w = 1 :=
  ⟨by simp [NonDegenerate, Vec3.Sub, Vec3.Cross],
    ClosestPointPointTriangle_barycentric ⟨1 / 4, 1 / 4, 3⟩ ⟨0, 0, 0⟩ ⟨1, 0, 0⟩ ⟨0, 1, 0⟩
      (by simp [NonDegenerate, Vec3.Sub, Vec3.Cross])⟩

/-- C7 (amended): in exact arithmetic, for a non-degenerate triangle `abc` and a point `p` in
the Voronoi region of a vertex (for `a`: `(b-a).(p-a) ≤ 0` and `(c-a).(p-a) ≤ 0`, and likewise
for `b` and `c`), `ClosestPointPointTriangle p a b c` returns exactly that vertex. -/
theorem ClosestPointPointTriangle_vertex_regions (p a b c : Vec3 ℚ) (h : NonDegenerate a b c) :
    ((b.Sub a).Dot (p.Sub a) ≤ 0 ∧ (c.Sub a).Dot (p.Sub a) ≤ 0 →
      ClosestPointPointTriangle p a b c = some a) ∧
    ((a.Sub b).Dot (p.Sub b) ≤ 0 ∧ (c.Sub b).Dot (p.Sub b) ≤ 0 →
      ClosestPointPointTriangle p a b c = some b) ∧
    ((a.Sub c).Dot (p.Sub c) ≤ 0 ∧ (b.Sub c).Dot (p.Sub c) ≤ 0 →
      ClosestPointPointTriangle p a b c = some c) := by
  have hD := gram_pos_of_nonDegenerate h
  have e3 : (b.Sub a).Dot (p.Sub b) = (b.Sub a).Dot (p.Sub a) - (b.Sub a).Dot (b.Sub a) := by
    simp only [Vec3.Dot, Vec3.Sub]; ring
  have e4 : (c.Sub a).Dot (p.Sub b) = (c.Sub a).Dot (p.Sub a) - (b.Sub a).Dot (c.Sub a) := by
    simp only [Vec3.Dot, Vec3.Sub]; ring
  have e5 : (b.Sub a).Dot (p.Sub c) = (b.Sub a).Dot (p.Sub a) - (b.Sub a).Dot (c.Sub a) := by
    simp only [Vec3.Dot, Vec3.Sub]; ring
  have e6 : (c.Sub a).Dot (p.Sub c) = (c.Sub a).Dot (p.Sub a) - (c.Sub a).Dot (c.Sub a) := by
    simp only [Vec3.Dot, Vec3.Sub]; ring
  have f1 : (a.Sub b).Dot (p.Sub b)
      = -((b.Sub a).Dot (p.Sub a) - (b.Sub a).Dot (b.Sub a)) := by
    simp only [Vec3.Dot, Vec3.Sub]; ring
  have f2 : (c.Sub b).Dot (p.Sub b)
      = ((c.Sub a).Dot (p.Sub a) - (b.Sub a).Dot (c.Sub a))
        - ((b.Sub a).Dot (p.Sub a) - (b.Sub a).Dot (b.Sub a)) := by
    simp only [Vec3.Dot, Vec3.Sub]; ring
  have f3 : (a.Sub c).Dot (p.Sub c)
      = -((c.Sub a).Dot (p.Sub a) - (c.Sub a).Dot (c.Sub a)) := by
    simp only [Vec3.Dot, Vec3.Sub]; ring
  have f4 : (b.Sub c).Dot (p.Sub c)
      = ((b.Sub a).Dot (p.Sub a) - (b.Sub a).Dot (c.Sub a))
        - ((c.Sub a).Dot (p.Sub a) - (c.Sub a).Dot (c.Sub a)) := by
    simp only [Vec3.Dot, Vec3.Sub]; ring
  have hA0 := dot_self_nonneg (b.Sub a)
  have hC0 := dot_self_nonneg (c.Sub a)
  unfold ClosestPointPointTriangle
  simp only [e3, e4, e5, e6, f1, f2, f3, f4]
  generalize (b.Sub a).Dot (p.Sub a) = d1 at *
  generalize (c.Sub a).Dot (p.Sub a) = d2 at *
  generalize (b.Sub a).Dot (b.Sub a) = A at *
  generalize (b.Sub a).Dot (c.Sub a) = B at *
  generalize (c.Sub a).Dot (c.Sub a) = C at *
  have hA : 0 < A := pos_of_gram_pos A B C hA0 hD
  have hC : 0 < C := pos_of_gram_pos C B A hC0 (by linarith)
  have hE : 0 < A - 2 * B + C := by nlinarith [sq_nonneg (A - B)]
  refine ⟨?_, ?_, ?_⟩
  · intro hr
    rw [if_pos hr]
  · intro hr
    have n1 : ¬ (d1 ≤ 0 ∧ d2 ≤ 0) := fun h1 => by linarith [h1.1, hr.1]
    have p2 : d1 - A ≥ 0 ∧ d2 - B ≤ d1 - A := ⟨by linarith [hr.1], by linarith [hr.2]⟩
    rw [if_neg n1, if_pos p2]
  · intro hr
    have h6 : 0 ≤ d2 - C := by linarith [hr.1]
    have h56 : d1 - B ≤ d2 - C := by linarith [hr.2]
    have n1 : ¬ (d1 ≤ 0 ∧ d2 ≤ 0) := fun h1 => by linarith [h1.2]
    have n2 : ¬ (d1 - A ≥ 0 ∧ d2 - B ≤ d1 - A) := fun h2 => by linarith [h2.1, h2.2]
    have n3 : ¬ (d1 * (d2 - B) - (d1 - A) * d2 ≤ 0 ∧ d1 ≥ 0 ∧ d1 - A ≤ 0) := by
      rintro ⟨hvc, h1, h3⟩
      have hvc2 : A * d2 ≤ B * d1 := by linarith
      have hAC : A * C ≤ B * d1 := by linarith [mul_nonneg hA.le h6]
      have hB : 0 < B := by
        by_contra hB
        linarith [mul_pos hA hC, mul_nonneg (neg_nonneg.mpr (not_lt.mp hB)) h1]
      have hBA : B < A := by nlinarith [mul_nonneg hB.le (show 0 ≤ A - d1 by linarith)]
      have k1 : 0 ≤ (A - B) * (B * d1 - A * C) := mul_nonneg (by linarith) (by linarith)
      have k2 : A * d2 ≥ A * (d1 - B + C) := by
        linarith [mul_nonneg hA.le (show 0 ≤ d2 - (d1 - B + C) by linarith)]
      have k3 : 0 ≤ B * (B * d1 - A * (d1 - B + C)) := mul_nonneg hB.le (by linarith)
      linarith [mul_pos hA hD]
    rw [if_neg n1, if_neg n2, if_neg n3, if_pos ⟨h6, h56⟩]

/-- Witness for C7: a point behind the corner `a` of the unit right triangle. -/
theorem ClosestPointPointTriangle_vertex_regions_witness :
    NonDegenerate ⟨0, 0, 0⟩ ⟨1, 0, 0⟩ ⟨0, 1, 0⟩ ∧
    (((⟨1, 0, 0⟩ : Vec3 ℚ).Sub ⟨0, 0, 0⟩).Dot ((⟨-1, -2, 3⟩ : Vec3 ℚ).Sub ⟨0, 0, 0⟩) ≤ 0 ∧
      ((⟨0, 1, 0⟩ : Vec3 ℚ).Sub ⟨0, 0, 0⟩).Dot ((⟨-1, -2, 3⟩ : Vec3 ℚ).Sub ⟨0, 0, 0⟩) ≤ 0) ∧
    ClosestPointPointTriangle ⟨-1, -2, 3⟩ ⟨0, 0, 0⟩ ⟨1, 0, 0⟩ ⟨0, 1, 0⟩ = some ⟨0, 0, 0⟩ :=
  ⟨by simp [NonDegenerate, Vec3.Sub, Vec3.Cross],
    by norm_num [Vec3.Sub, Vec3.Dot],
    (ClosestPointPointTriangle_vertex_regions ⟨-1, -2, 3⟩ ⟨0, 0, 0⟩ ⟨1, 0, 0⟩ ⟨0, 1, 0⟩
      (by simp [NonDegenerate, Vec3.Sub, Vec3.Cross])).1 (by norm_num [Vec3.Sub, Vec3.Dot])⟩

theorem dot_comm {K : Type} [LinearOrderedField K] (v w : Vec3 K) : v.Dot w = w.Dot v := by
  simp only [Vec3.Dot]; ring

/-- On a collinear triple with `a ≠ b` one of the first five tests always fires. -/
theorem collinear_excluded (A B C d1 d2 : ℚ) (hA : 0 < A) (hD : A * C - B * B = 0)
    (hvc : A * d2 - B * d1 = 0)
    (n1 : ¬ (d1 ≤ 0 ∧ d2 ≤ 0))
    (n2 : ¬ (d1 - A ≥ 0 ∧ d2 - B ≤ d1 - A))
    (n3 : ¬ (d1 * (d2 - B) - (d1 - A) * d2 ≤ 0 ∧ d1 ≥ 0 ∧ d1 - A ≤ 0))
    (n4 : ¬ (d2 - C ≥ 0 ∧ d1 - B ≤ d2 - C))
    (n5 : ¬ ((d1 - B) * d2 - d1 * (d2 - C) ≤ 0 ∧ d2 ≥ 0 ∧ d2 - C ≤ 0)) : False := by
  obtain ⟨l, hl⟩ : ∃ l, l * A = B := ⟨B / A, div_mul_cancel₀ _ hA.ne.symm⟩
  subst hl
  have hd2 : d2 = l * d1 := by
    have : A * (d2 - l * d1) = 0 := by linarith
    rcases mul_eq_zero.mp this with h | h
    · exact absurd h hA.ne.symm
    · linarith
  have hC : C = l * l * A := by
    have : A * (C - l * l * A) = 0 := by linarith
    rcases mul_eq_zero.mp this with h | h
    · exact absurd h hA.ne.symm
    · linarith
  subst hd2 hC
  have z3 : d1 * (l * d1 - l * A) - (d1 - A) * (l * d1) = 0 := by ring
  have z5 : (d1 - l * A) * (l * d1) - d1 * (l * d1 - l * l * A) = 0 := by ring
  by_cases hd : 0 ≤ d1
  · have hdA : A < d1 := by
      by_contra hc
      exact n3 ⟨z3.le, hd, by linarith⟩
    have hl1 : 0 < (l - 1) * (d1 - A) := by
      by_contra hc
      exact n2 ⟨by linarith, by linarith⟩
    have hl : 1 < l := by
      by_contra hc
      linarith [mul_nonneg (show 0 ≤ 1 - l by linarith) (show 0 ≤ d1 - A by linarith)]
    have hld : 0 ≤ l * d1 := mul_nonneg (by linarith) hd
    have h6 : 0 < l * d1 - l * l * A := by
      by_contra hc
      exact n5 ⟨z5.le, hld, not_lt.mp hc⟩
    have h7 : 0 < d1 - l * A := by
      by_contra hc
      linarith [mul_nonneg (show 0 ≤ l by linarith) (show 0 ≤ l * A - d1 by linarith)]
    apply n4
    refine ⟨h6.le, ?_⟩
    linarith [mul_pos (show 0 < l - 1 by linarith) h7]
  · have hd0 : d1 < 0 := not_le.mp hd
    have hld : 0 < l * d1 := by
      by_contra hc
      exact n1 ⟨hd0.le, not_lt.mp hc⟩
    have hl : l < 0 := by
      by_contra hc
      linarith [mul_nonneg (not_lt.mp hc) (show 0 ≤ -d1 by linarith)]
    have h6 : 0 < l * d1 - l * l * A := by
      by_contra hc
      exact n5 ⟨z5.le, hld.le, not_lt.mp hc⟩
    have h7 : d1 - l * A < 0 := by
      by_contra hc
      linarith [mul_nonneg (show 0 ≤ -l by linarith) (not_lt.mp hc)]
    apply n4
    refine ⟨h6.le, ?_⟩
    linarith

/-- With `a ≠ b` no branch of `ClosestPointPointTriangle` divides by zero, whatever the
position of `c` (collinear with `a`, `b`, or equal to one of them). -/
theorem triangle_defined (p a b c : Vec3 ℚ) (hab : a ≠ b) :
    ∃ q, ClosestPointPointTriangle p a b c = some q := by
  have e3 : (b.Sub a).Dot (p.Sub b) = (b.Sub a).Dot (p.Sub a) - (b.Sub a).Dot (b.Sub a) := by
    simp only [Vec3.Dot, Vec3.Sub]; ring
  have e4 : (c.Sub a).Dot (p.Sub b) = (c.Sub a).Dot (p.Sub a) - (b.Sub a).Dot (c.Sub a) := by
    simp only [Vec3.Dot, Vec3.Sub]; ring
  have e5 : (b.Sub a).Dot (p.Sub c) = (b.Sub a).Dot (p.Sub a) - (b.Sub a).Dot (c.Sub a) := by
    simp only [Vec3.Dot, Vec3.Sub]; ring
  have e6 : (c.Sub a).Dot (p.Sub c) = (c.Sub a).Dot (p.Sub a) - (c.Sub a).Dot (c.Sub a) := by
    simp only [Vec3.Dot, Vec3.Sub]; ring
  have hA : 0 < (b.Sub a).Dot (b.Sub a) := by
    rcases (dot_self_nonneg (b.Sub a)).lt_or_eq with h | h
    · exact h
    · exfalso
      have hz := dot_self_eq_zero h.symm
      have hx : b.X - a.X = 0 := congrArg Vec3.X hz
      have hy : b.Y - a.Y = 0 := congrArg Vec3.Y hz
      have hzz : b.Z - a.Z = 0 := congrArg Vec3.Z hz
      apply hab
      ext <;> linarith
  have hC0 : (c.Sub a).Dot (c.Sub a) = 0 →
      (c.Sub a).Dot (p.Sub a) = 0 ∧ (b.Sub a).Dot (c.Sub a) = 0 := by
    intro h
    have hz := dot_self_eq_zero h
    rw [hz]
    constructor <;> simp [Vec3.Dot]
  have hE0 : (b.Sub a).Dot (b.Sub a) - 2 * (b.Sub a).Dot (c.Sub a) + (c.Sub a).Dot (c.Sub a) = 0 →
      (b.Sub a).Dot (p.Sub a) = (c.Sub a).Dot (p.Sub a) ∧
      (b.Sub a).Dot (b.Sub a) = (b.Sub a).Dot (c.Sub a) := by
    intro h
    have h2 : (c.Sub b).Dot (c.Sub b) = 0 := by
      rw [← h]
      simp only [Vec3.Dot, Vec3.Sub]; ring
    have hz := dot_self_eq_zero h2
    have hx : c.X - b.X = 0 := congrArg Vec3.X hz
    have hy : c.Y - b.Y = 0 := congrArg Vec3.Y hz
    have hzz : c.Z - b.Z = 0 := congrArg Vec3.Z hz
    have hcb : c = b := by ext <;> linarith
    rw [hcb]
    exact ⟨rfl, rfl⟩
  have hD0 := gram_nonneg (b.Sub a) (c.Sub a)
  have hK : (b.Sub a).Dot (b.Sub a) * (c.Sub a).Dot (c.Sub a)
      - (b.Sub a).Dot (c.Sub a) * (b.Sub a).Dot (c.Sub a) = 0 →
      (b.Sub a).Dot (b.Sub a) * (c.Sub a).Dot (p.Sub a)
        - (b.Sub a).Dot (c.Sub a) * (b.Sub a).Dot (p.Sub a) = 0 := by
    intro h
    have h2 : (c.Sub a).Dot (c.Sub a) * (b.Sub a).Dot (b.Sub a)
        - (c.Sub a).Dot (b.Sub a) * (c.Sub a).Dot (b.Sub a) = 0 := by
      rw [dot_comm (c.Sub a) (b.Sub a)]
      linarith
    have := parallel_numerator (c.Sub a) (b.Sub a) (p.Sub a) h2
    rw [dot_comm (c.Sub a) (b.Sub a)] at this
    linarith
  unfold ClosestPointPointTriangle
  simp only [e3, e4, e5, e6]
  generalize (b.Sub a).Dot (p.Sub a) = d1 at *
  generalize (c.Sub a).Dot (p.Sub a) = d2 at *
  generalize (b.Sub a).Dot (b.Sub a) = A at *
  generalize (b.Sub a).Dot (c.Sub a) = B at *
  generalize (c.Sub a).Dot (c.Sub a) = C at *
  split_ifs with h1 h2 h3 h4 h5 h6
  · exact ⟨_, rfl⟩
  · exact ⟨_, rfl⟩
  · have hdiv : d1 - (d1 - A) = A := by ring
    rw [hdiv, math.fdiv_of_ne _ hA.ne.symm]
    exact ⟨_, rfl⟩
  · exact ⟨_, rfl⟩
  · have hdiv : d2 - (d2 - C) = C := by ring
    have hCne : C ≠ 0 := by
      intro hC
      obtain ⟨hd2, hB⟩ := hC0 hC
      subst hC hd2 hB
      apply h3
      have hd1 : 0 < d1 := by
        by_contra hc
        exact h1 ⟨not_lt.mp hc, le_refl _⟩
      have hd3 : d1 - A < 0 := by
        by_contra hc
        exact h2 ⟨not_lt.mp hc, by linarith [not_lt.mp hc]⟩
      exact ⟨by linarith, hd1.le, hd3.le⟩
    rw [hdiv, math.fdiv_of_ne _ hCne]
    exact ⟨_, rfl⟩
  · have hdiv : d2 - B - (d1 - A) + (d1 - B - (d2 - C)) = A - 2 * B + C := by ring
    have hEne : A - 2 * B + C ≠ 0 := by
      intro hE
      obtain ⟨hd, hAB⟩ := hE0 hE
      have hBC : B = C := by linarith
      subst hd hAB hBC
      apply h3
      have hd1 : 0 < d1 := by
        by_contra hc
        exact h1 ⟨not_lt.mp hc, not_lt.mp hc⟩
      have hd3 : d1 - A < 0 := by
        by_contra hc
        exact h2 ⟨not_lt.mp hc, le_refl _⟩
      exact ⟨by linarith, hd1.le, hd3.le⟩
    rw [hdiv, math.fdiv_of_ne _ hEne]
    exact ⟨_, rfl⟩
  · have hsum : (d1 - A) * (d2 - C) - (d1 - B) * (d2 - B) + ((d1 - B) * d2 - d1 * (d2 - C))
        + (d1 * (d2 - B) - (d1 - A) * d2) = A * C - B * B := by ring
    have hDne : A * C - B * B ≠ 0 := by
      intro hD
      exact collinear_excluded A B C d1 d2 hA hD (hK hD) h1 h2 h3 h4 h5
    rw [hsum, math.fdiv_of_ne _ hDne]
    exact ⟨_, rfl⟩

/-- Counterexample to C8: with `a = b = (0,0,0)`, `c = (1,0,0)` and `p = (1/2,0,0)` the
AB-edge branch is taken with `d1 = d3 = 0`, and the division `d1 / (d1 - d3)` is by zero. -/
theorem ClosestPointPointTriangle_divides_by_zero :
    ClosestPointPointTriangle ⟨1 / 2, 0, 0⟩ ⟨0, 0, 0⟩ ⟨0, 0, 0⟩ ⟨1, 0, 0⟩ = none ∧
    ¬ ∃ q, ClosestPointPointTriangle ⟨1 / 2, 0, 0⟩ ⟨0, 0, 0⟩ ⟨0, 0, 0⟩ ⟨1, 0, 0⟩ = some q := by
  have h : ClosestPointPointTriangle ⟨1 / 2, 0, 0⟩ ⟨0, 0, 0⟩ ⟨0, 0, 0⟩ ⟨1, 0, 0⟩ = none := by
    norm_num [ClosestPointPointTriangle, math.fdiv, Vec3.Sub, Vec3.Dot, Vec3.AddScaledVec]
  refine ⟨h, ?_⟩
  rintro ⟨q, hq⟩
  rw [h] at hq
  exact Option.noConfusion hq

/-- C8 (amended): in exact arithmetic, `ClosestPointPointTriangle p a b c` divides by zero
exactly when `a = b` and `(c-a).(p-a) > 0`; for every other input, degenerate triangles with
`a ≠ b` included (collinear vertices, `a = c`, `b = c`), none of its divisors is zero and it
returns a point. -/
theorem ClosestPointPointTriangle_defined_iff (p a b c : Vec3 ℚ) :
    (∃ q, ClosestPointPointTriangle p a b c = some q) ↔
      ¬ (a = b ∧ 0 < (c.Sub a).Dot (p.Sub a)) := by
  constructor
  · rintro ⟨q, hq⟩ ⟨hab, hd2⟩
    subst hab
    have hd1 : (a.Sub a).Dot (p.Sub a) = 0 := by simp [Vec3.Dot, Vec3.Sub]
    unfold ClosestPointPointTriangle at hq
    simp only [hd1] at hq
    rw [if_neg (fun h => absurd h.2 (not_le.mpr hd2)),
      if_neg (fun h => absurd h.2 (not_le.mpr hd2))] at hq
    simp [math.fdiv] at hq
  · intro h
    by_cases hab : a = b
    · have hd2 : (c.Sub a).Dot (p.Sub a) ≤ 0 := by
        by_contra hc
        exact h ⟨hab, not_le.mp hc⟩
      subst hab
      have hd1 : (a.Sub a).Dot (p.Sub a) = 0 := by simp [Vec3.Dot, Vec3.Sub]
      unfold ClosestPointPointTriangle
      simp only [hd1]
      rw [if_pos ⟨le_refl _, hd2⟩]
      exact ⟨_, rfl⟩
    · exact triangle_defined p a b c hab

/-! ## ClosestPointPointTetrahedron -/

theorem sqDist_comm (x y : Vec3 ℚ) : sqDist x y = sqDist y x := by
  simp only [sqDist, Vec3.Sub, Vec3.Len2]; ring

theorem opposite_iff (p0 p1 a b c : Vec3 ℚ) :
    PointsOnOppositeSideOfPlane p0 p1 a b c = true ↔ side p0 a b c * side p1 a b c < 0 := by
  simp [PointsOnOppositeSideOfPlane, side]

/-! ### The sequence of face blocks as a fold -/

theorem bestStep_foldl (p : Vec3 ℚ) (fs : List (Bool × Vec3 ℚ)) (st : Vec3 ℚ × ℚ) :
    ((fs.foldl (bestStep p) st).2 ≤ st.2 ∧
      ∀ f ∈ fs, f.1 = true → (fs.foldl (bestStep p) st).2 ≤ sqDist f.2 p) ∧
    (fs.foldl (bestStep p) st = st ∨
      ∃ f ∈ fs, f.1 = true ∧ fs.foldl (bestStep p) st = (f.2, sqDist f.2 p) ∧
        sqDist f.2 p < st.2) := by
  induction fs generalizing st with
  | nil => simp
  | cons f fs ih =>
    obtain ⟨⟨h1, h2⟩, h3⟩ := ih (bestStep p st f)
    have hstep : (bestStep p st f).2 ≤ st.2 := by
      unfold bestStep
      split_ifs with h
      · exact h.2.le
      · exact le_refl _
    have hstep2 : f.1 = true → (bestStep p st f).2 ≤ sqDist f.2 p := by
      intro hv
      unfold bestStep
      split_ifs with h
      · exact le_refl _
      · exact not_lt.mp (fun hlt => h ⟨hv, hlt⟩)
    refine ⟨⟨?_, ?_⟩, ?_⟩
    · simpa [List.foldl] using le_trans h1 hstep
    · intro g hg hv
      rw [List.foldl_cons]
      rcases List.mem_cons.mp hg with rfl | hg
      · exact le_trans h1 (hstep2 hv)
      · exact h2 g hg hv
    · rw [List.foldl_cons]
      rcases h3 with h3 | ⟨g, hg, hv, heq, hlt⟩
      · rw [h3]
        by_cases h : f.1 = true ∧ sqDist f.2 p < st.2
        · right
          exact ⟨f, List.mem_cons_self _ _, h.1, by simp [bestStep, h], h.2⟩
        · left
          simp [bestStep, h]
      · right
        exact ⟨g, List.mem_cons_of_mem _ hg, hv, heq, lt_of_lt_of_le hlt hstep⟩

theorem tetrahedronFace_eq (p o x y z q : Vec3 ℚ) (st : Vec3 ℚ × ℚ)
    (hq : ClosestPointPointTriangle p x y z = some q) :
    tetrahedronFace p o x y z st
      = some (bestStep p st (PointsOnOppositeSideOfPlane p o x y z, q)) := by
  unfold tetrahedronFace bestStep
  rw [hq]
  by_cases hv : PointsOnOppositeSideOfPlane p o x y z = true
  · by_cases hlt : (q.Sub p).Len2 < st.2
    · simp [hv, hlt, sqDist]
    · simp [hv, hlt, sqDist]
  · simp [hv]

/-- The four face blocks of `ClosestPointPointTetrahedron` amount to a fold of `bestStep`
over the four faces, of which the closest point is returned. -/
theorem tetrahedron_eq_fold (p a b c d q1 q2 q3 q4 : Vec3 ℚ)
    (h1 : ClosestPointPointTriangle p a b c = some q1)
    (h2 : ClosestPointPointTriangle p a c d = some q2)
    (h3 : ClosestPointPointTriangle p a d b = some q3)
    (h4 : ClosestPointPointTriangle p b d c = some q4) :
    ClosestPointPointTetrahedron p a b c d =
      some (([(PointsOnOppositeSideOfPlane p d a b c, q1),
              (PointsOnOppositeSideOfPlane p b a c d, q2),
              (PointsOnOppositeSideOfPlane p c a d b, q3),
              (PointsOnOppositeSideOfPlane p a b d c, q4)].foldl (bestStep p)
                (p, math.MaxFloat32)).1) := by
  unfold ClosestPointPointTetrahedron
  rw [tetrahedronFace_eq p d a b c q1 _ h1]
  simp only [Option.some_bind]
  rw [tetrahedronFace_eq p b a c d q2 _ h2]
  simp only [Option.some_bind]
  rw [tetrahedronFace_eq p c a d b q3 _ h3]
  simp only [Option.some_bind, h4, List.foldl_cons, List.foldl_nil]
  generalize bestStep p (bestStep p (bestStep p (p, math.MaxFloat32)
    (PointsOnOppositeSideOfPlane p d a b c, q1)) (PointsOnOppositeSideOfPlane p b a c d, q2))
    (PointsOnOppositeSideOfPlane p c a d b, q3) = st3
  by_cases hv : PointsOnOppositeSideOfPlane p a b d c = true
  · by_cases hlt : (q4.Sub p).Len2 < st3.2
    · simp [hv, hlt, bestStep, sqDist]
    · simp [hv, hlt, bestStep, sqDist]
  · simp [hv, bestStep]

/-! ### Barycentric coordinates with respect to a tetrahedron -/

theorem side_acd (a b c d : Vec3 ℚ) : side b a c d = side d a b c := by
  simp only [side, Vec3.Sub, Vec3.Dot, Vec3.Cross]; ring

theorem side_adb (a b c d : Vec3 ℚ) : side c a d b = side d a b c := by
  simp only [side, Vec3.Sub, Vec3.Dot, Vec3.Cross]; ring

theorem side_bdc (a b c d : Vec3 ℚ) : side a b d c = side d a b c := by
  simp only [side, Vec3.Sub, Vec3.Dot, Vec3.Cross]; ring

theorem side_sum (p a b c d : Vec3 ℚ) :
    side p b d c + side p a c d + side p a d b + side p a b c = side d a b c := by
  simp only [side, Vec3.Sub, Vec3.Dot, Vec3.Cross]; ring

theorem side_cramer (p a b c d : Vec3 ℚ) :
    tetPoint a b c d (side p b d c) (side p a c d) (side p a d b) (side p a b c)
      = p.Mul (side d a b c) := by
  ext <;> simp only [tetPoint, side, Vec3.Sub, Vec3.Dot, Vec3.Cross, Vec3.Add, Vec3.Mul] <;> ring

/-- The side function is affine: on a combination of the vertices with weights of sum one
it only sees the weight of the opposite vertex. -/
theorem side_tetPoint_abc (a b c d : Vec3 ℚ) (wa wb wc wd : ℚ) (h : wa + wb + wc + wd = 1) :
    side (tetPoint a b c d wa wb wc wd) a b c = wd * side d a b c := by
  have hwa : wa = 1 - wb - wc - wd := by linarith
  subst hwa
  simp only [tetPoint, side, Vec3.Sub, Vec3.Dot, Vec3.Cross, Vec3.Add, Vec3.Mul]; ring

theorem side_tetPoint_acd (a b c d : Vec3 ℚ) (wa wb wc wd : ℚ) (h : wa + wb + wc + wd = 1) :
    side (tetPoint a b c d wa wb wc wd) a c d = wb * side d a b c := by
  have hwa : wa = 1 - wb - wc - wd := by linarith
  subst hwa
  simp only [tetPoint, side, Vec3.Sub, Vec3.Dot, Vec3.Cross, Vec3.Add, Vec3.Mul]; ring

theorem side_tetPoint_adb (a b c d : Vec3 ℚ) (wa wb wc wd : ℚ) (h : wa + wb + wc + wd = 1) :
    side (tetPoint a b c d wa wb wc wd) a d b = wc * side d a b c := by
  have hwa : wa = 1 - wb - wc - wd := by linarith
  subst hwa
  simp only [tetPoint, side, Vec3.Sub, Vec3.Dot, Vec3.Cross, Vec3.Add, Vec3.Mul]; ring

theorem side_tetPoint_bdc (a b c d : Vec3 ℚ) (wa wb wc wd : ℚ) (h : wa + wb + wc + wd = 1) :
    side (tetPoint a b c d wa wb wc wd) b d c = wa * side d a b c := by
  have hwa : wa = 1 - wb - wc - wd := by linarith
  subst hwa
  simp only [tetPoint, side, Vec3.Sub, Vec3.Dot, Vec3.Cross, Vec3.Add, Vec3.Mul]; ring

/-- Every point has barycentric coordinates of sum one in a non-degenerate tetrahedron. -/
theorem exists_tet_coords (p a b c d : Vec3 ℚ) (h : NonDegenerateTetra a b c d) :
    ∃ wa wb wc wd : ℚ, wa + wb + wc + wd = 1 ∧ p = tetPoint a b c d wa wb wc wd := by
  have hV : side d a b c ≠ 0 := h
  refine ⟨side p b d c / side d a b c, side p a c d / side d a b c,
    side p a d b / side d a b c, side p a b c / side d a b c, ?_, ?_⟩
  · rw [← add_div, ← add_div, ← add_div, side_sum, div_self hV]
  · have hc := side_cramer p a b c d
    have hx := congrArg Vec3.X hc
    have hy := congrArg Vec3.Y hc
    have hz := congrArg Vec3.Z hc
    simp only [tetPoint, Vec3.Add, Vec3.Mul] at hx hy hz
    ext
    · simp only [tetPoint, Vec3.Add, Vec3.Mul]
      field_simp
      linarith
    · simp only [tetPoint, Vec3.Add, Vec3.Mul]
      field_simp
      linarith
    · simp only [tetPoint, Vec3.Add, Vec3.Mul]
      field_simp
      linarith

/-! ### Leaving through a face -/

/-- On the way from a point with a negative barycentric weight to a point with
non-negative weights, the last point where some negative weight vanishes has non-negative
weights. -/
theorem exit_face (lam mu : Fin 4 → ℚ) (hmu : ∀ i, 0 ≤ mu i) (hneg : ∃ i, lam i < 0) :
    ∃ j τ, lam j < 0 ∧ 0 ≤ τ ∧ τ ≤ 1 ∧ (1 - τ) * lam j + τ * mu j = 0 ∧
      ∀ i, 0 ≤ (1 - τ) * lam i + τ * mu i := by
  have hS : (Finset.univ.filter fun i => lam i < 0).Nonempty := by
    obtain ⟨i, hi⟩ := hneg
    exact ⟨i, by simp [hi]⟩
  obtain ⟨j, hjS, hmax⟩ := Finset.exists_max_image _ (fun i => lam i / (lam i - mu i)) hS
  have hj : lam j < 0 := by simpa using hjS
  have hden : ∀ i, lam i < 0 → lam i - mu i < 0 := fun i hi => by linarith [hmu i]
  refine ⟨j, lam j / (lam j - mu j), hj, ?_, ?_, ?_, ?_⟩
  · exact div_nonneg_of_nonpos hj.le (hden j hj).le
  · rw [div_le_one_of_neg (hden j hj)]
    linarith [hmu j]
  · have hcancel : lam j / (lam j - mu j) * (lam j - mu j) = lam j :=
      div_mul_cancel₀ _ (hden j hj).ne
    linear_combination (-1 : ℚ) * hcancel
  · intro i
    have hτ0 : 0 ≤ lam j / (lam j - mu j) := div_nonneg_of_nonpos hj.le (hden j hj).le
    have hτ1 : lam j / (lam j - mu j) ≤ 1 := by
      rw [div_le_one_of_neg (hden j hj)]
      linarith [hmu j]
    by_cases hi : lam i < 0
    · have hle := hmax i (by simp [hi])
      have hd := hden i hi
      have hcancel : lam i / (lam i - mu i) * (lam i - mu i) = lam i :=
        div_mul_cancel₀ _ hd.ne
      generalize lam j / (lam j - mu j) = τ at *
      generalize lam i / (lam i - mu i) = σ at *
      linarith [mul_nonneg (sub_nonneg.mpr hle) (neg_nonneg.mpr hd.le)]
    · generalize lam j / (lam j - mu j) = τ at *
      have := mul_nonneg (sub_nonneg.mpr hτ1) (not_lt.mp hi)
      have := mul_nonneg hτ0 (hmu i)
      linarith

theorem sqDist_nonneg (x y : Vec3 ℚ) : 0 ≤ sqDist x y := len2_nonneg _

theorem nonDegenerate_of_side {x a b c : Vec3 ℚ} (h : side x a b c ≠ 0) : NonDegenerate a b c := by
  intro hz
  apply h
  unfold side
  rw [hz]
  simp [Vec3.Dot]

/-- Closest-point property of `ClosestPointPointTriangle` on a non-degenerate triangle. -/
theorem triangle_closest (p a b c : Vec3 ℚ) (h : NonDegenerate a b c) :
    ∃ q, ClosestPointPointTriangle p a b c = some q ∧
      (∃ α β γ, 0 ≤ α ∧ 0 ≤ β ∧ 0 ≤ γ ∧ α + β + γ = 1 ∧ q = baryPoint a b c α β γ) ∧
      (∀ α β γ, 0 ≤ α → 0 ≤ β → 0 ≤ γ → α + β + γ = 1 →
        sqDist p q ≤ sqDist p (baryPoint a b c α β γ)) := by
  obtain ⟨v, w, hq, hv, hw, hvw, hmin⟩ :=
    triangle_closest_core p a b c (gram_pos_of_nonDegenerate h)
  refine ⟨_, hq, ⟨1 - v - w, v, w, by linarith, hv, hw, by ring, ?_⟩, ?_⟩
  · exact (baryPoint_eq_triPoint a b c (1 - v - w) v w (by ring)).symm
  · intro α β γ hα hβ hγ hsum
    rw [baryPoint_eq_triPoint a b c α β γ hsum]
    exact hmin β γ hβ hγ (by linarith)

/-- The point at parameter `τ` between two combinations of the vertices. -/
theorem sqDist_tetPoint_mix (a b c d : Vec3 ℚ) (la lb lc ld ma mb mc md τ : ℚ)
    (h0 : 0 ≤ τ) (h1 : τ ≤ 1) :
    sqDist (tetPoint a b c d la lb lc ld)
        (tetPoint a b c d ((1 - τ) * la + τ * ma) ((1 - τ) * lb + τ * mb)
          ((1 - τ) * lc + τ * mc) ((1 - τ) * ld + τ * md))
      ≤ sqDist (tetPoint a b c d la lb lc ld) (tetPoint a b c d ma mb mc md) := by
  have key : sqDist (tetPoint a b c d la lb lc ld)
        (tetPoint a b c d ((1 - τ) * la + τ * ma) ((1 - τ) * lb + τ * mb)
          ((1 - τ) * lc + τ * mc) ((1 - τ) * ld + τ * md))
      = τ * τ * sqDist (tetPoint a b c d la lb lc ld) (tetPoint a b c d ma mb mc md) := by
    simp only [sqDist, tetPoint, Vec3.Sub, Vec3.Len2, Vec3.Add, Vec3.Mul]
    ring
  rw [key]
  have hs := sqDist_nonneg (tetPoint a b c d la lb lc ld) (tetPoint a b c d ma mb mc md)
  have : τ * τ ≤ 1 := by nlinarith
  nlinarith

theorem tetPoint_abc (a b c d : Vec3 ℚ) (wa wb wc : ℚ) :
    tetPoint a b c d wa wb wc 0 = baryPoint a b c wa wb wc := by
  ext <;> simp only [tetPoint, baryPoint, Vec3.Add, Vec3.Mul] <;> ring

theorem tetPoint_acd (a b c d : Vec3 ℚ) (wa wc wd : ℚ) :
    tetPoint a b c d wa 0 wc wd = baryPoint a c d wa wc wd := by
  ext <;> simp only [tetPoint, baryPoint, Vec3.Add, Vec3.Mul] <;> ring

theorem tetPoint_adb (a b c d : Vec3 ℚ) (wa wb wd : ℚ) :
    tetPoint a b c d wa wb 0 wd = baryPoint a d b wa wd wb := by
  ext <;> simp only [tetPoint, baryPoint, Vec3.Add, Vec3.Mul] <;> ring

theorem tetPoint_bdc (a b c d : Vec3 ℚ) (wb wc wd : ℚ) :
    tetPoint a b c d 0 wb wc wd = baryPoint b d c wb wd wc := by
  ext <;> simp only [tetPoint, baryPoint, Vec3.Add, Vec3.Mul] <;> ring

/-- A point outside the tetrahedron (one negative barycentric weight) sees, for every
point `x` of the tetrahedron, a face that is tested and whose closest point is not farther
than `x`. -/
theorem visible_face_closer (p a b c d q1 q2 q3 q4 : Vec3 ℚ) (h : NonDegenerateTetra a b c d)
    (la lb lc ld : ℚ) (hl : la + lb + lc + ld = 1) (hp : p = tetPoint a b c d la lb lc ld)
    (hneg : la < 0 ∨ lb < 0 ∨ lc < 0 ∨ ld < 0)
    (m1 : ∀ α β γ, 0 ≤ α → 0 ≤ β → 0 ≤ γ → α + β + γ = 1 →
      sqDist p q1 ≤ sqDist p (baryPoint a b c α β γ))
    (m2 : ∀ α β γ, 0 ≤ α → 0 ≤ β → 0 ≤ γ → α + β + γ = 1 →
      sqDist p q2 ≤ sqDist p (baryPoint a c d α β γ))
    (m3 : ∀ α β γ, 0 ≤ α → 0 ≤ β → 0 ≤ γ → α + β + γ = 1 →
      sqDist p q3 ≤ sqDist p (baryPoint a d b α β γ))
    (m4 : ∀ α β γ, 0 ≤ α → 0 ≤ β → 0 ≤ γ → α + β + γ = 1 →
      sqDist p q4 ≤ sqDist p (baryPoint b d c α β γ))
    (x : Vec3 ℚ) (hx : InTetrahedron x a b c d) :
    ∃ f ∈ [(PointsOnOppositeSideOfPlane p d a b c, q1),
            (PointsOnOppositeSideOfPlane p b a c d, q2),
            (PointsOnOppositeSideOfPlane p c a d b, q3),
            (PointsOnOppositeSideOfPlane p a b d c, q4)],
      f.1 = true ∧ sqDist f.2 p ≤ sqDist p x := by
  obtain ⟨ma, mb, mc, md, hma, hmb, hmc, hmd, hm, hxe⟩ := hx
  have hV : side d a b c ≠ 0 := h
  have hV2 : 0 < side d a b c * side d a b c := mul_self_pos.mpr hV
  obtain ⟨j, τ, hj, hτ0, hτ1, hzero, hall⟩ := exit_face ![la, lb, lc, ld] ![ma, mb, mc, md]
    (by
      intro i
      fin_cases i <;> simpa)
    (by
      rcases hneg with h0 | h0 | h0 | h0
      · exact ⟨0, by simpa using h0⟩
      · exact ⟨1, by simpa using h0⟩
      · exact ⟨2, by simpa using h0⟩
      · exact ⟨3, by simpa using h0⟩)
  have ha := hall 0
  have hb := hall 1
  have hc := hall 2
  have hd := hall 3
  simp only [Matrix.cons_val_zero, Matrix.cons_val_one, Matrix.head_cons, Matrix.cons_val_two,
    Matrix.tail_cons, Matrix.cons_val_three] at ha hb hc hd
  have hsum : ((1 - τ) * la + τ * ma) + ((1 - τ) * lb + τ * mb) + ((1 - τ) * lc + τ * mc)
      + ((1 - τ) * ld + τ * md) = 1 := by
    have e : ((1 - τ) * la + τ * ma) + ((1 - τ) * lb + τ * mb) + ((1 - τ) * lc + τ * mc)
      + ((1 - τ) * ld + τ * md) = (1 - τ) * (la + lb + lc + ld) + τ * (ma + mb + mc + md) := by
      ring
    rw [e, hl, hm]
    ring
  have hmix := sqDist_tetPoint_mix a b c d la lb lc ld ma mb mc md τ hτ0 hτ1
  rw [← hp, ← hxe] at hmix
  fin_cases j
  · -- the weight of a vanishes: face bdc
    simp only [Fin.zero_eta, Matrix.cons_val_zero] at hj hzero
    refine ⟨_, List.mem_cons_of_mem _ (List.mem_cons_of_mem _ (List.mem_cons_of_mem _
      (List.mem_cons_self _ _))), ?_, ?_⟩
    · rw [opposite_iff, hp, side_tetPoint_bdc a b c d la lb lc ld hl, side_bdc a b c d]
      nlinarith
    · rw [hzero, tetPoint_bdc] at hmix
      rw [sqDist_comm]
      exact le_trans (m4 _ _ _ hb hd hc (by linarith)) hmix
  · -- the weight of b vanishes: face acd
    simp only [Fin.mk_one, Matrix.cons_val_one, Matrix.head_cons] at hj hzero
    refine ⟨_, List.mem_cons_of_mem _ (List.mem_cons_self _ _), ?_, ?_⟩
    · rw [opposite_iff, hp, side_tetPoint_acd a b c d la lb lc ld hl, side_acd a b c d]
      nlinarith
    · rw [hzero, tetPoint_acd] at hmix
      rw [sqDist_comm]
      exact le_trans (m2 _ _ _ ha hc hd (by linarith)) hmix
  · -- the weight of c vanishes: face adb
    simp only [Fin.reduceFinMk, Matrix.cons_val_two, Matrix.tail_cons, Matrix.head_cons]
      at hj hzero
    refine ⟨_, List.mem_cons_of_mem _ (List.mem_cons_of_mem _ (List.mem_cons_self _ _)),
      ?_, ?_⟩
    · rw [opposite_iff, hp, side_tetPoint_adb a b c d la lb lc ld hl, side_adb a b c d]
      nlinarith
    · rw [hzero, tetPoint_adb] at hmix
      rw [sqDist_comm]
      exact le_trans (m3 _ _ _ ha hd hb (by linarith)) hmix
  · -- the weight of d vanishes: face abc
    simp only [Fin.reduceFinMk, Matrix.cons_val_three, Matrix.tail_cons, Matrix.head_cons]
      at hj hzero
    refine ⟨_, List.mem_cons_self _ _, ?_, ?_⟩
    · rw [opposite_iff, hp, side_tetPoint_abc a b c d la lb lc ld hl]
      nlinarith
    · rw [hzero, tetPoint_abc] at hmix
      rw [sqDist_comm]
      exact le_trans (m1 _ _ _ ha hb hc (by linarith)) hmix

/-- C9 (amended): in exact arithmetic, for a non-degenerate tetrahedron `abcd` and every
point `p` whose squared distance to the tetrahedron is below `MaxFloat32` (the initial value
of `bestSqDist`), `ClosestPointPointTetrahedron p a b c d` returns the point of the solid
tetrahedron closest to `p`: `p` itself when `p` is in the tetrahedron, otherwise the nearest
of the closest points of the faces whose plane separates `p` from the opposite vertex. -/
theorem ClosestPointPointTetrahedron_closest (p a b c d : Vec3 ℚ)
    (h : NonDegenerateTetra a b c d)
    (hM : ∃ x, InTetrahedron x a b c d ∧ sqDist p x < math.MaxFloat32) :
    ∃ r, ClosestPointPointTetrahedron p a b c d = some r ∧ InTetrahedron r a b c d ∧
      (∀ x, InTetrahedron x a b c d → sqDist p r ≤ sqDist p x) ∧
      (InTetrahedron p a b c d → r = p) ∧
      (¬ InTetrahedron p a b c d →
        ∃ f ∈ faceCandidates p a b c d, f.1 = true ∧ f.2 = some r ∧
          ∀ g ∈ faceCandidates p a b c d, g.1 = true → ∀ q, g.2 = some q →
            sqDist p r ≤ sqDist p q) := by
  have hV : side d a b c ≠ 0 := h
  have hV2 : 0 < side d a b c * side d a b c := mul_self_pos.mpr hV
  have n1 : NonDegenerate a b c := nonDegenerate_of_side hV
  have n2 : NonDegenerate a c d := nonDegenerate_of_side (by rw [side_acd a b c d]; exact hV)
  have n3 : NonDegenerate a d b := nonDegenerate_of_side (by rw [side_adb a b c d]; exact hV)
  have n4 : NonDegenerate b d c := nonDegenerate_of_side (by rw [side_bdc a b c d]; exact hV)
  obtain ⟨q1, hq1, ⟨α1, β1, γ1, hα1, hβ1, hγ1, hs1, he1⟩, m1⟩ := triangle_closest p a b c n1
  obtain ⟨q2, hq2, ⟨α2, β2, γ2, hα2, hβ2, hγ2, hs2, he2⟩, m2⟩ := triangle_closest p a c d n2
  obtain ⟨q3, hq3, ⟨α3, β3, γ3, hα3, hβ3, hγ3, hs3, he3⟩, m3⟩ := triangle_closest p a d b n3
  obtain ⟨q4, hq4, ⟨α4, β4, γ4, hα4, hβ4, hγ4, hs4, he4⟩, m4⟩ := triangle_closest p b d c n4
  have t1 : InTetrahedron q1 a b c d :=
    ⟨α1, β1, γ1, 0, hα1, hβ1, hγ1, le_refl _, by linarith, by rw [tetPoint_abc]; exact he1⟩
  have t2 : InTetrahedron q2 a b c d :=
    ⟨α2, 0, β2, γ2, hα2, le_refl _, hβ2, hγ2, by linarith, by rw [tetPoint_acd]; exact he2⟩
  have t3 : InTetrahedron q3 a b c d :=
    ⟨α3, γ3, 0, β3, hα3, hγ3, le_refl _, hβ3, by linarith, by rw [tetPoint_adb]; exact he3⟩
  have t4 : InTetrahedron q4 a b c d :=
    ⟨0, α4, γ4, β4, le_refl _, hα4, hγ4, hβ4, by linarith, by rw [tetPoint_bdc]; exact he4⟩
  have hfold := tetrahedron_eq_fold p a b c d q1 q2 q3 q4 hq1 hq2 hq3 hq4
  have hcand : faceCandidates p a b c d =
      [(PointsOnOppositeSideOfPlane p d a b c, some q1),
       (PointsOnOppositeSideOfPlane p b a c d, some q2),
       (PointsOnOppositeSideOfPlane p c a d b, some q3),
       (PointsOnOppositeSideOfPlane p a b d c, some q4)] := by
    simp only [faceCandidates, hq1, hq2, hq3, hq4]
  obtain ⟨⟨hbest, hle⟩, hwho⟩ := bestStep_foldl p
    [(PointsOnOppositeSideOfPlane p d a b c, q1), (PointsOnOppositeSideOfPlane p b a c d, q2),
     (PointsOnOppositeSideOfPlane p c a d b, q3), (PointsOnOppositeSideOfPlane p a b d c, q4)]
    (p, math.MaxFloat32)
  rw [hfold]
  generalize hst : List.foldl (bestStep p) (p, math.MaxFloat32)
    [(PointsOnOppositeSideOfPlane p d a b c, q1), (PointsOnOppositeSideOfPlane p b a c d, q2),
     (PointsOnOppositeSideOfPlane p c a d b, q3), (PointsOnOppositeSideOfPlane p a b d c, q4)]
    = st at *
  obtain ⟨la, lb, lc, ld, hl, hp⟩ := exists_tet_coords p a b c d h
  have hmem : ∀ f ∈ [(PointsOnOppositeSideOfPlane p d a b c, q1),
      (PointsOnOppositeSideOfPlane p b a c d, q2), (PointsOnOppositeSideOfPlane p c a d b, q3),
      (PointsOnOppositeSideOfPlane p a b d c, q4)],
      InTetrahedron f.2 a b c d ∧ (f.1, some f.2) ∈ faceCandidates p a b c d := by
    intro f hf
    rw [hcand]
    simp only [List.mem_cons, List.mem_singleton, List.not_mem_nil, or_false] at hf
    rcases hf with rfl | rfl | rfl | rfl
    · exact ⟨t1, by simp⟩
    · exact ⟨t2, by simp⟩
    · exact ⟨t3, by simp⟩
    · exact ⟨t4, by simp⟩
  have hmem2 : ∀ g ∈ faceCandidates p a b c d, ∀ q, g.2 = some q →
      (g.1, q) ∈ [(PointsOnOppositeSideOfPlane p d a b c, q1),
        (PointsOnOppositeSideOfPlane p b a c d, q2), (PointsOnOppositeSideOfPlane p c a d b, q3),
        (PointsOnOppositeSideOfPlane p a b d c, q4)] := by
    intro g hg q hq
    rw [hcand] at hg
    simp only [List.mem_cons, List.mem_singleton, List.not_mem_nil, or_false] at hg
    rcases hg with rfl | rfl | rfl | rfl <;>
    · simp only [Option.some.injEq] at hq
      subst hq
      simp
  by_cases hneg : la < 0 ∨ lb < 0 ∨ lc < 0 ∨ ld < 0
  · -- p is outside: a tested face is closer than the sentinel
    have hvis := visible_face_closer p a b c d q1 q2 q3 q4 h la lb lc ld hl hp hneg m1 m2 m3 m4
    obtain ⟨x0, hx0, hx0M⟩ := hM
    obtain ⟨f0, hf0, hf0v, hf0d⟩ := hvis x0 hx0
    have hlt : st.2 < math.MaxFloat32 := lt_of_le_of_lt (le_trans (hle f0 hf0 hf0v) hf0d) hx0M
    rcases hwho with hinit | ⟨f, hf, hfv, hfst, -⟩
    · rw [hinit] at hlt
      exact absurd hlt (lt_irrefl _)
    · have hr : st.1 = f.2 := by rw [hfst]
      have hb : st.2 = sqDist f.2 p := by rw [hfst]
      have hmin : ∀ x, InTetrahedron x a b c d → sqDist p st.1 ≤ sqDist p x := by
        intro x hx
        obtain ⟨g, hg, hgv, hgd⟩ := hvis x hx
        have := hle g hg hgv
        rw [hr, sqDist_comm p f.2, ← hb]
        exact le_trans this hgd
      refine ⟨st.1, rfl, ?_, hmin, ?_, ?_⟩
      · rw [hr]
        exact (hmem f hf).1
      · intro hpin
        have := hmin p hpin
        rw [sqDist_self] at this
        exact eq_of_sqDist_le_zero this
      · intro _
        refine ⟨(f.1, some f.2), (hmem f hf).2, hfv, by rw [hr], ?_⟩
        intro g hg hgv q hq
        have := hle (g.1, q) (hmem2 g hg q hq) hgv
        rw [hr, sqDist_comm p f.2, ← hb, sqDist_comm p q]
        exact this
  · -- p is inside: no face is tested
    push_neg at hneg
    obtain ⟨hla, hlb, hlc, hld⟩ := hneg
    have hpin : InTetrahedron p a b c d := ⟨la, lb, lc, ld, hla, hlb, hlc, hld, hl, hp⟩
    have hnone : ∀ f ∈ [(PointsOnOppositeSideOfPlane p d a b c, q1),
        (PointsOnOppositeSideOfPlane p b a c d, q2), (PointsOnOppositeSideOfPlane p c a d b, q3),
        (PointsOnOppositeSideOfPlane p a b d c, q4)], ¬ f.1 = true := by
      intro f hf
      simp only [List.mem_cons, List.mem_singleton, List.not_mem_nil, or_false] at hf
      rcases hf with rfl | rfl | rfl | rfl
      · rw [opposite_iff]
        have e : side p a b c = ld * side d a b c := by
          rw [hp]; exact side_tetPoint_abc a b c d la lb lc ld hl
        rw [e]
        linarith [mul_nonneg hld hV2.le]
      · rw [opposite_iff, side_acd a b c d]
        have e : side p a c d = lb * side d a b c := by
          rw [hp]; exact side_tetPoint_acd a b c d la lb lc ld hl
        rw [e]
        linarith [mul_nonneg hlb hV2.le]
      · rw [opposite_iff, side_adb a b c d]
        have e : side p a d b = lc * side d a b c := by
          rw [hp]; exact side_tetPoint_adb a b c d la lb lc ld hl
        rw [e]
        linarith [mul_nonneg hlc hV2.le]
      · rw [opposite_iff, side_bdc a b c d]
        have e : side p b d c = la * side d a b c := by
          rw [hp]; exact side_tetPoint_bdc a b c d la lb lc ld hl
        rw [e]
        linarith [mul_nonneg hla hV2.le]
    rcases hwho with hinit | ⟨f, hf, hfv, -, -⟩
    · have hr : st.1 = p := by rw [hinit]
      refine ⟨st.1, rfl, by rw [hr]; exact hpin, ?_, fun _ => hr, fun hn => absurd hpin hn⟩
      intro x _
      rw [hr, sqDist_self]
      exact sqDist_nonneg p x
    · exact absurd hfv (hnone f hf)

/-- Witness for C9: the unit tetrahedron and a point below its base. -/
theorem ClosestPointPointTetrahedron_closest_witness :
    NonDegenerateTetra ⟨0, 0, 0⟩ ⟨1, 0, 0⟩ ⟨0, 1, 0⟩ ⟨0, 0, 1⟩ ∧
    (∃ x, InTetrahedron x ⟨0, 0, 0⟩ ⟨1, 0, 0⟩ ⟨0, 1, 0⟩ ⟨0, 0, 1⟩ ∧
      sqDist ⟨0, 0, -1⟩ x < math.MaxFloat32) ∧
    ∃ r, ClosestPointPointTetrahedron ⟨0, 0, -1⟩ ⟨0, 0, 0⟩ ⟨1, 0, 0⟩ ⟨0, 1, 0⟩ ⟨0, 0, 1⟩ = some r ∧
      InTetrahedron r ⟨0, 0, 0⟩ ⟨1, 0, 0⟩ ⟨0, 1, 0⟩ ⟨0, 0, 1⟩ ∧
      ∀ x, InTetrahedron x ⟨0, 0, 0⟩ ⟨1, 0, 0⟩ ⟨0, 1, 0⟩ ⟨0, 0, 1⟩ →
        sqDist ⟨0, 0, -1⟩ r ≤ sqDist ⟨0, 0, -1⟩ x := by
  have hn : NonDegenerateTetra ⟨0, 0, 0⟩ ⟨1, 0, 0⟩ ⟨0, 1, 0⟩ ⟨0, 0, 1⟩ := by
    simp [NonDegenerateTetra, Vec3.Sub, Vec3.Dot, Vec3.Cross]
  have hx : ∃ x, InTetrahedron x ⟨0, 0, 0⟩ ⟨1, 0, 0⟩ ⟨0, 1, 0⟩ ⟨0, 0, 1⟩ ∧
      sqDist ⟨0, 0, -1⟩ x < math.MaxFloat32 := by
    refine ⟨⟨0, 0, 0⟩, ⟨1, 0, 0, 0, by norm_num, by norm_num, by norm_num, by norm_num,
      by norm_num, by ext <;> simp [tetPoint, Vec3.Add, Vec3.Mul]⟩, ?_⟩
    norm_num [sqDist, Vec3.Sub, Vec3.Len2, math.MaxFloat32]
  obtain ⟨r, hr, hin, hmin, -⟩ := ClosestPointPointTetrahedron_closest
    ⟨0, 0, -1⟩ ⟨0, 0, 0⟩ ⟨1, 0, 0⟩ ⟨0, 1, 0⟩ ⟨0, 0, 1⟩ hn hx
  exact ⟨hn, hx, r, hr, hin, hmin⟩

/-- Counterexample to C9: for the unit tetrahedron and the point `p = (0, 0, -2^64)` below
its base, the squared distance `2^128` to the face `abc` is not below `MaxFloat32`, no
candidate replaces the initial one, and `p` itself is returned although it is not a point of
the tetrahedron. -/
theorem ClosestPointPointTetrahedron_far_point :
    NonDegenerateTetra ⟨0, 0, 0⟩ ⟨1, 0, 0⟩ ⟨0, 1, 0⟩ ⟨0, 0, 1⟩ ∧
    ClosestPointPointTetrahedron ⟨0, 0, -18446744073709551616⟩
      ⟨0, 0, 0⟩ ⟨1, 0, 0⟩ ⟨0, 1, 0⟩ ⟨0, 0, 1⟩ = some ⟨0, 0, -18446744073709551616⟩ ∧
    ¬ InTetrahedron ⟨0, 0, -18446744073709551616⟩ ⟨0, 0, 0⟩ ⟨1, 0, 0⟩ ⟨0, 1, 0⟩ ⟨0, 0, 1⟩ := by
  refine ⟨?_, ?_, ?_⟩
  · simp [NonDegenerateTetra, Vec3.Sub, Vec3.Dot, Vec3.Cross]
  · norm_num [ClosestPointPointTetrahedron, tetrahedronFace, PointsOnOppositeSideOfPlane,
      ClosestPointPointTriangle, math.fdiv, math.MaxFloat32, Vec3.Sub, Vec3.Dot, Vec3.Cross,
      Vec3.Len2, Vec3.AddScaledVec]
  · rintro ⟨wa, wb, wc, wd, -, -, -, hwd, -, hp⟩
    have hz := congrArg Vec3.Z hp
    simp [tetPoint, Vec3.Add, Vec3.Mul] at hz
    linarith

/-! ## IntersectRayAABB and TestAABBSegment -/

/-- C3 (failing input): for the ray from `(-5,0,0)` with direction `(1,1,0)` and the box of
center `0` and half-extents `(1,1,1)`, `IntersectRayAABB` reports `intersect = true` with
`t = 4` and `q = p + 4 d = (-1,4,0)`, a point outside the box; no point of the ray is in the
box. -/
theorem IntersectRayAABB_reports_miss :
    IntersectRayAABB ⟨-5, 0, 0⟩ ⟨1, 1, 0⟩ ⟨⟨0, 0, 0⟩, ⟨1, 1, 1⟩⟩ = some ⟨4, ⟨-1, 4, 0⟩, true⟩ ∧
    ¬ InAABB ⟨-1, 4, 0⟩ ⟨⟨0, 0, 0⟩, ⟨1, 1, 1⟩⟩ ∧
    ∀ t : ℚ, ¬ InAABB ((⟨-5, 0, 0⟩ : Vec3 ℚ).AddScaledVec t ⟨1, 1, 0⟩) ⟨⟨0, 0, 0⟩, ⟨1, 1, 1⟩⟩ := by
  refine ⟨?_, ?_, ?_⟩
  · norm_num [IntersectRayAABB, rayAABBLoop, epsilonAABB, math.fdiv, math.Abs,
      math.MaxFloat32, Vec3.I, Vec3.AddScaledVec]
  · norm_num [InAABB, math.Abs]
  · intro t
    simp only [InAABB, Vec3.AddScaledVec, math.Abs]
    rintro ⟨hx, hy, -⟩
    split_ifs at hx hy <;> linarith

/-- C4 (failing input): for the box of center `0` and half-extents `(1,1,1)` and the
segment from `(3,0,0)` to `(0,3,0)`, `TestAABBSegment` returns true although no point of
the segment lies inside or on the box. -/
theorem TestAABBSegment_reports_miss :
    TestAABBSegment ⟨⟨0, 0, 0⟩, ⟨1, 1, 1⟩⟩ ⟨3, 0, 0⟩ ⟨0, 3, 0⟩ = true ∧
    ∀ t : ℚ, 0 ≤ t → t ≤ 1 →
      ¬ InAABB (segPoint ⟨3, 0, 0⟩ ⟨0, 3, 0⟩ t) ⟨⟨0, 0, 0⟩, ⟨1, 1, 1⟩⟩ := by
  refine ⟨?_, ?_⟩
  · norm_num [TestAABBSegment, math.Abs, Vec3.Add, Vec3.Sub, Vec3.Mul]
  · intro t _ _
    simp only [InAABB, segPoint, Vec3.AddScaledVec, Vec3.Sub, math.Abs]
    rintro ⟨hx, hy, -⟩
    split_ifs at hx hy <;> linarith

/-! ## SqDistPointSegment -/

/-- C11: in exact arithmetic, for every `a`, `b`, `c` (also `a = b`),
`SqDistPointSegment a b c` returns the squared distance from `c` to the point returned by
`ClosestPointSegmentPoint a b c`, which is the squared distance between `c` and the segment
`ab` (no point of the segment is closer). For the segment `(-10,0,0)-(10,0,0)` and the point
`(-5,0,0)` it is `0`; with the segment at `z = 5` it is `25`. -/
theorem SqDistPointSegment_eq_closest :
    (∀ a b c : Vec3 ℚ, ∃ t pt, ClosestPointSegmentPoint a b c = some (t, pt) ∧
      SqDistPointSegment a b c = some (sqDist c pt) ∧
      ∀ s, 0 ≤ s → s ≤ 1 → sqDist c pt ≤ sqDist c (segPoint a b s)) ∧
    SqDistPointSegment ⟨-10, 0, 0⟩ ⟨10, 0, 0⟩ ⟨-5, 0, 0⟩ = some 0 ∧
    SqDistPointSegment ⟨-10, 0, 5⟩ ⟨10, 0, 5⟩ ⟨-5, 0, 0⟩ = some 25 := by
  refine ⟨?_, ?_, ?_⟩
  · intro a b c
    have hD := dot_self_nonneg (b.Sub a)
    have hlen : (b.Sub a).Len2 = (b.Sub a).Dot (b.Sub a) := rfl
    unfold ClosestPointSegmentPoint SqDistPointSegment
    simp only [hlen]
    split_ifs with h1 h2
    · refine ⟨0, a, rfl, rfl, ?_⟩
      intro s hs0 hs1
      have key := sqDist_segPoint_sub c a b s 0
      simp only [segPoint_zero] at key
      linarith [mul_nonneg hs0 (neg_nonneg.mpr h1), mul_nonneg (sq_nonneg s) hD]
    · refine ⟨1, b, rfl, ?_, ?_⟩
      · rw [sqDist_comm c b]
        rfl
      · intro s hs0 hs1
        have key := sqDist_segPoint_sub c a b s 1
        simp only [segPoint_one] at key
        linarith [mul_nonneg (sub_nonneg.mpr hs1) (sub_nonneg.mpr h2),
          mul_nonneg (sq_nonneg (s - 1)) hD]
    · have hT : 0 < (c.Sub a).Dot (b.Sub a) := not_le.mp h1
      have hlt : (c.Sub a).Dot (b.Sub a) < (b.Sub a).Dot (b.Sub a) := not_le.mp h2
      have hDpos : 0 < (b.Sub a).Dot (b.Sub a) := lt_trans hT hlt
      rw [math.fdiv_of_ne _ hDpos.ne.symm, math.fdiv_of_ne _ hDpos.ne.symm]
      have hcancel : (c.Sub a).Dot (b.Sub a) / (b.Sub a).Dot (b.Sub a) * (b.Sub a).Dot (b.Sub a)
          = (c.Sub a).Dot (b.Sub a) := div_mul_cancel₀ _ hDpos.ne.symm
      refine ⟨_, _, rfl, ?_, ?_⟩
      · simp only [Option.some_bind]
        congr 1
        have key := sqDist_segPoint_sub c a b
          ((c.Sub a).Dot (b.Sub a) / (b.Sub a).Dot (b.Sub a)) 0
        simp only [segPoint_zero] at key
        have e0 : sqDist c a = (c.Sub a).Len2 := rfl
        have e1 : sqDist c (a.AddScaledVec ((c.Sub a).Dot (b.Sub a) / (b.Sub a).Dot (b.Sub a))
            (b.Sub a))
          = sqDist c (segPoint a b ((c.Sub a).Dot (b.Sub a) / (b.Sub a).Dot (b.Sub a))) := rfl
        rw [e1]
        have hdiv : (c.Sub a).Dot (b.Sub a) * (c.Sub a).Dot (b.Sub a) / (b.Sub a).Dot (b.Sub a)
            = (c.Sub a).Dot (b.Sub a) / (b.Sub a).Dot (b.Sub a) * (c.Sub a).Dot (b.Sub a) := by
          field_simp
        rw [hdiv, ← e0]
        generalize (c.Sub a).Dot (b.Sub a) / (b.Sub a).Dot (b.Sub a) = t at *
        nlinarith
      · intro s hs0 hs1
        have key := sqDist_segPoint_sub c a b s
          ((c.Sub a).Dot (b.Sub a) / (b.Sub a).Dot (b.Sub a))
        rw [hcancel, sub_self, mul_zero, sub_zero] at key
        have h3 := mul_nonneg
          (sq_nonneg (s - (c.Sub a).Dot (b.Sub a) / (b.Sub a).Dot (b.Sub a))) hD
        simp only [segPoint] at key ⊢
        linarith
  · norm_num [SqDistPointSegment, math.fdiv, Vec3.Sub, Vec3.Dot, Vec3.Len2]
  · norm_num [SqDistPointSegment, math.fdiv, Vec3.Sub, Vec3.Dot, Vec3.Len2]

/-! ## IntersectSegmentTriangle2 -/

/-- Cramer's rule for the intersection of the line `pq` with the plane of `abc`, before
the division by the denominator `d = (p-q) . ((b-a) × (c-a))`. -/
theorem segment_triangle_cramer (p q a b c : Vec3 ℚ) :
    (p.Sub a).Mul ((p.Sub q).Dot ((b.Sub a).Cross (c.Sub a)))
      = (((p.Sub q).Mul ((p.Sub a).Dot ((b.Sub a).Cross (c.Sub a)))).Add
          ((b.Sub a).Mul ((c.Sub a).Dot ((p.Sub q).Cross (p.Sub a))))).Add
          ((c.Sub a).Mul (-((b.Sub a).Dot ((p.Sub q).Cross (p.Sub a))))) := by
  ext <;> simp only [Vec3.Sub, Vec3.Dot, Vec3.Cross, Vec3.Add, Vec3.Mul] <;> ring

/-- C13: in exact arithmetic `IntersectSegmentTriangle2 p q a b c` returns a result for
every input, and whenever it reports `overlap = true` the returned values satisfy
`0 ≤ t ≤ 1`, `u, v, w ≥ 0`, `u + v + w = 1` and `p + t*(q-p) = u*a + v*b + w*c`. -/
theorem IntersectSegmentTriangle2_barycentric (p q a b c : Vec3 ℚ) :
    ∃ res, IntersectSegmentTriangle2 p q a b c = some res ∧
      (res.overlap = true →
        0 ≤ res.t ∧ res.t ≤ 1 ∧ 0 ≤ res.u ∧ 0 ≤ res.v ∧ 0 ≤ res.w ∧
        res.u + res.v + res.w = 1 ∧
        segPoint p q res.t = baryPoint a b c res.u res.v res.w) := by
  have hcr := segment_triangle_cramer p q a b c
  unfold IntersectSegmentTriangle2
  simp only []
  generalize (p.Sub q).Dot ((b.Sub a).Cross (c.Sub a)) = d at *
  generalize (p.Sub a).Dot ((b.Sub a).Cross (c.Sub a)) = t at *
  generalize (c.Sub a).Dot ((p.Sub q).Cross (p.Sub a)) = v at *
  generalize (b.Sub a).Dot ((p.Sub q).Cross (p.Sub a)) = w at *
  split_ifs with h1 h2 h3 h4 h5
  · exact ⟨_, rfl, fun h => by simp at h⟩
  · exact ⟨_, rfl, fun h => by simp at h⟩
  · exact ⟨_, rfl, fun h => by simp at h⟩
  · exact ⟨_, rfl, fun h => by simp at h⟩
  · exact ⟨_, rfl, fun h => by simp at h⟩
  · have hd : 0 < d := not_le.mp h1
    push_neg at h2 h3 h4 h5
    rw [math.fdiv_of_ne _ hd.ne.symm]
    refine ⟨_, rfl, fun _ => ?_⟩
    have hi0 : 0 < 1 / d := one_div_pos.mpr hd
    have hi : 1 / d * d = 1 := div_mul_cancel₀ _ hd.ne.symm
    have hx := congrArg Vec3.X hcr
    have hy := congrArg Vec3.Y hcr
    have hz := congrArg Vec3.Z hcr
    simp only [Vec3.Sub, Vec3.Add, Vec3.Mul] at hx hy hz
    generalize 1 / d = i at *
    refine ⟨mul_nonneg h2 hi0.le, ?_, ?_, mul_nonneg h4.1 hi0.le, mul_nonneg h5.1 hi0.le,
      by ring, ?_⟩
    · have := mul_le_mul_of_nonneg_right h3 hi0.le
      show t * i ≤ 1
      linarith
    · have := mul_le_mul_of_nonneg_right h5.2 hi0.le
      show 0 ≤ 1 - v * i - -w * i
      linarith
    · ext
      · simp only [segPoint, baryPoint, Vec3.AddScaledVec, Vec3.Sub, Vec3.Add, Vec3.Mul]
        linear_combination i * hx - (p.X - a.X) * hi
      · simp only [segPoint, baryPoint, Vec3.AddScaledVec, Vec3.Sub, Vec3.Add, Vec3.Mul]
        linear_combination i * hy - (p.Y - a.Y) * hi
      · simp only [segPoint, baryPoint, Vec3.AddScaledVec, Vec3.Sub, Vec3.Add, Vec3.Mul]
        linear_combination i * hz - (p.Z - a.Z) * hi

/-- Witness for C13: a vertical segment through the unit right triangle. -/
theorem IntersectSegmentTriangle2_barycentric_witness :
    ∃ res, IntersectSegmentTriangle2 ⟨1 / 4, 1 / 4, 1⟩ ⟨1 / 4, 1 / 4, -1⟩
        ⟨0, 0, 0⟩ ⟨1, 0, 0⟩ ⟨0, 1, 0⟩ = some res ∧ res.overlap = true ∧
      0 ≤ res.t ∧ res.t ≤ 1 ∧ 0 ≤ res.u ∧ 0 ≤ res.v ∧ 0 ≤ res.w ∧
      res.u + res.v + res.w = 1 ∧
      segPoint ⟨1 / 4, 1 / 4, 1⟩ ⟨1 / 4, 1 / 4, -1⟩ res.t
        = baryPoint ⟨0, 0, 0⟩ ⟨1, 0, 0⟩ ⟨0, 1, 0⟩ res.u res.v res.w := by
  obtain ⟨res, hres, himp⟩ := IntersectSegmentTriangle2_barycentric
    ⟨1 / 4, 1 / 4, 1⟩ ⟨1 / 4, 1 / 4, -1⟩ ⟨0, 0, 0⟩ ⟨1, 0, 0⟩ ⟨0, 1, 0⟩
  have hval : IntersectSegmentTriangle2 ⟨1 / 4, 1 / 4, 1⟩ ⟨1 / 4, 1 / 4, -1⟩
      ⟨0, 0, 0⟩ ⟨1, 0, 0⟩ ⟨0, 1, 0⟩ = some ⟨1 / 2, 1 / 4, 1 / 4, 1 / 2, true⟩ := by
    norm_num [IntersectSegmentTriangle2, math.fdiv, Vec3.Sub, Vec3.Dot, Vec3.Cross]
  have ho : res.overlap = true := by
    rw [hval] at hres
    rw [← Option.some.inj hres]
  exact ⟨res, hres, ho, himp ho⟩

/-! ## IntersectSegmentCylinder: failing inputs -/

/-- C15 (failing inputs): for the cylinder of axis `(0,0,0)-(10,0,0)` and radius `1`, the
segment from `(-2,2,0)` to `(2,-2,0)` passes through the centre `(0,0,0)` of the p-side
endcap at `t = 1/2`, and the segment from `(5,0,0)` to `(5,1/2,0)` starts on the axis,
inside the cylinder; `IntersectSegmentCylinder` returns false for both. -/
theorem IntersectSegmentCylinder_misses :
    IntersectSegmentCylinder Rat.sqrt ⟨-2, 2, 0⟩ ⟨2, -2, 0⟩ ⟨0, 0, 0⟩ ⟨10, 0, 0⟩ 1 =
      some (1 / 2, false) ∧
    InCylinder (segPoint (⟨-2, 2, 0⟩ : Vec3 ℚ) ⟨2, -2, 0⟩ (1 / 2)) ⟨0, 0, 0⟩ ⟨10, 0, 0⟩ 1 ∧
    IntersectSegmentCylinder Rat.sqrt ⟨5, 0, 0⟩ ⟨5, 1 / 2, 0⟩ ⟨0, 0, 0⟩ ⟨10, 0, 0⟩ 1 =
      some (0, false) ∧
    InCylinder (segPoint (⟨5, 0, 0⟩ : Vec3 ℚ) ⟨5, 1 / 2, 0⟩ 0) ⟨0, 0, 0⟩ ⟨10, 0, 0⟩ 1 := by
  have hs1 : Rat.sqrt 160000 = 400 := by
    rw [show (160000 : ℚ) = 400 * 400 by norm_num]
    exact math.Sqrt_mul_self (by norm_num)
  have hs2 : Rat.sqrt 2500 = 50 := by
    rw [show (2500 : ℚ) = 50 * 50 by norm_num]
    exact math.Sqrt_mul_self (by norm_num)
  refine ⟨?_, ?_, ?_, ?_⟩
  · norm_num [IntersectSegmentCylinder, epsilonCylinder, math.fdiv, math.Abs, Vec3.Sub,
      Vec3.Dot, hs1]
  · norm_num [InCylinder, segPoint, Vec3.AddScaledVec, Vec3.Sub, Vec3.Dot]
  · norm_num [IntersectSegmentCylinder, epsilonCylinder, math.fdiv, math.Abs, Vec3.Sub,
      Vec3.Dot, hs2]
  · norm_num [InCylinder, segPoint, Vec3.AddScaledVec, Vec3.Sub, Vec3.Dot]

/-! ## ClosestPointPlanePoint, ClosestPointLineTriangle, ClosestPointSegmentAABB -/

/-- The point returned by `ClosestPointPlanePoint` is `x + Offset * Normal`, whatever the
distance of `x` to the plane. -/
theorem ClosestPointPlanePoint_eq (plane : Plane) (x : Vec3 ℚ) :
    ClosestPointPlanePoint plane x
      = (plane.Normal.Dot x - plane.Offset, x.AddScaledVec plane.Offset plane.Normal) := by
  unfold ClosestPointPlanePoint DistanceToPlane
  refine Prod.ext rfl ?_
  ext <;> simp [Vec3.Sub, Vec3.Mul, Vec3.AddScaledVec]

/-- C16 (failing input): for the plane `z = 1` (unit normal `(0,0,1)`, offset `1`) and the
point `x = (0,0,5)`, `ClosestPointPlanePoint` returns `q = (0,0,6)`, which is not on the
plane (`n.q = 6`) and is not the projection `x - (n.x - d)*n = (0,0,1)`. -/
theorem ClosestPointPlanePoint_off_plane :
    ((⟨0, 0, 1⟩ : Vec3 ℚ).Dot ⟨0, 0, 1⟩ = 1) ∧
    ClosestPointPlanePoint ⟨⟨0, 0, 1⟩, 1⟩ ⟨0, 0, 5⟩ = (4, ⟨0, 0, 6⟩) ∧
    (⟨0, 0, 1⟩ : Vec3 ℚ).Dot ⟨0, 0, 6⟩ ≠ 1 ∧
    (⟨0, 0, 6⟩ : Vec3 ℚ) ≠ (⟨0, 0, 5⟩ : Vec3 ℚ).AddScaledVec
      (-((⟨0, 0, 1⟩ : Vec3 ℚ).Dot ⟨0, 0, 5⟩ - 1)) ⟨0, 0, 1⟩ := by
  refine ⟨?_, ?_, ?_, ?_⟩
  · norm_num [Vec3.Dot]
  · norm_num [ClosestPointPlanePoint, DistanceToPlane, Vec3.Sub, Vec3.Dot, Vec3.Mul]
  · norm_num [Vec3.Dot]
  · norm_num [Vec3.Dot, Vec3.AddScaledVec]

/-- C17 (failing input): for the unit right triangle `(0,0,0), (1,0,0), (0,1,0)` and the
segment from `(10,10,1)` to `(10,10,2)`, `ClosestPointLineTriangle` returns
`c0 = c1 = (10,10,1)`; `c1` is not a point of the triangle, not even of its plane. -/
theorem ClosestPointLineTriangle_off_triangle :
    NonDegenerate ⟨0, 0, 0⟩ ⟨1, 0, 0⟩ ⟨0, 1, 0⟩ ∧
    ClosestPointLineTriangle Rat.sqrt ⟨10, 10, 1⟩ ⟨10, 10, 2⟩ ⟨0, 0, 0⟩ ⟨1, 0, 0⟩ ⟨0, 1, 0⟩
      = some (⟨10, 10, 1⟩, ⟨10, 10, 1⟩) ∧
    ¬ ∃ α β γ : ℚ, (⟨10, 10, 1⟩ : Vec3 ℚ) = baryPoint ⟨0, 0, 0⟩ ⟨1, 0, 0⟩ ⟨0, 1, 0⟩ α β γ := by
  have hs : Rat.sqrt 1 = 1 := by simp
  have hp : PlaneFromPoints Rat.sqrt ⟨0, 0, 0⟩ ⟨1, 0, 0⟩ ⟨0, 1, 0⟩ = ⟨⟨0, 0, 1⟩, 0⟩ := by
    norm_num [PlaneFromPoints, Vec3.Sub, Vec3.Cross, Vec3.Len2, Vec3.Mul, Vec3.Dot, hs]
  refine ⟨?_, ?_, ?_⟩
  · simp [NonDegenerate, Vec3.Sub, Vec3.Cross]
  · norm_num [ClosestPointLineTriangle, hp, ClosestPointPlanePoint, DistanceToPlane,
      ClosestPointSegmentSegment, segSegParams, epsilon, math.fdiv, math.Clamp,
      Vec3.Sub, Vec3.Dot, Vec3.Len2, Vec3.AddScaledVec, Vec3.Mul]
  · rintro ⟨α, β, γ, h⟩
    have hz := congrArg Vec3.Z h
    simp [baryPoint, Vec3.Add, Vec3.Mul] at hz

/-- C18 (failing input): for the box of center `(10,0,0)` and half-extents `(1,1,1)` and
the segment from `(10,5,0)` to `(10,6,0)`, `ClosestPointSegmentAABB` returns `(0,5,0)`,
the endpoint `p` in the coordinates relative to the box center: it is not a point of the
segment, whose closest point to the box is `p = (10,5,0)`. -/
theorem ClosestPointSegmentAABB_off_segment :
    ClosestPointSegmentAABB ⟨⟨10, 0, 0⟩, ⟨1, 1, 1⟩⟩ ⟨10, 5, 0⟩ ⟨10, 6, 0⟩ = some ⟨0, 5, 0⟩ ∧
    ∀ s : ℚ, segPoint ⟨10, 5, 0⟩ ⟨10, 6, 0⟩ s ≠ ⟨0, 5, 0⟩ := by
  refine ⟨?_, ?_⟩
  · norm_num [ClosestPointSegmentAABB, segmentAABBCorner, ClosestPointSegmentPoint, math.fdiv,
      math.MaxFloat32, Vec3.Sub, Vec3.Dot, Vec3.Len2, Vec3.AddScaledVec]
  · intro s h
    have hx := congrArg Vec3.X h
    simp [segPoint, Vec3.AddScaledVec, Vec3.Sub] at hx

/-! ## InsidePlaneSphere -/

/-- With a non-negative radius `InsidePlaneSphere` is false for every plane: an absolute
value is never below `-Radius`. -/
theorem InsidePlaneSphere_false (plane : Plane) (sphere : Sphere ℚ) (h : 0 ≤ sphere.Radius) :
    InsidePlaneSphere plane sphere = false := by
  unfold InsidePlaneSphere
  have := math.Abs_nonneg (sphere.Center.Dot plane.Normal - plane.Offset)
  simp only [decide_eq_false_iff_not, not_lt]
  linarith

/-- C19 (failing input): for the plane `z = 0` (unit normal `(0,0,1)`, offset `0`) and the
sphere of center `(0,0,-5)` and radius `1`, which lies completely in the negative
half-space (`n.Center - d = -5 < -1`), `InsidePlaneSphere` returns false. -/
theorem InsidePlaneSphere_rejects_inside :
    (⟨0, 0, 1⟩ : Vec3 ℚ).Dot ⟨0, 0, -5⟩ - 0 < -1 ∧
    InsidePlaneSphere ⟨⟨0, 0, 1⟩, 0⟩ ⟨⟨0, 0, -5⟩, 1⟩ = false := by
  refine ⟨?_, ?_⟩
  · norm_num [Vec3.Dot]
  · norm_num [InsidePlaneSphere, math.Abs, Vec3.Dot]

/-! ## The unimplemented routines -/

/-- C20: for every input, `ClosestPointTriangleTriangle` and `TestAABBTriangle` panic (with
the messages "not implemented" and "implementation incomplete") and never return a
value. -/
theorem unimplemented_routines_panic :
    (∀ a b c d e f : Vec3 ℚ,
      ClosestPointTriangleTriangle a b c d e f = Except.error PanicMessage.notImplemented ∧
      ∀ r, ClosestPointTriangleTriangle a b c d e f ≠ Except.ok r) ∧
    (∀ (b : AABB) (v0 v1 v2 : Vec3 ℚ),
      TestAABBTriangle b v0 v1 v2 = Except.error PanicMessage.implementationIncomplete ∧
      ∀ r, TestAABBTriangle b v0 v1 v2 ≠ Except.ok r) := by
  refine ⟨?_, ?_⟩
  · intro a b c d e f
    refine ⟨rfl, ?_⟩
    intro r h
    unfold ClosestPointTriangleTriangle at h
    exact Except.noConfusion h
  · intro b v0 v1 v2
    refine ⟨rfl, ?_⟩
    intro r h
    unfold TestAABBTriangle at h
    exact Except.noConfusion h

/-! ## IntersectRaySphere -/

/-- Along a ray with unit direction the squared distance to the center, minus the squared
radius, is the quadratic `t² + 2 b t + c`. -/
theorem sqDist_ray_sphere {K : Type} [LinearOrderedField K] (p d : Vec3 K) (s : Sphere K)
    (t : K) (hd : d.Dot d = 1) :
    sqDist (p.AddScaledVec t d) s.Center - s.Radius * s.Radius
      = t * t + 2 * (p.Sub s.Center).Dot d * t
        + ((p.Sub s.Center).Dot (p.Sub s.Center) - s.Radius * s.Radius) := by
  have e : sqDist (p.AddScaledVec t d) s.Center
      = t * t * d.Dot d + 2 * (p.Sub s.Center).Dot d * t
        + (p.Sub s.Center).Dot (p.Sub s.Center) := by
    simp only [sqDist, Vec3.AddScaledVec, Vec3.Sub, Vec3.Len2, Vec3.Dot]
    ring
  rw [e, hd]
  ring

/-- C12: in exact arithmetic, for every origin `p`, unit direction `d` and sphere `s` with
radius `≥ 0`, `IntersectRaySphere` reports `intersect = true` exactly when some point
`p + t2*d` with `t2 ≥ 0` lies within distance `Radius` of `Center`; when it does, the
returned `t` is the smallest such `t2` (`0` if `p` is inside the sphere) and `q = p + t*d`.
Exact arithmetic is an ordered field `K` with an exact square root `sqrt`. -/
theorem IntersectRaySphere_correct {K : Type} [LinearOrderedField K] (sqrt : K → K)
    (hsqrt : math.IsSqrt sqrt) (p d : Vec3 K) (s : Sphere K) (hd : d.Dot d = 1)
    (_hr : 0 ≤ s.Radius) :
    ((IntersectRaySphere sqrt p d s).intersect = true ↔
      ∃ t2, 0 ≤ t2 ∧ sqDist (p.AddScaledVec t2 d) s.Center ≤ s.Radius * s.Radius) ∧
    ((IntersectRaySphere sqrt p d s).intersect = true →
      0 ≤ (IntersectRaySphere sqrt p d s).t ∧
      sqDist (p.AddScaledVec (IntersectRaySphere sqrt p d s).t d) s.Center
        ≤ s.Radius * s.Radius ∧
      (∀ t2, 0 ≤ t2 → sqDist (p.AddScaledVec t2 d) s.Center ≤ s.Radius * s.Radius →
        (IntersectRaySphere sqrt p d s).t ≤ t2) ∧
      (IntersectRaySphere sqrt p d s).q = p.AddScaledVec (IntersectRaySphere sqrt p d s).t d ∧
      (sqDist p s.Center ≤ s.Radius * s.Radius → (IntersectRaySphere sqrt p d s).t = 0)) := by
  have hq : ∀ t, sqDist (p.AddScaledVec t d) s.Center ≤ s.Radius * s.Radius ↔
      t * t + 2 * (p.Sub s.Center).Dot d * t
        + ((p.Sub s.Center).Dot (p.Sub s.Center) - s.Radius * s.Radius) ≤ 0 := by
    intro t
    have := sqDist_ray_sphere p d s t hd
    constructor <;> intro h <;> linarith
  have hp0 : sqDist p s.Center ≤ s.Radius * s.Radius ↔
      (p.Sub s.Center).Dot (p.Sub s.Center) - s.Radius * s.Radius ≤ 0 := by
    have e : sqDist p s.Center = (p.Sub s.Center).Dot (p.Sub s.Center) := rfl
    rw [e]
    constructor <;> intro h <;> linarith
  simp only [hq, hp0]
  unfold IntersectRaySphere
  simp only []
  generalize (p.Sub s.Center).Dot d = b at *
  generalize (p.Sub s.Center).Dot (p.Sub s.Center) - s.Radius * s.Radius = c at *
  by_cases h1 : c > 0 ∧ b > 0
  · -- origin outside and pointing away
    rw [if_pos h1]
    dsimp only
    refine ⟨⟨fun h => by simp at h, ?_⟩, fun h => by simp at h⟩
    rintro ⟨t2, ht2, hle⟩
    exfalso
    linarith [mul_nonneg ht2 h1.2.le, mul_self_nonneg t2, h1.1]
  rw [if_neg h1]
  by_cases h2 : ¬ (b * b - c ≥ 0)
  · -- negative discriminant
    rw [if_pos h2]
    dsimp only
    refine ⟨⟨fun h => by simp at h, ?_⟩, fun h => by simp at h⟩
    rintro ⟨t2, ht2, hle⟩
    exfalso
    apply h2
    linarith [mul_self_nonneg (t2 + b)]
  rw [if_neg h2]
  dsimp only
  have hdis : 0 ≤ b * b - c := not_not.mp h2
  refine ⟨⟨fun _ => ?_, fun _ => rfl⟩, fun _ => ?_⟩
  · by_cases hc : c ≤ 0
    · exact ⟨0, le_refl _, by linarith⟩
    · have hb : b ≤ 0 := by
        by_contra hb
        exact h1 ⟨not_le.mp hc, not_le.mp hb⟩
      exact ⟨-b, by linarith, by linarith⟩
  · have hs0 := hsqrt.nonneg hdis
    have hss := hsqrt.mul_self hdis
    generalize sqrt (b * b - c) = r at *
    by_cases ht : -b - r < 0
    · -- the ray starts inside the sphere
      rw [if_pos ht]
      have hc : c ≤ 0 := by
        by_contra hc
        have hb : b ≤ 0 := by
          by_contra hb
          exact h1 ⟨not_le.mp hc, not_le.mp hb⟩
        linarith [mul_pos (show 0 < r + b by linarith) (show 0 < r - b by linarith)]
      exact ⟨le_refl _, by linarith, fun t2 ht2 _ => ht2, rfl, fun _ => rfl⟩
    · rw [if_neg ht]
      have ht0 : 0 ≤ -b - r := not_lt.mp ht
      refine ⟨ht0, by linarith, ?_, rfl, ?_⟩
      · intro t2 _ hle
        by_contra hlt
        have hlt2 : t2 < -b - r := not_le.mp hlt
        linarith [mul_pos (show 0 < -b - r - t2 by linarith)
          (show 0 < -(t2 + b) + r by linarith)]
      · intro hc
        have : r * r ≥ b * b := by linarith
        have hb : b ≤ 0 := by linarith
        by_contra hne
        have hpos : 0 < -b - r := lt_of_le_of_ne ht0 (Ne.symm hne)
        have := mul_pos hpos (show 0 < -b + r by linarith)
        linarith

/-- Witness for C12: the ray from `(-5,1,0)` along `(1,0,0)` and the sphere of radius `2` at
the origin, over the real numbers: the discriminant is `3`, and the ray enters the sphere at
`t = 5 - √3`, between `3.2679` and `3.2680`. -/
theorem IntersectRaySphere_correct_witness :
    IntersectRaySphere Real.sqrt ⟨-5, 1, 0⟩ ⟨1, 0, 0⟩ ⟨⟨0, 0, 0⟩, 2⟩
      = ⟨5 - Real.sqrt 3, ⟨-5 + (5 - Real.sqrt 3), 1, 0⟩, true⟩ ∧
    (32679 / 10000 < 5 - Real.sqrt 3 ∧ 5 - Real.sqrt 3 < 32680 / 10000) ∧
    0 ≤ (IntersectRaySphere Real.sqrt ⟨-5, 1, 0⟩ ⟨1, 0, 0⟩ ⟨⟨0, 0, 0⟩, 2⟩).t ∧
    sqDist ((⟨-5, 1, 0⟩ : Vec3 ℝ).AddScaledVec
        (IntersectRaySphere Real.sqrt ⟨-5, 1, 0⟩ ⟨1, 0, 0⟩ ⟨⟨0, 0, 0⟩, 2⟩).t ⟨1, 0, 0⟩)
      ⟨0, 0, 0⟩ ≤ 2 * 2 ∧
    ∀ t2 : ℝ, 0 ≤ t2 →
      sqDist ((⟨-5, 1, 0⟩ : Vec3 ℝ).AddScaledVec t2 ⟨1, 0, 0⟩) ⟨0, 0, 0⟩ ≤ 2 * 2 →
      (IntersectRaySphere Real.sqrt ⟨-5, 1, 0⟩ ⟨1, 0, 0⟩ ⟨⟨0, 0, 0⟩, 2⟩).t ≤ t2 := by
  have h3 : Real.sqrt 3 * Real.sqrt 3 = 3 := Real.mul_self_sqrt (by norm_num)
  have h0 : 0 ≤ Real.sqrt 3 := Real.sqrt_nonneg 3
  have hlo : Real.sqrt 3 < 17321 / 10000 := by nlinarith
  have hhi : 17320 / 10000 < Real.sqrt 3 := by nlinarith
  have hval : IntersectRaySphere Real.sqrt ⟨-5, 1, 0⟩ ⟨1, 0, 0⟩ ⟨⟨0, 0, 0⟩, 2⟩
      = ⟨5 - Real.sqrt 3, ⟨-5 + (5 - Real.sqrt 3), 1, 0⟩, true⟩ := by
    unfold IntersectRaySphere
    norm_num [Vec3.Sub, Vec3.Dot, Vec3.AddScaledVec]
    intro h5
    linarith
  have h := IntersectRaySphere_correct Real.sqrt math.IsSqrt_real ⟨-5, 1, 0⟩ ⟨1, 0, 0⟩
    ⟨⟨0, 0, 0⟩, 2⟩ (by norm_num [Vec3.Dot]) (by norm_num)
  have hi : (IntersectRaySphere Real.sqrt ⟨-5, 1, 0⟩ ⟨1, 0, 0⟩ ⟨⟨0, 0, 0⟩, 2⟩).intersect
      = true := by rw [hval]
  have h2 := h.2 hi
  exact ⟨hval, ⟨by linarith, by linarith⟩, h2.1, h2.2.1, h2.2.2.1⟩

/-! ## IntersectSegmentCylinder -/

/-- Position of the segment point `S(t)` with respect to the cylinder, in the scalars of
the source: the axial coordinate is `md + t * nd`, and the squared distance to the axis
times `dd`, minus `r² dd`, is `a t² + 2 b t + c`. -/
theorem inCylinder_segPoint {K : Type} [LinearOrderedField K] (sa sb p q : Vec3 K) (r t : K) :
    InCylinder (segPoint sa sb t) p q r ↔
      0 ≤ (sa.Sub p).Dot (q.Sub p) + t * (sb.Sub sa).Dot (q.Sub p) ∧
      (sa.Sub p).Dot (q.Sub p) + t * (sb.Sub sa).Dot (q.Sub p) ≤ (q.Sub p).Dot (q.Sub p) ∧
      cylinderA sa sb p q * t * t + 2 * cylinderB sa sb p q * t + cylinderC sa p q r ≤ 0 := by
  have e1 : ((segPoint sa sb t).Sub p).Dot (q.Sub p)
      = (sa.Sub p).Dot (q.Sub p) + t * (sb.Sub sa).Dot (q.Sub p) := by
    simp only [segPoint, Vec3.AddScaledVec, Vec3.Sub, Vec3.Dot]
    ring
  have e2 : ((segPoint sa sb t).Sub p).Dot ((segPoint sa sb t).Sub p) * (q.Sub p).Dot (q.Sub p)
        - ((segPoint sa sb t).Sub p).Dot (q.Sub p) * ((segPoint sa sb t).Sub p).Dot (q.Sub p)
        - r * r * (q.Sub p).Dot (q.Sub p)
      = cylinderA sa sb p q * t * t + 2 * cylinderB sa sb p q * t + cylinderC sa p q r := by
    simp only [cylinderA, cylinderB, cylinderC, segPoint, Vec3.AddScaledVec, Vec3.Sub, Vec3.Dot]
    ring
  unfold InCylinder
  rw [← e2, e1]
  constructor
  · rintro ⟨h1, h2, h3⟩
    exact ⟨h1, h2, by linarith⟩
  · rintro ⟨h1, h2, h3⟩
    exact ⟨h1, h2, by linarith⟩

/-- For a segment parallel to the axis (`a = 0`) the mixed terms vanish. -/
theorem parallel_cylinder {K : Type} [LinearOrderedField K] (m n d : Vec3 K)
    (ha : d.Dot d * n.Dot n - n.Dot d * n.Dot d = 0) :
    n.Dot n * m.Dot d = m.Dot n * n.Dot d ∧ d.Dot d * m.Dot n = n.Dot d * m.Dot d := by
  have h1 : n.Dot n * d.Dot d - n.Dot d * n.Dot d = 0 := by linarith
  rw [gram_eq_cross] at h1
  have hz := dot_self_eq_zero h1
  have c1 : n.Y * d.Z - n.Z * d.Y = 0 := congrArg Vec3.X hz
  have c2 : n.Z * d.X - n.X * d.Z = 0 := congrArg Vec3.Y hz
  have c3 : n.X * d.Y - n.Y * d.X = 0 := congrArg Vec3.Z hz
  constructor
  · simp only [Vec3.Dot]
    linear_combination (n.Y * m.Z - n.Z * m.Y) * c1 + (n.Z * m.X - n.X * m.Z) * c2
      + (n.X * m.Y - n.Y * m.X) * c3
  · simp only [Vec3.Dot]
    linear_combination (-(d.Y * m.Z - d.Z * m.Y)) * c1 - (d.Z * m.X - d.X * m.Z) * c2
      - (d.X * m.Y - d.Y * m.X) * c3

theorem dot_self_pos_of_ne {K : Type} [LinearOrderedField K]
    {x y : Vec3 K} (h : x ≠ y) : 0 < (y.Sub x).Dot (y.Sub x) := by
  rcases (dot_self_nonneg (y.Sub x)).lt_or_eq with hlt | heq
  · exact hlt
  · exfalso
    have hz := dot_self_eq_zero heq.symm
    have hx : y.X - x.X = 0 := congrArg Vec3.X hz
    have hy : y.Y - x.Y = 0 := congrArg Vec3.Y hz
    have hzz : y.Z - x.Z = 0 := congrArg Vec3.Z hz
    apply h
    ext <;> linarith

/-- A parameter `t` with `t * n = c`, `n > 0` and `c ≥ 0` is not negative. -/
theorem param_nonneg {K : Type} [LinearOrderedField K] {t n c : K} (h : t * n = c)
    (hn : 0 < n) (hc : 0 ≤ c) : 0 ≤ t := by
  by_contra ht
  have := mul_neg_of_neg_of_pos (not_le.mp ht) hn
  linarith

/-- A parameter `t` with `t * n = c`, `n > 0` and `c ≤ n` is at most one. -/
theorem param_le_one {K : Type} [LinearOrderedField K] {t n c : K} (h : t * n = c)
    (hn : 0 < n) (hc : c ≤ n) : t ≤ 1 := by
  by_contra ht
  have := mul_lt_mul_of_pos_right (not_le.mp ht) hn
  linarith

/-- C14 (amended): in exact arithmetic (an ordered field `K` with an exact square root), for
a segment `sa-sb` with `sa ≠ sb` and a cylinder with `p ≠ q`, `r ≥ 0`, such that
`a = dd*nn - nd*nd` is `0` (segment parallel to the axis) or at least the epsilon `0.00001`,
or such that `sa` lies between the endcap planes (`0 ≤ md ≤ dd`): whenever
`IntersectSegmentCylinder` returns `(t, true)`, `0 ≤ t ≤ 1` and the point `S(t)` lies in
the closed solid cylinder. -/
theorem IntersectSegmentCylinder_sound {K : Type} [LinearOrderedField K] (sqrt : K → K)
    (hsqrt : math.IsSqrt sqrt) (sa sb p q : Vec3 K) (r t : K)
    (hs : sa ≠ sb) (hpq : p ≠ q) (_hr : 0 ≤ r)
    (hpar : cylinderA sa sb p q = 0 ∨ epsilonCylinder ≤ cylinderA sa sb p q ∨
      (0 ≤ (sa.Sub p).Dot (q.Sub p) ∧ (sa.Sub p).Dot (q.Sub p) ≤ (q.Sub p).Dot (q.Sub p)))
    (hres : IntersectSegmentCylinder sqrt sa sb p q r = some (t, true)) :
    0 ≤ t ∧ t ≤ 1 ∧ InCylinder (segPoint sa sb t) p q r := by
  rw [inCylinder_segPoint]
  have hnn : 0 < (sb.Sub sa).Dot (sb.Sub sa) := dot_self_pos_of_ne hs
  have hdd : 0 < (q.Sub p).Dot (q.Sub p) := dot_self_pos_of_ne hpq
  have ha0 : 0 ≤ cylinderA sa sb p q := by
    have := gram_nonneg (q.Sub p) (sb.Sub sa)
    rw [dot_comm (q.Sub p) (sb.Sub sa)] at this
    exact this
  have hF := parallel_cylinder (sa.Sub p) (sb.Sub sa) (q.Sub p)
  have heps : (0 : K) < epsilonCylinder := by norm_num [epsilonCylinder]
  unfold IntersectSegmentCylinder at hres
  unfold cylinderA at hpar ha0 hF ⊢
  unfold cylinderB cylinderC
  simp only [] at hres
  generalize (sa.Sub p).Dot (q.Sub p) = md at *
  generalize (sb.Sub sa).Dot (q.Sub p) = nd at *
  generalize (q.Sub p).Dot (q.Sub p) = dd at *
  generalize (sb.Sub sa).Dot (sb.Sub sa) = nn at *
  generalize (sa.Sub p).Dot (sb.Sub sa) = mn at *
  generalize (sa.Sub p).Dot (sa.Sub p) = mm at *
  by_cases c1 : ¬ (md ≥ 0 ∨ md + nd ≥ 0)
  · rw [if_pos c1] at hres
    simp at hres
  rw [if_neg c1] at hres
  have c1p : md ≥ 0 ∨ md + nd ≥ 0 := not_not.mp c1
  by_cases c2 : md > dd ∧ md + nd > dd
  · rw [if_pos c2] at hres
    simp at hres
  rw [if_neg c2] at hres
  by_cases c3 : math.Abs (dd * nn - nd * nd) < epsilonCylinder
  · -- the segment is treated as parallel to the axis
    rw [if_pos c3] at hres
    have hAbs : math.Abs (dd * nn - nd * nd) = dd * nn - nd * nd := by
      unfold math.Abs
      rw [if_neg (not_lt.mpr ha0)]
    rw [hAbs] at c3
    by_cases c4 : ¬ (dd * (mm - r * r) - md * md ≤ 0)
    · rw [if_pos c4] at hres
      simp at hres
    rw [if_neg c4] at hres
    have hc : dd * (mm - r * r) - md * md ≤ 0 := not_not.mp c4
    by_cases c5 : md < 0
    · rw [if_pos c5, math.fdiv_of_ne _ hnn.ne.symm] at hres
      simp only [Option.some_bind, Option.some.injEq, Prod.mk.injEq, and_true] at hres
      have hnd : 0 ≤ md + nd := by
        rcases c1p with h | h
        · linarith
        · exact h
      have hA : dd * nn - nd * nd = 0 := by
        rcases hpar with h | h | h
        · exact h
        · linarith
        · linarith [h.1]
      obtain ⟨F1, F2⟩ := hF hA
      have htn : t * nn = -mn := by
        rw [← hres]
        exact div_mul_cancel₀ _ hnn.ne.symm
      have htd : t * nd = -md := by
        have : nn * (t * nd + md) = 0 := by
          have e : nn * (t * nd + md) = (t * nn) * nd + nn * md := by ring
          rw [e, htn, F1]
          ring
        rcases mul_eq_zero.mp this with h | h
        · exact absurd h hnn.ne.symm
        · linarith
      have hndpos : 0 < nd := by linarith
      have ht0 : 0 ≤ t := param_nonneg htd hndpos (by linarith)
      have ht1 : t ≤ 1 := param_le_one htd hndpos (by linarith)
      refine ⟨ht0, ht1, by linarith, by linarith, ?_⟩
      rw [hA]
      have hb : dd * mn - nd * md = 0 := by linarith
      rw [hb]
      linarith
    rw [if_neg c5] at hres
    by_cases c6 : md > dd
    · rw [if_pos c6, math.fdiv_of_ne _ hnn.ne.symm] at hres
      simp only [Option.some_bind, Option.some.injEq, Prod.mk.injEq, and_true] at hres
      have hnd : md + nd ≤ dd := by
        by_contra h
        exact c2 ⟨c6, not_le.mp h⟩
      have hA : dd * nn - nd * nd = 0 := by
        rcases hpar with h | h | h
        · exact h
        · linarith
        · linarith [h.2]
      obtain ⟨F1, F2⟩ := hF hA
      have htn : t * nn = nd - mn := by
        rw [← hres]
        exact div_mul_cancel₀ _ hnn.ne.symm
      have htd : t * nd = dd - md := by
        have : nn * (t * nd - (dd - md)) = 0 := by
          have e : nn * (t * nd - (dd - md)) = (t * nn) * nd - dd * nn + nn * md := by ring
          rw [e, htn, F1]
          linarith
        rcases mul_eq_zero.mp this with h | h
        · exact absurd h hnn.ne.symm
        · linarith
      have hndneg : nd < 0 := by linarith
      have htd' : t * (-nd) = -(t * nd) := by ring
      have ht0 : 0 ≤ t := param_nonneg htd' (neg_pos.mpr hndneg) (by linarith)
      have ht1 : t ≤ 1 := param_le_one htd' (neg_pos.mpr hndneg) (by linarith)
      refine ⟨ht0, ht1, by linarith, by linarith, ?_⟩
      rw [hA]
      have hb : dd * mn - nd * md = 0 := by linarith
      rw [hb]
      linarith
    · rw [if_neg c6] at hres
      simp only [Option.some.injEq, Prod.mk.injEq, and_true] at hres
      subst hres
      refine ⟨le_refl _, zero_le_one, by linarith [not_lt.mp c5], by linarith [not_lt.mp c6], ?_⟩
      linarith
  · -- the general case
    rw [if_neg c3] at hres
    have hAbs : math.Abs (dd * nn - nd * nd) = dd * nn - nd * nd := by
      unfold math.Abs
      rw [if_neg (not_lt.mpr ha0)]
    rw [hAbs] at c3
    have hApos : 0 < dd * nn - nd * nd := lt_of_lt_of_le heps (not_lt.mp c3)
    by_cases c4 : ¬ ((dd * mn - nd * md) * (dd * mn - nd * md)
        - (dd * nn - nd * nd) * (dd * (mm - r * r) - md * md) ≥ 0)
    · rw [if_pos c4] at hres
      simp at hres
    rw [if_neg c4, math.fdiv_of_ne _ hApos.ne.symm] at hres
    simp only [Option.some_bind] at hres
    have hss := hsqrt.mul_self (not_not.mp c4)
    have hs0 := hsqrt.nonneg (not_not.mp c4)
    generalize sqrt ((dd * mn - nd * md) * (dd * mn - nd * md)
        - (dd * nn - nd * nd) * (dd * (mm - r * r) - md * md)) = s at *
    have ht0eq : (-(dd * mn - nd * md) - s) / (dd * nn - nd * nd) * (dd * nn - nd * nd)
        = -(dd * mn - nd * md) - s := div_mul_cancel₀ _ hApos.ne.symm
    generalize (-(dd * mn - nd * md) - s) / (dd * nn - nd * nd) = t0 at *
    have hroot : (dd * nn - nd * nd) * t0 * t0 + 2 * (dd * mn - nd * md) * t0
        + (dd * (mm - r * r) - md * md) = 0 := by
      have h1 : (dd * nn - nd * nd) * ((dd * nn - nd * nd) * t0 * t0
          + 2 * (dd * mn - nd * md) * t0 + (dd * (mm - r * r) - md * md)) = 0 := by
        have e : (dd * nn - nd * nd) * ((dd * nn - nd * nd) * t0 * t0
            + 2 * (dd * mn - nd * md) * t0 + (dd * (mm - r * r) - md * md))
          = (t0 * (dd * nn - nd * nd) + (dd * mn - nd * md))
              * (t0 * (dd * nn - nd * nd) + (dd * mn - nd * md))
            - ((dd * mn - nd * md) * (dd * mn - nd * md)
              - (dd * nn - nd * nd) * (dd * (mm - r * r) - md * md)) := by ring
        rw [e, ht0eq, ← hss]
        ring
      rcases mul_eq_zero.mp h1 with h | h
      · exact absurd h hApos.ne.symm
      · exact h
    by_cases c5 : t0 < 0 ∨ t0 > 1
    · rw [if_pos c5] at hres
      simp at hres
    rw [if_neg c5] at hres
    push_neg at c5
    by_cases c6 : md + t0 * nd < 0
    · rw [if_pos c6] at hres
      by_cases c7 : nd ≤ 0
      · rw [if_pos c7] at hres
        simp at hres
      rw [if_neg c7] at hres
      have hndpos : 0 < nd := not_le.mp c7
      rw [math.fdiv_of_ne _ hndpos.ne.symm] at hres
      simp only [Option.some_bind, Option.some.injEq, Prod.mk.injEq, decide_eq_true_eq]
        at hres
      obtain ⟨hte, htest⟩ := hres
      have htd : t * nd = -md := by
        rw [← hte]
        exact div_mul_cancel₀ _ hndpos.ne.symm
      rw [hte] at htest
      have hmd : md < 0 := by
        have := mul_nonneg c5.1 hndpos.le
        linarith
      have hmdnd : 0 ≤ md + nd := by
        rcases c1p with h | h
        · linarith
        · exact h
      have ht0 : 0 ≤ t := param_nonneg htd hndpos (by linarith)
      have ht1 : t ≤ 1 := param_le_one htd hndpos (by linarith)
      refine ⟨ht0, ht1, by linarith, by linarith, ?_⟩
      have e : (dd * nn - nd * nd) * t * t + 2 * (dd * mn - nd * md) * t
            + (dd * (mm - r * r) - md * md)
          = dd * (mm - r * r + 2 * t * (mn + t * nn)) - dd * (t * t * nn)
            - (md + t * nd) * (md + t * nd) := by ring
      rw [e]
      have h1 : dd * (mm - r * r + 2 * t * (mn + t * nn)) ≤ 0 :=
        mul_nonpos_of_nonneg_of_nonpos hdd.le htest
      have h2 : 0 ≤ dd * (t * t * nn) := mul_nonneg hdd.le (mul_nonneg (mul_self_nonneg t) hnn.le)
      have h4 := mul_self_nonneg (md + t * nd)
      linarith
    rw [if_neg c6] at hres
    by_cases c8 : md + t0 * nd > dd
    · rw [if_pos c8] at hres
      by_cases c9 : nd ≥ 0
      · rw [if_pos c9] at hres
        simp at hres
      rw [if_neg c9] at hres
      have hndneg : nd < 0 := not_le.mp c9
      rw [math.fdiv_of_ne _ hndneg.ne] at hres
      simp only [Option.some_bind, Option.some.injEq, Prod.mk.injEq, decide_eq_true_eq]
        at hres
      obtain ⟨hte, htest⟩ := hres
      have htd : t * nd = dd - md := by
        rw [← hte]
        exact div_mul_cancel₀ _ hndneg.ne
      rw [hte] at htest
      have hmd : dd < md := by
        have := mul_nonneg c5.1 (neg_nonneg.mpr hndneg.le)
        have e : t0 * -nd = -(t0 * nd) := by ring
        linarith
      have hmdnd : md + nd ≤ dd := by
        by_contra h
        exact c2 ⟨hmd, not_le.mp h⟩
      have htd' : t * (-nd) = -(t * nd) := by ring
      have ht0 : 0 ≤ t := param_nonneg htd' (neg_pos.mpr hndneg) (by linarith)
      have ht1 : t ≤ 1 := param_le_one htd' (neg_pos.mpr hndneg) (by linarith)
      refine ⟨ht0, ht1, by linarith, by linarith, ?_⟩
      have e : (dd * nn - nd * nd) * t * t + 2 * (dd * mn - nd * md) * t
            + (dd * (mm - r * r) - md * md)
          = dd * (mm - r * r + dd - 2 * md + t * (2 * (mn - nd) + t * nn))
            + (2 * dd - (md + t * nd)) * (md + t * nd) - dd * dd := by ring
      rw [e]
      have h1 : dd * (mm - r * r + dd - 2 * md + t * (2 * (mn - nd) + t * nn)) ≤ 0 :=
        mul_nonpos_of_nonneg_of_nonpos hdd.le htest
      have h3 : md + t * nd = dd := by linarith
      rw [h3]
      have e4 : (2 * dd - dd) * dd - dd * dd = 0 := by ring
      linarith
    · rw [if_neg c8] at hres
      simp only [Option.some.injEq, Prod.mk.injEq, and_true] at hres
      subst hres
      exact ⟨c5.1, c5.2, not_lt.mp c6, not_lt.mp c8, hroot.le⟩

/-- Witness for C14: over the real numbers, a segment that enters the cylinder of axis
`(0,0,0)-(10,0,0)` and radius `1` through its lateral surface at `t = 1/2`. -/
theorem IntersectSegmentCylinder_sound_witness :
    IntersectSegmentCylinder Real.sqrt ⟨5, 2, 0⟩ ⟨5, 0, 0⟩ ⟨0, 0, 0⟩ ⟨10, 0, 0⟩ 1
      = some (1 / 2, true) ∧
    0 ≤ (1 / 2 : ℝ) ∧ (1 / 2 : ℝ) ≤ 1 ∧
    InCylinder (segPoint (⟨5, 2, 0⟩ : Vec3 ℝ) ⟨5, 0, 0⟩ (1 / 2)) ⟨0, 0, 0⟩ ⟨10, 0, 0⟩ 1 := by
  have hs : Real.sqrt 40000 = 200 :=
    math.IsSqrt_real.eq_of_sq (by norm_num) (by norm_num)
  have hres : IntersectSegmentCylinder Real.sqrt ⟨5, 2, 0⟩ ⟨5, 0, 0⟩ ⟨0, 0, 0⟩ ⟨10, 0, 0⟩ 1
      = some (1 / 2, true) := by
    norm_num [IntersectSegmentCylinder, epsilonCylinder, math.fdiv, math.Abs, Vec3.Sub,
      Vec3.Dot, hs]
  refine ⟨hres, ?_⟩
  refine IntersectSegmentCylinder_sound Real.sqrt math.IsSqrt_real ⟨5, 2, 0⟩ ⟨5, 0, 0⟩
    ⟨0, 0, 0⟩ ⟨10, 0, 0⟩ 1 (1 / 2) ?_ ?_ (by norm_num) ?_ hres
  · intro h
    have := congrArg Vec3.Y h
    norm_num at this
  · intro h
    have := congrArg Vec3.X h
    norm_num at this
  · right
    left
    norm_num [cylinderA, epsilonCylinder, Vec3.Sub, Vec3.Dot]

/-- Counterexample to C14: for the cylinder of axis `(0,0,0)-(1,0,0)` and radius `1`, the
short segment from `(-1/200,0,0)` to `(1/200,1/1000,0)` has `a = 1/1000000`, below the
epsilon `0.00001`, and is treated as parallel to the axis: the function returns
`(50/101, true)`, but the point `S(50/101)` lies before the p-side endcap plane. -/
theorem IntersectSegmentCylinder_near_parallel :
    (⟨-1 / 200, 0, 0⟩ : Vec3 ℚ) ≠ ⟨1 / 200, 1 / 1000, 0⟩ ∧
    (⟨0, 0, 0⟩ : Vec3 ℚ) ≠ ⟨1, 0, 0⟩ ∧
    IntersectSegmentCylinder Rat.sqrt ⟨-1 / 200, 0, 0⟩ ⟨1 / 200, 1 / 1000, 0⟩ ⟨0, 0, 0⟩ ⟨1, 0, 0⟩ 1
      = some (50 / 101, true) ∧
    ¬ InCylinder (segPoint (⟨-1 / 200, 0, 0⟩ : Vec3 ℚ) ⟨1 / 200, 1 / 1000, 0⟩ (50 / 101))
      ⟨0, 0, 0⟩ ⟨1, 0, 0⟩ 1 := by
  refine ⟨?_, ?_, ?_, ?_⟩
  · intro h
    have := congrArg Vec3.Y h
    norm_num at this
  · intro h
    have := congrArg Vec3.X h
    norm_num at this
  · have hmd : ((⟨-1 / 200, 0, 0⟩ : Vec3 ℚ).Sub ⟨0, 0, 0⟩).Dot ((⟨1, 0, 0⟩ : Vec3 ℚ).Sub ⟨0, 0, 0⟩)
        = -1 / 200 := by norm_num [Vec3.Sub, Vec3.Dot]
    have hnd : ((⟨1 / 200, 1 / 1000, 0⟩ : Vec3 ℚ).Sub ⟨-1 / 200, 0, 0⟩).Dot
        ((⟨1, 0, 0⟩ : Vec3 ℚ).Sub ⟨0, 0, 0⟩) = 1 / 100 := by norm_num [Vec3.Sub, Vec3.Dot]
    have hdd : ((⟨1, 0, 0⟩ : Vec3 ℚ).Sub ⟨0, 0, 0⟩).Dot ((⟨1, 0, 0⟩ : Vec3 ℚ).Sub ⟨0, 0, 0⟩)
        = 1 := by
      norm_num [Vec3.Sub, Vec3.Dot]
    have hnn : ((⟨1 / 200, 1 / 1000, 0⟩ : Vec3 ℚ).Sub ⟨-1 / 200, 0, 0⟩).Dot
        ((⟨1 / 200, 1 / 1000, 0⟩ : Vec3 ℚ).Sub ⟨-1 / 200, 0, 0⟩) = 101 / 1000000 := by
      norm_num [Vec3.Sub, Vec3.Dot]
    have hmn : ((⟨-1 / 200, 0, 0⟩ : Vec3 ℚ).Sub ⟨0, 0, 0⟩).Dot
        ((⟨1 / 200, 1 / 1000, 0⟩ : Vec3 ℚ).Sub ⟨-1 / 200, 0, 0⟩) = -1 / 20000 := by
      norm_num [Vec3.Sub, Vec3.Dot]
    have hmm : ((⟨-1 / 200, 0, 0⟩ : Vec3 ℚ).Sub ⟨0, 0, 0⟩).Dot
        ((⟨-1 / 200, 0, 0⟩ : Vec3 ℚ).Sub ⟨0, 0, 0⟩) = 1 / 40000 := by
      norm_num [Vec3.Sub, Vec3.Dot]
    unfold IntersectSegmentCylinder
    simp only [hmd, hnd, hdd, hnn, hmn, hmm]
    have c1 : ¬ ¬ ((-1 / 200 : ℚ) ≥ 0 ∨ (-1 / 200 : ℚ) + 1 / 100 ≥ 0) := by norm_num
    have c2 : ¬ ((-1 / 200 : ℚ) > 1 ∧ (-1 / 200 : ℚ) + 1 / 100 > 1) := by norm_num
    have c3 : math.Abs ((1 : ℚ) * (101 / 1000000) - 1 / 100 * (1 / 100)) < epsilonCylinder := by
      norm_num [math.Abs, epsilonCylinder]
    have c4 : ¬ ¬ ((1 : ℚ) * (1 / 40000 - 1 * 1) - -1 / 200 * (-1 / 200) ≤ 0) := by norm_num
    have c5 : (-1 / 200 : ℚ) < 0 := by norm_num
    rw [if_neg c1, if_neg c2, if_pos c3, if_neg c4, if_pos c5]
    have c6 : math.fdiv (-(-1 / 20000 : ℚ)) (101 / 1000000) = some (50 / 101) := by
      norm_num [math.fdiv]
    rw [c6]
    rfl
  · norm_num [InCylinder, segPoint, Vec3.AddScaledVec, Vec3.Sub, Vec3.Dot]

end geo

/-! ## Quaternions -/

namespace glm

theorem Quat.toQuaternion_Mul (q1 q2 : Quat ℚ) :
    (q1.Mul q2).toQuaternion = q1.toQuaternion * q2.toQuaternion := by
  ext <;> simp [Quat.toQuaternion, Quat.Mul, Vec3.Cross, Vec3.Mul, Vec3.Add, Vec3.Dot] <;> ring

/-- C25: `q1.Mul(q2)` is the Hamilton product, with scalar part `w1*w2 - v1·v2` and vector part
`v1×v2 + w1*v2 + w2*v1`, which is the product of the quaternions of Mathlib; the basis
quaternions satisfy `i*i = j*j = k*k = i*j*k = (-1, 0, 0, 0)`; `QuatIdent` is a left and right
identity; and the product is not commutative. -/
theorem Quat_Mul_hamilton :
    (∀ q1 q2 : Quat ℚ,
      q1.Mul q2 = ⟨q1.W * q2.W - q1.V.Dot q2.V,
        ((q1.V.Cross q2.V).Add (q2.V.Mul q1.W)).Add (q1.V.Mul q2.W)⟩ ∧
      (q1.Mul q2).toQuaternion = q1.toQuaternion * q2.toQuaternion) ∧
    (@Quat.mk ℚ 0 ⟨1, 0, 0⟩).Mul ⟨0, ⟨1, 0, 0⟩⟩ = ⟨-1, ⟨0, 0, 0⟩⟩ ∧
    (@Quat.mk ℚ 0 ⟨0, 1, 0⟩).Mul ⟨0, ⟨0, 1, 0⟩⟩ = ⟨-1, ⟨0, 0, 0⟩⟩ ∧
    (@Quat.mk ℚ 0 ⟨0, 0, 1⟩).Mul ⟨0, ⟨0, 0, 1⟩⟩ = ⟨-1, ⟨0, 0, 0⟩⟩ ∧
    ((@Quat.mk ℚ 0 ⟨1, 0, 0⟩).Mul ⟨0, ⟨0, 1, 0⟩⟩).Mul ⟨0, ⟨0, 0, 1⟩⟩ = ⟨-1, ⟨0, 0, 0⟩⟩ ∧
    (∀ q : Quat ℚ, QuatIdent.Mul q = q ∧ q.Mul QuatIdent = q) ∧
    ∃ q1 q2 : Quat ℚ, q1.Mul q2 ≠ q2.Mul q1 := by
  refine ⟨fun q1 q2 => ⟨rfl, Quat.toQuaternion_Mul q1 q2⟩, ?_, ?_, ?_, ?_, ?_, ?_⟩
  · norm_num [Quat.Mul, Vec3.Cross, Vec3.Mul, Vec3.Add, Vec3.Dot]
  · norm_num [Quat.Mul, Vec3.Cross, Vec3.Mul, Vec3.Add, Vec3.Dot]
  · norm_num [Quat.Mul, Vec3.Cross, Vec3.Mul, Vec3.Add, Vec3.Dot]
  · norm_num [Quat.Mul, Vec3.Cross, Vec3.Mul, Vec3.Add, Vec3.Dot]
  · intro q
    constructor <;> ext <;>
      simp [QuatIdent, Quat.Mul, Vec3.Cross, Vec3.Mul, Vec3.Add, Vec3.Dot]
  · refine ⟨⟨0, ⟨1, 0, 0⟩⟩, ⟨0, ⟨0, 1, 0⟩⟩, ?_⟩
    norm_num [Quat.Mul, Vec3.Cross, Vec3.Mul, Vec3.Add, Vec3.Dot]

/-- C26: for a quaternion whose squared norm is not zero, `Inverse` returns the conjugate scaled
by the reciprocal of `w² + x² + y² + z²`, and the product of the quaternion with its inverse, in
either order, is `(1, 0, 0, 0)`. -/
theorem Quat_Inverse_correct (q : Quat ℚ) (h : q.Dot q ≠ 0) :
    ∃ r : Quat ℚ, q.Inverse = some r ∧
      r = q.Conjugated.Scale (1 / (q.W * q.W + q.V.X * q.V.X + q.V.Y * q.V.Y + q.V.Z * q.V.Z)) ∧
      q.Mul r = ⟨1, ⟨0, 0, 0⟩⟩ ∧ r.Mul q = ⟨1, ⟨0, 0, 0⟩⟩ := by
  have hn : q.W * q.W + q.V.X * q.V.X + q.V.Y * q.V.Y + q.V.Z * q.V.Z ≠ 0 := h
  refine ⟨q.Conjugated.Scale (1 / (q.W * q.W + q.V.X * q.V.X + q.V.Y * q.V.Y + q.V.Z * q.V.Z)),
    ?_, rfl, ?_, ?_⟩
  · unfold Quat.Inverse
    simp only []
    rw [math.fdiv_of_ne _ h]
    rfl
  · ext <;>
      simp only [Quat.Mul, Quat.Scale, Quat.Conjugated, Quat.X, Quat.Y, Quat.Z, Vec3.Cross,
        Vec3.Mul, Vec3.Add, Vec3.Dot] <;>
      first | ring1 | linear_combination mul_one_div_cancel hn
  · ext <;>
      simp only [Quat.Mul, Quat.Scale, Quat.Conjugated, Quat.X, Quat.Y, Quat.Z, Vec3.Cross,
        Vec3.Mul, Vec3.Add, Vec3.Dot] <;>
      first | ring1 | linear_combination mul_one_div_cancel hn

theorem Quat_Inverse_correct_witness :
    (@Quat.mk ℚ 1 ⟨2, 3, 4⟩).Dot ⟨1, ⟨2, 3, 4⟩⟩ ≠ 0 ∧
    ∃ r : Quat ℚ, (@Quat.mk ℚ 1 ⟨2, 3, 4⟩).Inverse = some r ∧
      r = (@Quat.mk ℚ 1 ⟨2, 3, 4⟩).Conjugated.Scale
        (1 / ((1 : ℚ) * 1 + 2 * 2 + 3 * 3 + 4 * 4)) ∧
      (@Quat.mk ℚ 1 ⟨2, 3, 4⟩).Mul r = ⟨1, ⟨0, 0, 0⟩⟩ ∧
      r.Mul ⟨1, ⟨2, 3, 4⟩⟩ = ⟨1, ⟨0, 0, 0⟩⟩ :=
  ⟨by norm_num [Quat.Dot, Quat.X, Quat.Y, Quat.Z],
   Quat_Inverse_correct ⟨1, ⟨2, 3, 4⟩⟩ (by norm_num [Quat.Dot, Quat.X, Quat.Y, Quat.Z])⟩

/-- C27: for a unit quaternion `q` and every vector `v`, `q.Rotate(v)` is the vector part of
`q.Mul(Quat{0, v}).Mul(q.Conjugated())`, whose scalar part is zero, and the length of
`q.Rotate(v)` is the length of `v`. -/
theorem Quat_Rotate_sandwich (q : Quat ℚ) (v : Vec3 ℚ) (h : q.Dot q = 1) :
    (q.Mul ⟨0, v⟩).Mul q.Conjugated = ⟨0, q.Rotate v⟩ ∧
    (q.Rotate v).Len2 = v.Len2 ∧
    Rat.sqrt (q.Rotate v).Len2 = Rat.sqrt v.Len2 := by
  have hn : q.W * q.W + q.V.X * q.V.X + q.V.Y * q.V.Y + q.V.Z * q.V.Z = 1 := h
  have hlen : (q.Rotate v).Len2 = v.Len2 := by
    simp only [Quat.Rotate, Vec3.Len2, Vec3.Cross, Vec3.Mul, Vec3.Add, Vec3.Dot]
    linear_combination
      (4 * (v.X * v.X + v.Y * v.Y + v.Z * v.Z) * (q.V.X * q.V.X + q.V.Y * q.V.Y + q.V.Z * q.V.Z)
        - 4 * (q.V.X * v.X + q.V.Y * v.Y + q.V.Z * v.Z) ^ 2) * hn
  refine ⟨?_, hlen, by rw [hlen]⟩
  ext
  · simp only [Quat.Mul, Quat.Conjugated, Vec3.Cross, Vec3.Mul, Vec3.Add, Vec3.Dot]
    ring
  · simp only [Quat.Mul, Quat.Conjugated, Quat.Rotate, Vec3.Cross, Vec3.Mul, Vec3.Add, Vec3.Dot]
    linear_combination (v.X) * hn
  · simp only [Quat.Mul, Quat.Conjugated, Quat.Rotate, Vec3.Cross, Vec3.Mul, Vec3.Add, Vec3.Dot]
    linear_combination (v.Y) * hn
  · simp only [Quat.Mul, Quat.Conjugated, Quat.Rotate, Vec3.Cross, Vec3.Mul, Vec3.Add, Vec3.Dot]
    linear_combination (v.Z) * hn

theorem Quat_Rotate_sandwich_witness :
    (@Quat.mk ℚ (1 / 2) ⟨1 / 2, 1 / 2, 1 / 2⟩).Dot ⟨1 / 2, ⟨1 / 2, 1 / 2, 1 / 2⟩⟩ = 1 ∧
    ((@Quat.mk ℚ (1 / 2) ⟨1 / 2, 1 / 2, 1 / 2⟩).Mul ⟨0, ⟨1, 2, 3⟩⟩).Mul
        (@Quat.mk ℚ (1 / 2) ⟨1 / 2, 1 / 2, 1 / 2⟩).Conjugated =
      ⟨0, (@Quat.mk ℚ (1 / 2) ⟨1 / 2, 1 / 2, 1 / 2⟩).Rotate ⟨1, 2, 3⟩⟩ ∧
    ((@Quat.mk ℚ (1 / 2) ⟨1 / 2, 1 / 2, 1 / 2⟩).Rotate ⟨1, 2, 3⟩).Len2 = (@Vec3.mk ℚ 1 2 3).Len2 ∧
    Rat.sqrt ((@Quat.mk ℚ (1 / 2) ⟨1 / 2, 1 / 2, 1 / 2⟩).Rotate ⟨1, 2, 3⟩).Len2 =
      Rat.sqrt (@Vec3.mk ℚ 1 2 3).Len2 :=
  ⟨by norm_num [Quat.Dot, Quat.X, Quat.Y, Quat.Z],
   Quat_Rotate_sandwich ⟨1 / 2, ⟨1 / 2, 1 / 2, 1 / 2⟩⟩ ⟨1, 2, 3⟩
     (by norm_num [Quat.Dot, Quat.X, Quat.Y, Quat.Z])⟩

theorem Quat.Mat4_entries (q : Quat ℚ) :
    q.Mat4 0 = 1 - 2 * q.V.Y * q.V.Y - 2 * q.V.Z * q.V.Z ∧
    q.Mat4 1 = 2 * q.V.X * q.V.Y + 2 * q.W * q.V.Z ∧
    q.Mat4 2 = 2 * q.V.X * q.V.Z - 2 * q.W * q.V.Y ∧
    q.Mat4 4 = 2 * q.V.X * q.V.Y - 2 * q.W * q.V.Z ∧
    q.Mat4 5 = 1 - 2 * q.V.X * q.V.X - 2 * q.V.Z * q.V.Z ∧
    q.Mat4 6 = 2 * q.V.Y * q.V.Z + 2 * q.W * q.V.X ∧
    q.Mat4 8 = 2 * q.V.X * q.V.Z + 2 * q.W * q.V.Y ∧
    q.Mat4 9 = 2 * q.V.Y * q.V.Z - 2 * q.W * q.V.X ∧
    q.Mat4 10 = 1 - 2 * q.V.X * q.V.X - 2 * q.V.Y * q.V.Y :=
  ⟨rfl, rfl, rfl, rfl, rfl, rfl, rfl, rfl, rfl⟩

theorem Sqrt_four_sq_pos {p e : ℚ} (hp : 0 < p) (he : e = 4 * p * p) :
    Rat.sqrt e = 2 * p := by
  have h := math.Sqrt_mul_self (show (0 : ℚ) ≤ 2 * p by linarith)
  rw [he, ← h]
  congr 1
  ring

theorem Sqrt_four_sq_neg {p e : ℚ} (hp : p < 0) (he : e = 4 * p * p) :
    Rat.sqrt e = -(2 * p) := by
  have h := math.Sqrt_mul_self (show (0 : ℚ) ≤ -(2 * p) by linarith)
  rw [he, ← h]
  congr 1
  ring

set_option maxHeartbeats 1000000 in
/-- C28: for a unit quaternion `q`, `Mat4ToQuat(q.Mat4())` returns `q` or `-q`, in whichever of
the four branches the matrix falls, and in the branch taken the argument of the square root is
positive and no divisor is zero. -/
theorem Mat4ToQuat_roundtrip (q : Quat ℚ) (h : q.Dot q = 1) :
    0 < Mat4ToQuat_sqrtArg q.Mat4 ∧
    ∃ r : Quat ℚ, Mat4ToQuat Rat.sqrt q.Mat4 = some r ∧ (r = q ∨ r = q.Scale (-1)) := by
  obtain ⟨e0, e1, e2, e4, e5, e6, e8, e9, e10⟩ := q.Mat4_entries
  obtain ⟨w, ⟨x, y, z⟩⟩ := q
  have hn : w * w + x * x + y * y + z * z = 1 := h
  simp only [] at e0 e1 e2 e4 e5 e6 e8 e9 e10
  unfold Mat4ToQuat Mat4ToQuat_sqrtArg
  simp only [e0, e1, e2, e4, e5, e6, e8, e9, e10]
  by_cases c1 : 1 - 2 * y * y - 2 * z * z + (1 - 2 * x * x - 2 * z * z) +
      (1 - 2 * x * x - 2 * y * y) > 0
  · rw [if_pos c1, if_pos c1]
    have hw : w ≠ 0 := by
      rintro rfl
      linarith [mul_self_nonneg x, mul_self_nonneg y, mul_self_nonneg z]
    have harg : 1 - 2 * y * y - 2 * z * z + (1 - 2 * x * x - 2 * z * z) +
        (1 - 2 * x * x - 2 * y * y) + 1 = 4 * w * w := by linear_combination (-4 : ℚ) * hn
    refine ⟨by linarith, ?_⟩
    rcases lt_or_gt_of_ne hw with hneg | hpos
    · rw [Sqrt_four_sq_neg hneg harg]
      have h2 : -(2 * w) ≠ 0 := by intro h0; apply hw; linarith
      rw [math.fdiv_of_ne _ h2]
      have h3 : (1 : ℚ) / 2 / -(2 * w) ≠ 0 := by
        apply div_ne_zero (by norm_num) h2
      rw [Option.some_bind, math.fdiv_of_ne _ h3]
      refine ⟨_, rfl, Or.inr ?_⟩
      ext <;> simp only [Quat.Scale, Quat.X, Quat.Y, Quat.Z] <;> field_simp <;> ring
    · rw [Sqrt_four_sq_pos hpos harg]
      have h2 : (2 * w) ≠ 0 := by intro h0; apply hw; linarith
      rw [math.fdiv_of_ne _ h2]
      have h3 : (1 : ℚ) / 2 / (2 * w) ≠ 0 := by
        apply div_ne_zero (by norm_num) h2
      rw [Option.some_bind, math.fdiv_of_ne _ h3]
      refine ⟨_, rfl, Or.inl ?_⟩
      ext <;> simp only [] <;> field_simp <;> ring
  · rw [if_neg c1, if_neg c1]
    by_cases c2 : 1 - 2 * y * y - 2 * z * z > 1 - 2 * x * x - 2 * z * z ∧
        1 - 2 * y * y - 2 * z * z > 1 - 2 * x * x - 2 * y * y
    · rw [if_pos c2, if_pos c2]
      have hx : x ≠ 0 := by
        rintro rfl
        linarith [mul_self_nonneg y, c2.1]
      have harg : 1 + (1 - 2 * y * y - 2 * z * z) - (1 - 2 * x * x - 2 * z * z) -
          (1 - 2 * x * x - 2 * y * y) = 4 * x * x := by ring
      refine ⟨by rw [harg]; linarith [mul_self_pos.mpr hx], ?_⟩
      rcases lt_or_gt_of_ne hx with hneg | hpos
      · rw [Sqrt_four_sq_neg hneg harg]
        have h2 : 2 * -(2 * x) ≠ 0 := by intro h0; apply hx; linarith
        rw [math.fdiv_of_ne _ h2, math.fdiv_of_ne _ h2, math.fdiv_of_ne _ h2]
        refine ⟨_, rfl, Or.inr ?_⟩
        ext <;> simp only [Quat.Scale, Quat.X, Quat.Y, Quat.Z] <;> field_simp <;> ring
      · rw [Sqrt_four_sq_pos hpos harg]
        have h2 : 2 * (2 * x) ≠ 0 := by intro h0; apply hx; linarith
        rw [math.fdiv_of_ne _ h2, math.fdiv_of_ne _ h2, math.fdiv_of_ne _ h2]
        refine ⟨_, rfl, Or.inl ?_⟩
        ext <;> simp only [] <;> field_simp <;> ring
    · rw [if_neg c2, if_neg c2]
      by_cases c3 : 1 - 2 * x * x - 2 * z * z > 1 - 2 * x * x - 2 * y * y
      · rw [if_pos c3, if_pos c3]
        have hy : y ≠ 0 := by
          rintro rfl
          linarith [mul_self_nonneg z]
        have harg : 1 + (1 - 2 * x * x - 2 * z * z) - (1 - 2 * y * y - 2 * z * z) -
            (1 - 2 * x * x - 2 * y * y) = 4 * y * y := by ring
        refine ⟨by rw [harg]; linarith [mul_self_pos.mpr hy], ?_⟩
        rcases lt_or_gt_of_ne hy with hneg | hpos
        · rw [Sqrt_four_sq_neg hneg harg]
          have h2 : 2 * -(2 * y) ≠ 0 := by intro h0; apply hy; linarith
          rw [math.fdiv_of_ne _ h2, math.fdiv_of_ne _ h2, math.fdiv_of_ne _ h2]
          refine ⟨_, rfl, Or.inr ?_⟩
          ext <;> simp only [Quat.Scale, Quat.X, Quat.Y, Quat.Z] <;> field_simp <;> ring
        · rw [Sqrt_four_sq_pos hpos harg]
          have h2 : 2 * (2 * y) ≠ 0 := by intro h0; apply hy; linarith
          rw [math.fdiv_of_ne _ h2, math.fdiv_of_ne _ h2, math.fdiv_of_ne _ h2]
          refine ⟨_, rfl, Or.inl ?_⟩
          ext <;> simp only [] <;> field_simp <;> ring
      · rw [if_neg c3, if_neg c3]
        have hz : z ≠ 0 := by
          rintro rfl
          have hy : y * y ≤ 0 := by linarith
          have hy0 : y * y = 0 := le_antisymm hy (mul_self_nonneg y)
          have hx : x * x ≤ 0 := by
            by_contra hc
            push_neg at hc
            apply c2
            constructor <;> linarith
          have hx0 : x * x = 0 := le_antisymm hx (mul_self_nonneg x)
          linarith
        have harg : 1 + (1 - 2 * x * x - 2 * y * y) - (1 - 2 * y * y - 2 * z * z) -
            (1 - 2 * x * x - 2 * z * z) = 4 * z * z := by ring
        refine ⟨by rw [harg]; linarith [mul_self_pos.mpr hz], ?_⟩
        rcases lt_or_gt_of_ne hz with hneg | hpos
        · rw [Sqrt_four_sq_neg hneg harg]
          have h2 : 2 * -(2 * z) ≠ 0 := by intro h0; apply hz; linarith
          rw [math.fdiv_of_ne _ h2, math.fdiv_of_ne _ h2, math.fdiv_of_ne _ h2]
          refine ⟨_, rfl, Or.inr ?_⟩
          ext <;> simp only [Quat.Scale, Quat.X, Quat.Y, Quat.Z] <;> field_simp <;> ring
        · rw [Sqrt_four_sq_pos hpos harg]
          have h2 : 2 * (2 * z) ≠ 0 := by intro h0; apply hz; linarith
          rw [math.fdiv_of_ne _ h2, math.fdiv_of_ne _ h2, math.fdiv_of_ne _ h2]
          refine ⟨_, rfl, Or.inl ?_⟩
          ext <;> simp only [] <;> field_simp <;> ring

theorem Mat4ToQuat_roundtrip_witness :
    (@Quat.mk ℚ (1 / 2) ⟨-1 / 2, 1 / 2, -1 / 2⟩).Dot ⟨1 / 2, ⟨-1 / 2, 1 / 2, -1 / 2⟩⟩ = 1 ∧
    0 < Mat4ToQuat_sqrtArg (@Quat.mk ℚ (1 / 2) ⟨-1 / 2, 1 / 2, -1 / 2⟩).Mat4 ∧
    ∃ r : Quat ℚ, Mat4ToQuat Rat.sqrt (@Quat.mk ℚ (1 / 2) ⟨-1 / 2, 1 / 2, -1 / 2⟩).Mat4 = some r ∧
      (r = ⟨1 / 2, ⟨-1 / 2, 1 / 2, -1 / 2⟩⟩ ∨
        r = (@Quat.mk ℚ (1 / 2) ⟨-1 / 2, 1 / 2, -1 / 2⟩).Scale (-1)) :=
  ⟨by norm_num [Quat.Dot, Quat.X, Quat.Y, Quat.Z],
   Mat4ToQuat_roundtrip ⟨1 / 2, ⟨-1 / 2, 1 / 2, -1 / 2⟩⟩
     (by norm_num [Quat.Dot, Quat.X, Quat.Y, Quat.Z])⟩

theorem Quat.Dot_Mul (q1 q2 : Quat ℚ) :
    (q1.Mul q2).Dot (q1.Mul q2) = q1.Dot q1 * q2.Dot q2 := by
  simp only [Quat.Dot, Quat.Mul, Quat.X, Quat.Y, Quat.Z, Vec3.Cross, Vec3.Mul, Vec3.Add,
    Vec3.Dot]
  ring

theorem QuatRotate_unit (sin cos : ℚ → ℚ) (angle : ℚ) (i : Nat)
    (h : sin (angle / 2) ^ 2 + cos (angle / 2) ^ 2 = 1) :
    (QuatRotate sin cos angle (axisVec i)).Dot (QuatRotate sin cos angle (axisVec i)) = 1 := by
  have e : angle * (1 / 2) = angle / 2 := by ring
  unfold QuatRotate axisVec
  simp only [e]
  split_ifs <;>
    simp only [Quat.Dot, Quat.X, Quat.Y, Quat.Z, Vec3.Mul] <;>
    linear_combination h

/-- C29: `AnglesToQuat` panics exactly when the value of `order` is not one of the twelve
constants 0 to 11, and for each of the twelve orders it returns a quaternion, whatever the
angles are. -/
theorem AnglesToQuat_panics_iff (sincos : ℚ → ℚ × ℚ) (angle1 angle2 angle3 : ℚ)
    (order : Int) :
    (AnglesToQuat sincos angle1 angle2 angle3 order =
        Except.error QuatPanic.unsupportedRotationOrder ↔ ¬ (0 ≤ order ∧ order ≤ 11)) ∧
    ((∃ q : Quat ℚ, AnglesToQuat sincos angle1 angle2 angle3 order = Except.ok q) ↔
      (0 ≤ order ∧ order ≤ 11)) := by
  by_cases h : 0 ≤ order ∧ order ≤ 11
  · obtain ⟨h0, h11⟩ := h
    interval_cases order <;>
      simp [AnglesToQuat, XYX, XYZ, XZX, XZY, YXY, YXZ, YZY, YZX, ZYZ, ZYX, ZXZ, ZXY]
  · have n0 : order ≠ 0 := by omega
    have n1 : order ≠ 1 := by omega
    have n2 : order ≠ 2 := by omega
    have n3 : order ≠ 3 := by omega
    have n4 : order ≠ 4 := by omega
    have n5 : order ≠ 5 := by omega
    have n6 : order ≠ 6 := by omega
    have n7 : order ≠ 7 := by omega
    have n8 : order ≠ 8 := by omega
    have n9 : order ≠ 9 := by omega
    have n10 : order ≠ 10 := by omega
    have n11 : order ≠ 11 := by omega
    simp [AnglesToQuat, XYX, XYZ, XZX, XZY, YXY, YXZ, YZY, YZX, ZYZ, ZYX, ZXZ, ZXY,
      n0, n1, n2, n3, n4, n5, n6, n7, n8, n9, n10, n11, h]

theorem AnglesToQuat_product (sin cos : ℚ → ℚ) (angle1 angle2 angle3 : ℚ)
    (order : Int) (ho : 0 ≤ order ∧ order ≤ 11) :
    AnglesToQuat (fun x => (sin x, cos x)) angle1 angle2 angle3 order = Except.ok
      (((QuatRotate sin cos angle1 (axisVec (orderAxes order).1)).Mul
        (QuatRotate sin cos angle2 (axisVec (orderAxes order).2.1))).Mul
        (QuatRotate sin cos angle3 (axisVec (orderAxes order).2.2))) := by
  have e1 : angle1 * (1 / 2) = angle1 / 2 := by ring
  have e2 : angle2 * (1 / 2) = angle2 / 2 := by ring
  have e3 : angle3 * (1 / 2) = angle3 / 2 := by ring
  obtain ⟨h0, h11⟩ := ho
  have x0 : axisVec 0 = ⟨1, 0, 0⟩ := rfl
  have x1 : axisVec 1 = ⟨0, 1, 0⟩ := rfl
  have x2 : axisVec 2 = ⟨0, 0, 1⟩ := rfl
  interval_cases order <;>
    simp only [AnglesToQuat, XYX, XYZ, XZX, XZY, YXY, YXZ, YZY, YZX, ZYZ, ZYX, ZXZ, ZXY,
      orderAxes, Int.reduceEq, if_true, if_false, x0, x1, x2, QuatRotate, e1, e2, e3] <;>
    congr 1 <;>
    ext <;>
    simp only [Quat.Mul, Vec3.Cross, Vec3.Mul, Vec3.Add, Vec3.Dot] <;>
    ring

/-- C30: for each of the twelve rotation orders ABC, `AnglesToQuat(a1, a2, a3, ABC)` is the
Hamilton product `QuatRotate(a1, e_A).Mul(QuatRotate(a2, e_B)).Mul(QuatRotate(a3, e_C))` of the
three rotations about the coordinate axes, and it is a unit quaternion; `math.Sincos` returns
the sine and the cosine, whose squares add up to one at the three half angles. -/
theorem AnglesToQuat_eq_product (sin cos : ℚ → ℚ) (sincos : ℚ → ℚ × ℚ)
    (hsc : ∀ x, sincos x = (sin x, cos x)) (angle1 angle2 angle3 : ℚ) (order : Int)
    (ho : 0 ≤ order ∧ order ≤ 11)
    (h1 : sin (angle1 / 2) ^ 2 + cos (angle1 / 2) ^ 2 = 1)
    (h2 : sin (angle2 / 2) ^ 2 + cos (angle2 / 2) ^ 2 = 1)
    (h3 : sin (angle3 / 2) ^ 2 + cos (angle3 / 2) ^ 2 = 1) :
    ∃ q : Quat ℚ, AnglesToQuat sincos angle1 angle2 angle3 order = Except.ok q ∧
      q = ((QuatRotate sin cos angle1 (axisVec (orderAxes order).1)).Mul
        (QuatRotate sin cos angle2 (axisVec (orderAxes order).2.1))).Mul
        (QuatRotate sin cos angle3 (axisVec (orderAxes order).2.2)) ∧
      q.Dot q = 1 := by
  have hf : sincos = fun x => (sin x, cos x) := funext hsc
  subst hf
  refine ⟨_, AnglesToQuat_product sin cos angle1 angle2 angle3 order ho, rfl, ?_⟩
  rw [Quat.Dot_Mul, Quat.Dot_Mul, QuatRotate_unit sin cos angle1 _ h1,
    QuatRotate_unit sin cos angle2 _ h2, QuatRotate_unit sin cos angle3 _ h3]
  norm_num

theorem AnglesToQuat_eq_product_witness :
    ∃ q : Quat ℚ,
      AnglesToQuat (fun x => (2 * x / (1 + x * x), (1 - x * x) / (1 + x * x))) 1 2 3 3 =
        Except.ok q ∧
      q = ((QuatRotate (fun x => 2 * x / (1 + x * x)) (fun x => (1 - x * x) / (1 + x * x)) 1
            (axisVec (orderAxes 3).1)).Mul
          (QuatRotate (fun x => 2 * x / (1 + x * x)) (fun x => (1 - x * x) / (1 + x * x)) 2
            (axisVec (orderAxes 3).2.1))).Mul
          (QuatRotate (fun x => 2 * x / (1 + x * x)) (fun x => (1 - x * x) / (1 + x * x)) 3
            (axisVec (orderAxes 3).2.2)) ∧
      q.Dot q = 1 :=
  AnglesToQuat_eq_product (fun x => 2 * x / (1 + x * x)) (fun x => (1 - x * x) / (1 + x * x))
    (fun x => (2 * x / (1 + x * x), (1 - x * x) / (1 + x * x))) (fun _ => rfl) 1 2 3 3
    (by decide) (by norm_num) (by norm_num) (by norm_num)

end glm

/-! ## ExtremePointsAlongDirection -/

namespace geo

open glm

theorem projAt_append_left (d : Vec3 ℚ) (l l' : List (Vec3 ℚ)) (k : Nat) (h : k < l.length) :
    projAt d (l ++ l') k = projAt d l k := by
  unfold projAt
  rw [List.getD_append _ _ _ _ h]

theorem projAt_append_length (d : Vec3 ℚ) (l : List (Vec3 ℚ)) (p : Vec3 ℚ) :
    projAt d (l ++ [p]) l.length = p.Dot d := by
  unfold projAt
  rw [List.getD_append_right _ _ _ _ (le_refl _)]
  simp

/-- The invariant of the loop of `ExtremePointsAlongDirection`: after a non-empty list of points
the two indices are the first ones that attain the least and the greatest projection. -/
theorem extremeLoop_spec (d : Vec3 ℚ) (suf : List (Vec3 ℚ)) :
    ∀ (pre : List (Vec3 ℚ)) (imin imax : Int) (minproj maxproj : ℚ),
    (∀ p ∈ suf, -math.MaxFloat32 < p.Dot d ∧ p.Dot d < math.MaxFloat32) →
    ((pre = [] ∧ suf ≠ [] ∧ minproj = math.MaxFloat32 ∧ maxproj = -math.MaxFloat32) ∨
      ∃ i j : Nat, i < pre.length ∧ j < pre.length ∧ imin = (i : Int) ∧ imax = (j : Int) ∧
        minproj = projAt d pre i ∧ maxproj = projAt d pre j ∧
        (∀ k < pre.length, projAt d pre i ≤ projAt d pre k ∧ projAt d pre k ≤ projAt d pre j) ∧
        (∀ k < i, projAt d pre i < projAt d pre k) ∧
        (∀ k < j, projAt d pre k < projAt d pre j)) →
    ∃ i j : Nat, i < (pre ++ suf).length ∧ j < (pre ++ suf).length ∧
      extremeLoop d suf pre.length imin imax minproj maxproj = ((i : Int), (j : Int)) ∧
      (∀ k < (pre ++ suf).length,
        projAt d (pre ++ suf) i ≤ projAt d (pre ++ suf) k ∧
        projAt d (pre ++ suf) k ≤ projAt d (pre ++ suf) j) ∧
      (∀ k < i, projAt d (pre ++ suf) i < projAt d (pre ++ suf) k) ∧
      (∀ k < j, projAt d (pre ++ suf) k < projAt d (pre ++ suf) j) := by
  induction suf with
  | nil =>
    intro pre imin imax minproj maxproj _ hinv
    rcases hinv with ⟨_, hne, _⟩ | ⟨i, j, hi, hj, himin, himax, _, _, hall, hfi, hfj⟩
    · exact absurd rfl hne
    · refine ⟨i, j, by simpa using hi, by simpa using hj, ?_, ?_, ?_, ?_⟩
      · simp [extremeLoop, himin, himax]
      · simpa using hall
      · simpa using hfi
      · simpa using hfj
  | cons p ps ih =>
    intro pre imin imax minproj maxproj hb hinv
    have hp := hb p (List.mem_cons_self p ps)
    have hb' : ∀ x ∈ ps, -math.MaxFloat32 < x.Dot d ∧ x.Dot d < math.MaxFloat32 :=
      fun x hx => hb x (List.mem_cons_of_mem p hx)
    have hlen : (pre ++ [p]).length = pre.length + 1 := by simp
    have happ : pre ++ p :: ps = (pre ++ [p]) ++ ps := by simp
    rw [happ]
    unfold extremeLoop
    simp only []
    rw [← hlen]
    apply ih (pre ++ [p]) _ _ _ _ hb'
    right
    have hlast : projAt d (pre ++ [p]) pre.length = p.Dot d := projAt_append_length d pre p
    have hold : ∀ k < pre.length, projAt d (pre ++ [p]) k = projAt d pre k :=
      fun k hk => projAt_append_left d pre [p] k hk
    rcases hinv with ⟨hnil, _, hmin, hmax⟩ |
      ⟨i, j, hi, hj, himin, himax, hmin, hmax, hall, hfi, hfj⟩
    · subst hnil
      rw [hmin, hmax, if_pos hp.2, if_pos hp.2, if_pos hp.1, if_pos hp.1]
      refine ⟨0, 0, by simp, by simp, by simp, by simp, ?_, ?_, ?_, ?_, ?_⟩
      · simpa using hlast.symm
      · simpa using hlast.symm
      · intro k hk
        have hk0 : k = 0 := by simpa using hk
        subst hk0
        exact ⟨le_refl _, le_refl _⟩
      · intro k hk
        exact absurd hk (Nat.not_lt_zero k)
      · intro k hk
        exact absurd hk (Nat.not_lt_zero k)
    · have hcases : ∀ k < (pre ++ [p]).length, k < pre.length ∨ k = pre.length := by
        intro k hk
        rw [hlen] at hk
        omega
      by_cases c1 : p.Dot d < minproj <;> by_cases c2 : p.Dot d > maxproj
      · rw [if_pos c1, if_pos c1, if_pos c2, if_pos c2]
        refine ⟨pre.length, pre.length, by omega, by omega, rfl, rfl, hlast.symm, hlast.symm,
          ?_, ?_, ?_⟩
        · intro k hk
          rw [hlast]
          rcases hcases k hk with hk | hk
          · rw [hold k hk]
            have := hall k hk
            constructor <;> linarith
          · rw [hk, hlast]
            exact ⟨le_refl _, le_refl _⟩
        · intro k hk
          rw [hlast, hold k hk]
          have := hall k hk
          linarith
        · intro k hk
          rw [hlast, hold k hk]
          have := hall k hk
          linarith
      · rw [if_pos c1, if_pos c1, if_neg c2, if_neg c2]
        refine ⟨pre.length, j, by omega, by omega, rfl, himax, hlast.symm,
          by rw [hold j hj]; exact hmax, ?_, ?_, ?_⟩
        · intro k hk
          rw [hlast, hold j hj]
          rcases hcases k hk with hk | hk
          · rw [hold k hk]
            have := hall k hk
            constructor <;> linarith
          · rw [hk, hlast]
            exact ⟨le_refl _, by linarith⟩
        · intro k hk
          rw [hlast, hold k hk]
          have := hall k hk
          linarith
        · intro k hk
          rw [hold j hj, hold k (by omega)]
          exact hfj k hk
      · rw [if_neg c1, if_neg c1, if_pos c2, if_pos c2]
        refine ⟨i, pre.length, by omega, by omega, himin, rfl,
          by rw [hold i hi]; exact hmin, hlast.symm, ?_, ?_, ?_⟩
        · intro k hk
          rw [hlast, hold i hi]
          rcases hcases k hk with hk | hk
          · rw [hold k hk]
            have := hall k hk
            constructor <;> linarith
          · rw [hk, hlast]
            exact ⟨by linarith, le_refl _⟩
        · intro k hk
          rw [hold i hi, hold k (by omega)]
          exact hfi k hk
        · intro k hk
          rw [hlast, hold k hk]
          have := hall k hk
          linarith
      · rw [if_neg c1, if_neg c1, if_neg c2, if_neg c2]
        refine ⟨i, j, by omega, by omega, himin, himax,
          by rw [hold i hi]; exact hmin, by rw [hold j hj]; exact hmax, ?_, ?_, ?_⟩
        · intro k hk
          rw [hold i hi, hold j hj]
          rcases hcases k hk with hk | hk
          · rw [hold k hk]
            exact hall k hk
          · rw [hk, hlast]
            exact ⟨by linarith, by linarith⟩
        · intro k hk
          rw [hold i hi, hold k (by omega)]
          exact hfi k hk
        · intro k hk
          rw [hold j hj, hold k (by omega)]
          exact hfj k hk

/-- C24 (amended): in exact arithmetic, for every direction and every non-empty list of points
whose projections lie strictly between `-MaxFloat32` and `MaxFloat32`,
`ExtremePointsAlongDirection` returns valid indices `(imin, imax)` with
`points[imin]·direction ≤ points[k]·direction ≤ points[imax]·direction` for every `k`, each of
them the first index that attains its extreme; for the empty list it returns `(-1, -1)`. -/
theorem ExtremePointsAlongDirection_correct (direction : Vec3 ℚ) (points : List (Vec3 ℚ))
    (hne : points ≠ [])
    (hb : ∀ p ∈ points,
      -math.MaxFloat32 < p.Dot direction ∧ p.Dot direction < math.MaxFloat32) :
    ExtremePointsAlongDirection direction [] = (-1, -1) ∧
    ∃ imin imax : Nat, imin < points.length ∧ imax < points.length ∧
      ExtremePointsAlongDirection direction points = ((imin : Int), (imax : Int)) ∧
      (∀ k < points.length,
        projAt direction points imin ≤ projAt direction points k ∧
        projAt direction points k ≤ projAt direction points imax) ∧
      (∀ k < imin, projAt direction points imin < projAt direction points k) ∧
      (∀ k < imax, projAt direction points k < projAt direction points imax) := by
  refine ⟨rfl, ?_⟩
  have h := extremeLoop_spec direction points [] (-1) (-1) math.MaxFloat32 (-math.MaxFloat32)
    hb (Or.inl ⟨rfl, hne, rfl, rfl⟩)
  simpa [ExtremePointsAlongDirection] using h

theorem ExtremePointsAlongDirection_correct_witness :
    ExtremePointsAlongDirection ⟨1, 0, 0⟩ [] = (-1, -1) ∧
    ∃ imin imax : Nat,
      imin < [@Vec3.mk ℚ 1 0 0, ⟨-1, 0, 0⟩, ⟨3, 0, 0⟩, ⟨-1, 1, 0⟩, ⟨3, 1, 0⟩].length ∧
      imax < [@Vec3.mk ℚ 1 0 0, ⟨-1, 0, 0⟩, ⟨3, 0, 0⟩, ⟨-1, 1, 0⟩, ⟨3, 1, 0⟩].length ∧
      ExtremePointsAlongDirection ⟨1, 0, 0⟩
          [⟨1, 0, 0⟩, ⟨-1, 0, 0⟩, ⟨3, 0, 0⟩, ⟨-1, 1, 0⟩, ⟨3, 1, 0⟩] =
        ((imin : Int), (imax : Int)) ∧
      (∀ k < [@Vec3.mk ℚ 1 0 0, ⟨-1, 0, 0⟩, ⟨3, 0, 0⟩, ⟨-1, 1, 0⟩, ⟨3, 1, 0⟩].length,
        projAt ⟨1, 0, 0⟩ [⟨1, 0, 0⟩, ⟨-1, 0, 0⟩, ⟨3, 0, 0⟩, ⟨-1, 1, 0⟩, ⟨3, 1, 0⟩] imin ≤
          projAt ⟨1, 0, 0⟩ [⟨1, 0, 0⟩, ⟨-1, 0, 0⟩, ⟨3, 0, 0⟩, ⟨-1, 1, 0⟩, ⟨3, 1, 0⟩] k ∧
        projAt ⟨1, 0, 0⟩ [⟨1, 0, 0⟩, ⟨-1, 0, 0⟩, ⟨3, 0, 0⟩, ⟨-1, 1, 0⟩, ⟨3, 1, 0⟩] k ≤
          projAt ⟨1, 0, 0⟩ [⟨1, 0, 0⟩, ⟨-1, 0, 0⟩, ⟨3, 0, 0⟩, ⟨-1, 1, 0⟩, ⟨3, 1, 0⟩] imax) ∧
      (∀ k < imin,
        projAt ⟨1, 0, 0⟩ [⟨1, 0, 0⟩, ⟨-1, 0, 0⟩, ⟨3, 0, 0⟩, ⟨-1, 1, 0⟩, ⟨3, 1, 0⟩] imin <
          projAt ⟨1, 0, 0⟩ [⟨1, 0, 0⟩, ⟨-1, 0, 0⟩, ⟨3, 0, 0⟩, ⟨-1, 1, 0⟩, ⟨3, 1, 0⟩] k) ∧
      (∀ k < imax,
        projAt ⟨1, 0, 0⟩ [⟨1, 0, 0⟩, ⟨-1, 0, 0⟩, ⟨3, 0, 0⟩, ⟨-1, 1, 0⟩, ⟨3, 1, 0⟩] k <
          projAt ⟨1, 0, 0⟩ [⟨1, 0, 0⟩, ⟨-1, 0, 0⟩, ⟨3, 0, 0⟩, ⟨-1, 1, 0⟩, ⟨3, 1, 0⟩] imax) :=
  ExtremePointsAlongDirection_correct ⟨1, 0, 0⟩
    [⟨1, 0, 0⟩, ⟨-1, 0, 0⟩, ⟨3, 0, 0⟩, ⟨-1, 1, 0⟩, ⟨3, 1, 0⟩] (by simp)
    (by
      intro p hp
      simp only [List.mem_cons, List.mem_singleton, List.not_mem_nil, or_false] at hp
      rcases hp with rfl | rfl | rfl | rfl | rfl <;>
        norm_num [Vec3.Dot, math.MaxFloat32])

end geo

/-! ## CovarianceMatrix -/

namespace geo

open glm

theorem foldl_add_replicate (x : Vec3 ℚ) (N : Nat) :
    ∀ c : Vec3 ℚ, (List.replicate N x).foldl (fun (c : Vec3 ℚ) (p : Vec3 ℚ) => c.Add p) c =
      c.Add (x.Mul (N : ℚ)) := by
  induction N with
  | zero =>
    intro c
    ext <;> simp [Vec3.Add, Vec3.Mul]
  | succ n ih =>
    intro c
    rw [List.replicate_succ, List.foldl_cons, ih]
    ext <;> simp [Vec3.Add, Vec3.Mul] <;> ring

theorem foldl_sums_replicate (x c : Vec3 ℚ) (h : x.Sub c = ⟨0, 0, 0⟩) (N : Nat) :
    ∀ e : CovSums, (List.replicate N x).foldl (fun (e : CovSums) (pt : Vec3 ℚ) =>
      let p := pt.Sub c
      { e00 := e.e00 + p.X * p.X
        e11 := e.e11 + p.Y * p.Y
        e22 := e.e22 + p.Z * p.Z
        e01 := e.e01 + p.X * p.Y
        e02 := e.e02 + p.X * p.Z
        e12 := e.e12 + p.Y * p.Z }) e = e := by
  induction N with
  | zero =>
    intro e
    rfl
  | succ n ih =>
    intro e
    rw [List.replicate_succ, List.foldl_cons]
    simp only [h, mul_zero, add_zero]
    exact ih e

/-- C22: in exact arithmetic, for every `N ≥ 1` and every point `x`, `CovarianceMatrix` applied
to `N` copies of `x` writes zero into all nine entries of `cov`, whatever `cov` held before; and
for every non-empty list of points the matrix written is symmetric: `cov[3] = cov[1]`,
`cov[6] = cov[2]` and `cov[7] = cov[5]`. -/
theorem CovarianceMatrix_identical_symmetric (cov : Mat3 ℚ) (x : Vec3 ℚ) (N : Nat) (hN : 1 ≤ N)
    (points : List (Vec3 ℚ)) (hne : points ≠ []) :
    CovarianceMatrix cov (List.replicate N x) = some (fun _ => 0) ∧
    ∃ m : Mat3 ℚ, CovarianceMatrix cov points = some m ∧ m 3 = m 1 ∧ m 6 = m 2 ∧ m 7 = m 5 := by
  constructor
  · have hN0 : (N : ℚ) ≠ 0 := by
      have : 0 < N := hN
      exact_mod_cast this.ne'
    have hlen : (((List.replicate N x).length : Nat) : ℚ) ≠ 0 := by
      rw [List.length_replicate]
      exact hN0
    unfold CovarianceMatrix
    rw [math.fdiv_of_ne _ hlen]
    simp only [Option.map_some', List.length_replicate]
    rw [foldl_add_replicate]
    have hc : ((@Vec3.mk ℚ 0 0 0).Add (x.Mul (N : ℚ))).Mul (1 / (N : ℚ)) = x := by
      ext <;> simp [Vec3.Add, Vec3.Mul] <;> field_simp
    rw [hc, foldl_sums_replicate x x (by ext <;> simp [Vec3.Sub]) N]
    congr 1
    funext i
    fin_cases i <;> simp [Mat3.set, Mat3.get]
  · have hlen : ((points.length : Nat) : ℚ) ≠ 0 := by
      have : points.length ≠ 0 := by
        intro h0
        exact hne (List.length_eq_zero.mp h0)
      exact_mod_cast this
    unfold CovarianceMatrix
    rw [math.fdiv_of_ne _ hlen]
    have v1 : ((1 : Fin 9) : ℕ) = 1 := rfl
    have v2 : ((2 : Fin 9) : ℕ) = 2 := rfl
    have v3 : ((3 : Fin 9) : ℕ) = 3 := rfl
    have v5 : ((5 : Fin 9) : ℕ) = 5 := rfl
    have v6 : ((6 : Fin 9) : ℕ) = 6 := rfl
    have v7 : ((7 : Fin 9) : ℕ) = 7 := rfl
    refine ⟨_, rfl, ?_, ?_, ?_⟩ <;> simp [Mat3.set, Mat3.get, v1, v2, v3, v5, v6, v7]

theorem CovarianceMatrix_identical_symmetric_witness :
    CovarianceMatrix Mat3.Ident (List.replicate 3 ⟨1, 2, 3⟩) = some (fun _ => 0) ∧
    ∃ m : Mat3 ℚ, CovarianceMatrix Mat3.Ident [⟨1, 0, 0⟩, ⟨0, 2, 0⟩] = some m ∧
      m 3 = m 1 ∧ m 6 = m 2 ∧ m 7 = m 5 :=
  CovarianceMatrix_identical_symmetric Mat3.Ident ⟨1, 2, 3⟩ 3 (by decide)
    [⟨1, 0, 0⟩, ⟨0, 2, 0⟩] (by simp)

end geo

/-! ## Jacobi -/

namespace geo

open glm

theorem Mat3.get_lt {K : Type} [LinearOrderedField K] (m : Mat3 K) (n : Nat) (h : n < 9) : m.get n =
    m ⟨n, h⟩ := by
  unfold Mat3.get
  rw [dif_pos h]

/-- The entries of a 3x3 matrix that is written as a list of nine numbers. -/
theorem Mat3.vec_apply {K : Type} [LinearOrderedField K] (a0 a1 a2 a3 a4 a5 a6 a7 a8 : K) :
    (![a0, a1, a2, a3, a4, a5, a6, a7, a8] : Mat3 K) 0 = a0 ∧
    (![a0, a1, a2, a3, a4, a5, a6, a7, a8] : Mat3 K) 1 = a1 ∧
    (![a0, a1, a2, a3, a4, a5, a6, a7, a8] : Mat3 K) 2 = a2 ∧
    (![a0, a1, a2, a3, a4, a5, a6, a7, a8] : Mat3 K) 3 = a3 ∧
    (![a0, a1, a2, a3, a4, a5, a6, a7, a8] : Mat3 K) 4 = a4 ∧
    (![a0, a1, a2, a3, a4, a5, a6, a7, a8] : Mat3 K) 5 = a5 ∧
    (![a0, a1, a2, a3, a4, a5, a6, a7, a8] : Mat3 K) 6 = a6 ∧
    (![a0, a1, a2, a3, a4, a5, a6, a7, a8] : Mat3 K) 7 = a7 ∧
    (![a0, a1, a2, a3, a4, a5, a6, a7, a8] : Mat3 K) 8 = a8 :=
  ⟨rfl, rfl, rfl, rfl, rfl, rfl, rfl, rfl, rfl⟩

/-- The numbers of the nine indices. -/
theorem Mat3.val_index :
    ((0 : Fin 9) : ℕ) = 0 ∧ ((1 : Fin 9) : ℕ) = 1 ∧ ((2 : Fin 9) : ℕ) = 2 ∧
    ((3 : Fin 9) : ℕ) = 3 ∧ ((4 : Fin 9) : ℕ) = 4 ∧ ((5 : Fin 9) : ℕ) = 5 ∧
    ((6 : Fin 9) : ℕ) = 6 ∧ ((7 : Fin 9) : ℕ) = 7 ∧ ((8 : Fin 9) : ℕ) = 8 :=
  ⟨rfl, rfl, rfl, rfl, rfl, rfl, rfl, rfl, rfl⟩

/-- Two 3x3 matrices with the same nine entries are equal. -/
theorem Mat3.ext9 {K : Type} {A B : Mat3 K} (h0 : A 0 = B 0) (h1 : A 1 = B 1)
    (h2 : A 2 = B 2) (h3 : A 3 = B 3) (h4 : A 4 = B 4) (h5 : A 5 = B 5) (h6 : A 6 = B 6)
    (h7 : A 7 = B 7) (h8 : A 8 = B 8) : A = B := by
  funext i
  fin_cases i
  · exact h0
  · exact h1
  · exact h2
  · exact h3
  · exact h4
  · exact h5
  · exact h6
  · exact h7
  · exact h8

theorem Mat3.Mul3_Ident {K : Type} [LinearOrderedField K] (m : Mat3 K) :
    m.Mul3 Mat3.Ident = m := by
  apply Mat3.ext9 <;> simp only [Mat3.Mul3, Mat3.Ident, Mat3.vec_apply] <;> ring

theorem Mat3.Ident_Mul3 {K : Type} [LinearOrderedField K] (m : Mat3 K) :
    Mat3.Ident.Mul3 m = m := by
  apply Mat3.ext9 <;> simp only [Mat3.Mul3, Mat3.Ident, Mat3.vec_apply] <;> ring

theorem Mat3.Ident_Transposed {K : Type} [LinearOrderedField K] :
    (Mat3.Ident : Mat3 K).Transposed = Mat3.Ident := by
  apply Mat3.ext9 <;> simp only [Mat3.Transposed, Mat3.Ident, Mat3.vec_apply]

theorem jacobiRotation_trivial {K : Type} [LinearOrderedField K] (J : Mat3 K) : jacobiRotation J 0 1
    1 0 = Mat3.Ident := by
  funext i
  fin_cases i <;> simp [jacobiRotation, Mat3.set, Mat3.Ident, Mat3.vec_apply, Mat3.val_index]

theorem jacobiPivot_diagonal {K : Type} [LinearOrderedField K] (a : Mat3 K)
    (h : a 1 = 0 ∧ a 2 = 0 ∧ a 3 = 0 ∧ a 5 = 0 ∧ a 6 = 0 ∧ a 7 = 0) :
    jacobiPivot a = (0, 1) := by
  obtain ⟨h1, h2, h3, h5, h6, h7⟩ := h
  have g1 : a.get 1 = 0 := by rw [Mat3.get_lt a 1 (by norm_num)]; exact h1
  have g2 : a.get 2 = 0 := by rw [Mat3.get_lt a 2 (by norm_num)]; exact h2
  have g3 : a.get 3 = 0 := by rw [Mat3.get_lt a 3 (by norm_num)]; exact h3
  have g5 : a.get 5 = 0 := by rw [Mat3.get_lt a 5 (by norm_num)]; exact h5
  have g6 : a.get 6 = 0 := by rw [Mat3.get_lt a 6 (by norm_num)]; exact h6
  have g7 : a.get 7 = 0 := by rw [Mat3.get_lt a 7 (by norm_num)]; exact h7
  simp [jacobiPivot, jacobiPairs, g1, g2, g3, g5, g6, g7]

theorem jacobiOff_diagonal {K : Type} [LinearOrderedField K] (a : Mat3 K)
    (h : a 1 = 0 ∧ a 2 = 0 ∧ a 3 = 0 ∧ a 5 = 0 ∧ a 6 = 0 ∧ a 7 = 0) :
    jacobiOff a = 0 := by
  obtain ⟨h1, h2, h3, h5, h6, h7⟩ := h
  have g1 : a.get 1 = 0 := by rw [Mat3.get_lt a 1 (by norm_num)]; exact h1
  have g2 : a.get 2 = 0 := by rw [Mat3.get_lt a 2 (by norm_num)]; exact h2
  have g3 : a.get 3 = 0 := by rw [Mat3.get_lt a 3 (by norm_num)]; exact h3
  have g5 : a.get 5 = 0 := by rw [Mat3.get_lt a 5 (by norm_num)]; exact h5
  have g6 : a.get 6 = 0 := by rw [Mat3.get_lt a 6 (by norm_num)]; exact h6
  have g7 : a.get 7 = 0 := by rw [Mat3.get_lt a 7 (by norm_num)]; exact h7
  simp [jacobiOff, jacobiPairs, g1, g2, g3, g5, g6, g7]

theorem SymSchur2_diagonal {K : Type} [LinearOrderedField K] (sqrt : K → K) (a : Mat3 K)
    (h : a 3 = 0) : SymSchur2 sqrt a 0 1 = some (1, 0) := by
  have g3 : a.get 3 = 0 := by rw [Mat3.get_lt a 3 (by norm_num)]; exact h
  unfold SymSchur2
  rw [if_neg]
  norm_num [g3, math.Abs]

/-- One sweep of `Jacobi` on a diagonal matrix changes neither `a` nor the identity in `v`. -/
theorem jacobiLoop_diagonal {K : Type} [LinearOrderedField K] (sqrt : K → K) (a : Mat3 K)
    (h : a 1 = 0 ∧ a 2 = 0 ∧ a 3 = 0 ∧ a 5 = 0 ∧ a 6 = 0 ∧ a 7 = 0)
    (fuel n : Nat) (J : Mat3 K) (prevoff : K) :
    jacobiLoop sqrt (fuel + 1) n a Mat3.Ident J prevoff =
      if n > 2 ∧ (0 : K) ≥ prevoff then some (a, Mat3.Ident)
      else jacobiLoop sqrt fuel (n + 1) a Mat3.Ident Mat3.Ident 0 := by
  rw [jacobiLoop]
  simp only [jacobiPivot_diagonal a h, SymSchur2_diagonal sqrt a h.2.2.1, jacobiRotation_trivial,
    Mat3.Mul3_Ident, Mat3.Ident_Transposed, Mat3.Ident_Mul3, jacobiOff_diagonal a h]

/-- C21: for every diagonal 3x3 matrix `a`, whose six off-diagonal entries are zero, and any
prior content of `v`, `Jacobi(a, v)` terminates, leaves `a` unchanged and makes `v` the
identity matrix, whatever the root function is: no root is taken. -/
theorem Jacobi_diagonal {K : Type} [LinearOrderedField K] (sqrt : K → K) (a v : Mat3 K)
    (h : a 1 = 0 ∧ a 2 = 0 ∧ a 3 = 0 ∧ a 5 = 0 ∧ a 6 = 0 ∧ a 7 = 0) :
    Jacobi sqrt a v = some (a, ![1, 0, 0, 0, 1, 0, 0, 0, 1]) := by
  unfold Jacobi
  simp only []
  rw [jacobiLoop_diagonal sqrt a h, if_neg (by norm_num), jacobiLoop_diagonal sqrt a h,
    if_neg (by norm_num), jacobiLoop_diagonal sqrt a h, if_neg (by norm_num),
    jacobiLoop_diagonal sqrt a h, if_pos (by norm_num)]
  rfl

theorem Jacobi_diagonal_witness :
    Jacobi Rat.sqrt ![2, 0, 0, 0, -3, 0, 0, 0, 5] ![7, 7, 7, 7, 7, 7, 7, 7, 7] =
      some (![2, 0, 0, 0, -3, 0, 0, 0, 5], ![1, 0, 0, 0, 1, 0, 0, 0, 1]) :=
  Jacobi_diagonal Rat.sqrt ![2, 0, 0, 0, -3, 0, 0, 0, 5] ![7, 7, 7, 7, 7, 7, 7, 7, 7]
    ⟨rfl, rfl, rfl, rfl, rfl, rfl⟩

end geo

/-! ## MinimumAreaRectangle -/

namespace geo

open glm

theorem Vec2.dot_self_pos {K : Type} [LinearOrderedField K] {e : Vec2 K} (h : e ≠ ⟨0, 0⟩) :
    0 < e.Dot e := by
  have h1 := mul_self_nonneg e.X
  have h2 := mul_self_nonneg e.Y
  have h0 : 0 ≤ e.Dot e := by
    unfold Vec2.Dot
    linarith
  rcases h0.lt_or_eq with hlt | heq
  · exact hlt
  · exfalso
    apply h
    unfold Vec2.Dot at heq
    have hx : e.X = 0 := mul_self_eq_zero.mp (by linarith)
    have hy : e.Y = 0 := mul_self_eq_zero.mp (by linarith)
    ext
    · exact hx
    · exact hy

/-- Normalizing a non-zero vector gives the unit vector of the same direction. -/
theorem Vec2.Normalize_spec {K : Type} [LinearOrderedField K] (sqrt : K → K)
    (hsqrt : math.IsSqrt sqrt) {e : Vec2 K} (h : e ≠ ⟨0, 0⟩) :
    ∃ l : K, 0 < l ∧ l * l = e.Dot e ∧ e.Normalize sqrt = e.Mul (1 / l) := by
  have hpos := Vec2.dot_self_pos h
  have hs := hsqrt.mul_self hpos.le
  have hn := hsqrt.nonneg hpos.le
  have hne : sqrt (e.Dot e) ≠ 0 := by
    intro h0
    rw [h0] at hs
    linarith
  refine ⟨sqrt (e.Dot e), lt_of_le_of_ne hn (Ne.symm hne), hs, ?_⟩
  unfold Vec2.Normalize
  simp only []
  rw [if_neg hne]

theorem Vec2.Normalize_unit {K : Type} [LinearOrderedField K] (sqrt : K → K)
    (hsqrt : math.IsSqrt sqrt) {e : Vec2 K} (h : e ≠ ⟨0, 0⟩) :
    (e.Normalize sqrt).Dot (e.Normalize sqrt) = 1 := by
  obtain ⟨l, hl, hll, hn⟩ := Vec2.Normalize_spec sqrt hsqrt h
  rw [hn]
  unfold Vec2.Dot Vec2.Mul at *
  simp only []
  field_simp
  linarith


theorem runMin_spec {K : Type} [LinearOrderedField K] (f : Vec2 K → K) (l : List (Vec2 K)) :
    runMin f l ≤ 0 ∧ (∀ p ∈ l, runMin f l ≤ f p) ∧
      (runMin f l = 0 ∨ ∃ p ∈ l, runMin f l = f p) := by
  induction l using List.reverseRecOn with
  | nil => simp [runMin]
  | append_singleton l p ih =>
    obtain ⟨h0, hall, hatt⟩ := ih
    have hstep : runMin f (l ++ [p]) = if f p < runMin f l then f p else runMin f l := by
      simp [runMin, List.foldl_append]
    rw [hstep]
    by_cases c : f p < runMin f l
    · rw [if_pos c]
      refine ⟨by linarith, ?_, Or.inr ⟨p, by simp, rfl⟩⟩
      intro x hx
      rcases List.mem_append.mp hx with hx | hx
      · have := hall x hx
        linarith
      · rw [List.mem_singleton.mp hx]
    · rw [if_neg c]
      refine ⟨h0, ?_, ?_⟩
      · intro x hx
        rcases List.mem_append.mp hx with hx | hx
        · exact hall x hx
        · rw [List.mem_singleton.mp hx]
          exact not_lt.mp c
      · rcases hatt with h | ⟨x, hx, h⟩
        · exact Or.inl h
        · exact Or.inr ⟨x, List.mem_append_left _ hx, h⟩

theorem runMax_spec {K : Type} [LinearOrderedField K] (f : Vec2 K → K) (l : List (Vec2 K)) :
    0 ≤ runMax f l ∧ (∀ p ∈ l, f p ≤ runMax f l) ∧
      (runMax f l = 0 ∨ ∃ p ∈ l, runMax f l = f p) := by
  induction l using List.reverseRecOn with
  | nil => simp [runMax]
  | append_singleton l p ih =>
    obtain ⟨h0, hall, hatt⟩ := ih
    have hstep : runMax f (l ++ [p]) = if f p > runMax f l then f p else runMax f l := by
      simp [runMax, List.foldl_append]
    rw [hstep]
    by_cases c : f p > runMax f l
    · rw [if_pos c]
      refine ⟨by linarith, ?_, Or.inr ⟨p, by simp, rfl⟩⟩
      intro x hx
      rcases List.mem_append.mp hx with hx | hx
      · have := hall x hx
        linarith
      · rw [List.mem_singleton.mp hx]
    · rw [if_neg c]
      refine ⟨h0, ?_, ?_⟩
      · intro x hx
        rcases List.mem_append.mp hx with hx | hx
        · exact hall x hx
        · rw [List.mem_singleton.mp hx]
          exact not_lt.mp c
      · rcases hatt with h | ⟨x, hx, h⟩
        · exact Or.inl h
        · exact Or.inr ⟨x, List.mem_append_left _ hx, h⟩

/-- The inner loop of `MinimumAreaRectangle` computes the running extremes of the two
projections. -/
theorem rectExtents_eq {K : Type} [LinearOrderedField K] (points : List (Vec2 K))
    (pj e0 e1 : Vec2 K) :
    rectExtents points pj e0 e1 =
      ⟨runMin (fun p => (p.Sub pj).Dot e0) points, runMin (fun p => (p.Sub pj).Dot e1) points,
        runMax (fun p => (p.Sub pj).Dot e0) points,
        runMax (fun p => (p.Sub pj).Dot e1) points⟩ := by
  induction points using List.reverseRecOn with
  | nil => rfl
  | append_singleton l p ih =>
    unfold rectExtents at ih ⊢
    rw [List.foldl_append, ih]
    simp [runMin, runMax, List.foldl_append]

/-- The width of the running extremes is at most the width of every interval that contains
the values of a function that differs from the projected one by a constant and a sign. -/
theorem width_le {K : Type} [LinearOrderedField K] (f g : Vec2 K → K) (l : List (Vec2 K))
    (pj : Vec2 K) (c σ lo hi : K)
    (hσ : σ = 1 ∨ σ = -1) (hf : ∀ p, f p = σ * (g p - c)) (hj : pj ∈ l) (hj0 : f pj = 0)
    (hb : ∀ p ∈ l, lo ≤ g p ∧ g p ≤ hi) :
    runMax f l - runMin f l ≤ hi - lo := by
  obtain ⟨_, _, hmin⟩ := runMin_spec f l
  obtain ⟨_, _, hmax⟩ := runMax_spec f l
  have hmin' : ∃ p ∈ l, runMin f l = f p := by
    rcases hmin with h | h
    · exact ⟨pj, hj, by rw [h, hj0]⟩
    · exact h
  have hmax' : ∃ p ∈ l, runMax f l = f p := by
    rcases hmax with h | h
    · exact ⟨pj, hj, by rw [h, hj0]⟩
    · exact h
  obtain ⟨pa, ha, hea⟩ := hmax'
  obtain ⟨pb, hb', heb⟩ := hmin'
  rw [hea, heb, hf pa, hf pb]
  have h1 := hb pa ha
  have h2 := hb pb hb'
  rcases hσ with h | h <;> rw [h] <;> linarith


theorem minRectStep_eq {K : Type} [LinearOrderedField K] (sqrt : K → K) (points : List (Vec2 K))
    (i j : Nat) (r : MinRect K) :
    minRectStep sqrt points i j r =
      if (minRectCandidate sqrt points i j).minArea < r.minArea then
        minRectCandidate sqrt points i j
      else r := rfl

theorem prevIndex_succ (n i : Nat) : prevIndex n (i + 1) = i := by
  simp [prevIndex]

theorem prevIndex_lt {n i : Nat} (h : i < n) : prevIndex n i < n := by
  unfold prevIndex
  split_ifs <;> omega

/-- The invariant of the outer loop of `MinimumAreaRectangle`: the result is the initial value
or the rectangle of one of the edges seen, and its area is at most the area of each of them. -/
theorem minRectLoop_spec {K : Type} [LinearOrderedField K] (sqrt : K → K) (points : List (Vec2 K))
    (fuel : Nat) :
    ∀ (i : Nat) (r : MinRect K),
    ((∀ k < i, r.minArea ≤
        (minRectCandidate sqrt points k (prevIndex points.length k)).minArea) ∧
      (r = ⟨math.MaxFloat32, ⟨0, 0⟩, ⟨0, 0⟩, ⟨0, 0⟩⟩ ∨
        ∃ k < i, r = minRectCandidate sqrt points k (prevIndex points.length k))) →
    ((∀ k < i + fuel, (minRectLoop sqrt points fuel i (prevIndex points.length i) r).minArea ≤
        (minRectCandidate sqrt points k (prevIndex points.length k)).minArea) ∧
      (minRectLoop sqrt points fuel i (prevIndex points.length i) r =
          ⟨math.MaxFloat32, ⟨0, 0⟩, ⟨0, 0⟩, ⟨0, 0⟩⟩ ∨
        ∃ k < i + fuel, minRectLoop sqrt points fuel i (prevIndex points.length i) r =
          minRectCandidate sqrt points k (prevIndex points.length k))) := by
  induction fuel with
  | zero =>
    intro i r h
    simpa [minRectLoop] using h
  | succ fuel ih =>
    intro i r h
    obtain ⟨hle, hor⟩ := h
    rw [minRectLoop]
    have hnext := ih (i + 1) (minRectStep sqrt points i (prevIndex points.length i) r)
    rw [prevIndex_succ] at hnext
    have hidx : i + 1 + fuel = i + (fuel + 1) := by omega
    rw [hidx] at hnext
    apply hnext
    rw [minRectStep_eq]
    by_cases c : (minRectCandidate sqrt points i (prevIndex points.length i)).minArea < r.minArea
    · rw [if_pos c]
      refine ⟨?_, Or.inr ⟨i, by omega, rfl⟩⟩
      intro k hk
      rcases Nat.lt_succ_iff_lt_or_eq.mp hk with hk | hk
      · have := hle k hk
        linarith
      · rw [hk]
    · rw [if_neg c]
      refine ⟨?_, ?_⟩
      · intro k hk
        rcases Nat.lt_succ_iff_lt_or_eq.mp hk with hk | hk
        · exact hle k hk
        · rw [hk]
          exact not_lt.mp c
      · rcases hor with h | ⟨k, hk, h⟩
        · exact Or.inl h
        · exact Or.inr ⟨k, by omega, h⟩

theorem getD_mem {K : Type} [LinearOrderedField K] (points : List (Vec2 K)) {j : Nat}
    (h : j < points.length) :
    points.getD j ⟨0, 0⟩ ∈ points := by
  rw [List.getD_eq_getElem _ _ h]
  exact List.getElem_mem h

/-- The rectangle of an edge: its axes are perpendicular unit vectors and it contains all the
points. -/
theorem candidate_contains {K : Type} [LinearOrderedField K] (sqrt : K → K)
    (hsqrt : math.IsSqrt sqrt) (points : List (Vec2 K)) (i : Nat)
    (hne : polygonEdge points i ≠ ⟨0, 0⟩) :
    (minRectCandidate sqrt points i (prevIndex points.length i)).orientation0.Dot
        (minRectCandidate sqrt points i (prevIndex points.length i)).orientation0 = 1 ∧
    (minRectCandidate sqrt points i (prevIndex points.length i)).orientation1.Dot
        (minRectCandidate sqrt points i (prevIndex points.length i)).orientation1 = 1 ∧
    (minRectCandidate sqrt points i (prevIndex points.length i)).orientation0.Dot
        (minRectCandidate sqrt points i (prevIndex points.length i)).orientation1 = 0 ∧
    ∃ h0 h1 : K, 0 ≤ h0 ∧ 0 ≤ h1 ∧
      4 * h0 * h1 = (minRectCandidate sqrt points i (prevIndex points.length i)).minArea ∧
      ∀ x ∈ points,
        |(x.Sub (minRectCandidate sqrt points i (prevIndex points.length i)).center).Dot
            (minRectCandidate sqrt points i (prevIndex points.length i)).orientation0| ≤ h0 ∧
        |(x.Sub (minRectCandidate sqrt points i (prevIndex points.length i)).center).Dot
            (minRectCandidate sqrt points i (prevIndex points.length i)).orientation1| ≤ h1 := by
  have hunit := Vec2.Normalize_unit sqrt hsqrt hne
  unfold polygonEdge at hunit
  unfold minRectCandidate
  simp only []
  rw [rectExtents_eq]
  simp only []
  generalize ((points.getD i ⟨0, 0⟩).Sub
    (points.getD (prevIndex points.length i) ⟨0, 0⟩)).Normalize sqrt = e0 at hunit ⊢
  generalize points.getD (prevIndex points.length i) ⟨0, 0⟩ = pj
  have hu : e0.X * e0.X + e0.Y * e0.Y = 1 := hunit
  obtain ⟨hm0, hmin0, _⟩ := runMin_spec (fun p => (p.Sub pj).Dot e0) points
  obtain ⟨hM0, hmax0, _⟩ := runMax_spec (fun p => (p.Sub pj).Dot e0) points
  obtain ⟨hm1, hmin1, _⟩ := runMin_spec (fun p => (p.Sub pj).Dot ⟨-e0.Y, e0.X⟩) points
  obtain ⟨hM1, hmax1, _⟩ := runMax_spec (fun p => (p.Sub pj).Dot ⟨-e0.Y, e0.X⟩) points
  generalize runMin (fun p => (p.Sub pj).Dot e0) points = m0 at *
  generalize runMax (fun p => (p.Sub pj).Dot e0) points = M0 at *
  generalize runMin (fun p => (p.Sub pj).Dot ⟨-e0.Y, e0.X⟩) points = m1 at *
  generalize runMax (fun p => (p.Sub pj).Dot ⟨-e0.Y, e0.X⟩) points = M1 at *
  refine ⟨hunit, ?_, ?_, (M0 - m0) / 2, (M1 - m1) / 2, by linarith, by linarith, by ring, ?_⟩
  · simp only [Vec2.Dot]
    linarith
  · simp only [Vec2.Dot]
    ring
  · intro x hx
    have a0 := hmin0 x hx
    have b0 := hmax0 x hx
    have a1 := hmin1 x hx
    have b1 := hmax1 x hx
    simp only [Vec2.Dot, Vec2.Sub] at a0 b0 a1 b1
    have e0eq : (x.Sub (pj.Add (((e0.Mul (m0 + M0)).Add
        ((@Vec2.mk K (-e0.Y) e0.X).Mul (m1 + M1))).Mul (1 / 2)))).Dot e0 =
        ((x.X - pj.X) * e0.X + (x.Y - pj.Y) * e0.Y) - (m0 + M0) / 2 := by
      simp only [Vec2.Dot, Vec2.Sub, Vec2.Add, Vec2.Mul]
      linear_combination (-(m0 + M0) / 2) * hu
    have e1eq : (x.Sub (pj.Add (((e0.Mul (m0 + M0)).Add
        ((@Vec2.mk K (-e0.Y) e0.X).Mul (m1 + M1))).Mul (1 / 2)))).Dot ⟨-e0.Y, e0.X⟩ =
        ((x.X - pj.X) * -e0.Y + (x.Y - pj.Y) * e0.X) - (m1 + M1) / 2 := by
      simp only [Vec2.Dot, Vec2.Sub, Vec2.Add, Vec2.Mul]
      linear_combination (-(m1 + M1) / 2) * hu
    rw [e0eq, e1eq]
    constructor <;> rw [abs_le] <;> constructor <;> linarith


/-- The rectangle of an edge is the smallest one among the rectangles along the direction of
the edge that contain all the points. -/
theorem candidate_le_bounding {K : Type} [LinearOrderedField K] (sqrt : K → K)
    (hsqrt : math.IsSqrt sqrt) (points : List (Vec2 K)) (i : Nat) (hi : i < points.length)
    (hne : polygonEdge points i ≠ ⟨0, 0⟩)
    (u : Vec2 K) (lo0 hi0 lo1 hi1 : K) (hu : u.Dot u = 1)
    (hpar : ∃ t : K, polygonEdge points i = u.Mul t)
    (hb : ∀ x ∈ points, lo0 ≤ x.Dot u ∧ x.Dot u ≤ hi0 ∧
      lo1 ≤ x.Dot (perp u) ∧ x.Dot (perp u) ≤ hi1) :
    (minRectCandidate sqrt points i (prevIndex points.length i)).minArea ≤
      (hi0 - lo0) * (hi1 - lo1) := by
  obtain ⟨l, hl, hll, hn⟩ := Vec2.Normalize_spec sqrt hsqrt hne
  obtain ⟨t, ht⟩ := hpar
  have hl0 : l ≠ 0 := hl.ne'
  have huu : u.X * u.X + u.Y * u.Y = 1 := hu
  have htt : t * t = l * l := by
    rw [hll, ht]
    simp only [Vec2.Dot, Vec2.Mul]
    linear_combination (-(t * t)) * huu
  have hσ : t / l = 1 ∨ t / l = -1 := by
    have h1 : (t / l - 1) * (t / l + 1) = 0 := by
      field_simp
      linear_combination htt
    rcases mul_eq_zero.mp h1 with h | h
    · left
      linarith
    · right
      linarith
  have hj := getD_mem points (prevIndex_lt hi)
  unfold polygonEdge at hn ht
  unfold minRectCandidate
  simp only []
  rw [rectExtents_eq]
  simp only []
  rw [hn, ht]
  generalize points.getD (prevIndex points.length i) ⟨0, 0⟩ = pj at hj ⊢
  have w0 := width_le (fun p => (p.Sub pj).Dot ((u.Mul t).Mul (1 / l))) (fun p => p.Dot u)
    points pj (pj.Dot u) (t / l) lo0 hi0 hσ
    (by
      intro p
      simp only [Vec2.Dot, Vec2.Sub, Vec2.Mul]
      field_simp
      ring)
    hj (by simp [Vec2.Dot, Vec2.Sub]) (fun p hp => ⟨(hb p hp).1, (hb p hp).2.1⟩)
  have w1 := width_le
    (fun p => (p.Sub pj).Dot ⟨-((u.Mul t).Mul (1 / l)).Y, ((u.Mul t).Mul (1 / l)).X⟩)
    (fun p => p.Dot (perp u)) points pj (pj.Dot (perp u)) (t / l) lo1 hi1 hσ
    (by
      intro p
      simp only [Vec2.Dot, Vec2.Sub, Vec2.Mul, perp]
      field_simp
      ring)
    hj (by simp [Vec2.Dot, Vec2.Sub]) (fun p hp => ⟨(hb p hp).2.2.1, (hb p hp).2.2.2⟩)
  have n0 := (runMin_spec (fun p => (p.Sub pj).Dot ((u.Mul t).Mul (1 / l))) points).1
  have n1 := (runMax_spec (fun p => (p.Sub pj).Dot ((u.Mul t).Mul (1 / l))) points).1
  have n2 := (runMin_spec
    (fun p => (p.Sub pj).Dot ⟨-((u.Mul t).Mul (1 / l)).Y, ((u.Mul t).Mul (1 / l)).X⟩) points).1
  have n3 := (runMax_spec
    (fun p => (p.Sub pj).Dot ⟨-((u.Mul t).Mul (1 / l)).Y, ((u.Mul t).Mul (1 / l)).X⟩) points).1
  exact mul_le_mul w0 w1 (by linarith) (by linarith)

/-- C23, amended: in exact arithmetic, for every list of 2D points, in particular of at least
three, in which no point coincides with the one before it, the first with the last, and for
which the bounding rectangle along some edge direction has an area below `MaxFloat32`,
`MinimumAreaRectangle` returns two mutually perpendicular unit axes and a center such that all
the points lie in the rectangle with that center and those axes whose area is `minArea`, and
`minArea` is at most the area of every rectangle along a polygon edge direction that contains
all the points, the closing edge included. The root `math.Sqrt` is exact. -/
theorem MinimumAreaRectangle_correct {K : Type} [LinearOrderedField K] (sqrt : K → K)
    (hsqrt : math.IsSqrt sqrt) (points : List (Vec2 K))
    (hedge : ∀ i < points.length, polygonEdge points i ≠ ⟨0, 0⟩)
    (hmax : ∃ i < points.length, ∃ (u : Vec2 K) (lo0 hi0 lo1 hi1 : K), u.Dot u = 1 ∧
      (∃ t : K, polygonEdge points i = u.Mul t) ∧
      (∀ x ∈ points, lo0 ≤ x.Dot u ∧ x.Dot u ≤ hi0 ∧
        lo1 ≤ x.Dot (perp u) ∧ x.Dot (perp u) ≤ hi1) ∧
      (hi0 - lo0) * (hi1 - lo1) < math.MaxFloat32) :
    (MinimumAreaRectangle sqrt points).orientation0.Dot
      (MinimumAreaRectangle sqrt points).orientation0 = 1 ∧
    (MinimumAreaRectangle sqrt points).orientation1.Dot
      (MinimumAreaRectangle sqrt points).orientation1 = 1 ∧
    (MinimumAreaRectangle sqrt points).orientation0.Dot
      (MinimumAreaRectangle sqrt points).orientation1 = 0 ∧
    (∃ h0 h1 : K, 0 ≤ h0 ∧ 0 ≤ h1 ∧ 4 * h0 * h1 = (MinimumAreaRectangle sqrt points).minArea ∧
      ∀ x ∈ points,
        |(x.Sub (MinimumAreaRectangle sqrt points).center).Dot
            (MinimumAreaRectangle sqrt points).orientation0| ≤ h0 ∧
        |(x.Sub (MinimumAreaRectangle sqrt points).center).Dot
            (MinimumAreaRectangle sqrt points).orientation1| ≤ h1) ∧
    ∀ i < points.length, ∀ (u : Vec2 K) (lo0 hi0 lo1 hi1 : K), u.Dot u = 1 →
      (∃ t : K, polygonEdge points i = u.Mul t) →
      (∀ x ∈ points, lo0 ≤ x.Dot u ∧ x.Dot u ≤ hi0 ∧
        lo1 ≤ x.Dot (perp u) ∧ x.Dot (perp u) ≤ hi1) →
      (MinimumAreaRectangle sqrt points).minArea ≤ (hi0 - lo0) * (hi1 - lo1) := by
  have hloop := minRectLoop_spec sqrt points points.length 0
    ⟨math.MaxFloat32, ⟨0, 0⟩, ⟨0, 0⟩, ⟨0, 0⟩⟩
    ⟨fun k hk => absurd hk (Nat.not_lt_zero k), Or.inl rfl⟩
  have hp0 : prevIndex points.length 0 = points.length - 1 := by simp [prevIndex]
  rw [hp0, Nat.zero_add] at hloop
  change (∀ k < points.length, (MinimumAreaRectangle sqrt points).minArea ≤ _) ∧
    (MinimumAreaRectangle sqrt points = _ ∨
      ∃ k < points.length, MinimumAreaRectangle sqrt points = _)
    at hloop
  obtain ⟨hle, hor⟩ := hloop
  have hbound : ∀ i < points.length, ∀ (u : Vec2 K) (lo0 hi0 lo1 hi1 : K), u.Dot u = 1 →
      (∃ t : K, polygonEdge points i = u.Mul t) →
      (∀ x ∈ points, lo0 ≤ x.Dot u ∧ x.Dot u ≤ hi0 ∧
        lo1 ≤ x.Dot (perp u) ∧ x.Dot (perp u) ≤ hi1) →
      (MinimumAreaRectangle sqrt points).minArea ≤ (hi0 - lo0) * (hi1 - lo1) := by
    intro i hi u lo0 hi0 lo1 hi1 hu hpar hb
    exact le_trans (hle i hi)
      (candidate_le_bounding sqrt hsqrt points i hi (hedge i hi) u lo0 hi0 lo1 hi1 hu
        hpar hb)
  obtain ⟨i, hi, u, lo0, hi0, lo1, hi1, hu, hpar, hb, hlt⟩ := hmax
  have hsmall := lt_of_le_of_lt (hbound i hi u lo0 hi0 lo1 hi1 hu hpar hb) hlt
  rcases hor with hinit | ⟨k, hk, hcand⟩
  · rw [hinit] at hsmall
    exact absurd hsmall (lt_irrefl _)
  · have hc := candidate_contains sqrt hsqrt points k (hedge k hk)
    rw [← hcand] at hc
    exact ⟨hc.1, hc.2.1, hc.2.2.1, hc.2.2.2, hbound⟩


/-- Witness for C23: the square with the corners `(1,0)`, `(0,1)`, `(-1,0)`, `(0,-1)` over the
real numbers, whose edges have the length `√2`; the area returned is at most `2`. -/
theorem MinimumAreaRectangle_correct_witness :
    ((MinimumAreaRectangle Real.sqrt diamond).orientation0.Dot
        (MinimumAreaRectangle Real.sqrt diamond).orientation0 = 1 ∧
      (MinimumAreaRectangle Real.sqrt diamond).orientation1.Dot
        (MinimumAreaRectangle Real.sqrt diamond).orientation1 = 1 ∧
      (MinimumAreaRectangle Real.sqrt diamond).orientation0.Dot
        (MinimumAreaRectangle Real.sqrt diamond).orientation1 = 0 ∧
      (∃ h0 h1 : ℝ, 0 ≤ h0 ∧ 0 ≤ h1 ∧
        4 * h0 * h1 = (MinimumAreaRectangle Real.sqrt diamond).minArea ∧
        ∀ x ∈ (diamond : List (Vec2 ℝ)),
          |(x.Sub (MinimumAreaRectangle Real.sqrt diamond).center).Dot
              (MinimumAreaRectangle Real.sqrt diamond).orientation0| ≤ h0 ∧
          |(x.Sub (MinimumAreaRectangle Real.sqrt diamond).center).Dot
              (MinimumAreaRectangle Real.sqrt diamond).orientation1| ≤ h1)) ∧
    (MinimumAreaRectangle Real.sqrt diamond).minArea ≤ 2 := by
  have hs0 : 0 ≤ Real.sqrt 2 := Real.sqrt_nonneg 2
  have hs2 : Real.sqrt 2 * Real.sqrt 2 = 2 := Real.mul_self_sqrt (by norm_num)
  have hs4 : Real.sqrt 2 ≤ 2 := by nlinarith
  have hedge : ∀ i < (diamond : List (Vec2 ℝ)).length,
      polygonEdge (diamond : List (Vec2 ℝ)) i ≠ ⟨0, 0⟩ := by
    intro i hi
    have hi4 : i < 4 := hi
    interval_cases i <;> simp [polygonEdge, prevIndex, diamond, Vec2.Sub]
  have hu : (Vec2.mk (-(Real.sqrt 2 / 2)) (Real.sqrt 2 / 2)).Dot
      (Vec2.mk (-(Real.sqrt 2 / 2)) (Real.sqrt 2 / 2)) = 1 := by
    simp only [Vec2.Dot]
    linarith
  have hpar : ∃ t : ℝ, polygonEdge (diamond : List (Vec2 ℝ)) 1
      = (Vec2.mk (-(Real.sqrt 2 / 2)) (Real.sqrt 2 / 2)).Mul t := by
    refine ⟨Real.sqrt 2, ?_⟩
    simp only [polygonEdge, prevIndex, diamond, Vec2.Sub, Vec2.Mul, List.getD_cons_succ,
      List.getD_cons_zero, List.length_cons, List.length_nil]
    norm_num
    linarith
  have hbox : ∀ x ∈ (diamond : List (Vec2 ℝ)),
      -(Real.sqrt 2 / 2) ≤ x.Dot (Vec2.mk (-(Real.sqrt 2 / 2)) (Real.sqrt 2 / 2)) ∧
      x.Dot (Vec2.mk (-(Real.sqrt 2 / 2)) (Real.sqrt 2 / 2)) ≤ Real.sqrt 2 / 2 ∧
      -(Real.sqrt 2 / 2) ≤ x.Dot (perp (Vec2.mk (-(Real.sqrt 2 / 2)) (Real.sqrt 2 / 2))) ∧
      x.Dot (perp (Vec2.mk (-(Real.sqrt 2 / 2)) (Real.sqrt 2 / 2))) ≤ Real.sqrt 2 / 2 := by
    intro x hx
    simp only [diamond, List.mem_cons, List.mem_singleton, List.not_mem_nil, or_false] at hx
    rcases hx with rfl | rfl | rfl | rfl <;> simp only [Vec2.Dot, perp] <;>
      refine ⟨?_, ?_, ?_, ?_⟩ <;> linarith
  have h := MinimumAreaRectangle_correct Real.sqrt math.IsSqrt_real diamond hedge
    ⟨1, by simp [diamond], _, -(Real.sqrt 2 / 2), Real.sqrt 2 / 2, -(Real.sqrt 2 / 2),
      Real.sqrt 2 / 2, hu, hpar, hbox, by
        have : (Real.sqrt 2 / 2 - -(Real.sqrt 2 / 2)) * (Real.sqrt 2 / 2 - -(Real.sqrt 2 / 2))
            = 2 := by linarith
        rw [this]
        norm_num [math.MaxFloat32]⟩
  refine ⟨⟨h.1, h.2.1, h.2.2.1, h.2.2.2.1⟩, ?_⟩
  have h5 := h.2.2.2.2 1 (by simp [diamond]) _ _ _ _ _ hu hpar hbox
  linarith

theorem Sqrt_zero : Rat.sqrt 0 = 0 := by
  have h := math.Sqrt_mul_self (le_refl (0 : ℚ))
  rwa [mul_zero] at h

theorem Sqrt_nine : Rat.sqrt 9 = 3 := by
  rw [show (9 : ℚ) = 3 * 3 by norm_num]
  exact math.Sqrt_mul_self (by norm_num)

theorem Sqrt_sixteen : Rat.sqrt 16 = 4 := by
  rw [show (16 : ℚ) = 4 * 4 by norm_num]
  exact math.Sqrt_mul_self (by norm_num)

theorem Sqrt_twentyfive : Rat.sqrt 25 = 5 := by
  rw [show (25 : ℚ) = 5 * 5 by norm_num]
  exact math.Sqrt_mul_self (by norm_num)

theorem Sqrt_huge :
    Rat.sqrt 340282366920938463463374607431768211456 = 18446744073709551616 := by
  rw [show (340282366920938463463374607431768211456 : ℚ) =
    18446744073709551616 * 18446744073709551616 by norm_num]
  exact math.Sqrt_mul_self (by norm_num)

/-- An iteration of the outer loop whose rectangle is not smaller keeps the result. -/
theorem minRectStep_skip (points : List (Vec2 ℚ)) (i j : Nat) (r : MinRect ℚ) (e0 : Vec2 ℚ)
    (x : Extents ℚ)
    (hN : ((points.getD i ⟨0, 0⟩).Sub (points.getD j ⟨0, 0⟩)).Normalize Rat.sqrt = e0)
    (hx : rectExtents points (points.getD j ⟨0, 0⟩) e0 ⟨-e0.Y, e0.X⟩ = x)
    (hnot : ¬ (x.max0 - x.min0) * (x.max1 - x.min1) < r.minArea) :
    minRectStep Rat.sqrt points i j r = r := by
  unfold minRectStep
  simp only [hN, hx]
  rw [if_neg hnot]

/-- The square of side `2^64`: no edge has a rectangle of an area below `MaxFloat32`, and
`MinimumAreaRectangle` returns its initial values. -/
theorem MinimumAreaRectangle_hugeSquare :
    MinimumAreaRectangle Rat.sqrt hugeSquare = ⟨math.MaxFloat32, ⟨0, 0⟩, ⟨0, 0⟩, ⟨0, 0⟩⟩ := by
  have hbig : ¬ ((18446744073709551616 : ℚ) - 0) * (18446744073709551616 - 0) <
      math.MaxFloat32 := by
    norm_num [math.MaxFloat32]
  have h0 : minRectStep Rat.sqrt hugeSquare 0 3 ⟨math.MaxFloat32, ⟨0, 0⟩, ⟨0, 0⟩, ⟨0, 0⟩⟩ =
      ⟨math.MaxFloat32, ⟨0, 0⟩, ⟨0, 0⟩, ⟨0, 0⟩⟩ :=
    minRectStep_skip hugeSquare 0 3 _ ⟨0, -1⟩
      ⟨0, 0, 18446744073709551616, 18446744073709551616⟩
      (by norm_num [hugeSquare, Vec2.Normalize, Vec2.Sub, Vec2.Dot, Vec2.Mul, Sqrt_huge])
      (by norm_num [rectExtents, hugeSquare, Vec2.Sub, Vec2.Dot]) hbig
  have h1 : minRectStep Rat.sqrt hugeSquare 1 0 ⟨math.MaxFloat32, ⟨0, 0⟩, ⟨0, 0⟩, ⟨0, 0⟩⟩ =
      ⟨math.MaxFloat32, ⟨0, 0⟩, ⟨0, 0⟩, ⟨0, 0⟩⟩ :=
    minRectStep_skip hugeSquare 1 0 _ ⟨1, 0⟩
      ⟨0, 0, 18446744073709551616, 18446744073709551616⟩
      (by norm_num [hugeSquare, Vec2.Normalize, Vec2.Sub, Vec2.Dot, Vec2.Mul, Sqrt_huge])
      (by norm_num [rectExtents, hugeSquare, Vec2.Sub, Vec2.Dot]) hbig
  have h2 : minRectStep Rat.sqrt hugeSquare 2 1 ⟨math.MaxFloat32, ⟨0, 0⟩, ⟨0, 0⟩, ⟨0, 0⟩⟩ =
      ⟨math.MaxFloat32, ⟨0, 0⟩, ⟨0, 0⟩, ⟨0, 0⟩⟩ :=
    minRectStep_skip hugeSquare 2 1 _ ⟨0, 1⟩
      ⟨0, 0, 18446744073709551616, 18446744073709551616⟩
      (by norm_num [hugeSquare, Vec2.Normalize, Vec2.Sub, Vec2.Dot, Vec2.Mul, Sqrt_huge])
      (by norm_num [rectExtents, hugeSquare, Vec2.Sub, Vec2.Dot]) hbig
  have h3 : minRectStep Rat.sqrt hugeSquare 3 2 ⟨math.MaxFloat32, ⟨0, 0⟩, ⟨0, 0⟩, ⟨0, 0⟩⟩ =
      ⟨math.MaxFloat32, ⟨0, 0⟩, ⟨0, 0⟩, ⟨0, 0⟩⟩ :=
    minRectStep_skip hugeSquare 3 2 _ ⟨-1, 0⟩
      ⟨0, 0, 18446744073709551616, 18446744073709551616⟩
      (by norm_num [hugeSquare, Vec2.Normalize, Vec2.Sub, Vec2.Dot, Vec2.Mul, Sqrt_huge])
      (by norm_num [rectExtents, hugeSquare, Vec2.Sub, Vec2.Dot]) hbig
  have hlen : hugeSquare.length = 4 := rfl
  unfold MinimumAreaRectangle
  rw [hlen]
  simp only [minRectLoop, Nat.reduceAdd, Nat.reduceSub, h0, h1, h2, h3]

/-- C23, counterexample: for the right triangle with the corners `(0, 0)`, `(3, 0)` and `(0, 4)`
given as a closed polygon of four points, the closing edge has length zero;
`MinimumAreaRectangle` returns the area 0 and two zero vectors as axes, which are not unit
vectors. For the square of side `2^64` it returns the area `MaxFloat32` and zero vectors as
axes as well. -/
theorem MinimumAreaRectangle_repeated_point :
    3 ≤ closedTriangle.length ∧
    MinimumAreaRectangle Rat.sqrt closedTriangle = ⟨0, ⟨0, 0⟩, ⟨0, 0⟩, ⟨0, 0⟩⟩ ∧
    (MinimumAreaRectangle Rat.sqrt closedTriangle).orientation0.Dot
      (MinimumAreaRectangle Rat.sqrt closedTriangle).orientation0 ≠ 1 ∧
    3 ≤ hugeSquare.length ∧
    (MinimumAreaRectangle Rat.sqrt hugeSquare).orientation0.Dot
      (MinimumAreaRectangle Rat.sqrt hugeSquare).orientation0 ≠ 1 := by
  have hh := MinimumAreaRectangle_hugeSquare
  have h0 : minRectStep Rat.sqrt closedTriangle 0 3 ⟨math.MaxFloat32, ⟨0, 0⟩, ⟨0, 0⟩, ⟨0, 0⟩⟩ =
      ⟨0, ⟨0, 0⟩, ⟨0, 0⟩, ⟨0, 0⟩⟩ := by
    norm_num [minRectStep, closedTriangle, rectExtents, Vec2.Sub, Vec2.Normalize, Vec2.Dot,
      Vec2.Mul, Vec2.Add, Sqrt_zero, math.MaxFloat32]
  have h1 : minRectStep Rat.sqrt closedTriangle 1 0 ⟨0, ⟨0, 0⟩, ⟨0, 0⟩, ⟨0, 0⟩⟩ =
      ⟨0, ⟨0, 0⟩, ⟨0, 0⟩, ⟨0, 0⟩⟩ := by
    norm_num [minRectStep, closedTriangle, rectExtents, Vec2.Sub, Vec2.Normalize, Vec2.Dot,
      Vec2.Mul, Vec2.Add, Sqrt_nine]
  have h2 : minRectStep Rat.sqrt closedTriangle 2 1 ⟨0, ⟨0, 0⟩, ⟨0, 0⟩, ⟨0, 0⟩⟩ =
      ⟨0, ⟨0, 0⟩, ⟨0, 0⟩, ⟨0, 0⟩⟩ := by
    norm_num [minRectStep, closedTriangle, rectExtents, Vec2.Sub, Vec2.Normalize, Vec2.Dot,
      Vec2.Mul, Vec2.Add, Sqrt_twentyfive]
  have h3 : minRectStep Rat.sqrt closedTriangle 3 2 ⟨0, ⟨0, 0⟩, ⟨0, 0⟩, ⟨0, 0⟩⟩ =
      ⟨0, ⟨0, 0⟩, ⟨0, 0⟩, ⟨0, 0⟩⟩ := by
    norm_num [minRectStep, closedTriangle, rectExtents, Vec2.Sub, Vec2.Normalize, Vec2.Dot,
      Vec2.Mul, Vec2.Add, Sqrt_sixteen]
  have hlen : closedTriangle.length = 4 := rfl
  have hr : MinimumAreaRectangle Rat.sqrt closedTriangle = ⟨0, ⟨0, 0⟩, ⟨0, 0⟩, ⟨0, 0⟩⟩ := by
    unfold MinimumAreaRectangle
    rw [hlen]
    simp only [minRectLoop, Nat.reduceAdd, Nat.reduceSub, h0, h1, h2, h3]
  refine ⟨by decide, hr, ?_, by decide, ?_⟩
  · rw [hr]
    norm_num [Vec2.Dot]
  · rw [hh]
    norm_num [Vec2.Dot]

end geo

/-! ## Normalisation of quaternions -/

namespace glm

theorem Quat.Len_eq_sqrt_Dot {K : Type} [LinearOrderedField K] (sqrt : K → K) (q : Quat K) :
    q.Len sqrt = sqrt (q.Dot q) := rfl

theorem Quat.Dot_self_nonneg {K : Type} [LinearOrderedField K] (q : Quat K) : 0 ≤ q.Dot q := by
  simp only [Quat.Dot, Quat.X, Quat.Y, Quat.Z]
  linarith [mul_self_nonneg q.W, mul_self_nonneg q.V.X, mul_self_nonneg q.V.Y,
    mul_self_nonneg q.V.Z]

/-- The length of a quaternion is the number `y` when the root is exact on `y * y`, the sum of
the squares of the components. -/
theorem Quat.Len_of_sq {K : Type} [LinearOrderedField K] {sqrt : K → K} {q : Quat K} {y : K}
    (hs : sqrt (y * y) = y) (hy : y * y = q.Dot q) : q.Len sqrt = y := by
  rw [Quat.Len_eq_sqrt_Dot, ← hy]
  exact hs

/-- With an exact root the length of a quaternion is the number `y ≥ 0` whose square is the sum
of the squares of the components. -/
theorem Quat.Len_of_sq_exact {K : Type} [LinearOrderedField K] {sqrt : K → K}
    (hsqrt : math.IsSqrt sqrt) {q : Quat K} {y : K} (hy0 : 0 ≤ y) (hy : y * y = q.Dot q) :
    q.Len sqrt = y :=
  Quat.Len_of_sq (hsqrt.sqrt_sq hy0) hy

/-- The variants `SetNormalizedOf` and `Normalize` compute the same quaternion. -/
theorem Quat.SetNormalizedOf_eq_Normalize {K : Type} [LinearOrderedField K]
    (eq : K → K → Bool) (sqrt : K → K) (q : Quat K) :
    q.SetNormalizedOf eq sqrt = q.Normalize eq sqrt := rfl

/-- The variant `Normalized` agrees with the two others when the comparator takes the length
for zero only if it is zero. -/
theorem Quat.Normalized_eq_Normalize {K : Type} [LinearOrderedField K] (eq : K → K → Bool)
    (sqrt : K → K) (q : Quat K) (h : eq (q.Len sqrt) 0 = true ↔ q.Len sqrt = 0) :
    q.Normalized eq sqrt = q.Normalize eq sqrt := by
  unfold Quat.Normalized Quat.Normalize
  simp only []
  by_cases h1 : eq 1 (q.Len sqrt) = true
  · rw [if_pos h1, if_pos h1]
  · rw [if_neg h1, if_neg h1]
    by_cases h0 : q.Len sqrt = 0
    · rw [if_pos (h.mpr h0), if_pos h0]
      rfl
    · rw [if_neg (fun hc => h0 (h.mp hc)), if_neg h0]

/-- For the zero quaternion the three variants give the identity, without a division, when
the comparator tells 1 from 0 and takes 0 for 0. -/
theorem Quat.Normalized_zero {K : Type} [LinearOrderedField K] (eq : K → K → Bool)
    (sqrt : K → K) (hsqrt : math.IsSqrt sqrt) (h10 : eq 1 0 = false) (h00 : eq 0 0 = true) :
    (@Quat.mk K 0 ⟨0, 0, 0⟩).Normalized eq sqrt = some ⟨1, ⟨0, 0, 0⟩⟩ ∧
    (@Quat.mk K 0 ⟨0, 0, 0⟩).SetNormalizedOf eq sqrt = some ⟨1, ⟨0, 0, 0⟩⟩ ∧
    (@Quat.mk K 0 ⟨0, 0, 0⟩).Normalize eq sqrt = some ⟨1, ⟨0, 0, 0⟩⟩ := by
  have hl : (@Quat.mk K 0 ⟨0, 0, 0⟩).Len sqrt = 0 :=
    Quat.Len_of_sq_exact hsqrt (le_refl 0) (by norm_num [Quat.Dot, Quat.X, Quat.Y, Quat.Z])
  refine ⟨?_, ?_, ?_⟩
  · unfold Quat.Normalized
    simp only [hl, h10, h00]
    rfl
  · unfold Quat.SetNormalizedOf
    simp only [hl, h10]
    rfl
  · unfold Quat.Normalize
    simp only [hl, h10]
    rfl

/-- The comparator `flops.Eq` is reflexive. -/
theorem flops_Eq_refl {K : Type} [LinearOrderedField K] (ε x : K) : flops.Eq ε x x = true := by
  simp [flops.Eq]

/-- The comparator `flops.Eq` takes a positive number below the square of the tolerance for
zero. -/
theorem flops_Eq_zero {K : Type} [LinearOrderedField K] {ε x : K} (hx : 0 < x)
    (h : x < ε * ε) : flops.Eq ε x 0 = true := by
  unfold flops.Eq
  rw [if_neg hx.ne', if_pos (mul_zero x)]
  simp only [decide_eq_true_eq, sub_zero, math.Abs_eq_abs, abs_of_pos hx]
  exact h

/-- The comparator `flops.Eq` tells 1 from the numbers between 0 and `1 / 3`, with a tolerance
that is not above `1 / 2`. -/
theorem flops_Eq_one {K : Type} [LinearOrderedField K] {ε x : K} (hε : ε ≤ 1 / 2) (hx : 0 < x)
    (hx1 : x ≤ 1 / 3) : flops.Eq ε 1 x = false := by
  unfold flops.Eq
  have h1 : (1 : K) ≠ x := by
    intro h
    rw [← h] at hx1
    norm_num at hx1
  rw [if_neg h1, if_neg (by rw [one_mul]; exact hx.ne')]
  simp only [decide_eq_false_iff_not, not_lt, math.Abs_eq_abs]
  rw [abs_of_pos (by linarith : (0 : K) < 1 - x), abs_of_pos hx, abs_of_pos one_pos,
    le_div_iff₀ (by linarith)]
  nlinarith

/-- The variant `Normalized` takes a length `ℓ > 0` that the comparator takes for zero, and
not for one, for the length of the zero quaternion and returns the identity, while
`SetNormalizedOf` and `Normalize`, which test `length == 0`, divide by the length. -/
theorem Quat.Normalized_ne_Normalize {K : Type} [LinearOrderedField K] (eq : K → K → Bool)
    (sqrt : K → K) (ℓ : K) (hs : sqrt (ℓ * ℓ) = ℓ) (hℓ : ℓ ≠ 0) (h1 : eq 1 ℓ = false)
    (h0 : eq ℓ 0 = true) :
    (@Quat.mk K 0 ⟨ℓ, 0, 0⟩).Len sqrt = ℓ ∧
    (@Quat.mk K 0 ⟨ℓ, 0, 0⟩).Normalized eq sqrt = some ⟨1, ⟨0, 0, 0⟩⟩ ∧
    (@Quat.mk K 0 ⟨ℓ, 0, 0⟩).SetNormalizedOf eq sqrt = some ⟨0, ⟨1, 0, 0⟩⟩ ∧
    (@Quat.mk K 0 ⟨ℓ, 0, 0⟩).Normalize eq sqrt = some ⟨0, ⟨1, 0, 0⟩⟩ := by
  have hl : (@Quat.mk K 0 ⟨ℓ, 0, 0⟩).Len sqrt = ℓ :=
    Quat.Len_of_sq hs (by simp [Quat.Dot, Quat.X, Quat.Y, Quat.Z])
  refine ⟨hl, ?_, ?_, ?_⟩
  · unfold Quat.Normalized
    simp only [hl, h1, h0]
    rfl
  · unfold Quat.SetNormalizedOf
    simp only [hl, h1]
    simp [math.fdiv, Vec3.Mul, hℓ]
  · unfold Quat.Normalize
    simp only [hl, h1]
    simp [math.fdiv, Vec3.Mul, hℓ]

/-- C33 (failing input): in exact arithmetic, with the relative-tolerance comparator of
tolerance `10^-10` and the quaternion `q = (0, (2^-70, 0, 0))` of length `2^-70`,
`q.Normalized()` takes the length for zero and returns the identity `(1, 0, 0, 0)`, while
`SetNormalizedOf` and `Normalize`, which test `length == 0`, divide by the length and give
`(0, (1, 0, 0))`. -/
theorem Quat_Normalized_near_zero :
    (@Quat.mk ℝ 0 ⟨1 / 2 ^ 70, 0, 0⟩).Len Real.sqrt = 1 / 2 ^ 70 ∧
    (@Quat.mk ℝ 0 ⟨1 / 2 ^ 70, 0, 0⟩).Normalized (flops.Eq (1 / 10 ^ 10)) Real.sqrt =
      some ⟨1, ⟨0, 0, 0⟩⟩ ∧
    (@Quat.mk ℝ 0 ⟨1 / 2 ^ 70, 0, 0⟩).SetNormalizedOf (flops.Eq (1 / 10 ^ 10)) Real.sqrt =
      some ⟨0, ⟨1, 0, 0⟩⟩ ∧
    (@Quat.mk ℝ 0 ⟨1 / 2 ^ 70, 0, 0⟩).Normalize (flops.Eq (1 / 10 ^ 10)) Real.sqrt =
      some ⟨0, ⟨1, 0, 0⟩⟩ :=
  Quat.Normalized_ne_Normalize (flops.Eq (1 / 10 ^ 10)) Real.sqrt (1 / 2 ^ 70)
    (math.IsSqrt_real.sqrt_sq (by norm_num)) (by norm_num)
    (flops_Eq_one (by norm_num) (by norm_num) (by norm_num))
    (flops_Eq_zero (by norm_num) (by norm_num))

/-- C34 (failing input): for the unit quaternion `q = (1, 0, 0, 0)` and `epsilon = 0`, whatever
the comparator `flops.Eq` is, both normalised quaternions have the dot product `1` or `-1`,
the test `|dot| > 1 - 0` fails, and `OrientationEqualThreshold` is false for `(q, q)` and for
`(q, -q)`. -/
theorem OrientationEqualThreshold_epsilon_zero (eq : ℚ → ℚ → Bool) :
    (@Quat.mk ℚ 1 ⟨0, 0, 0⟩).Len Rat.sqrt = 1 ∧
    (@Quat.mk ℚ 1 ⟨0, 0, 0⟩).OrientationEqualThreshold eq Rat.sqrt ⟨1, ⟨0, 0, 0⟩⟩ 0 =
      some false ∧
    (@Quat.mk ℚ 1 ⟨0, 0, 0⟩).OrientationEqualThreshold eq Rat.sqrt ⟨-1, ⟨0, 0, 0⟩⟩ 0 =
      some false := by
  have hl : (@Quat.mk ℚ 1 ⟨0, 0, 0⟩).Len Rat.sqrt = 1 :=
    Quat.Len_of_sq (math.Sqrt_mul_self (by norm_num))
      (by norm_num [Quat.Dot, Quat.X, Quat.Y, Quat.Z])
  have hl' : (@Quat.mk ℚ (-1) ⟨0, 0, 0⟩).Len Rat.sqrt = 1 :=
    Quat.Len_of_sq (math.Sqrt_mul_self (by norm_num))
      (by norm_num [Quat.Dot, Quat.X, Quat.Y, Quat.Z])
  refine ⟨hl, ?_, ?_⟩
  · unfold Quat.OrientationEqualThreshold Quat.Normalized
    simp only [hl]
    cases eq 1 1 <;> cases eq 1 0 <;>
      norm_num [math.fdiv, QuatIdent, Quat.Dot, Quat.X, Quat.Y, Quat.Z, Vec3.Mul, math.Abs]
  · unfold Quat.OrientationEqualThreshold Quat.Normalized
    simp only [hl, hl']
    cases eq 1 1 <;> cases eq 1 0 <;>
      norm_num [math.fdiv, QuatIdent, Quat.Dot, Quat.X, Quat.Y, Quat.Z, Vec3.Mul, math.Abs]

/-- For a positive `epsilon` a quaternion whose normalisation is a unit quaternion has the
orientation of itself. -/
theorem OrientationEqualThreshold_self {K : Type} [LinearOrderedField K] (eq : K → K → Bool)
    (sqrt : K → K) (q n : Quat K) (epsilon : K) (hn : q.Normalized eq sqrt = some n)
    (hu : n.Dot n = 1) (hε : 0 < epsilon) :
    q.OrientationEqualThreshold eq sqrt q epsilon = some true := by
  unfold Quat.OrientationEqualThreshold
  rw [hn]
  simp only [Option.some_bind, Option.map_some', hu]
  congr 1
  rw [decide_eq_true_iff]
  unfold math.Abs
  rw [if_neg (by norm_num)]
  linarith

end glm

/-! ## Interpolation of quaternions -/

namespace glm

theorem QuatLerp_zero {K : Type} [LinearOrderedField K] (q1 q2 : Quat K) :
    QuatLerp q1 q2 0 = q1 := by
  ext <;> simp [QuatLerp, Quat.Add, Quat.Sub, Quat.Scale, Quat.X, Quat.Y, Quat.Z, Vec3.Add,
    Vec3.Sub]

theorem QuatLerp_one {K : Type} [LinearOrderedField K] (q1 q2 : Quat K) :
    QuatLerp q1 q2 1 = q2 := by
  ext <;> simp [QuatLerp, Quat.Add, Quat.Sub, Quat.Scale, Quat.X, Quat.Y, Quat.Z, Vec3.Add,
    Vec3.Sub]

theorem QuatLerp_symm {K : Type} [LinearOrderedField K] (q1 q2 : Quat K) (t : K) :
    QuatLerp q1 q2 t = QuatLerp q2 q1 (1 - t) := by
  ext <;> simp [QuatLerp, Quat.Add, Quat.Sub, Quat.Scale, Quat.X, Quat.Y, Quat.Z, Vec3.Add,
    Vec3.Sub] <;> ring

/-- With a reflexive comparator `Normalized` never divides by zero. -/
theorem Quat.Normalized_total {K : Type} [LinearOrderedField K] (eq : K → K → Bool)
    (sqrt : K → K) (h00 : eq 0 0 = true) (q : Quat K) :
    ∃ n : Quat K, q.Normalized eq sqrt = some n := by
  unfold Quat.Normalized
  simp only []
  by_cases h1 : eq 1 (q.Len sqrt) = true
  · exact ⟨_, by rw [if_pos h1]⟩
  · rw [if_neg h1]
    by_cases h0 : eq (q.Len sqrt) 0 = true
    · exact ⟨_, by rw [if_pos h0]⟩
    · rw [if_neg h0]
      have hne : q.Len sqrt ≠ 0 := by
        intro hz
        rw [hz] at h0
        exact h0 h00
      rw [math.fdiv_of_ne _ hne]
      exact ⟨_, rfl⟩

/-- Normalising twice is normalising once. -/
theorem Quat.Normalized_idem {K : Type} [LinearOrderedField K] (eq : K → K → Bool)
    (sqrt : K → K) (hsqrt : math.IsSqrt sqrt) (h11 : eq 1 1 = true) (q n : Quat K)
    (hn : q.Normalized eq sqrt = some n) :
    n.Normalized eq sqrt = some n := by
  unfold Quat.Normalized at hn
  simp only [] at hn
  by_cases h1 : eq 1 (q.Len sqrt) = true
  · rw [if_pos h1] at hn
    have hq : q = n := Option.some.inj hn
    subst hq
    unfold Quat.Normalized
    simp only []
    rw [if_pos h1]
  · rw [if_neg h1] at hn
    have unit : ∀ m : Quat K, m.Dot m = 1 → m.Normalized eq sqrt = some m := by
      intro m hm
      have hl : m.Len sqrt = 1 :=
        Quat.Len_of_sq_exact hsqrt (by norm_num) (by rw [hm]; norm_num)
      unfold Quat.Normalized
      simp only [hl]
      rw [if_pos h11]
    by_cases h0 : eq (q.Len sqrt) 0 = true
    · rw [if_pos h0] at hn
      have hq : QuatIdent = n := Option.some.inj hn
      subst hq
      exact unit _ (by norm_num [QuatIdent, Quat.Dot, Quat.X, Quat.Y, Quat.Z])
    · rw [if_neg h0] at hn
      have hll : q.Len sqrt * q.Len sqrt = q.Dot q := hsqrt.mul_self (Quat.Dot_self_nonneg q)
      by_cases hz : q.Len sqrt = 0
      · rw [hz] at hn
        simp [math.fdiv] at hn
      · rw [math.fdiv_of_ne _ hz] at hn
        have hq := Option.some.inj hn
        subst hq
        apply unit
        have hd : q.Dot q = q.W * q.W + q.V.X * q.V.X + q.V.Y * q.V.Y + q.V.Z * q.V.Z := rfl
        rw [hd] at hll
        simp only [Quat.Dot, Quat.X, Quat.Y, Quat.Z, Vec3.Mul]
        field_simp
        linear_combination -hll

theorem four_sq_eq_zero {K : Type} [LinearOrderedField K] {w x y z : K}
    (h : w * w + x * x + y * y + z * z = 0) : w = 0 ∧ x = 0 ∧ y = 0 ∧ z = 0 := by
  have hw := mul_self_nonneg w
  have hx := mul_self_nonneg x
  have hy := mul_self_nonneg y
  have hz := mul_self_nonneg z
  refine ⟨?_, ?_, ?_, ?_⟩
  · exact mul_self_eq_zero.mp (by linarith)
  · exact mul_self_eq_zero.mp (by linarith)
  · exact mul_self_eq_zero.mp (by linarith)
  · exact mul_self_eq_zero.mp (by linarith)

theorem QuatSlerp_zero {K : Type} [LinearOrderedField K] (eq : K → K → Bool)
    (sqrt acos cos sin : K → K) (hsqrt : math.IsSqrt sqrt) (q1 q2 n1 n2 : Quat K)
    (hrefl : ∀ x, eq x x = true) (hn1 : q1.Normalized eq sqrt = some n1)
    (hn2 : q2.Normalized eq sqrt = some n2) (hcos0 : cos 0 = 1) (hsin0 : sin 0 = 0) :
    QuatSlerp eq sqrt acos cos sin q1 q2 0 = some n1 := by
  unfold QuatSlerp
  simp only [hn1, hn2, Option.some_bind]
  by_cases hd : n1.Dot n2 > 9995 / 10000
  · rw [if_pos hd]
    unfold QuatNlerp
    simp only [QuatLerp_zero]
    exact Quat.Normalized_idem eq sqrt hsqrt (hrefl 1) q1 n1 hn1
  · rw [if_neg hd]
    obtain ⟨rel, hrel⟩ := Quat.Normalized_total eq sqrt (hrefl 0)
      (n2.Sub (n1.Scale (math.Clamp (n1.Dot n2) (-1) 1)))
    rw [hrel, mul_zero, hcos0, hsin0]
    simp only [Option.map_some']
    congr 1
    ext <;> simp [Quat.Add, Quat.Scale, Quat.X, Quat.Y, Quat.Z, Vec3.Add]

theorem QuatSlerp_one_fallback {K : Type} [LinearOrderedField K] (eq : K → K → Bool)
    (sqrt acos cos sin : K → K) (hsqrt : math.IsSqrt sqrt) (q1 q2 n1 n2 : Quat K)
    (hrefl : ∀ x, eq x x = true) (hn1 : q1.Normalized eq sqrt = some n1)
    (hn2 : q2.Normalized eq sqrt = some n2) (hd : n1.Dot n2 > 9995 / 10000) :
    QuatSlerp eq sqrt acos cos sin q1 q2 1 = some n2 := by
  unfold QuatSlerp
  simp only [hn1, hn2, Option.some_bind]
  rw [if_pos hd]
  unfold QuatNlerp
  simp only [QuatLerp_one]
  exact Quat.Normalized_idem eq sqrt hsqrt (hrefl 1) q2 n2 hn2

/-- On the side of the threshold where `QuatSlerp` does not fall back to `QuatNlerp`, the
amount 1 gives the second unit quaternion when the comparator takes the length `σ` of
`n2 - dot * n1` for 1 or for 0 only if it is 1 or 0. -/
theorem QuatSlerp_one_exact {K : Type} [LinearOrderedField K] (eq : K → K → Bool)
    (sqrt acos cos sin : K → K) (hsqrt : math.IsSqrt sqrt)
    (q1 q2 n1 n2 : Quat K) (σ : K) (hrefl : ∀ x, eq x x = true)
    (hn1 : q1.Normalized eq sqrt = some n1) (hn2 : q2.Normalized eq sqrt = some n2)
    (hd : ¬ n1.Dot n2 > 9995 / 10000)
    (hu1 : n1.Dot n1 = 1) (hu2 : n2.Dot n2 = 1) (hσ0 : 0 ≤ σ)
    (hσ : σ * σ = 1 - n1.Dot n2 * n1.Dot n2)
    (hcos : cos (acos (n1.Dot n2)) = n1.Dot n2) (hsin : sin (acos (n1.Dot n2)) = σ)
    (he1 : eq 1 σ = true → σ = 1) (he0 : eq σ 0 = true → σ = 0) :
    QuatSlerp eq sqrt acos cos sin q1 q2 1 = some n2 := by
  unfold QuatSlerp
  simp only [hn1, hn2, Option.some_bind]
  rw [if_neg hd]
  have hsq : n1.Dot n2 * n1.Dot n2 ≤ 1 := by linarith [mul_self_nonneg σ]
  have hlo : -1 ≤ n1.Dot n2 := by nlinarith
  have hhi : n1.Dot n2 ≤ 1 := by linarith
  have hclamp : math.Clamp (n1.Dot n2) (-1) 1 = n1.Dot n2 := by
    unfold math.Clamp
    rw [if_neg (not_lt.mpr hlo), if_neg (not_lt.mpr hhi)]
  rw [hclamp, mul_one, hcos, hsin]
  generalize hdd : n1.Dot n2 = d at *
  have e1 : n1.W * n1.W + n1.V.X * n1.V.X + n1.V.Y * n1.V.Y + n1.V.Z * n1.V.Z = 1 := hu1
  have e2 : n2.W * n2.W + n2.V.X * n2.V.X + n2.V.Y * n2.V.Y + n2.V.Z * n2.V.Z = 1 := hu2
  have e3 : n1.W * n2.W + n1.V.X * n2.V.X + n1.V.Y * n2.V.Y + n1.V.Z * n2.V.Z = d := hdd
  have hm : σ * σ = (n2.Sub (n1.Scale d)).Dot (n2.Sub (n1.Scale d)) := by
    simp only [Quat.Dot, Quat.Sub, Quat.Scale, Quat.X, Quat.Y, Quat.Z, Vec3.Sub]
    rw [hσ]
    linear_combination (-(d * d)) * e1 - e2 + (2 * d) * e3
  have hlen : (n2.Sub (n1.Scale d)).Len sqrt = σ := Quat.Len_of_sq_exact hsqrt hσ0 hm
  unfold Quat.Normalized
  simp only [hlen]
  by_cases c1 : eq 1 σ = true
  · rw [if_pos c1]
    rw [he1 c1]
    simp only [Option.map_some']
    congr 1
    ext <;> simp [Quat.Add, Quat.Sub, Quat.Scale, Quat.X, Quat.Y, Quat.Z, Vec3.Add, Vec3.Sub]
  · rw [if_neg c1]
    by_cases c0 : eq σ 0 = true
    · rw [if_pos c0]
      have hz := he0 c0
      rw [hz] at hm ⊢
      simp only [Option.map_some']
      have hm0 : (n2.W - n1.W * d) * (n2.W - n1.W * d) +
          (n2.V.X - n1.V.X * d) * (n2.V.X - n1.V.X * d) +
          (n2.V.Y - n1.V.Y * d) * (n2.V.Y - n1.V.Y * d) +
          (n2.V.Z - n1.V.Z * d) * (n2.V.Z - n1.V.Z * d) = 0 := by
        have := hm.symm
        simpa [Quat.Dot, Quat.Sub, Quat.Scale, Quat.X, Quat.Y, Quat.Z, Vec3.Sub] using this
      obtain ⟨hw, hx, hy, hz'⟩ := four_sq_eq_zero hm0
      congr 1
      ext <;>
        simp only [Quat.Add, Quat.Scale, QuatIdent, Quat.X, Quat.Y, Quat.Z, Vec3.Add] <;>
        linarith
    · rw [if_neg c0]
      have hne : σ ≠ 0 := by
        intro h0
        rw [h0] at c0
        exact c0 (hrefl 0)
      rw [math.fdiv_of_ne _ hne]
      simp only [Option.map_some']
      congr 1
      ext <;>
        simp only [Quat.Add, Quat.Sub, Quat.Scale, Quat.X, Quat.Y, Quat.Z, Vec3.Add, Vec3.Sub,
          Vec3.Mul] <;>
        field_simp

/-- With a comparator that takes a number `b < 1` for 1, `QuatSlerp` from `(1, 0, 0, 0)` to the
unit quaternion `(a, (b, 0, 0))` with the amount 1 skips the normalisation of
`n2 - dot * n1 = (0, (b, 0, 0))` and returns `(a, (b * b, 0, 0))`, while in the other
direction the amount 0 returns `(a, (b, 0, 0))`. -/
theorem QuatSlerp_tolerant {K : Type} [LinearOrderedField K] (eq : K → K → Bool)
    (sqrt acos cos sin : K → K) (hsqrt : math.IsSqrt sqrt) (a b : K)
    (hab : a * a + b * b = 1) (hb0 : 0 < b) (ha : a ≤ 9995 / 10000)
    (h11 : eq 1 1 = true) (h1b : eq 1 b = true)
    (hcos : cos (acos a) = a) (hsin : sin (acos a) = b)
    (hcos0 : cos 0 = 1) (hsin0 : sin 0 = 0) :
    QuatSlerp eq sqrt acos cos sin ⟨1, ⟨0, 0, 0⟩⟩ ⟨a, ⟨b, 0, 0⟩⟩ 1 =
      some ⟨a, ⟨b * b, 0, 0⟩⟩ ∧
    QuatSlerp eq sqrt acos cos sin ⟨a, ⟨b, 0, 0⟩⟩ ⟨1, ⟨0, 0, 0⟩⟩ 0 = some ⟨a, ⟨b, 0, 0⟩⟩ ∧
    (@Quat.mk K a ⟨b, 0, 0⟩).Normalized eq sqrt = some ⟨a, ⟨b, 0, 0⟩⟩ := by
  have hl1 : (@Quat.mk K 1 ⟨0, 0, 0⟩).Len sqrt = 1 :=
    Quat.Len_of_sq_exact hsqrt (by norm_num) (by norm_num [Quat.Dot, Quat.X, Quat.Y, Quat.Z])
  have hl2 : (@Quat.mk K a ⟨b, 0, 0⟩).Len sqrt = 1 :=
    Quat.Len_of_sq_exact hsqrt (by norm_num) (by
      simp only [Quat.Dot, Quat.X, Quat.Y, Quat.Z]
      linear_combination -hab)
  have hn1 : (@Quat.mk K 1 ⟨0, 0, 0⟩).Normalized eq sqrt = some ⟨1, ⟨0, 0, 0⟩⟩ := by
    unfold Quat.Normalized
    simp only [hl1]
    rw [if_pos h11]
  have hn2 : (@Quat.mk K a ⟨b, 0, 0⟩).Normalized eq sqrt = some ⟨a, ⟨b, 0, 0⟩⟩ := by
    unfold Quat.Normalized
    simp only [hl2]
    rw [if_pos h11]
  have hd1 : (@Quat.mk K 1 ⟨0, 0, 0⟩).Dot ⟨a, ⟨b, 0, 0⟩⟩ = a := by
    simp [Quat.Dot, Quat.X, Quat.Y, Quat.Z]
  have hd2 : (@Quat.mk K a ⟨b, 0, 0⟩).Dot ⟨1, ⟨0, 0, 0⟩⟩ = a := by
    simp [Quat.Dot, Quat.X, Quat.Y, Quat.Z]
  have hnd : ¬ a > 9995 / 10000 := not_lt.mpr ha
  have hlo : -1 ≤ a := by nlinarith
  have hhi : a ≤ 1 := by linarith
  have hclamp : math.Clamp a (-1) 1 = a := by
    unfold math.Clamp
    rw [if_neg (not_lt.mpr hlo), if_neg (not_lt.mpr hhi)]
  have hm1 : ((@Quat.mk K a ⟨b, 0, 0⟩).Sub ((@Quat.mk K 1 ⟨0, 0, 0⟩).Scale a)).Len sqrt = b :=
    Quat.Len_of_sq_exact hsqrt hb0.le (by
      simp [Quat.Dot, Quat.Sub, Quat.Scale, Quat.X, Quat.Y, Quat.Z, Vec3.Sub])
  have hm2 : ((@Quat.mk K 1 ⟨0, 0, 0⟩).Sub ((@Quat.mk K a ⟨b, 0, 0⟩).Scale a)).Len sqrt = b :=
    Quat.Len_of_sq_exact hsqrt hb0.le (by
      simp only [Quat.Dot, Quat.Sub, Quat.Scale, Quat.X, Quat.Y, Quat.Z, Vec3.Sub]
      linear_combination (1 - a * a) * hab)
  refine ⟨?_, ?_, hn2⟩
  · unfold QuatSlerp
    simp only [hn1, hn2, Option.some_bind, hd1]
    rw [if_neg hnd, hclamp, mul_one, hcos, hsin]
    unfold Quat.Normalized
    simp only [hm1]
    rw [if_pos h1b]
    simp only [Option.map_some']
    congr 1
    ext <;> simp [Quat.Add, Quat.Sub, Quat.Scale, Quat.X, Quat.Y, Quat.Z, Vec3.Add, Vec3.Sub]
  · unfold QuatSlerp
    simp only [hn1, hn2, Option.some_bind, hd2]
    rw [if_neg hnd, hclamp, mul_zero, hcos0, hsin0]
    unfold Quat.Normalized
    simp only [hm2]
    rw [if_pos h1b]
    simp only [Option.map_some']
    congr 1
    ext <;> simp [Quat.Add, Quat.Sub, Quat.Scale, Quat.X, Quat.Y, Quat.Z, Vec3.Add, Vec3.Sub]

/-- The comparator `flops.Eq` takes the number `(1 - m²) / (1 + m²)` for 1 when `m²` is below
the tolerance. -/
theorem flops_Eq_near_one {K : Type} [LinearOrderedField K] {ε m : K} (hm : 0 < m)
    (hm1 : m < 1) (h : m * m < ε) : flops.Eq ε 1 ((1 - m * m) / (1 + m * m)) = true := by
  have hmm0 : 0 < m * m := mul_pos hm hm
  have hp : (0 : K) < 1 + m * m := by linarith
  have hmm : m * m < 1 := by
    have := mul_lt_mul_of_pos_left hm1 hm
    linarith
  have hb0 : (0 : K) < (1 - m * m) / (1 + m * m) := div_pos (by linarith) hp
  have hb1 : (1 - m * m) / (1 + m * m) < 1 := by
    rw [div_lt_one hp]
    linarith
  unfold flops.Eq
  rw [if_neg hb1.ne', if_neg (by rw [one_mul]; exact hb0.ne')]
  simp only [decide_eq_true_eq, math.Abs_eq_abs]
  rw [abs_of_pos (by linarith : (0 : K) < 1 - (1 - m * m) / (1 + m * m)), abs_of_pos hb0,
    abs_of_pos one_pos, div_lt_iff₀ (by linarith)]
  have e1 : 1 - (1 - m * m) / (1 + m * m) = 2 * (m * m) / (1 + m * m) := by
    field_simp
    ring
  have e2 : 1 + (1 - m * m) / (1 + m * m) = 2 / (1 + m * m) := by
    field_simp
    ring
  rw [e1, e2, mul_div_assoc', div_lt_div_iff_of_pos_right hp]
  linarith

/-- A point `(a, b)` of the unit circle with `0 < b < 1` and `a ≤ 1/2` that the comparator
`flops.Eq` of tolerance `ε > 0` takes for `(a, 1)`. -/
theorem flops_Eq_unit_pair {K : Type} [LinearOrderedField K] (ε : K) (hε : 0 < ε) :
    ∃ a b : K, a * a + b * b = 1 ∧ 0 < b ∧ b < 1 ∧ 0 ≤ a ∧ a ≤ 1 / 2 ∧
      flops.Eq ε 1 b = true := by
  have hm0 : (0 : K) < min ε 1 / 4 := by
    have := lt_min hε (one_pos : (0 : K) < 1)
    linarith
  have hm1 : min ε 1 / 4 ≤ 1 / 4 := by
    have := min_le_right ε (1 : K)
    linarith
  have hmε : min ε 1 / 4 ≤ ε / 4 := by
    have := min_le_left ε (1 : K)
    linarith
  generalize min ε 1 / 4 = m at hm0 hm1 hmε
  have hmm0 : 0 < m * m := mul_pos hm0 hm0
  have hmm1 : m * m ≤ 1 / 4 * m := mul_le_mul_of_nonneg_right hm1 hm0.le
  have hp : (0 : K) < 1 + m * m := by linarith
  refine ⟨2 * m / (1 + m * m), (1 - m * m) / (1 + m * m), ?_, ?_, ?_, ?_, ?_, ?_⟩
  · field_simp
    ring
  · exact div_pos (by linarith) hp
  · rw [div_lt_one hp]
    linarith
  · exact div_nonneg (by linarith) hp.le
  · rw [div_le_iff₀ hp]
    linarith
  · exact flops_Eq_near_one hm0 (by linarith) (by linarith)

/-- C32: in exact arithmetic, where the root, the cosine and the sine have their true values
(`cos 0 = 1`, `sin 0 = 0`, `cos (acos d) = d` and `sin (acos d) = √(1 - d²)` for `|d| ≤ 1`) and
the comparator `flops.Eq` has any tolerance `ε > 0`, `QuatNlerp` traces the same path in both
directions, `QuatNlerp(q1, q2, t) = QuatNlerp(q2, q1, 1 - t)` for all quaternions and every
amount, whereas for `QuatSlerp` there are `q1`, `q2` and `t` with
`QuatSlerp(q1, q2, t) ≠ QuatSlerp(q2, q1, 1 - t)`. -/
theorem QuatNlerp_symmetric_QuatSlerp_not {K : Type} [LinearOrderedField K] (ε : K)
    (sqrt acos cos sin : K → K) (hε : 0 < ε) (hsqrt : math.IsSqrt sqrt)
    (hcos0 : cos 0 = 1) (hsin0 : sin 0 = 0)
    (hcos : ∀ d : K, -1 ≤ d → d ≤ 1 → cos (acos d) = d)
    (hsin : ∀ d : K, -1 ≤ d → d ≤ 1 → sin (acos d) = sqrt (1 - d * d)) :
    (∀ (q1 q2 : Quat K) (t : K),
      QuatNlerp (flops.Eq ε) sqrt q1 q2 t = QuatNlerp (flops.Eq ε) sqrt q2 q1 (1 - t)) ∧
    ∃ (q1 q2 : Quat K) (t : K),
      QuatSlerp (flops.Eq ε) sqrt acos cos sin q1 q2 t ≠
        QuatSlerp (flops.Eq ε) sqrt acos cos sin q2 q1 (1 - t) := by
  constructor
  · intro q1 q2 t
    unfold QuatNlerp
    rw [QuatLerp_symm]
  · obtain ⟨a, b, hab, hb0, hb1, ha0, ha, h1b⟩ := flops_Eq_unit_pair ε hε
    have hs : sin (acos a) = b := by
      rw [hsin a (by linarith) (by linarith), show 1 - a * a = b * b by linear_combination -hab]
      exact hsqrt.sqrt_sq hb0.le
    obtain ⟨h1, h2, -⟩ := QuatSlerp_tolerant (flops.Eq ε) sqrt acos cos sin hsqrt a b hab hb0
      (by linarith) (flops_Eq_refl ε 1) h1b (hcos a (by linarith) (by linarith)) hs hcos0 hsin0
    refine ⟨⟨1, ⟨0, 0, 0⟩⟩, ⟨a, ⟨b, 0, 0⟩⟩, 1, ?_⟩
    rw [sub_self, h1, h2]
    intro h
    have hx := congrArg (fun q : Quat K => q.V.X) (Option.some.inj h)
    simp only [] at hx
    have : b * (b - 1) = 0 := by linear_combination hx
    rcases mul_eq_zero.mp this with h0 | h0
    · linarith
    · linarith

theorem QuatNlerp_symmetric_QuatSlerp_not_witness :
    (∀ (q1 q2 : Quat ℝ) (t : ℝ),
      QuatNlerp (flops.Eq (1 / 10 ^ 10)) Real.sqrt q1 q2 t =
        QuatNlerp (flops.Eq (1 / 10 ^ 10)) Real.sqrt q2 q1 (1 - t)) ∧
    ∃ (q1 q2 : Quat ℝ) (t : ℝ),
      QuatSlerp (flops.Eq (1 / 10 ^ 10)) Real.sqrt Real.arccos Real.cos Real.sin q1 q2 t ≠
        QuatSlerp (flops.Eq (1 / 10 ^ 10)) Real.sqrt Real.arccos Real.cos Real.sin q2 q1
          (1 - t) :=
  QuatNlerp_symmetric_QuatSlerp_not (1 / 10 ^ 10) Real.sqrt Real.arccos Real.cos Real.sin
    (by norm_num) math.IsSqrt_real Real.cos_zero Real.sin_zero
    (fun _ h1 h2 => Real.cos_arccos h1 h2)
    (fun d _ _ => by rw [Real.sin_arccos, sq])

/-- C31, amended: in exact arithmetic, with a reflexive comparator `flops.Eq`, for all
quaternions `q1` and `q2`, `QuatSlerp(q1, q2, 0)` and `QuatNlerp(q1, q2, 0)` both return
`q1.Normalized()` and `QuatNlerp(q1, q2, 1)` returns `q2.Normalized()`, on both sides of the
0.9995 threshold; `QuatSlerp(q1, q2, 1)` returns `q2.Normalized()` on the fallback side, and on
the other side when the two normalised quaternions are unit quaternions and the comparator
takes the length `σ` of `n2 - dot * n1` for 1 or for 0 only if it is 1 or 0 (the root is exact
and the cosine and the sine have their true values at the angles `0` and `acos dot`). -/
theorem QuatSlerp_QuatNlerp_endpoints {K : Type} [LinearOrderedField K] (eq : K → K → Bool)
    (sqrt acos cos sin : K → K) (q1 q2 : Quat K) (hrefl : ∀ x, eq x x = true)
    (hsqrt : math.IsSqrt sqrt) (hcos0 : cos 0 = 1) (hsin0 : sin 0 = 0) :
    ∃ n1 n2 : Quat K, q1.Normalized eq sqrt = some n1 ∧ q2.Normalized eq sqrt = some n2 ∧
      QuatNlerp eq sqrt q1 q2 0 = some n1 ∧ QuatNlerp eq sqrt q1 q2 1 = some n2 ∧
      QuatSlerp eq sqrt acos cos sin q1 q2 0 = some n1 ∧
      (n1.Dot n2 > 9995 / 10000 → QuatSlerp eq sqrt acos cos sin q1 q2 1 = some n2) ∧
      ∀ σ : K, ¬ n1.Dot n2 > 9995 / 10000 → n1.Dot n1 = 1 → n2.Dot n2 = 1 → 0 ≤ σ →
        σ * σ = 1 - n1.Dot n2 * n1.Dot n2 →
        cos (acos (n1.Dot n2)) = n1.Dot n2 → sin (acos (n1.Dot n2)) = σ →
        (eq 1 σ = true → σ = 1) → (eq σ 0 = true → σ = 0) →
        QuatSlerp eq sqrt acos cos sin q1 q2 1 = some n2 := by
  obtain ⟨n1, hn1⟩ := Quat.Normalized_total eq sqrt (hrefl 0) q1
  obtain ⟨n2, hn2⟩ := Quat.Normalized_total eq sqrt (hrefl 0) q2
  refine ⟨n1, n2, hn1, hn2, ?_, ?_, ?_, ?_, ?_⟩
  · unfold QuatNlerp
    simp only [QuatLerp_zero]
    exact hn1
  · unfold QuatNlerp
    simp only [QuatLerp_one]
    exact hn2
  · exact QuatSlerp_zero eq sqrt acos cos sin hsqrt q1 q2 n1 n2 hrefl hn1 hn2 hcos0 hsin0
  · exact QuatSlerp_one_fallback eq sqrt acos cos sin hsqrt q1 q2 n1 n2 hrefl hn1 hn2
  · intro σ hd hu1 hu2 hσ0 hσ hcos hsin he1 he0
    exact QuatSlerp_one_exact eq sqrt acos cos sin hsqrt q1 q2 n1 n2 σ hrefl hn1 hn2 hd hu1
      hu2 hσ0 hσ hcos hsin he1 he0

theorem QuatSlerp_QuatNlerp_endpoints_witness :
    ∃ n1 n2 : Quat ℝ,
      (@Quat.mk ℝ 1 ⟨1, 0, 0⟩).Normalized (flops.Eq (1 / 10 ^ 10)) Real.sqrt = some n1 ∧
      (@Quat.mk ℝ 0 ⟨0, 3, 0⟩).Normalized (flops.Eq (1 / 10 ^ 10)) Real.sqrt = some n2 ∧
      QuatNlerp (flops.Eq (1 / 10 ^ 10)) Real.sqrt ⟨1, ⟨1, 0, 0⟩⟩ ⟨0, ⟨0, 3, 0⟩⟩ 0 = some n1 ∧
      QuatNlerp (flops.Eq (1 / 10 ^ 10)) Real.sqrt ⟨1, ⟨1, 0, 0⟩⟩ ⟨0, ⟨0, 3, 0⟩⟩ 1 = some n2 ∧
      QuatSlerp (flops.Eq (1 / 10 ^ 10)) Real.sqrt Real.arccos Real.cos Real.sin
        ⟨1, ⟨1, 0, 0⟩⟩ ⟨0, ⟨0, 3, 0⟩⟩ 0 = some n1 ∧
      (n1.Dot n2 > 9995 / 10000 →
        QuatSlerp (flops.Eq (1 / 10 ^ 10)) Real.sqrt Real.arccos Real.cos Real.sin
          ⟨1, ⟨1, 0, 0⟩⟩ ⟨0, ⟨0, 3, 0⟩⟩ 1 = some n2) ∧
      ∀ σ : ℝ, ¬ n1.Dot n2 > 9995 / 10000 → n1.Dot n1 = 1 → n2.Dot n2 = 1 → 0 ≤ σ →
        σ * σ = 1 - n1.Dot n2 * n1.Dot n2 →
        Real.cos (Real.arccos (n1.Dot n2)) = n1.Dot n2 →
        Real.sin (Real.arccos (n1.Dot n2)) = σ →
        (flops.Eq (1 / 10 ^ 10) 1 σ = true → σ = 1) →
        (flops.Eq (1 / 10 ^ 10) σ 0 = true → σ = 0) →
        QuatSlerp (flops.Eq (1 / 10 ^ 10)) Real.sqrt Real.arccos Real.cos Real.sin
          ⟨1, ⟨1, 0, 0⟩⟩ ⟨0, ⟨0, 3, 0⟩⟩ 1 = some n2 :=
  QuatSlerp_QuatNlerp_endpoints (flops.Eq (1 / 10 ^ 10)) Real.sqrt Real.arccos Real.cos
    Real.sin ⟨1, ⟨1, 0, 0⟩⟩ ⟨0, ⟨0, 3, 0⟩⟩ (flops_Eq_refl _) math.IsSqrt_real Real.cos_zero
    Real.sin_zero

/-- C31, counterexample: in exact arithmetic, with the relative-tolerance comparator of
tolerance `10^-10`, `q1 = (1, 0, 0, 0)` and the unit quaternion `q2 = (a, (b, 0, 0))`,
`a = 2·10^6 / (10^12 + 1)`, `b = (10^12 - 1) / (10^12 + 1)`, the dot product `a` is below the
threshold, the length `b` of `n2 - dot * n1` is taken for 1, and `QuatSlerp(q1, q2, 1)` returns
`(a, (b * b, 0, 0))`, which is not `q2.Normalized() = q2`. -/
theorem QuatSlerp_one_within_tolerance :
    (@Quat.mk ℝ (2000000 / 1000000000001)
        ⟨999999999999 / 1000000000001, 0, 0⟩).Normalized (flops.Eq (1 / 10 ^ 10)) Real.sqrt =
      some ⟨2000000 / 1000000000001, ⟨999999999999 / 1000000000001, 0, 0⟩⟩ ∧
    QuatSlerp (flops.Eq (1 / 10 ^ 10)) Real.sqrt Real.arccos Real.cos Real.sin
        ⟨1, ⟨0, 0, 0⟩⟩ ⟨2000000 / 1000000000001, ⟨999999999999 / 1000000000001, 0, 0⟩⟩ 1 =
      some ⟨2000000 / 1000000000001,
        ⟨999999999999 / 1000000000001 * (999999999999 / 1000000000001), 0, 0⟩⟩ ∧
    QuatSlerp (flops.Eq (1 / 10 ^ 10)) Real.sqrt Real.arccos Real.cos Real.sin
        ⟨1, ⟨0, 0, 0⟩⟩ ⟨2000000 / 1000000000001, ⟨999999999999 / 1000000000001, 0, 0⟩⟩ 1 ≠
      (@Quat.mk ℝ (2000000 / 1000000000001)
        ⟨999999999999 / 1000000000001, 0, 0⟩).Normalized (flops.Eq (1 / 10 ^ 10))
        Real.sqrt := by
  have hb : flops.Eq (1 / 10 ^ 10 : ℝ) 1 (999999999999 / 1000000000001) = true := by
    have h := @flops_Eq_near_one ℝ _ (1 / 10 ^ 10) (1 / 10 ^ 6) (by norm_num) (by norm_num)
      (by norm_num)
    have e : ((1 : ℝ) - 1 / 10 ^ 6 * (1 / 10 ^ 6)) / (1 + 1 / 10 ^ 6 * (1 / 10 ^ 6)) =
        999999999999 / 1000000000001 := by norm_num
    rwa [e] at h
  have hsin : Real.sin (Real.arccos (2000000 / 1000000000001)) =
      999999999999 / 1000000000001 := by
    rw [Real.sin_arccos]
    exact math.IsSqrt_real.eq_of_sq (by norm_num) (by norm_num)
  obtain ⟨h1, -, h3⟩ := QuatSlerp_tolerant (flops.Eq (1 / 10 ^ 10 : ℝ)) Real.sqrt Real.arccos
    Real.cos Real.sin math.IsSqrt_real (2000000 / 1000000000001)
    (999999999999 / 1000000000001) (by norm_num) (by norm_num) (by norm_num)
    (flops_Eq_refl _ 1) hb (Real.cos_arccos (by norm_num) (by norm_num)) hsin
    Real.cos_zero Real.sin_zero
  refine ⟨h3, h1, ?_⟩
  rw [h1, h3]
  intro h
  have hx := congrArg (fun q : Quat ℝ => q.V.X) (Option.some.inj h)
  norm_num at hx

end glm

/-! ## TestRaySphere and DistPointPlane -/

namespace geo

open glm

/-- C39: in exact arithmetic the boolean ray-sphere test and the full ray-sphere intersection
agree: for every origin `p`, direction `d` and sphere `s`, `TestRaySphere(p, d, s)` equals
the `intersect` flag that `IntersectRaySphere(p, d, s)` returns. -/
theorem TestRaySphere_eq_intersect {K : Type} [LinearOrderedField K] (sqrt : K → K)
    (p d : Vec3 K) (s : Sphere K) :
    TestRaySphere p d s = (IntersectRaySphere sqrt p d s).intersect := by
  unfold TestRaySphere IntersectRaySphere
  simp only []
  generalize (p.Sub s.Center).Dot d = b
  generalize (p.Sub s.Center).Dot (p.Sub s.Center) - s.Radius * s.Radius = c
  by_cases hc : c ≤ 0
  · have h1 : ¬ (c > 0 ∧ b > 0) := fun h => absurd h.1 (not_lt.mpr hc)
    have h2 : b * b - c ≥ 0 := by linarith [mul_self_nonneg b]
    simp [hc, h1, h2]
  · have hc' : 0 < c := not_le.mp hc
    by_cases hb : b < 0
    · have h1 : ¬ (c > 0 ∧ b > 0) := fun h => absurd h.2 (not_lt.mpr hb.le)
      by_cases hd : b * b - c < 0
      · have h2 : ¬ (b * b - c ≥ 0) := not_le.mpr hd
        simp [hc, hb, hd, h1, h2]
      · have h2 : b * b - c ≥ 0 := not_lt.mp hd
        simp [hc, hb, hd, h1, h2]
    · rcases (not_lt.mp hb).lt_or_eq with hb' | hb'
      · have h1 : c > 0 ∧ b > 0 := ⟨hc', hb'⟩
        simp [hc, hb, h1]
      · subst hb'
        have h2 : ¬ ((0 : K) * 0 - c ≥ 0) := by
          intro h
          linarith
        simp [hc, h2]


/-- For a non-degenerate triangle, with an exact root, `DistPointPlane` is the distance along
the normal `(c-a) × (b-a)`, the opposite of the CCW normal `(b-a) × (c-a)`: it is
`-((p-a)·((b-a) × (c-a))) / l`, where `l` is the length of the normal. -/
theorem DistPointPlane_eq {K : Type} [LinearOrderedField K] (sqrt : K → K)
    (hsqrt : math.IsSqrt sqrt) (p a b c : Vec3 K)
    (hn : (b.Sub a).Cross (c.Sub a) ≠ ⟨0, 0, 0⟩) :
    ∃ l : K, 0 < l ∧ l * l = ((b.Sub a).Cross (c.Sub a)).Len2 ∧
      DistPointPlane sqrt p a b c = -((p.Sub a).Dot ((b.Sub a).Cross (c.Sub a))) / l := by
  have hflip : ((c.Sub a).Cross (b.Sub a)).Len2 = ((b.Sub a).Cross (c.Sub a)).Len2 := by
    simp only [Vec3.Len2, Vec3.Cross, Vec3.Sub]
    ring
  have hpos : 0 < ((b.Sub a).Cross (c.Sub a)).Len2 := by
    rcases (len2_nonneg ((b.Sub a).Cross (c.Sub a))).lt_or_eq with h | h
    · exact h
    · exact absurd (dot_self_eq_zero h.symm) hn
  have hs := hsqrt.mul_self hpos.le
  have hl := hsqrt.pos hpos
  refine ⟨sqrt ((b.Sub a).Cross (c.Sub a)).Len2, hl, hs, ?_⟩
  unfold DistPointPlane Vec3.Normalize
  simp only []
  rw [hflip, if_neg hl.ne']
  simp only [Vec3.Dot, Vec3.Cross, Vec3.Sub, Vec3.Mul]
  field_simp
  ring

/-- C38 (failing input): for the CCW triangle `a = (0,0,0)`, `b = (1,0,0)`, `c = (0,1,0)` and
the point `p = (0,0,1)` on the side of the CCW normal `(b-a) × (c-a) = (0,0,1)`,
`PointOutsidePlane` is true and the signed distance along the CCW normal is `1`, but
`DistPointPlane` returns `-1`. -/
theorem DistPointPlane_sign_flipped :
    NonDegenerate ⟨0, 0, 0⟩ ⟨1, 0, 0⟩ ⟨0, 1, 0⟩ ∧
    ((@Vec3.mk ℚ 1 0 0).Sub ⟨0, 0, 0⟩).Cross ((@Vec3.mk ℚ 0 1 0).Sub ⟨0, 0, 0⟩) = ⟨0, 0, 1⟩ ∧
    PointOutsidePlane ⟨0, 0, 1⟩ ⟨0, 0, 0⟩ ⟨1, 0, 0⟩ ⟨0, 1, 0⟩ = true ∧
    DistPointPlane Rat.sqrt ⟨0, 0, 1⟩ ⟨0, 0, 0⟩ ⟨1, 0, 0⟩ ⟨0, 1, 0⟩ = -1 ∧
    ¬ (DistPointPlane Rat.sqrt ⟨0, 0, 1⟩ ⟨0, 0, 0⟩ ⟨1, 0, 0⟩ ⟨0, 1, 0⟩ ≥ 0) := by
  have hs : Rat.sqrt 1 = 1 := by simp
  have hd : DistPointPlane Rat.sqrt ⟨0, 0, 1⟩ ⟨0, 0, 0⟩ ⟨1, 0, 0⟩ ⟨0, 1, 0⟩ = -1 := by
    norm_num [DistPointPlane, Vec3.Normalize, Vec3.Sub, Vec3.Cross, Vec3.Len2, Vec3.Dot,
      Vec3.Mul, hs]
  refine ⟨?_, ?_, ?_, hd, ?_⟩
  · simp [NonDegenerate, Vec3.Sub, Vec3.Cross]
  · simp [Vec3.Sub, Vec3.Cross]
  · simp [PointOutsidePlane, Vec3.Sub, Vec3.Cross, Vec3.Dot]
  · rw [hd]
    norm_num

end geo

/-! ## SymSchur2 and the invariants of Jacobi -/

namespace geo

open glm

theorem abs_pos_ne {K : Type} [LinearOrderedField K] {x : K} (h : math.Abs x > 1 / 10000) :
    x ≠ 0 := by
  rintro rfl
  norm_num [math.Abs] at h

/-- The tangent of `SymSchur2` is a root of `t² + 2 r t - 1`. -/
theorem schurT_quadratic {K : Type} [LinearOrderedField K] (sqrt : K → K)
    (hsqrt : math.IsSqrt sqrt) (a : Mat3 K) (p q : Nat) :
    schurT sqrt a p q * schurT sqrt a p q + 2 * schurR a p q * schurT sqrt a p q - 1 = 0 := by
  have hpos : 0 < 1 + schurR a p q * schurR a p q := by
    linarith [mul_self_nonneg (schurR a p q)]
  have hρ := hsqrt.pos hpos
  have hρρ := hsqrt.mul_self hpos.le
  unfold schurT
  generalize schurR a p q = r at *
  generalize sqrt (1 + r * r) = ρ at *
  have hgt : r * r < ρ * ρ := by linarith
  by_cases hr : r ≥ 0
  · rw [if_pos hr]
    have hd : r + ρ ≠ 0 := by
      have : 0 < r + ρ := by linarith
      exact this.ne'
    field_simp
    linear_combination -hρρ
  · rw [if_neg hr]
    have hd : -r + ρ ≠ 0 := by
      have : 0 < -r + ρ := by
        have := not_le.mp hr
        linarith
      exact this.ne'
    field_simp
    linear_combination -hρρ

/-- The result of `SymSchur2` with an exact root: a cosine and a sine with `s = t c` for the
tangent `t`. -/
theorem SymSchur2_some {K : Type} [LinearOrderedField K] (sqrt : K → K)
    (hsqrt : math.IsSqrt sqrt) (a : Mat3 K) (p q : Nat) :
    ∃ c s : K, SymSchur2 sqrt a p q = some (c, s) ∧ c * c + s * s = 1 ∧
      (math.Abs (a.get (3 * q + p)) > 1 / 10000 → s = schurT sqrt a p q * c) ∧
      (¬ math.Abs (a.get (3 * q + p)) > 1 / 10000 → c = 1 ∧ s = 0) := by
  by_cases hβ : math.Abs (a.get (3 * q + p)) > 1 / 10000
  · have hpos1 : 0 < 1 + schurR a p q * schurR a p q := by
      linarith [mul_self_nonneg (schurR a p q)]
    have hpos2 : 0 < 1 + schurT sqrt a p q * schurT sqrt a p q := by
      linarith [mul_self_nonneg (schurT sqrt a p q)]
    have hρ := hsqrt.pos hpos1
    have hρρ := hsqrt.mul_self hpos1.le
    have hσ := hsqrt.pos hpos2
    have hσσ := hsqrt.mul_self hpos2.le
    have hne : (2 : K) * a.get (3 * q + p) ≠ 0 := by
      have := abs_pos_ne hβ
      intro h0
      apply this
      linarith
    have hstep : SymSchur2 sqrt a p q =
        some (1 / sqrt (1 + schurT sqrt a p q * schurT sqrt a p q),
          schurT sqrt a p q * (1 / sqrt (1 + schurT sqrt a p q * schurT sqrt a p q))) := by
      unfold SymSchur2
      rw [if_pos hβ, math.fdiv_of_ne _ hne, Option.some_bind]
      have ht : (if (a.get (3 * q + q) - a.get (3 * p + p)) / (2 * a.get (3 * q + p)) ≥ 0 then
            math.fdiv 1 ((a.get (3 * q + q) - a.get (3 * p + p)) / (2 * a.get (3 * q + p)) +
              sqrt (1 + (a.get (3 * q + q) - a.get (3 * p + p)) / (2 * a.get (3 * q + p)) *
                ((a.get (3 * q + q) - a.get (3 * p + p)) / (2 * a.get (3 * q + p)))))
          else
            math.fdiv (-1) (-((a.get (3 * q + q) - a.get (3 * p + p)) / (2 * a.get (3 * q + p))) +
              sqrt (1 + (a.get (3 * q + q) - a.get (3 * p + p)) / (2 * a.get (3 * q + p)) *
                ((a.get (3 * q + q) - a.get (3 * p + p)) / (2 * a.get (3 * q + p)))))) =
          some (schurT sqrt a p q) := by
        unfold schurT
        change (if schurR a p q ≥ 0 then
            math.fdiv 1 (schurR a p q + sqrt (1 + schurR a p q * schurR a p q))
          else math.fdiv (-1) (-schurR a p q + sqrt (1 + schurR a p q * schurR a p q))) = _
        have hgt : schurR a p q * schurR a p q <
            sqrt (1 + schurR a p q * schurR a p q) *
              sqrt (1 + schurR a p q * schurR a p q) := by linarith
        by_cases hr : schurR a p q ≥ 0
        · rw [if_pos hr, if_pos hr]
          exact math.fdiv_of_ne _ (by
            have : 0 < schurR a p q + sqrt (1 + schurR a p q * schurR a p q) := by linarith
            exact this.ne')
        · rw [if_neg hr, if_neg hr]
          exact math.fdiv_of_ne _ (by
            have : 0 < -schurR a p q + sqrt (1 + schurR a p q * schurR a p q) := by
              linarith [not_le.mp hr]
            exact this.ne')
      rw [ht, Option.some_bind, math.fdiv_of_ne _ hσ.ne']
      rfl
    refine ⟨_, _, hstep, ?_, fun _ => rfl, fun h => absurd hβ h⟩
    field_simp
    linarith
  · refine ⟨1, 0, ?_, by norm_num, fun h => absurd h hβ, fun _ => ⟨rfl, rfl⟩⟩
    unfold SymSchur2
    rw [if_neg hβ]

/-- The rotation of a symmetric 2x2 block by the angle of `SymSchur2` makes the off-diagonal
entry zero. -/
theorem schur_annihilate {K : Type} [LinearOrderedField K] (app aqq β c s t r : K) (hβ : β ≠ 0)
    (hs : s = t * c)
    (hr : r = (aqq - app) / (2 * β)) (hq : t * t + 2 * r * t - 1 = 0) :
    c * (app * s + β * c) - s * (β * s + aqq * c) = 0 := by
  have hr' : r * (2 * β) = aqq - app := by
    rw [hr]
    field_simp
  have haqq : aqq = app + r * (2 * β) := by linarith
  rw [hs, haqq]
  linear_combination (-(c * c * β)) * hq


theorem Mat3.Mul3_assoc {K : Type} [LinearOrderedField K] (A B C : Mat3 K) :
    (A.Mul3 B).Mul3 C = A.Mul3 (B.Mul3 C) := by
  apply Mat3.ext9 <;> simp only [Mat3.Mul3, Mat3.vec_apply] <;> ring

theorem Mat3.Transposed_Mul3 {K : Type} [LinearOrderedField K] (A B : Mat3 K) :
    (A.Mul3 B).Transposed = B.Transposed.Mul3 A.Transposed := by
  apply Mat3.ext9 <;> simp only [Mat3.Mul3, Mat3.Transposed, Mat3.vec_apply] <;> ring

theorem Mat3.Transposed_Transposed {K : Type} [LinearOrderedField K] (A : Mat3 K) :
    A.Transposed.Transposed = A := by
  apply Mat3.ext9 <;> simp only [Mat3.Transposed, Mat3.vec_apply]

theorem trace3_Mul3_comm {K : Type} [LinearOrderedField K] (A B : Mat3 K) :
    trace3 (A.Mul3 B) = trace3 (B.Mul3 A) := by
  simp only [trace3, Mat3.Mul3, Mat3.vec_apply]
  ring

theorem Mat3.symmetric_iff {K : Type} [LinearOrderedField K] (a : Mat3 K) :
    a.Transposed = a ↔ a 1 = a 3 ∧ a 2 = a 6 ∧ a 5 = a 7 := by
  constructor
  · intro h
    have h1 := congrFun h 1
    have h2 := congrFun h 2
    have h5 := congrFun h 5
    simp only [Mat3.Transposed, Mat3.vec_apply] at h1 h2 h5
    exact ⟨h1.symm, h2.symm, h5.symm⟩
  · rintro ⟨h1, h2, h5⟩
    apply Mat3.ext9 <;> simp only [Mat3.Transposed, Mat3.vec_apply, h1, h2, h5]

/-- The rotation matrix that `Jacobi` builds, for each of the six pivots. -/
theorem jacobiRotation_cases {K : Type} [LinearOrderedField K] (J : Mat3 K) (c s : K) :
    jacobiRotation J 0 1 c s = ![c, -s, 0, s, c, 0, 0, 0, 1] ∧
    jacobiRotation J 1 0 c s = ![c, s, 0, -s, c, 0, 0, 0, 1] ∧
    jacobiRotation J 0 2 c s = ![c, 0, -s, 0, 1, 0, s, 0, c] ∧
    jacobiRotation J 2 0 c s = ![c, 0, s, 0, 1, 0, -s, 0, c] ∧
    jacobiRotation J 1 2 c s = ![1, 0, 0, 0, c, -s, 0, s, c] ∧
    jacobiRotation J 2 1 c s = ![1, 0, 0, 0, c, s, 0, -s, c] := by
  refine ⟨?_, ?_, ?_, ?_, ?_, ?_⟩ <;> funext i <;> fin_cases i <;>
    simp [jacobiRotation, Mat3.set, Mat3.vec_apply, Mat3.val_index]

set_option maxHeartbeats 2000000 in
/-- The rotation matrix of `Jacobi` is orthogonal when `c² + s² = 1`. -/
theorem jacobiRotation_orthogonal {K : Type} [LinearOrderedField K] (J : Mat3 K) (p q : Nat)
    (hp : p < 3) (hq : q < 3)
    (hpq : p ≠ q) (c s : K) (h : c * c + s * s = 1) :
    (jacobiRotation J p q c s).Transposed.Mul3 (jacobiRotation J p q c s) = Mat3.Ident ∧
    (jacobiRotation J p q c s).Mul3 (jacobiRotation J p q c s).Transposed = Mat3.Ident := by
  obtain ⟨h01, h10, h02, h20, h12, h21⟩ := jacobiRotation_cases J c s
  interval_cases p <;> interval_cases q <;>
    first
    | exact absurd rfl hpq
    | (simp only [h01, h10, h02, h20, h12, h21]
       constructor <;> apply Mat3.ext9 <;>
         simp only [Mat3.Mul3, Mat3.Transposed, Mat3.Ident, Mat3.vec_apply] <;>
         first | ring1 | linear_combination h)


theorem Mat3.get_index {K : Type} [LinearOrderedField K] (m : Mat3 K) :
    m.get 0 = m 0 ∧ m.get 1 = m 1 ∧ m.get 2 = m 2 ∧ m.get 3 = m 3 ∧ m.get 4 = m 4 ∧
    m.get 5 = m 5 ∧ m.get 6 = m 6 ∧ m.get 7 = m 7 ∧ m.get 8 = m 8 :=
  ⟨rfl, rfl, rfl, rfl, rfl, rfl, rfl, rfl, rfl⟩

set_option maxHeartbeats 2000000 in
/-- The similarity transform with the rotation of `SymSchur2` makes both pivot entries of a
symmetric matrix zero. -/
theorem rotation_annihilates {K : Type} [LinearOrderedField K] (a J : Mat3 K) (p q : Nat)
    (hp : p < 3) (hq : q < 3) (hpq : p ≠ q)
    (hsym : a 1 = a 3 ∧ a 2 = a 6 ∧ a 5 = a 7) (c s t : K)
    (hβ : a.get (3 * q + p) ≠ 0) (hs : s = t * c)
    (hquad : t * t + 2 * schurR a p q * t - 1 = 0) :
    (((jacobiRotation J p q c s).Transposed.Mul3 a).Mul3 (jacobiRotation J p q c s)).get
        (3 * q + p) = 0 ∧
    (((jacobiRotation J p q c s).Transposed.Mul3 a).Mul3 (jacobiRotation J p q c s)).get
        (3 * p + q) = 0 := by
  obtain ⟨h01, h10, h02, h20, h12, h21⟩ := jacobiRotation_cases J c s
  obtain ⟨s1, s2, s5⟩ := hsym
  have key := schur_annihilate (a.get (3 * p + p)) (a.get (3 * q + q)) (a.get (3 * q + p)) c s t
    (schurR a p q) hβ hs rfl hquad
  interval_cases p <;> interval_cases q <;>
    first
    | exact absurd rfl hpq
    | (simp only [h01, h10, h02, h20, h12, h21, Nat.reduceMul, Nat.reduceAdd,
         (Mat3.get_index _).1, (Mat3.get_index _).2.1, (Mat3.get_index _).2.2.1,
         (Mat3.get_index _).2.2.2.1, (Mat3.get_index _).2.2.2.2.1,
         (Mat3.get_index _).2.2.2.2.2.1, (Mat3.get_index _).2.2.2.2.2.2.1,
         (Mat3.get_index _).2.2.2.2.2.2.2.1, (Mat3.get_index _).2.2.2.2.2.2.2.2] at key ⊢
       simp only [Mat3.Mul3, Mat3.Transposed, Mat3.vec_apply])
  · exact ⟨by linear_combination key - (s * s) * s1, by linear_combination key + (c * c) * s1⟩
  · exact ⟨by linear_combination key - (s * s) * s2, by linear_combination key + (c * c) * s2⟩
  · exact ⟨by linear_combination key + (s * s) * s1, by linear_combination key - (c * c) * s1⟩
  · exact ⟨by linear_combination key - (s * s) * s5, by linear_combination key + (c * c) * s5⟩
  · exact ⟨by linear_combination key + (s * s) * s2, by linear_combination key - (c * c) * s2⟩
  · exact ⟨by linear_combination key + (s * s) * s5, by linear_combination key - (c * c) * s5⟩


/-- C37: in exact arithmetic, for every symmetric 3x3 matrix `a` and indices `p ≠ q` in
`{0, 1, 2}`, the pair `(c, s) = SymSchur2(a, p, q)` satisfies `c² + s² = 1`; when
`|a_pq| > 0.0001` the Jacobi rotation `J` with `J_pp = J_qq = c`, `J_pq = s`, `J_qp = -s`
annihilates the pivot, `(Jᵀ a J)_pq = (Jᵀ a J)_qp = 0`; when `|a_pq| ≤ 0.0001` the pair is
`(1, 0)`; no division by zero occurs. -/
theorem SymSchur2_rotation {K : Type} [LinearOrderedField K] (sqrt : K → K)
    (hsqrt : math.IsSqrt sqrt) (a J : Mat3 K) (p q : Nat) (hp : p < 3) (hq : q < 3)
    (hpq : p ≠ q) (hsym : a 1 = a 3 ∧ a 2 = a 6 ∧ a 5 = a 7) :
    ∃ c s : K, SymSchur2 sqrt a p q = some (c, s) ∧ c * c + s * s = 1 ∧
      (jacobiRotation J p q c s).get (3 * p + p) = c ∧
      (jacobiRotation J p q c s).get (3 * q + q) = c ∧
      (jacobiRotation J p q c s).get (3 * q + p) = s ∧
      (jacobiRotation J p q c s).get (3 * p + q) = -s ∧
      (math.Abs (a.get (3 * q + p)) > 1 / 10000 →
        (((jacobiRotation J p q c s).Transposed.Mul3 a).Mul3 (jacobiRotation J p q c s)).get
            (3 * q + p) = 0 ∧
        (((jacobiRotation J p q c s).Transposed.Mul3 a).Mul3 (jacobiRotation J p q c s)).get
            (3 * p + q) = 0) ∧
      (¬ math.Abs (a.get (3 * q + p)) > 1 / 10000 → c = 1 ∧ s = 0) := by
  obtain ⟨c, s, hsome, hcs, hst, hlow⟩ := SymSchur2_some sqrt hsqrt a p q
  have hentries : (jacobiRotation J p q c s).get (3 * p + p) = c ∧
      (jacobiRotation J p q c s).get (3 * q + q) = c ∧
      (jacobiRotation J p q c s).get (3 * q + p) = s ∧
      (jacobiRotation J p q c s).get (3 * p + q) = -s := by
    obtain ⟨h01, h10, h02, h20, h12, h21⟩ := jacobiRotation_cases J c s
    interval_cases p <;> interval_cases q <;>
      first
      | exact absurd rfl hpq
      | (simp only [h01, h10, h02, h20, h12, h21]
         exact ⟨rfl, rfl, rfl, rfl⟩)
  refine ⟨c, s, hsome, hcs, hentries.1, hentries.2.1, hentries.2.2.1, hentries.2.2.2, ?_, hlow⟩
  intro hβ
  exact rotation_annihilates a J p q hp hq hpq hsym c s (schurT sqrt a p q) (abs_pos_ne hβ)
    (hst hβ) (schurT_quadratic sqrt hsqrt a p q)

theorem SymSchur2_rotation_witness :
    ∃ c s : ℝ, SymSchur2 Real.sqrt schurExample 0 1 = some (c, s) ∧ c * c + s * s = 1 ∧
      (jacobiRotation Mat3.Ident 0 1 c s).get (3 * 0 + 0) = c ∧
      (jacobiRotation Mat3.Ident 0 1 c s).get (3 * 1 + 1) = c ∧
      (jacobiRotation Mat3.Ident 0 1 c s).get (3 * 1 + 0) = s ∧
      (jacobiRotation Mat3.Ident 0 1 c s).get (3 * 0 + 1) = -s ∧
      (math.Abs ((schurExample : Mat3 ℝ).get (3 * 1 + 0)) > 1 / 10000 →
        (((jacobiRotation Mat3.Ident 0 1 c s).Transposed.Mul3 schurExample).Mul3
          (jacobiRotation Mat3.Ident 0 1 c s)).get (3 * 1 + 0) = 0 ∧
        (((jacobiRotation Mat3.Ident 0 1 c s).Transposed.Mul3 schurExample).Mul3
          (jacobiRotation Mat3.Ident 0 1 c s)).get (3 * 0 + 1) = 0) ∧
      (¬ math.Abs ((schurExample : Mat3 ℝ).get (3 * 1 + 0)) > 1 / 10000 → c = 1 ∧ s = 0) :=
  SymSchur2_rotation Real.sqrt math.IsSqrt_real schurExample Mat3.Ident 0 1 (by decide)
    (by decide) (by decide) ⟨rfl, rfl, rfl⟩

/-! ## Jacobi: the invariants of the sweeps -/

/-- The scan for the largest element keeps an off-diagonal pair that is at least as large as
every off-diagonal pair of the list. -/
theorem pivot_fold {K : Type} [LinearOrderedField K] (f : Nat × Nat → K)
    (l : List (Nat × Nat)) :
    ∀ init : Nat × Nat, init.1 ≠ init.2 → init.1 < 3 → init.2 < 3 →
      (∀ x ∈ l, x.1 < 3 ∧ x.2 < 3) →
      (l.foldl (fun (pq : Nat × Nat) (ij : Nat × Nat) =>
          if ij.1 = ij.2 then pq else if f ij > f pq then ij else pq) init).1 ≠
        (l.foldl (fun (pq : Nat × Nat) (ij : Nat × Nat) =>
          if ij.1 = ij.2 then pq else if f ij > f pq then ij else pq) init).2 ∧
      (l.foldl (fun (pq : Nat × Nat) (ij : Nat × Nat) =>
          if ij.1 = ij.2 then pq else if f ij > f pq then ij else pq) init).1 < 3 ∧
      (l.foldl (fun (pq : Nat × Nat) (ij : Nat × Nat) =>
          if ij.1 = ij.2 then pq else if f ij > f pq then ij else pq) init).2 < 3 ∧
      f init ≤ f (l.foldl (fun (pq : Nat × Nat) (ij : Nat × Nat) =>
          if ij.1 = ij.2 then pq else if f ij > f pq then ij else pq) init) ∧
      ∀ x ∈ l, x.1 ≠ x.2 → f x ≤ f (l.foldl (fun (pq : Nat × Nat) (ij : Nat × Nat) =>
          if ij.1 = ij.2 then pq else if f ij > f pq then ij else pq) init) := by
  induction l with
  | nil =>
    intro init h1 h2 h3 _
    exact ⟨h1, h2, h3, le_refl _, fun x hx => absurd hx (List.not_mem_nil x)⟩
  | cons y ys ih =>
    intro init h1 h2 h3 hl
    have hy := hl y (List.mem_cons_self y ys)
    have hys : ∀ x ∈ ys, x.1 < 3 ∧ x.2 < 3 := fun x hx => hl x (List.mem_cons_of_mem y hx)
    rw [List.foldl_cons]
    by_cases hd : y.1 = y.2
    · rw [if_pos hd]
      obtain ⟨r1, r2, r3, r4, r5⟩ := ih init h1 h2 h3 hys
      refine ⟨r1, r2, r3, r4, ?_⟩
      intro x hx hne
      rcases List.mem_cons.mp hx with hxy | hxy
      · rw [hxy] at hne
        exact absurd hd hne
      · exact r5 x hxy hne
    · rw [if_neg hd]
      by_cases hgt : f y > f init
      · rw [if_pos hgt]
        obtain ⟨r1, r2, r3, r4, r5⟩ := ih y hd hy.1 hy.2 hys
        refine ⟨r1, r2, r3, le_trans hgt.le r4, ?_⟩
        intro x hx hne
        rcases List.mem_cons.mp hx with hxy | hxy
        · rw [hxy]
          exact r4
        · exact r5 x hxy hne
      · rw [if_neg hgt]
        obtain ⟨r1, r2, r3, r4, r5⟩ := ih init h1 h2 h3 hys
        refine ⟨r1, r2, r3, r4, ?_⟩
        intro x hx hne
        rcases List.mem_cons.mp hx with hxy | hxy
        · rw [hxy]
          exact le_trans (not_lt.mp hgt) r4
        · exact r5 x hxy hne

/-- The pivot of a sweep: `p ≠ q`, and `|a_pq| ≥ |a_ij|` for every off-diagonal entry. -/
theorem jacobiPivot_spec {K : Type} [LinearOrderedField K] (a : Mat3 K) :
    (jacobiPivot a).1 ≠ (jacobiPivot a).2 ∧ (jacobiPivot a).1 < 3 ∧ (jacobiPivot a).2 < 3 ∧
    ∀ i j : Nat, i < 3 → j < 3 → i ≠ j →
      math.Abs (a.get (3 * j + i)) ≤
        math.Abs (a.get (3 * (jacobiPivot a).2 + (jacobiPivot a).1)) := by
  have h := pivot_fold (fun ij => math.Abs (a.get (3 * ij.2 + ij.1))) jacobiPairs (0, 1)
    (by decide) (by decide) (by decide)
    (by
      intro x hx
      simp only [jacobiPairs, List.mem_cons, List.mem_singleton, List.not_mem_nil,
        or_false] at hx
      rcases hx with rfl | rfl | rfl | rfl | rfl | rfl | rfl | rfl | rfl <;> decide)
  obtain ⟨r1, r2, r3, -, r5⟩ := h
  refine ⟨r1, r2, r3, ?_⟩
  intro i j hi hj hij
  have hmem : (i, j) ∈ jacobiPairs := by
    interval_cases i <;> interval_cases j <;> simp [jacobiPairs]
  exact r5 (i, j) hmem hij


/-- One sweep keeps the invariant when the rotation is orthogonal. -/
theorem JacobiInv_sweep {K : Type} [LinearOrderedField K] (A0 a v J : Mat3 K)
    (hinv : JacobiInv A0 a v)
    (hJ1 : J.Transposed.Mul3 J = Mat3.Ident) (hJ2 : J.Mul3 J.Transposed = Mat3.Ident) :
    JacobiInv A0 ((J.Transposed.Mul3 a).Mul3 J) (v.Mul3 J) := by
  obtain ⟨hv1, hv2, ha, hsim⟩ := hinv
  have c1 : ∀ X : Mat3 K, J.Mul3 (J.Transposed.Mul3 X) = X := by
    intro X
    rw [← Mat3.Mul3_assoc, hJ2, Mat3.Ident_Mul3]
  have c2 : ∀ X : Mat3 K, v.Transposed.Mul3 (v.Mul3 X) = X := by
    intro X
    rw [← Mat3.Mul3_assoc, hv1, Mat3.Ident_Mul3]
  refine ⟨?_, ?_, ?_, ?_⟩
  · rw [Mat3.Transposed_Mul3, Mat3.Mul3_assoc, c2, hJ1]
  · rw [Mat3.Transposed_Mul3, Mat3.Mul3_assoc, c1, hv2]
  · rw [Mat3.Transposed_Mul3, Mat3.Transposed_Mul3, Mat3.Transposed_Transposed, ha,
      Mat3.Mul3_assoc]
  · rw [Mat3.Transposed_Mul3]
    simp only [Mat3.Mul3_assoc]
    rw [c1, c1]
    rw [← Mat3.Mul3_assoc]
    exact hsim

theorem jacobiLoop_succ {K : Type} [LinearOrderedField K] (sqrt : K → K) (fuel n : Nat)
    (a v J : Mat3 K) (prevoff c s : K)
    (h : SymSchur2 sqrt a (jacobiPivot a).1 (jacobiPivot a).2 = some (c, s)) :
    jacobiLoop sqrt (fuel + 1) n a v J prevoff =
      if n > 2 ∧
          jacobiOff (((jacobiRotation J (jacobiPivot a).1 (jacobiPivot a).2 c s).Transposed.Mul3
            a).Mul3 (jacobiRotation J (jacobiPivot a).1 (jacobiPivot a).2 c s)) ≥ prevoff then
        some ((((jacobiRotation J (jacobiPivot a).1 (jacobiPivot a).2 c s).Transposed.Mul3
            a).Mul3 (jacobiRotation J (jacobiPivot a).1 (jacobiPivot a).2 c s)),
          v.Mul3 (jacobiRotation J (jacobiPivot a).1 (jacobiPivot a).2 c s))
      else
        jacobiLoop sqrt fuel (n + 1)
          (((jacobiRotation J (jacobiPivot a).1 (jacobiPivot a).2 c s).Transposed.Mul3 a).Mul3
            (jacobiRotation J (jacobiPivot a).1 (jacobiPivot a).2 c s))
          (v.Mul3 (jacobiRotation J (jacobiPivot a).1 (jacobiPivot a).2 c s))
          (jacobiRotation J (jacobiPivot a).1 (jacobiPivot a).2 c s)
          (jacobiOff (((jacobiRotation J (jacobiPivot a).1 (jacobiPivot a).2 c
            s).Transposed.Mul3 a).Mul3
            (jacobiRotation J (jacobiPivot a).1 (jacobiPivot a).2 c s))) := by
  rw [jacobiLoop]
  simp only [h]

/-- The loop of `Jacobi` returns, and keeps the invariant, when the root is exact. -/
theorem jacobiLoop_inv {K : Type} [LinearOrderedField K] (sqrt : K → K)
    (hsqrt : math.IsSqrt sqrt) (A0 : Mat3 K) (fuel : Nat) :
    ∀ (n : Nat) (a v J : Mat3 K) (prevoff : K), JacobiInv A0 a v →
      ∃ a1 v1 : Mat3 K, jacobiLoop sqrt fuel n a v J prevoff = some (a1, v1) ∧
        JacobiInv A0 a1 v1 := by
  induction fuel with
  | zero =>
    intro n a v J prevoff hinv
    exact ⟨a, v, rfl, hinv⟩
  | succ fuel ih =>
    intro n a v J prevoff hinv
    obtain ⟨c, s, hsome, hcs, -, -⟩ :=
      SymSchur2_some sqrt hsqrt a (jacobiPivot a).1 (jacobiPivot a).2
    obtain ⟨hpq, hp, hq, -⟩ := jacobiPivot_spec a
    obtain ⟨hJ1, hJ2⟩ := jacobiRotation_orthogonal J _ _ hp hq hpq c s hcs
    have hinv1 := JacobiInv_sweep A0 a v _ hinv hJ1 hJ2
    rw [jacobiLoop_succ sqrt fuel n a v J prevoff c s hsome]
    by_cases hstop : n > 2 ∧
        jacobiOff (((jacobiRotation J (jacobiPivot a).1 (jacobiPivot a).2 c s).Transposed.Mul3
          a).Mul3 (jacobiRotation J (jacobiPivot a).1 (jacobiPivot a).2 c s)) ≥ prevoff
    · rw [if_pos hstop]
      exact ⟨_, _, rfl, hinv1⟩
    · rw [if_neg hstop]
      exact ih _ _ _ _ _ hinv1

/-- C36: in exact arithmetic, for every symmetric 3x3 input matrix `A0`, `Jacobi(a, v)` returns
after at most 50 sweeps with `v` orthogonal, `vᵀ v = I`, `a` still symmetric and
`v a vᵀ = A0`, so that `a = vᵀ A0 v` has the eigenvalues and the trace of `A0`; the pivot
`(p, q)` of each sweep has `p ≠ q` and `|a_pq| ≥ |a_ij|` for every off-diagonal entry. -/
theorem Jacobi_invariants {K : Type} [LinearOrderedField K] (sqrt : K → K)
    (hsqrt : math.IsSqrt sqrt) (A0 v0 : Mat3 K)
    (hsym : A0 1 = A0 3 ∧ A0 2 = A0 6 ∧ A0 5 = A0 7) :
    (∃ a v : Mat3 K, Jacobi sqrt A0 v0 = some (a, v) ∧
      v.Transposed.Mul3 v = Mat3.Ident ∧ v.Mul3 v.Transposed = Mat3.Ident ∧
      (a 1 = a 3 ∧ a 2 = a 6 ∧ a 5 = a 7) ∧
      (v.Mul3 a).Mul3 v.Transposed = A0 ∧
      a = (v.Transposed.Mul3 A0).Mul3 v ∧
      trace3 a = trace3 A0) ∧
    ∀ m : Mat3 K, (jacobiPivot m).1 ≠ (jacobiPivot m).2 ∧ (jacobiPivot m).1 < 3 ∧
      (jacobiPivot m).2 < 3 ∧
      ∀ i j : Nat, i < 3 → j < 3 → i ≠ j →
        math.Abs (m.get (3 * j + i)) ≤
          math.Abs (m.get (3 * (jacobiPivot m).2 + (jacobiPivot m).1)) := by
  refine ⟨?_, jacobiPivot_spec⟩
  have hinv0 : JacobiInv A0 A0 Mat3.Ident := by
    refine ⟨?_, ?_, (Mat3.symmetric_iff A0).mpr hsym, ?_⟩
    · rw [Mat3.Ident_Transposed, Mat3.Ident_Mul3]
    · rw [Mat3.Ident_Transposed, Mat3.Ident_Mul3]
    · rw [Mat3.Ident_Transposed, Mat3.Ident_Mul3, Mat3.Mul3_Ident]
  obtain ⟨a, v, hres, hv1, hv2, ha, hsim⟩ :=
    jacobiLoop_inv sqrt hsqrt A0 50 0 A0 Mat3.Ident (fun _ => 0) 0 hinv0
  have hback : a = (v.Transposed.Mul3 A0).Mul3 v := by
    rw [← hsim]
    simp only [Mat3.Mul3_assoc]
    rw [hv1, Mat3.Mul3_Ident, ← Mat3.Mul3_assoc, hv1, Mat3.Ident_Mul3]
  refine ⟨a, v, hres, hv1, hv2, (Mat3.symmetric_iff a).mp ha, hsim, hback, ?_⟩
  rw [hback, trace3_Mul3_comm, ← Mat3.Mul3_assoc, hv2, Mat3.Ident_Mul3]


theorem Jacobi_invariants_witness :
    (∃ a v : Mat3 ℝ, Jacobi Real.sqrt schurExample Mat3.Ident = some (a, v) ∧
      v.Transposed.Mul3 v = Mat3.Ident ∧ v.Mul3 v.Transposed = Mat3.Ident ∧
      (a 1 = a 3 ∧ a 2 = a 6 ∧ a 5 = a 7) ∧
      (v.Mul3 a).Mul3 v.Transposed = schurExample ∧
      a = (v.Transposed.Mul3 schurExample).Mul3 v ∧
      trace3 a = trace3 schurExample) ∧
    ∀ m : Mat3 ℝ, (jacobiPivot m).1 ≠ (jacobiPivot m).2 ∧ (jacobiPivot m).1 < 3 ∧
      (jacobiPivot m).2 < 3 ∧
      ∀ i j : Nat, i < 3 → j < 3 → i ≠ j →
        math.Abs (m.get (3 * j + i)) ≤
          math.Abs (m.get (3 * (jacobiPivot m).2 + (jacobiPivot m).1)) :=
  Jacobi_invariants Real.sqrt math.IsSqrt_real schurExample Mat3.Ident ⟨rfl, rfl, rfl⟩

end geo

/-! ## NewRayFromTo -/

namespace tornago

open glm

theorem NewRayFromTo_of_eq {K : Type} [LinearOrderedField K] (sqrt : K → K)
    (h0 : sqrt 0 = 0) (p : Vec3 K) : NewRayFromTo sqrt p p = ⟨p, ⟨0, 0, 0⟩, 0⟩ := by
  have h : sqrt (p.Sub p).Len2 = 0 := by
    have h1 : (p.Sub p).Len2 = 0 := by simp [Vec3.Sub, Vec3.Len2]
    rw [h1]
    exact h0
  unfold NewRayFromTo
  simp only [h, if_true]

theorem NewRayFromTo_of_ne {K : Type} [LinearOrderedField K] (sqrt : K → K)
    (hsqrt : math.IsSqrt sqrt) (p0 p1 : Vec3 K) (hne : p0 ≠ p1) :
    0 < sqrt (p1.Sub p0).Len2 ∧
    NewRayFromTo sqrt p0 p1 =
      ⟨p0, (p1.Sub p0).Mul (1 / sqrt (p1.Sub p0).Len2), sqrt (p1.Sub p0).Len2⟩ := by
  have hpos : 0 < (p1.Sub p0).Len2 := geo.dot_self_pos_of_ne hne
  have hl : 0 < sqrt (p1.Sub p0).Len2 := hsqrt.pos hpos
  refine ⟨hl, ?_⟩
  unfold NewRayFromTo
  simp only [if_neg hl.ne']

/-- The expected values of the rows of `TestRay_FromTo` agree with their endpoints up to
`0.0001`; the row with coincident endpoints expects the length `0`. -/
theorem TestRay_FromTo_consistent :
    ∀ t ∈ TestRay_FromTo_tests, t.consistent (1 / 10000) := by
  intro t ht
  simp only [TestRay_FromTo_tests, List.mem_cons, List.mem_singleton, List.not_mem_nil,
    or_false] at ht
  rcases ht with rfl | rfl | rfl | rfl
  · norm_num [RayTest.consistent, TestRay_FromTo_row1, Vec3.Sub, Vec3.Len2, math.Abs]
  · norm_num [RayTest.consistent, TestRay_FromTo_row2, Vec3.Sub, Vec3.Len2, math.Abs]
  · norm_num [RayTest.consistent, TestRay_FromTo_row3, Vec3.Sub, Vec3.Len2, math.Abs]
  · norm_num [RayTest.consistent, TestRay_FromTo_row4, Vec3.Sub, Vec3.Len2, math.Abs]

/-- The second row of the test `TestRay_FromTo` has `From = To = (1, 1, 1)` and expects the
length `0` with the direction `(0, 1, 0)`, which differs from the zero-direction sentinel by
`1` in its second component, more than the threshold `0.001` of the test. -/
theorem TestRay_FromTo_row2_direction :
    TestRay_FromTo_row2 ∈ TestRay_FromTo_tests ∧
    TestRay_FromTo_row2.From = ⟨1, 1, 1⟩ ∧ TestRay_FromTo_row2.To = ⟨1, 1, 1⟩ ∧
    TestRay_FromTo_row2.Len = 0 ∧ TestRay_FromTo_row2.Direction = ⟨0, 1, 0⟩ ∧
    (NewRayFromTo Rat.sqrt TestRay_FromTo_row2.From TestRay_FromTo_row2.To).Direction =
      ⟨0, 0, 0⟩ ∧
    math.Abs ((NewRayFromTo Rat.sqrt TestRay_FromTo_row2.From
      TestRay_FromTo_row2.To).Direction.Y - TestRay_FromTo_row2.Direction.Y) > 1 / 1000 := by
  have h : NewRayFromTo Rat.sqrt TestRay_FromTo_row2.From TestRay_FromTo_row2.To =
      ⟨⟨1, 1, 1⟩, ⟨0, 0, 0⟩, 0⟩ :=
    NewRayFromTo_of_eq Rat.sqrt (by
      have h := math.Sqrt_mul_self (le_refl (0 : ℚ))
      rwa [mul_zero] at h) ⟨1, 1, 1⟩
  rw [h]
  refine ⟨by simp [TestRay_FromTo_tests], rfl, rfl, rfl, rfl, rfl, ?_⟩
  norm_num [TestRay_FromTo_row2, Ray.Direction, math.Abs]

/-- The length and the direction of the ray from `(1, 2, 3)` to `(9, 8, 7)`, from the square
`116` of the length. -/
theorem ray_numbers {K : Type} [LinearOrderedField K] {l : K} (h0 : 0 ≤ l)
    (h : l * l = 116) :
    math.Abs (l - 10770329 / 1000000) < 1 / 1000000 ∧
    math.Abs (8 * (1 / l) - 74278134 / 100000000) < 1 / 1000000 ∧
    math.Abs (6 * (1 / l) - 557086 / 1000000) < 1 / 1000000 ∧
    math.Abs (4 * (1 / l) - 37139067 / 100000000) < 1 / 1000000 := by
  have hlo : (107703296 / 10000000 : K) < l :=
    lt_of_mul_self_lt_mul_self₀ h0 (by rw [h]; norm_num)
  have hhi : l < (107703297 / 10000000 : K) :=
    lt_of_mul_self_lt_mul_self₀ (by norm_num) (by rw [h]; norm_num)
  have hl : 0 < l := by linarith
  have hi1 : 1 / l < 10000000 / 107703296 := by
    rw [div_lt_div_iff₀ hl (by norm_num)]
    linarith
  have hi2 : (10000000 / 107703297 : K) < 1 / l := by
    rw [div_lt_div_iff₀ (by norm_num) hl]
    linarith
  simp only [math.Abs_eq_abs, abs_lt]
  refine ⟨⟨by linarith, by linarith⟩, ⟨?_, ?_⟩, ⟨?_, ?_⟩, ⟨?_, ?_⟩⟩ <;>
    norm_num at hi1 hi2 ⊢ <;> linarith

/-- C35: for all points `from` and `to`, the ray `r = NewRayFromTo(from, to)` has
`r.Origin() = from`, `r.Destination() = to` and `r.Len() = |to - from|` (it is not negative and
squares to the squared distance); when `from ≠ to`, `r.Direction() = (to - from) / |to - from|`,
a unit vector with `Origin + Len * Direction = Destination`; when `from = to`, `r.Len() = 0` and
`r.Direction()` is the zero vector. From `(1, 2, 3)` to `(9, 8, 7)` the length is `10.770329`
and the direction `(0.74278134, 0.557086, 0.37139067)`, each up to `0.000001`. The root
`math.Sqrt` is exact. -/
theorem NewRayFromTo_correct {K : Type} [LinearOrderedField K] (sqrt : K → K)
    (hsqrt : math.IsSqrt sqrt) (p0 p1 : Vec3 K) :
    (NewRayFromTo sqrt p0 p1).Origin = p0 ∧ (NewRayFromTo sqrt p0 p1).Destination = p1 ∧
    0 ≤ (NewRayFromTo sqrt p0 p1).Len ∧
    (NewRayFromTo sqrt p0 p1).Len * (NewRayFromTo sqrt p0 p1).Len = (p1.Sub p0).Len2 ∧
    (p0 ≠ p1 →
      0 < (NewRayFromTo sqrt p0 p1).Len ∧
      (NewRayFromTo sqrt p0 p1).Direction =
        (p1.Sub p0).Mul (1 / (NewRayFromTo sqrt p0 p1).Len) ∧
      (NewRayFromTo sqrt p0 p1).Direction.Len2 = 1 ∧
      (NewRayFromTo sqrt p0 p1).Origin.AddScaledVec (NewRayFromTo sqrt p0 p1).Len
        (NewRayFromTo sqrt p0 p1).Direction = (NewRayFromTo sqrt p0 p1).Destination) ∧
    (p0 = p1 →
      (NewRayFromTo sqrt p0 p1).Len = 0 ∧ (NewRayFromTo sqrt p0 p1).Direction = ⟨0, 0, 0⟩) ∧
    (math.Abs ((NewRayFromTo sqrt ⟨1, 2, 3⟩ ⟨9, 8, 7⟩).Len - 10770329 / 1000000) <
        1 / 1000000 ∧
      math.Abs ((NewRayFromTo sqrt ⟨1, 2, 3⟩ ⟨9, 8, 7⟩).Direction.X - 74278134 / 100000000) <
        1 / 1000000 ∧
      math.Abs ((NewRayFromTo sqrt ⟨1, 2, 3⟩ ⟨9, 8, 7⟩).Direction.Y - 557086 / 1000000) <
        1 / 1000000 ∧
      math.Abs ((NewRayFromTo sqrt ⟨1, 2, 3⟩ ⟨9, 8, 7⟩).Direction.Z - 37139067 / 100000000) <
        1 / 1000000) := by
  have hnum : math.Abs ((NewRayFromTo sqrt ⟨1, 2, 3⟩ ⟨9, 8, 7⟩).Len - 10770329 / 1000000) <
        1 / 1000000 ∧
      math.Abs ((NewRayFromTo sqrt ⟨1, 2, 3⟩ ⟨9, 8, 7⟩).Direction.X - 74278134 / 100000000) <
        1 / 1000000 ∧
      math.Abs ((NewRayFromTo sqrt ⟨1, 2, 3⟩ ⟨9, 8, 7⟩).Direction.Y - 557086 / 1000000) <
        1 / 1000000 ∧
      math.Abs ((NewRayFromTo sqrt ⟨1, 2, 3⟩ ⟨9, 8, 7⟩).Direction.Z - 37139067 / 100000000) <
        1 / 1000000 := by
    have hne : (@Vec3.mk K 1 2 3) ≠ ⟨9, 8, 7⟩ := by
      intro h
      have := congrArg Vec3.X h
      norm_num at this
    obtain ⟨hl, hr⟩ := NewRayFromTo_of_ne sqrt hsqrt ⟨1, 2, 3⟩ ⟨9, 8, 7⟩ hne
    have hd : ((@Vec3.mk K 9 8 7).Sub ⟨1, 2, 3⟩).Len2 = 116 := by
      norm_num [Vec3.Sub, Vec3.Len2]
    rw [hr]
    rw [hd] at hl ⊢
    have hn := ray_numbers hl.le (hsqrt.mul_self (by norm_num : (0 : K) ≤ 116))
    have e8 : (9 : K) - 1 = 8 := by norm_num
    have e6 : (8 : K) - 2 = 6 := by norm_num
    have e4 : (7 : K) - 3 = 4 := by norm_num
    simp only [Ray.Len, Ray.Direction, Vec3.Sub, Vec3.Mul, e8, e6, e4]
    exact hn
  by_cases hne : p0 = p1
  · subst hne
    rw [NewRayFromTo_of_eq sqrt hsqrt.zero]
    refine ⟨rfl, ?_, le_rfl, ?_, fun h => absurd rfl h, fun _ => ⟨rfl, rfl⟩, hnum⟩
    · simp [Ray.Destination, Vec3.AddScaledVec]
    · simp [Ray.Len, Vec3.Sub, Vec3.Len2]
  · obtain ⟨hl, hr⟩ := NewRayFromTo_of_ne sqrt hsqrt p0 p1 hne
    have hsq := hsqrt.mul_self (geo.len2_nonneg (p1.Sub p0))
    rw [hr]
    have hgen : ∀ l : K, 0 < l →
        (@Ray.mk K p0 ((p1.Sub p0).Mul (1 / l)) l).Destination = p1 := by
      intro l hl0
      have hl1 : l ≠ 0 := hl0.ne'
      simp only [Ray.Destination, Vec3.AddScaledVec, Vec3.Mul, Vec3.Sub]
      ext <;> simp only <;> field_simp
    have hdest := hgen _ hl
    have hunit : ∀ (d : Vec3 K) (l : K), 0 < l → l * l = d.Len2 →
        (d.Mul (1 / l)).Len2 = 1 := by
      intro d l hl0 hll
      have hl1 : l ≠ 0 := hl0.ne'
      simp only [Vec3.Len2, Vec3.Mul] at hll ⊢
      field_simp
      linear_combination -hll
    exact ⟨rfl, hdest, hl.le, hsq, fun _ => ⟨hl, rfl, hunit _ _ hl hsq, rfl⟩,
      fun h => absurd h hne, hnum⟩

theorem NewRayFromTo_correct_witness :
    (NewRayFromTo Real.sqrt ⟨1, 2, 3⟩ ⟨9, 8, 7⟩).Origin = ⟨1, 2, 3⟩ ∧
    (NewRayFromTo Real.sqrt ⟨1, 2, 3⟩ ⟨9, 8, 7⟩).Destination = ⟨9, 8, 7⟩ ∧
    (NewRayFromTo Real.sqrt ⟨1, 2, 3⟩ ⟨9, 8, 7⟩).Len *
      (NewRayFromTo Real.sqrt ⟨1, 2, 3⟩ ⟨9, 8, 7⟩).Len = 116 ∧
    (NewRayFromTo Real.sqrt ⟨1, 2, 3⟩ ⟨9, 8, 7⟩).Direction.Len2 = 1 ∧
    math.Abs ((NewRayFromTo Real.sqrt ⟨1, 2, 3⟩ ⟨9, 8, 7⟩).Len - 10770329 / 1000000) <
      1 / 1000000 ∧
    (NewRayFromTo Real.sqrt ⟨1, 1, 1⟩ ⟨1, 1, 1⟩).Len = 0 ∧
    (NewRayFromTo Real.sqrt ⟨1, 1, 1⟩ ⟨1, 1, 1⟩).Direction = ⟨0, 0, 0⟩ := by
  have h := NewRayFromTo_correct Real.sqrt math.IsSqrt_real ⟨1, 2, 3⟩ ⟨9, 8, 7⟩
  have h1 := NewRayFromTo_correct Real.sqrt math.IsSqrt_real ⟨1, 1, 1⟩ ⟨1, 1, 1⟩
  have hne : @Vec3.mk ℝ 1 2 3 ≠ ⟨9, 8, 7⟩ := by
    intro h
    have := congrArg Vec3.X h
    norm_num at this
  refine ⟨h.1, h.2.1, ?_, (h.2.2.2.2.1 hne).2.2.1, h.2.2.2.2.2.2.1, (h1.2.2.2.2.2.1 rfl).1,
    (h1.2.2.2.2.2.1 rfl).2⟩
  rw [h.2.2.2.1]
  norm_num [Vec3.Sub, Vec3.Len2]

end tornago

/-! ## Underflow and overflow in float32 -/

namespace f32

open glm

theorem log_zpow (k : ℤ) : Int.log 2 |(2 : ℚ) ^ k| = k := by
  rw [abs_of_pos (zpow_pos (by norm_num) k)]
  have h := @Int.log_zpow ℚ _ _ 2 (by norm_num) k
  simpa using h

/-- A power of two from `2^(-126)` on is on the grid of `float32`, with either sign. -/
theorem roundQ_zpow (k : ℤ) (hk : -126 ≤ k) :
    roundQ (2 ^ k) = 2 ^ k ∧ roundQ (-(2 ^ k)) = -(2 ^ k) := by
  have hu : (2 : ℚ) ^ (k - 23) ≠ 0 := (zpow_pos (by norm_num) _).ne'
  have hm : (2 : ℚ) ^ k / 2 ^ (k - 23) = ((8388608 : ℤ) : ℚ) := by
    rw [← zpow_sub₀ (by norm_num : (2 : ℚ) ≠ 0)]
    have : k - (k - 23) = 23 := by ring
    rw [this]
    norm_num
  have hm' : -(2 : ℚ) ^ k / 2 ^ (k - 23) = ((-8388608 : ℤ) : ℚ) := by
    rw [neg_div, hm]
    norm_num
  constructor
  · unfold roundQ
    simp only [log_zpow, max_eq_left hk, hm, Int.floor_intCast, sub_self]
    rw [if_pos (by norm_num), ← hm]
    field_simp
  · unfold roundQ
    simp only [abs_neg, log_zpow, max_eq_left hk, hm', Int.floor_intCast, sub_self]
    rw [if_pos (by norm_num), ← hm']
    field_simp

/-- A power of two between `2^(-126)` and `2^127` is a `float32`, with either sign. -/
theorem round_zpow (k : ℤ) (hk : -126 ≤ k) (hk1 : k ≤ 127) :
    round (2 ^ k) = F32.fin (2 ^ k) ∧ round (-(2 ^ k)) = F32.fin (-(2 ^ k)) := by
  have hle : (2 : ℚ) ^ k ≤ 2 ^ (127 : ℤ) := zpow_le_zpow_right₀ (by norm_num) hk1
  have h127 : (2 : ℚ) ^ (127 : ℤ) < math.MaxFloat32 := by norm_num [math.MaxFloat32]
  have hpos : (0 : ℚ) < 2 ^ k := zpow_pos (by norm_num) k
  have hM : (0 : ℚ) < math.MaxFloat32 := by norm_num [math.MaxFloat32]
  obtain ⟨h1, h2⟩ := roundQ_zpow k hk
  constructor
  · unfold round
    rw [h1, if_neg (by linarith), if_neg (by linarith)]
  · unfold round
    rw [h2, if_neg (by linarith), if_neg (by linarith)]

theorem round_zero : round 0 = F32.fin 0 := by
  have h : roundQ 0 = 0 := by simp [roundQ]
  unfold round
  rw [h]
  norm_num [math.MaxFloat32]

/-- The product `2^(-199)` is below half of the least positive `float32` and rounds to zero. -/
theorem round_underflow : round (2 ^ (-199 : ℤ)) = F32.fin 0 := by
  have h : roundQ (2 ^ (-199 : ℤ)) = 0 := by
    unfold roundQ
    simp only [log_zpow]
    norm_num
  unfold round
  rw [h]
  norm_num [math.MaxFloat32]

/-- The products `2^200` and `-2^200` are beyond `MaxFloat32` and round to the infinities. -/
theorem round_overflow :
    round (2 ^ (200 : ℤ)) = F32.inf false ∧ round (-(2 ^ (200 : ℤ))) = F32.inf true := by
  obtain ⟨h1, h2⟩ := roundQ_zpow 200 (by norm_num)
  constructor
  · unfold round
    rw [h1, if_pos (by norm_num [math.MaxFloat32])]
  · unfold round
    rw [h2, if_neg (by norm_num [math.MaxFloat32]), if_pos (by norm_num [math.MaxFloat32])]

/-- C7, counterexample: the triangle `a = (0, 0, 0)`, `b = (2^-100, 0, 0)`, `c = (0, 2^-100, 0)`
is not degenerate and the point `p = (2^-99, 0, 0)` is in the Voronoi region of the vertex `b`;
all the coordinates are `float32` numbers. In `float32` the products `2^-100 * 2^-99` of
`d1 = (b-a)·(p-a)` underflow to zero, the test `d1 <= 0 && d2 <= 0` of the region of `a` fires,
and `ClosestPointPointTriangle` returns `a`, not `b`. -/
theorem ClosestPointPointTriangle_float32_underflow :
    geo.NonDegenerate ⟨0, 0, 0⟩ ⟨2 ^ (-100 : ℤ), 0, 0⟩ ⟨0, 2 ^ (-100 : ℤ), 0⟩ ∧
    (((@Vec3.mk ℚ 0 0 0).Sub ⟨2 ^ (-100 : ℤ), 0, 0⟩).Dot
        ((@Vec3.mk ℚ (2 ^ (-99 : ℤ)) 0 0).Sub ⟨2 ^ (-100 : ℤ), 0, 0⟩) ≤ 0 ∧
      ((@Vec3.mk ℚ 0 (2 ^ (-100 : ℤ)) 0).Sub ⟨2 ^ (-100 : ℤ), 0, 0⟩).Dot
        ((@Vec3.mk ℚ (2 ^ (-99 : ℤ)) 0 0).Sub ⟨2 ^ (-100 : ℤ), 0, 0⟩) ≤ 0) ∧
    (round 0 = F32.fin 0 ∧ round (2 ^ (-100 : ℤ)) = F32.fin (2 ^ (-100 : ℤ)) ∧
      round (2 ^ (-99 : ℤ)) = F32.fin (2 ^ (-99 : ℤ))) ∧
    ClosestPointPointTriangle ⟨F32.fin (2 ^ (-99 : ℤ)), F32.fin 0, F32.fin 0⟩
        ⟨F32.fin 0, F32.fin 0, F32.fin 0⟩ ⟨F32.fin (2 ^ (-100 : ℤ)), F32.fin 0, F32.fin 0⟩
        ⟨F32.fin 0, F32.fin (2 ^ (-100 : ℤ)), F32.fin 0⟩ =
      ⟨F32.fin 0, F32.fin 0, F32.fin 0⟩ ∧
    (@Vec3.mk F32 (F32.fin 0) (F32.fin 0) (F32.fin 0)) ≠
      ⟨F32.fin (2 ^ (-100 : ℤ)), F32.fin 0, F32.fin 0⟩ := by
  have r100 := (round_zpow (-100) (by norm_num) (by norm_num)).1
  have r99 := (round_zpow (-99) (by norm_num) (by norm_num)).1
  have hsub : ∀ x : ℚ, round x = F32.fin x → (F32.fin x).sub (F32.fin 0) = F32.fin x := by
    intro x hx
    simp only [F32.sub, F32.neg, F32.add, neg_zero, add_zero, hx]
  have hmul0l : ∀ x : ℚ, (F32.fin 0).mul (F32.fin x) = F32.fin 0 := by
    intro x
    simp only [F32.mul, zero_mul, round_zero]
  have hmul0r : ∀ x : ℚ, (F32.fin x).mul (F32.fin 0) = F32.fin 0 := by
    intro x
    simp only [F32.mul, mul_zero, round_zero]
  have hadd0 : (F32.fin 0).add (F32.fin 0) = F32.fin 0 := by
    simp only [F32.add, add_zero, round_zero]
  have hmul : (F32.fin (2 ^ (-100 : ℤ))).mul (F32.fin (2 ^ (-99 : ℤ))) = F32.fin 0 := by
    have e : (2 : ℚ) ^ (-100 : ℤ) * 2 ^ (-99 : ℤ) = 2 ^ (-199 : ℤ) := by
      rw [← zpow_add₀ (by norm_num : (2 : ℚ) ≠ 0)]
      norm_num
    simp only [F32.mul, e, round_underflow]
  refine ⟨?_, ?_, ⟨round_zero, r100, r99⟩, ?_, ?_⟩
  · unfold geo.NonDegenerate
    intro h
    have hz := congrArg Vec3.Z h
    norm_num [Vec3.Sub, Vec3.Cross] at hz
  · norm_num [Vec3.Sub, Vec3.Dot]
  · unfold ClosestPointPointTriangle
    simp only [Sub, Dot, hsub _ round_zero, hsub _ r100, hsub _ r99, hmul0l, hmul0r, hadd0,
      hmul]
    simp [F32.le]
  · intro h
    have hx := congrArg Vec3.X h
    have h0 : (0 : ℚ) = 2 ^ (-100 : ℤ) := F32.fin.inj hx
    norm_num at h0

/-- C24, counterexample: for the direction `(2^100, 2^100, 0)` and the one point
`(2^100, -2^100, 0)`, whose coordinates are `float32` numbers, the projection is `0`, strictly
between `-MaxFloat32` and `MaxFloat32`. In `float32` the two products overflow to `+Inf` and
`-Inf`, their sum is NaN, both comparisons with NaN are false, and
`ExtremePointsAlongDirection` returns `(-1, -1)`, no valid index. -/
theorem ExtremePointsAlongDirection_float32_overflow :
    (-math.MaxFloat32 < (@Vec3.mk ℚ (2 ^ (100 : ℤ)) (-(2 ^ (100 : ℤ))) 0).Dot
        ⟨2 ^ (100 : ℤ), 2 ^ (100 : ℤ), 0⟩ ∧
      (@Vec3.mk ℚ (2 ^ (100 : ℤ)) (-(2 ^ (100 : ℤ))) 0).Dot
        ⟨2 ^ (100 : ℤ), 2 ^ (100 : ℤ), 0⟩ < math.MaxFloat32) ∧
    (round 0 = F32.fin 0 ∧ round (2 ^ (100 : ℤ)) = F32.fin (2 ^ (100 : ℤ)) ∧
      round (-(2 ^ (100 : ℤ))) = F32.fin (-(2 ^ (100 : ℤ)))) ∧
    Dot ⟨F32.fin (2 ^ (100 : ℤ)), F32.fin (-(2 ^ (100 : ℤ))), F32.fin 0⟩
      ⟨F32.fin (2 ^ (100 : ℤ)), F32.fin (2 ^ (100 : ℤ)), F32.fin 0⟩ = F32.nan ∧
    ExtremePointsAlongDirection
        ⟨F32.fin (2 ^ (100 : ℤ)), F32.fin (2 ^ (100 : ℤ)), F32.fin 0⟩
        [⟨F32.fin (2 ^ (100 : ℤ)), F32.fin (-(2 ^ (100 : ℤ))), F32.fin 0⟩] = (-1, -1) := by
  obtain ⟨r1, r2⟩ := round_zpow 100 (by norm_num) (by norm_num)
  obtain ⟨o1, o2⟩ := round_overflow
  have e1 : (2 : ℚ) ^ (100 : ℤ) * 2 ^ (100 : ℤ) = 2 ^ (200 : ℤ) := by
    rw [← zpow_add₀ (by norm_num : (2 : ℚ) ≠ 0)]
    norm_num
  have e2 : -(2 : ℚ) ^ (100 : ℤ) * 2 ^ (100 : ℤ) = -(2 ^ (200 : ℤ)) := by
    rw [neg_mul, e1]
  have hdot : Dot ⟨F32.fin (2 ^ (100 : ℤ)), F32.fin (-(2 ^ (100 : ℤ))), F32.fin 0⟩
      ⟨F32.fin (2 ^ (100 : ℤ)), F32.fin (2 ^ (100 : ℤ)), F32.fin 0⟩ = F32.nan := by
    simp only [Dot, F32.mul, e1, e2, o1, o2, mul_zero, round_zero]
    rfl
  refine ⟨?_, ⟨round_zero, r1, r2⟩, hdot, ?_⟩
  · norm_num [Vec3.Dot, math.MaxFloat32]
  · unfold ExtremePointsAlongDirection
    simp only [extremeLoop, hdot]
    rfl

end f32
